import Mathlib

/-!
# Island render graph: pass model, dependency resolution, sort keys, build

A shallow embedding of `le_renderer/le_rendergraph.cpp`.

* Vectors are lists, `uint32_t`/`uint64_t` values are natural numbers (the only
  arithmetic on them is `|`, `&`, comparison and `+ 1` on values far below the
  word size; the one explicit narrowing, `std::max<uint32_t>`, is kept).
* A failed `assert`, an out-of-range vector access and an exhausted recursion
  budget are the result `none`.
* `le_renderpass_o *` is an address (a natural number); the pass objects live
  in a heap, a function from addresses to pass values.
-/

namespace Island

/-! ## Resource handles (`le_resource_handle_t.inl`) -/

/-- Modelled from the spec: the enumeration `LeResourceType` is declared in
`le_renderer.h`, which is not among the sources; the kinds are buffer, image,
bottom-level and top-level acceleration structure. -/
inductive LeResourceType where
  | eBuffer
  | eImage
  | eRtxBlas
  | eRtxTlas
  deriving DecidableEq, Repr, Inhabited

/-- Payload of a handle, `le_resource_handle_data_t`; its `operator==` compares
all six fields, which is the derived equality. `reference_handle` is a pointer,
kept as an address. -/
structure le_resource_handle_data_t where
  type : LeResourceType
  num_samples : Nat := 0
  flags : Nat := 0
  index : Nat := 0
  reference_handle : Nat := 0
  debug_name : String := ""
  deriving DecidableEq, Repr, Inhabited

/-- Handle `le_resource_handle_t`. -/
structure le_resource_handle_t where
  data : le_resource_handle_data_t
  deriving DecidableEq, Repr, Inhabited

/-! ## Declarations of `le_renderer.h` used by the render graph -/

/-- Modelled from the spec: `le::Extent3D`, the extent of an image descriptor,
is declared in `le_renderer.h`, which is not among the sources. -/
structure Extent3D where
  width : Nat := 0
  height : Nat := 0
  depth : Nat := 0
  deriving DecidableEq, Repr, Inhabited

/-- Modelled from the spec: the image member of `le_resource_info_t` is
declared in `le_renderer.h`, which is not among the sources; it carries the
usage flags, flags, image type, format, extent, mip levels, array layers,
samples and tiling. -/
structure ImageInfo where
  flags : Nat := 0
  imageType : Nat := 0
  format : Nat := 0
  extent : Extent3D := {}
  mipLevels : Nat := 0
  arrayLayers : Nat := 0
  samples : Nat := 0
  tiling : Nat := 0
  usage : Nat := 0
  deriving DecidableEq, Repr, Inhabited

/-- Modelled from the spec: the buffer member of `le_resource_info_t` is
declared in `le_renderer.h`, which is not among the sources; it carries a size
and the usage flags. -/
structure BufferInfo where
  size : Nat := 0
  usage : Nat := 0
  deriving DecidableEq, Repr, Inhabited

/-- Modelled from the spec: the descriptor `le_resource_info_t` is declared in
`le_renderer.h`, which is not among the sources; it is a kind tag with the
members `buffer` and `image`. The members are kept side by side; only the
member selected by the tag is ever read by the code below. -/
structure le_resource_info_t where
  type : LeResourceType
  buffer : BufferInfo := {}
  image : ImageInfo := {}
  deriving DecidableEq, Repr, Inhabited

/-- Modelled from the spec: the member `imageView` of a texture info is
declared in `le_renderer.h`, which is not among the sources; the render graph
reads its `imageId` and `format`. -/
structure LeImageViewInfo where
  imageId : le_resource_handle_t
  format : Nat := 0
  deriving DecidableEq, Repr, Inhabited

/-- Modelled from the spec: `LeTextureInfo` is declared in `le_renderer.h`,
which is not among the sources; besides `imageView` it holds sampler settings,
which the render graph stores and never reads. -/
structure LeTextureInfo where
  sampler : Nat := 0
  imageView : LeImageViewInfo
  deriving DecidableEq, Repr, Inhabited

/-- Modelled from the spec: `le_image_attachment_info_t` is declared in
`le_renderer.h`, which is not among the sources; the render graph stores it
and reads it only to print `loadOp` and `storeOp`. -/
structure le_image_attachment_info_t where
  loadOp : Nat := 0
  storeOp : Nat := 0
  clearValue : Nat := 0
  deriving DecidableEq, Repr, Inhabited

/-- Modelled from the spec: the enumeration `LeRenderPassType` is declared in
`le_renderer.h`, which is not among the sources; a pass is of undefined type,
draw, transfer or compute. -/
inductive LeRenderPassType where
  | LE_RENDER_PASS_TYPE_UNDEFINED
  | LE_RENDER_PASS_TYPE_DRAW
  | LE_RENDER_PASS_TYPE_TRANSFER
  | LE_RENDER_PASS_TYPE_COMPUTE
  deriving DecidableEq, Repr, Inhabited

/-- The values that `le_renderer.h` fixes and that the sources of the render
graph only name: the usage flag bits, the image info a fresh
`le::ImageInfoBuilder` starts from, and the name hash. Every definition below
takes them as a parameter, so every theorem holds for whatever the header
declares. -/
structure le_renderer_h where
  LE_IMAGE_USAGE_TRANSFER_SRC_BIT : Nat
  LE_IMAGE_USAGE_TRANSFER_DST_BIT : Nat
  LE_IMAGE_USAGE_SAMPLED_BIT : Nat
  LE_IMAGE_USAGE_STORAGE_BIT : Nat
  LE_IMAGE_USAGE_COLOR_ATTACHMENT_BIT : Nat
  LE_IMAGE_USAGE_DEPTH_STENCIL_ATTACHMENT_BIT : Nat
  LE_IMAGE_USAGE_TRANSIENT_ATTACHMENT_BIT : Nat
  LE_IMAGE_USAGE_INPUT_ATTACHMENT_BIT : Nat
  LE_BUFFER_USAGE_TRANSFER_SRC_BIT : Nat
  LE_BUFFER_USAGE_TRANSFER_DST_BIT : Nat
  LE_BUFFER_USAGE_UNIFORM_TEXEL_BUFFER_BIT : Nat
  LE_BUFFER_USAGE_STORAGE_TEXEL_BUFFER_BIT : Nat
  LE_BUFFER_USAGE_UNIFORM_BUFFER_BIT : Nat
  LE_BUFFER_USAGE_STORAGE_BUFFER_BIT : Nat
  LE_BUFFER_USAGE_INDEX_BUFFER_BIT : Nat
  LE_BUFFER_USAGE_VERTEX_BUFFER_BIT : Nat
  LE_BUFFER_USAGE_INDIRECT_BUFFER_BIT : Nat
  LE_BUFFER_USAGE_CONDITIONAL_RENDERING_BIT_EXT : Nat
  imageInfoBuilderDefault : ImageInfo
  hash_64_fnv1a : String → Nat

/-- Flag values as Vulkan numbers them, used for concrete evaluations. -/
def vkHeader : le_renderer_h where
  LE_IMAGE_USAGE_TRANSFER_SRC_BIT := 0x1
  LE_IMAGE_USAGE_TRANSFER_DST_BIT := 0x2
  LE_IMAGE_USAGE_SAMPLED_BIT := 0x4
  LE_IMAGE_USAGE_STORAGE_BIT := 0x8
  LE_IMAGE_USAGE_COLOR_ATTACHMENT_BIT := 0x10
  LE_IMAGE_USAGE_DEPTH_STENCIL_ATTACHMENT_BIT := 0x20
  LE_IMAGE_USAGE_TRANSIENT_ATTACHMENT_BIT := 0x40
  LE_IMAGE_USAGE_INPUT_ATTACHMENT_BIT := 0x80
  LE_BUFFER_USAGE_TRANSFER_SRC_BIT := 0x1
  LE_BUFFER_USAGE_TRANSFER_DST_BIT := 0x2
  LE_BUFFER_USAGE_UNIFORM_TEXEL_BUFFER_BIT := 0x4
  LE_BUFFER_USAGE_STORAGE_TEXEL_BUFFER_BIT := 0x8
  LE_BUFFER_USAGE_UNIFORM_BUFFER_BIT := 0x10
  LE_BUFFER_USAGE_STORAGE_BUFFER_BIT := 0x20
  LE_BUFFER_USAGE_INDEX_BUFFER_BIT := 0x40
  LE_BUFFER_USAGE_VERTEX_BUFFER_BIT := 0x80
  LE_BUFFER_USAGE_INDIRECT_BUFFER_BIT := 0x100
  LE_BUFFER_USAGE_CONDITIONAL_RENDERING_BIT_EXT := 0x200
  imageInfoBuilderDefault := { imageType := 1, mipLevels := 1, arrayLayers := 1, samples := 1 }
  hash_64_fnv1a := fun s => s.length

/-- Modelled from the spec: `le::ImageInfoBuilder` is declared in
`le_renderer.h`, which is not among the sources. The chain
`ImageInfoBuilder().addUsageFlags( u ).setFormat( f ).build()` yields an image
info whose usage has the bits of `u` set and whose format is `f`; all other
fields are the builder's defaults. -/
def ImageInfoBuilder_build (K : le_renderer_h) (usageFlags format : Nat) : le_resource_info_t :=
  { type := LeResourceType.eImage
    buffer := {}
    image := { K.imageInfoBuilderDefault with
                 usage := K.imageInfoBuilderDefault.usage ||| usageFlags
                 format := format } }

/-! ## Render pass (`le_renderpass_o`) -/

/-- Pass object `le_renderpass_o`. Callbacks, user data and the encoder are
pointers: addresses, with `0` for `nullptr`. -/
structure le_renderpass_o where
  type : LeRenderPassType := LeRenderPassType.LE_RENDER_PASS_TYPE_UNDEFINED
  isRoot : Nat := 0
  id : Nat := 0
  sort_key : Nat := 0
  resources : List le_resource_handle_t := []
  resourceInfos : List le_resource_info_t := []
  readResources : List le_resource_handle_t := []
  writeResources : List le_resource_handle_t := []
  imageAttachments : List le_image_attachment_info_t := []
  attachmentResources : List le_resource_handle_t := []
  width : Nat := 0
  height : Nat := 0
  textureInfos : List LeTextureInfo := []
  textureInfoIds : List le_resource_handle_t := []
  callbackSetup : Nat := 0
  callbackExecute : Nat := 0
  execute_callback_user_data : Nat := 0
  setup_callback_user_data : Nat := 0
  encoder : Nat := 0
  debugName : String := ""
  deriving DecidableEq, Repr, Inhabited

/-- Constructor `renderpass_create`. -/
def renderpass_create (K : le_renderer_h) (renderpass_name : String) (type_ : LeRenderPassType) :
    le_renderpass_o :=
  { id := K.hash_64_fnv1a renderpass_name, type := type_, debugName := renderpass_name }

/-- Helper `vector_contains`. -/
def vector_contains {T : Type} [DecidableEq T] (haystack : List T) (needle : T) : Bool :=
  decide (needle ∈ haystack)

/-- Mask `ALL_IMAGE_WRITE_FLAGS`. -/
def ALL_IMAGE_WRITE_FLAGS (K : le_renderer_h) : Nat :=
  K.LE_IMAGE_USAGE_TRANSFER_DST_BIT |||
  K.LE_IMAGE_USAGE_STORAGE_BIT |||
  K.LE_IMAGE_USAGE_COLOR_ATTACHMENT_BIT |||
  K.LE_IMAGE_USAGE_DEPTH_STENCIL_ATTACHMENT_BIT |||
  K.LE_IMAGE_USAGE_TRANSIENT_ATTACHMENT_BIT

/-- Mask `ALL_IMAGE_READ_FLAGS`. -/
def ALL_IMAGE_READ_FLAGS (K : le_renderer_h) : Nat :=
  K.LE_IMAGE_USAGE_TRANSFER_SRC_BIT |||
  K.LE_IMAGE_USAGE_SAMPLED_BIT |||
  K.LE_IMAGE_USAGE_STORAGE_BIT |||
  K.LE_IMAGE_USAGE_COLOR_ATTACHMENT_BIT |||
  K.LE_IMAGE_USAGE_DEPTH_STENCIL_ATTACHMENT_BIT |||
  K.LE_IMAGE_USAGE_TRANSIENT_ATTACHMENT_BIT |||
  K.LE_IMAGE_USAGE_INPUT_ATTACHMENT_BIT

/-- Mask `ALL_BUFFER_WRITE_FLAGS`. -/
def ALL_BUFFER_WRITE_FLAGS (K : le_renderer_h) : Nat :=
  K.LE_BUFFER_USAGE_TRANSFER_DST_BIT |||
  K.LE_BUFFER_USAGE_STORAGE_TEXEL_BUFFER_BIT |||
  K.LE_BUFFER_USAGE_STORAGE_BUFFER_BIT

/-- Mask `ALL_BUFFER_READ_FLAGS`. -/
def ALL_BUFFER_READ_FLAGS (K : le_renderer_h) : Nat :=
  K.LE_BUFFER_USAGE_TRANSFER_SRC_BIT |||
  K.LE_BUFFER_USAGE_UNIFORM_TEXEL_BUFFER_BIT |||
  K.LE_BUFFER_USAGE_UNIFORM_BUFFER_BIT |||
  K.LE_BUFFER_USAGE_INDEX_BUFFER_BIT |||
  K.LE_BUFFER_USAGE_VERTEX_BUFFER_BIT |||
  K.LE_BUFFER_USAGE_INDIRECT_BUFFER_BIT |||
  K.LE_BUFFER_USAGE_CONDITIONAL_RENDERING_BIT_EXT

/-- Value of `resourceWillBeReadFrom` for a consolidated info (lines 225-236):
the usage of the info's own kind has a read flag. -/
def resourceWillBeReadFrom (K : le_renderer_h) (consolidated_info : le_resource_info_t) : Bool :=
  match consolidated_info.type with
  | LeResourceType.eBuffer => consolidated_info.buffer.usage &&& ALL_BUFFER_READ_FLAGS K != 0
  | LeResourceType.eImage => consolidated_info.image.usage &&& ALL_IMAGE_READ_FLAGS K != 0
  | _ => false

/-- Value of `resourceWillBeWrittenTo` for a consolidated info (lines 225-236). -/
def resourceWillBeWrittenTo (K : le_renderer_h) (consolidated_info : le_resource_info_t) : Bool :=
  match consolidated_info.type with
  | LeResourceType.eBuffer => consolidated_info.buffer.usage &&& ALL_BUFFER_WRITE_FLAGS K != 0
  | LeResourceType.eImage => consolidated_info.image.usage &&& ALL_IMAGE_WRITE_FLAGS K != 0
  | _ => false

/-- Narrowing `std::max<uint32_t>( a, b )`: both arguments are converted to
`uint32_t` before they are compared. -/
def max_uint32 (a b : Nat) : Nat := max (a % 2 ^ 32) (b % 2 ^ 32)

/-- The consolidation of a stored info with an incoming one (lines 156-183):
`none` when an assertion fails. -/
def consolidate (stored_resource_info resource_info : le_resource_info_t) :
    Option le_resource_info_t :=
  if stored_resource_info.type ≠ resource_info.type then none
  else
    match resource_info.type with
    | LeResourceType.eBuffer =>
      some { stored_resource_info with
        buffer := { size := max_uint32 stored_resource_info.buffer.size resource_info.buffer.size
                    usage := stored_resource_info.buffer.usage ||| resource_info.buffer.usage } }
    | LeResourceType.eImage =>
      if stored_resource_info.image.flags = resource_info.image.flags ∧
         stored_resource_info.image.imageType = resource_info.image.imageType ∧
         stored_resource_info.image.format = resource_info.image.format ∧
         stored_resource_info.image.extent = resource_info.image.extent ∧
         stored_resource_info.image.mipLevels = resource_info.image.mipLevels ∧
         stored_resource_info.image.arrayLayers = resource_info.image.arrayLayers ∧
         stored_resource_info.image.samples = resource_info.image.samples ∧
         stored_resource_info.image.tiling = resource_info.image.tiling
      then
        some { stored_resource_info with
          image := { stored_resource_info.image with
            usage := stored_resource_info.image.usage ||| resource_info.image.usage } }
      else none
    | _ => some stored_resource_info

/-- The tail of `renderpass_use_resource` (lines 238-246): the handle is pushed
to `readResources` and `writeResources` as the consolidated info requires. -/
def update_read_write (K : le_renderer_h) (self : le_renderpass_o)
    (resource_id : le_resource_handle_t) (consolidated_info : le_resource_info_t) :
    le_renderpass_o :=
  let self1 :=
    if resourceWillBeReadFrom K consolidated_info && !vector_contains self.readResources resource_id
    then { self with readResources := self.readResources ++ [resource_id] }
    else self
  if resourceWillBeWrittenTo K consolidated_info && !vector_contains self1.writeResources resource_id
  then { self1 with writeResources := self1.writeResources ++ [resource_id] }
  else self1

/-- Operation `renderpass_use_resource`; `none` when an assertion fails. -/
def renderpass_use_resource (K : le_renderer_h) (self : le_renderpass_o)
    (resource_id : le_resource_handle_t) (resource_info : le_resource_info_t) :
    Option le_renderpass_o :=
  if ¬ (resource_info.type = LeResourceType.eBuffer ∨ resource_info.type = LeResourceType.eImage)
  then none
  else
    let found_res := self.resources.indexOf resource_id
    if found_res = self.resources.length then
      let self1 := { self with resources := self.resources ++ [resource_id]
                               resourceInfos := self.resourceInfos ++ [resource_info] }
      some (update_read_write K self1 resource_id resource_info)
    else
      match self.resourceInfos[found_res]? with
      | none => none
      | some stored_resource_info =>
        match consolidate stored_resource_info resource_info with
        | none => none
        | some consolidated_info =>
          let self1 := { self with resourceInfos := self.resourceInfos.set found_res consolidated_info }
          some (update_read_write K self1 resource_id consolidated_info)

/-- Operation `renderpass_sample_texture`. -/
def renderpass_sample_texture (K : le_renderer_h) (self : le_renderpass_o)
    (texture : le_resource_handle_t) (textureInfo : LeTextureInfo) : Option le_renderpass_o :=
  if vector_contains self.textureInfoIds texture then some self
  else
    let self1 := { self with textureInfoIds := self.textureInfoIds ++ [texture]
                             textureInfos := self.textureInfos ++ [textureInfo] }
    let required_flags :=
      ImageInfoBuilder_build K K.LE_IMAGE_USAGE_SAMPLED_BIT textureInfo.imageView.format
    renderpass_use_resource K self1 textureInfo.imageView.imageId required_flags

/-- Operation `renderpass_add_color_attachment`. -/
def renderpass_add_color_attachment (K : le_renderer_h) (self : le_renderpass_o)
    (image_id : le_resource_handle_t) (resource_info : le_resource_info_t)
    (attachmentInfo : le_image_attachment_info_t) : Option le_renderpass_o :=
  let self1 := { self with imageAttachments := self.imageAttachments ++ [attachmentInfo]
                           attachmentResources := self.attachmentResources ++ [image_id] }
  let updated_resource_info : le_resource_info_t :=
    { resource_info with
      image := { resource_info.image with
        usage := resource_info.image.usage ||| K.LE_IMAGE_USAGE_COLOR_ATTACHMENT_BIT } }
  renderpass_use_resource K self1 image_id updated_resource_info

/-- Operation `renderpass_add_depth_stencil_attachment`. -/
def renderpass_add_depth_stencil_attachment (K : le_renderer_h) (self : le_renderpass_o)
    (image_id : le_resource_handle_t) (resource_info : le_resource_info_t)
    (attachmentInfo : le_image_attachment_info_t) : Option le_renderpass_o :=
  let self1 := { self with imageAttachments := self.imageAttachments ++ [attachmentInfo]
                           attachmentResources := self.attachmentResources ++ [image_id] }
  let updated_resource_info : le_resource_info_t :=
    { resource_info with
      image := { resource_info.image with
        usage := resource_info.image.usage ||| K.LE_IMAGE_USAGE_DEPTH_STENCIL_ATTACHMENT_BIT } }
  renderpass_use_resource K self1 image_id updated_resource_info

/-- Accessor `renderpass_get_is_root`: the `uint32_t` flag read as a `bool`. -/
def renderpass_get_is_root (self : le_renderpass_o) : Bool := self.isRoot != 0

/-! ## Render graph (`le_rendergraph_o`) -/

/-- The pass objects, by address. -/
abbrev Heap := Nat → le_renderpass_o

/-- Graph object `le_rendergraph_o`: a vector of pass pointers. -/
structure le_rendergraph_o where
  passes : List Nat := []
  deriving DecidableEq, Repr, Inhabited

/-- The map `writeAttachmentTable`, resource id to source pass index. -/
abbrev WriteAttachmentTable := le_resource_handle_t → Option Nat

/-- Lines 458-464: the table entries found for the read resources, in order. -/
def resolve_reads (writeAttachmentTable : WriteAttachmentTable)
    (readResources : List le_resource_handle_t) : List Nat :=
  readResources.foldl
    (fun passesThisPassDependsOn resource =>
      match writeAttachmentTable resource with
      | some foundOutput => passesThisPassDependsOn ++ [foundOutput]
      | none => passesThisPassDependsOn)
    []

/-- Lines 472-474: every write resource is mapped to the current pass index. -/
def resolve_writes (writeAttachmentTable : WriteAttachmentTable)
    (writeResources : List le_resource_handle_t) (passIndex : Nat) : WriteAttachmentTable :=
  writeResources.foldl
    (fun table resource => fun r => if r = resource then some passIndex else table r)
    writeAttachmentTable

/-- The loop of `rendergraph_resolve_resource_ids` (lines 449-477) over the
passes still to be visited. -/
def resolve_loop : List le_renderpass_o → Nat → WriteAttachmentTable → List (List Nat) →
    List (List Nat)
  | [], _, _, dependenciesPerPass => dependenciesPerPass
  | pass :: rest, passIndex, writeAttachmentTable, dependenciesPerPass =>
    resolve_loop rest (passIndex + 1)
      (resolve_writes writeAttachmentTable pass.writeResources passIndex)
      (dependenciesPerPass ++ [resolve_reads writeAttachmentTable pass.readResources])

/-- Function `rendergraph_resolve_resource_ids`. -/
def rendergraph_resolve_resource_ids (passes : List le_renderpass_o) : List (List Nat) :=
  resolve_loop passes 0 (fun _ => none) []

/-- Constant `LE_rendergraph_RECURSION_DEPTH`. -/
def LE_rendergraph_RECURSION_DEPTH : Nat := 20

/-- Function `rendergraph_traverse_passes`. The first argument bounds the
number of nested calls; `none` is an exhausted bound or an index outside
`sort_order_per_pass` or `passes`. -/
def rendergraph_traverse_passes : Nat → List (List Nat) → Nat → Nat → List Nat →
    Option (List Nat)
  | 0, _, _, _, _ => none
  | fuel + 1, passes, currentRenderpassId, recursion_depth, sort_order_per_pass =>
    if recursion_depth > LE_rendergraph_RECURSION_DEPTH then some sort_order_per_pass
    else
      match sort_order_per_pass[currentRenderpassId]? with
      | none => none
      | some currentSortOrder =>
        let sort_order1 :=
          if currentSortOrder < recursion_depth
          then sort_order_per_pass.set currentRenderpassId recursion_depth
          else sort_order_per_pass
        match passes[currentRenderpassId]? with
        | none => none
        | some sourcePasses =>
          sourcePasses.foldlM
            (fun sort_order sourcePass =>
              rendergraph_traverse_passes fuel passes sourcePass (recursion_depth + 1) sort_order)
            sort_order1

/-- The loop of `rendergraph_find_root_passes` (lines 528-533). -/
def find_root_loop : List le_renderpass_o → Nat → List Nat → List Nat
  | [], _, roots => roots
  | pass :: rest, i, roots =>
    find_root_loop rest (i + 1) (if renderpass_get_is_root pass then roots ++ [i] else roots)

/-- Function `rendergraph_find_root_passes`. -/
def rendergraph_find_root_passes (passes : List le_renderpass_o) : List Nat :=
  find_root_loop passes 0 []

/-- Nesting bound that the traversal started at depth 1 never exhausts. -/
def traverse_fuel : Nat := LE_rendergraph_RECURSION_DEPTH + 1

/-- Lines 552-562 of `rendergraph_build`: the sort order of every pass, from
the traversal of every root in turn. -/
def compute_sort_orders (passes : List le_renderpass_o) : Option (List Nat) :=
  let pass_dependencies := rendergraph_resolve_resource_ids passes
  let root_passes := rendergraph_find_root_passes passes
  root_passes.foldlM
    (fun pass_sort_orders root =>
      rendergraph_traverse_passes traverse_fuel pass_dependencies root 1 pass_sort_orders)
    (List.replicate passes.length 0)

/-- Lines 569-571 of `rendergraph_build`: `passes[ i ]->sort_key = pass_sort_orders[ i ]`. -/
def store_sort_keys (heap : Heap) : List Nat → List Nat → Heap
  | p :: ps, k :: ks =>
    store_sort_keys (fun q => if q = p then { heap p with sort_key := k } else heap q) ps ks
  | _, _ => heap

/-- Specification of `std::stable_sort( first, last, comp )`: the sorted
arrangement in which elements that `comp` does not order keep their relative
order, computed by insertion from the back. -/
def stable_sort {T : Type} (comp : T → T → Bool) (l : List T) : List T :=
  l.insertionSort (fun a b => comp b a = false)

/-- Outcome of `rendergraph_build`: the heap with the stored sort keys, the
graph with its new pass vector, and the passes handed to `renderpass_destroy`,
in the order of the calls. -/
structure BuildResult where
  heap : Heap
  graph : le_rendergraph_o
  destroyed : List Nat

/-- Function `rendergraph_build`. -/
def rendergraph_build (heap : Heap) (self : le_rendergraph_o) : Option BuildResult :=
  match compute_sort_orders (self.passes.map heap) with
  | none => none
  | some pass_sort_orders =>
    let heap1 := store_sort_keys heap self.passes pass_sort_orders
    let end_valid_passes_range := self.passes.filter (fun lhs => (heap1 lhs).sort_key != 0)
    let destroyed := self.passes.filter (fun lhs => (heap1 lhs).sort_key == 0)
    some
      { heap := heap1
        graph :=
          { passes :=
              stable_sort (fun lhs rhs => decide ((heap1 lhs).sort_key > (heap1 rhs).sort_key))
                end_valid_passes_range }
        destroyed := destroyed }

/-! ## Test scenes -/

/-- An image handle with the given debug name. -/
def mkHandle (name : String) : le_resource_handle_t :=
  { data := { type := LeResourceType.eImage, debug_name := name } }

/-- A buffer handle with the given debug name. -/
def mkBuffer (name : String) : le_resource_handle_t :=
  { data := { type := LeResourceType.eBuffer, debug_name := name } }

/-- A pass that reads and writes the named resources. -/
def mkPass (reads writes : List String) (isRoot : Nat) : le_renderpass_o :=
  { readResources := reads.map mkHandle, writeResources := writes.map mkHandle, isRoot := isRoot }

/-- A heap holding the given passes at addresses `0, 1, 2, ...`. -/
def heapOf (passes : List le_renderpass_o) : Heap := fun p => passes.getD p {}

/-- Linear chain: A(writes X), B(reads X, writes Y), C(reads Y, root). -/
def sceneChain : List le_renderpass_o :=
  [mkPass [] ["X"] 0, mkPass ["X"] ["Y"] 0, mkPass ["Y"] [] 1]

/-- Diamond: A(writes X), B(reads X, writes Y), C(reads X, writes Z), D(reads Y and Z, root). -/
def sceneDiamond : List le_renderpass_o :=
  [mkPass [] ["X"] 0, mkPass ["X"] ["Y"] 0, mkPass ["X"] ["Z"] 0, mkPass ["Y", "Z"] [] 1]

/-- Pruning: A(writes X), B(reads X, writes Y), C(writes Z, root). -/
def scenePruning : List le_renderpass_o :=
  [mkPass [] ["X"] 0, mkPass ["X"] ["Y"] 0, mkPass [] ["Z"] 1]

/-- Multi-writer: A(writes X), B(writes X), C(reads X, root). -/
def sceneMultiWriter : List le_renderpass_o :=
  [mkPass [] ["X"] 0, mkPass [] ["X"] 0, mkPass ["X"] [] 1]

/-- A chain of `n + 1` passes: pass 0 writes resource 0, pass `k` reads
resource `k - 1` and writes resource `k`; only the last pass is a root. -/
def sceneLongChain (n : Nat) : List le_renderpass_o :=
  (List.range (n + 1)).map fun k =>
    { readResources :=
        if k = 0 then [] else [{ data := { type := LeResourceType.eImage, index := k - 1 } }]
      writeResources := [{ data := { type := LeResourceType.eImage, index := k } }]
      isRoot := if k = n then 1 else 0 }

/-! ## Notions used to state the properties -/

/-- Pass states reachable from a freshly created pass by declaration calls
that trip no assertion. -/
inductive PassReachable (K : le_renderer_h) : le_renderpass_o → Prop where
  | create (renderpass_name : String) (type_ : LeRenderPassType) :
      PassReachable K (renderpass_create K renderpass_name type_)
  | use_resource {self self1 : le_renderpass_o} (resource_id : le_resource_handle_t)
      (resource_info : le_resource_info_t) :
      PassReachable K self →
      renderpass_use_resource K self resource_id resource_info = some self1 →
      PassReachable K self1
  | add_color_attachment {self self1 : le_renderpass_o} (image_id : le_resource_handle_t)
      (resource_info : le_resource_info_t) (attachmentInfo : le_image_attachment_info_t) :
      PassReachable K self →
      renderpass_add_color_attachment K self image_id resource_info attachmentInfo = some self1 →
      PassReachable K self1
  | add_depth_stencil_attachment {self self1 : le_renderpass_o}
      (image_id : le_resource_handle_t) (resource_info : le_resource_info_t)
      (attachmentInfo : le_image_attachment_info_t) :
      PassReachable K self →
      renderpass_add_depth_stencil_attachment K self image_id resource_info attachmentInfo
        = some self1 →
      PassReachable K self1
  | sample_texture {self self1 : le_renderpass_o} (texture : le_resource_handle_t)
      (textureInfo : LeTextureInfo) :
      PassReachable K self →
      renderpass_sample_texture K self texture textureInfo = some self1 →
      PassReachable K self1

/-- The usage of an info has at least one read flag of its kind. -/
def HasReadFlag (K : le_renderer_h) (info : le_resource_info_t) : Prop :=
  (info.type = LeResourceType.eBuffer ∧ info.buffer.usage &&& ALL_BUFFER_READ_FLAGS K ≠ 0) ∨
  (info.type = LeResourceType.eImage ∧ info.image.usage &&& ALL_IMAGE_READ_FLAGS K ≠ 0)

/-- The usage of an info has at least one write flag of its kind. -/
def HasWriteFlag (K : le_renderer_h) (info : le_resource_info_t) : Prop :=
  (info.type = LeResourceType.eBuffer ∧ info.buffer.usage &&& ALL_BUFFER_WRITE_FLAGS K ≠ 0) ∨
  (info.type = LeResourceType.eImage ∧ info.image.usage &&& ALL_IMAGE_WRITE_FLAGS K ≠ 0)

/-- The invariant of the declared resources of a pass: `resources` and
`resourceInfos` have equal length, `resources` holds no handle twice,
`readResources` and `writeResources` hold only declared handles, and a
declared handle is in them exactly when its stored info says so. -/
def PassInv (K : le_renderer_h) (p : le_renderpass_o) : Prop :=
  p.resources.length = p.resourceInfos.length ∧
  p.resources.Nodup ∧
  (∀ h ∈ p.readResources, h ∈ p.resources) ∧
  (∀ h ∈ p.writeResources, h ∈ p.resources) ∧
  (∀ (i : Nat) (h : le_resource_handle_t) (info : le_resource_info_t),
     p.resources[i]? = some h → p.resourceInfos[i]? = some info →
     (h ∈ p.readResources ↔ resourceWillBeReadFrom K info = true) ∧
     (h ∈ p.writeResources ↔ resourceWillBeWrittenTo K info = true))

/-- A pass that declares image `img` as sampled and then as colour attachment. -/
def passSampledThenColor : le_renderpass_o :=
  { id := 1
    debugName := "p"
    resources := [mkHandle "img"]
    resourceInfos := [{ type := LeResourceType.eImage, image := { usage := 0x14 } }]
    readResources := [mkHandle "img"]
    writeResources := [mkHandle "img"]
    imageAttachments := [{}]
    attachmentResources := [mkHandle "img"] }

/-- A pass with one known image, and a buffer not yet declared. -/
def passOneImage : le_renderpass_o :=
  { resources := [mkHandle "img"]
    resourceInfos := [{ type := LeResourceType.eImage, image := { usage := 0x4 } }]
    readResources := [mkHandle "img"] }

/-- A pass that knows buffer `buf` (size 64, vertex buffer) and image `img`. -/
def passBufferAndImage : le_renderpass_o :=
  { resources := [mkBuffer "buf", mkHandle "img"]
    resourceInfos := [{ type := LeResourceType.eBuffer, buffer := { size := 64, usage := 0x80 } },
                      { type := LeResourceType.eImage, image := { usage := 0x4 } }]
    readResources := [mkBuffer "buf", mkHandle "img"] }

/-- Write resources of the pass at submission index `j` (none outside the list). -/
def writesOf (passes : List le_renderpass_o) (j : Nat) : List le_resource_handle_t :=
  match passes[j]? with
  | some pass => pass.writeResources
  | none => []

/-- Read resources of the pass at submission index `j` (none outside the list). -/
def readsOf (passes : List le_renderpass_o) (j : Nat) : List le_resource_handle_t :=
  match passes[j]? with
  | some pass => pass.readResources
  | none => []

/-- The largest index `j < i` whose pass has `r` in its write resources, if any. -/
def lastWriterBefore (passes : List le_renderpass_o) (i : Nat) (r : le_resource_handle_t) :
    Option Nat :=
  (List.range i).reverse.find? (fun j => decide (r ∈ writesOf passes j))

/-- The dependency lists that the resolver is meant to produce. -/
def expectedDependencies (passes : List le_renderpass_o) (n : Nat) : List (List Nat) :=
  (List.range n).map fun i => (readsOf passes i).filterMap (lastWriterBefore passes i)

/-- The traversal started at pass `cur` with recursion depth `depth` records
depth `v` for pass `i`: the calls that `rendergraph_traverse_passes` nests, cut
off past `LE_rendergraph_RECURSION_DEPTH`. -/
inductive Visits (deps : List (List Nat)) : Nat → Nat → Nat → Nat → Prop where
  | here (cur depth : Nat) :
      depth ≤ LE_rendergraph_RECURSION_DEPTH → cur < deps.length → Visits deps cur depth cur depth
  | step (cur depth s i v : Nat) :
      depth ≤ LE_rendergraph_RECURSION_DEPTH → s ∈ deps.getD cur [] →
      Visits deps s (depth + 1) i v → Visits deps cur depth i v

/-- The sort orders `so1` are the sort orders `so` raised, entry by entry, to
the largest depth that `V` records for the entry. -/
def Joins (V : Nat → Nat → Prop) (so so1 : List Nat) : Prop :=
  so1.length = so.length ∧
  ∀ i, so.getD i 0 ≤ so1.getD i 0 ∧
    (∀ v, V i v → v ≤ so1.getD i 0) ∧
    (so1.getD i 0 = so.getD i 0 ∨ V i (so1.getD i 0))

/-- The list is a dependency path of the table: a non-empty sequence of pass
indices in which every pass is followed by one of its dependencies. -/
def isDepPath (deps : List (List Nat)) : List Nat → Bool
  | [] => false
  | [a] => decide (a < deps.length)
  | a :: b :: rest => decide (b ∈ deps.getD a []) && isDepPath deps (b :: rest)

/-- The list is a dependency path of the submitted passes that starts at a
root pass and ends at pass `i`. -/
def IsRootPath (passes : List le_renderpass_o) (path : List Nat) (i : Nat) : Prop :=
  isDepPath (rendergraph_resolve_resource_ids passes) path = true ∧
  (∃ r pass, path.head? = some r ∧ passes[r]? = some pass ∧ renderpass_get_is_root pass = true) ∧
  path.getLast? = some i

/-- The comparator of `rendergraph_build`'s stable sort, for a key function. -/
def byDescendingKey {T : Type} (key : T → Nat) : T → T → Bool :=
  fun lhs rhs => decide (key lhs > key rhs)

/-- A producer reached along two paths of different length: A(writes X),
B(reads X, writes Y), C(reads X and Y, root). -/
def sceneTwoPaths : List le_renderpass_o :=
  [mkPass [] ["X"] 0, mkPass ["X"] ["Y"] 0, mkPass ["X", "Y"] [] 1]

/-- The eight descriptor fields that the image branch of the consolidation
asserts to be equal. -/
def ImageDescriptorsAgree (a b : ImageInfo) : Prop :=
  a.flags = b.flags ∧ a.imageType = b.imageType ∧ a.format = b.format ∧ a.extent = b.extent ∧
  a.mipLevels = b.mipLevels ∧ a.arrayLayers = b.arrayLayers ∧ a.samples = b.samples ∧
  a.tiling = b.tiling

/-- The agreement of two image descriptors can be computed. -/
instance (a b : ImageInfo) : Decidable (ImageDescriptorsAgree a b) := by
  unfold ImageDescriptorsAgree
  infer_instance

/-- A pass that knows image `img` with format 37 and sampled usage. -/
def passImageFormat37 : le_renderpass_o :=
  { resources := [mkHandle "img"]
    resourceInfos := [{ type := LeResourceType.eImage, image := { format := 37, usage := 0x4 } }]
    readResources := [mkHandle "img"] }

/-- The fresh pass of the examples. -/
def passFresh : le_renderpass_o :=
  renderpass_create vkHeader "p" LeRenderPassType.LE_RENDER_PASS_TYPE_DRAW

/-- The fresh pass after declaring image `img` with storage usage. -/
def passStorageImage : le_renderpass_o :=
  { passFresh with
    resources := [mkHandle "img"]
    resourceInfos := [{ type := LeResourceType.eImage, image := { usage := 0x8 } }]
    readResources := [mkHandle "img"]
    writeResources := [mkHandle "img"] }

/-- The fresh pass after sampling texture `tex`, which views image `imgA`. -/
def passSampledA : le_renderpass_o :=
  { passFresh with
    resources := [mkHandle "imgA"]
    resourceInfos := [{ type := LeResourceType.eImage
                        image := { imageType := 1, mipLevels := 1, arrayLayers := 1, samples := 1,
                                   usage := 0x4 } }]
    readResources := [mkHandle "imgA"]
    textureInfos := [{ imageView := { imageId := mkHandle "imgA" } }]
    textureInfoIds := [mkHandle "tex"] }

/-- The fresh pass after attaching image `img`, declared without any usage, as
colour attachment. -/
def passColorAttached : le_renderpass_o :=
  { passFresh with
    resources := [mkHandle "img"]
    resourceInfos := [{ type := LeResourceType.eImage, image := { usage := 0x10 } }]
    readResources := [mkHandle "img"]
    writeResources := [mkHandle "img"]
    imageAttachments := [{}]
    attachmentResources := [mkHandle "img"] }

/-- Module object `le_render_module_o`: a vector of pass pointers. -/
structure le_render_module_o where
  passes : List Nat := []
  deriving DecidableEq, Repr, Inhabited

/-- The setup callbacks of the user, by function address and user data: a
call receives the pass, declares on it, and returns whether the pass is to be
added to the graph. -/
abbrev SetupCallbacks := Nat → Nat → le_renderpass_o → le_renderpass_o × Bool

/-- Accessor `renderpass_has_setup_callback`. -/
def renderpass_has_setup_callback (self : le_renderpass_o) : Bool := self.callbackSetup != 0

/-- Call `renderpass_run_setup_callback`: the pass after the callback and the
callback's result. -/
def renderpass_run_setup_callback (callbacks : SetupCallbacks) (self : le_renderpass_o) :
    le_renderpass_o × Bool :=
  callbacks self.callbackSetup self.setup_callback_user_data self

/-- Function `rendergraph_add_renderpass`. -/
def rendergraph_add_renderpass (self : le_rendergraph_o) (renderpass : Nat) : le_rendergraph_o :=
  { passes := self.passes ++ [renderpass] }

/-- State of `render_module_setup_passes`: the heap, the graph, the passes
whose setup callback was invoked (in call order) and the passes handed to
`renderpass_destroy` (in call order). -/
structure SetupState where
  heap : Heap
  graph : le_rendergraph_o
  setup_calls : List Nat
  destroyed : List Nat

/-- The loop of `render_module_setup_passes` (lines 735-757) over the module
passes still to be visited. -/
def setup_passes_loop (callbacks : SetupCallbacks) : List Nat → SetupState → SetupState
  | [], st => st
  | pass :: rest, st =>
    if renderpass_has_setup_callback (st.heap pass) then
      let result := renderpass_run_setup_callback callbacks (st.heap pass)
      let heap1 : Heap := fun q => if q = pass then result.1 else st.heap q
      if result.2 then
        setup_passes_loop callbacks rest
          { st with heap := heap1
                    graph := rendergraph_add_renderpass st.graph pass
                    setup_calls := st.setup_calls ++ [pass] }
      else
        setup_passes_loop callbacks rest
          { st with heap := heap1
                    setup_calls := st.setup_calls ++ [pass]
                    destroyed := st.destroyed ++ [pass] }
    else
      setup_passes_loop callbacks rest
        { st with graph := rendergraph_add_renderpass st.graph pass }

/-- Outcome of `render_module_setup_passes`. -/
structure SetupResult where
  heap : Heap
  module : le_render_module_o
  graph : le_rendergraph_o
  setup_calls : List Nat
  destroyed : List Nat

/-- Function `render_module_setup_passes`. -/
def render_module_setup_passes (callbacks : SetupCallbacks) (heap : Heap)
    (self : le_render_module_o) (rendergraph_ : le_rendergraph_o) : SetupResult :=
  let st := setup_passes_loop callbacks self.passes
    { heap := heap, graph := rendergraph_, setup_calls := [], destroyed := [] }
  { heap := st.heap
    module := { passes := [] }
    graph := st.graph
    setup_calls := st.setup_calls
    destroyed := st.destroyed }

/-- The module pass is kept by the sweep: it has no setup callback, or its
setup callback returns true. -/
def setupKeeps (callbacks : SetupCallbacks) (pass : le_renderpass_o) : Bool :=
  !renderpass_has_setup_callback pass || (renderpass_run_setup_callback callbacks pass).2

/-- The module pass is dropped by the sweep: its setup callback returns false. -/
def setupDrops (callbacks : SetupCallbacks) (pass : le_renderpass_o) : Bool :=
  renderpass_has_setup_callback pass && !(renderpass_run_setup_callback callbacks pass).2

/-- A callback table: callback 1 accepts the pass and sets its width, callback
2 declines it. -/
def exampleSetupCallbacks : SetupCallbacks := fun callback _ pass =>
  if callback = 1 then ({ pass with width := 640 }, true) else (pass, false)

/-- Module passes at addresses 10, 11, 12: the first without setup callback,
the second with callback 1, the third with callback 2. -/
def exampleModuleHeap : Heap := fun q =>
  if q = 11 then { callbackSetup := 1 } else if q = 12 then { callbackSetup := 2 } else {}

/-- Modelled from the spec: `le::Extent2D`, a width and a height, is declared
in `le_renderer.h`, which is not among the sources. -/
structure Extent2D where
  width : Nat := 0
  height : Nat := 0
  deriving DecidableEq, Repr, Inhabited

/-- Modelled from the spec: the backend and encoder interfaces that
`rendergraph_execute` consumes (`vk_backend_i`, `encoder_i`) are declared in
headers that are not among the sources. `get_transient_allocators` takes the
frame index and a count `n` and returns the array of allocators;
`encoder_create` takes an allocator, the pipeline cache, the staging allocator
and an extent and returns the encoder. -/
structure le_backend_o where
  get_transient_allocators : Nat → Nat → List Nat
  get_staging_allocator : Nat → Nat
  get_pipeline_cache : Nat
  get_swapchain_extent : Extent2D
  encoder_create : Nat → Nat → Nat → Extent2D → Nat

/-- One run of the body of the loop of `rendergraph_execute` (lines 664-693):
the pass, the position of `allocIt` in the allocator array and the allocator
it points to, the extent and the encoder created, whether the default scissor
and viewport were set (draw passes), and the execute callback invoked with the
encoder and its user data. -/
structure ExecuteRecord where
  pass : Nat
  allocIt : Nat
  allocator : Nat
  encoder_extent : Extent2D
  encoder : Nat
  default_scissor_viewport : Bool
  callbackExecute : Nat
  execute_callback_user_data : Nat
  deriving DecidableEq, Repr, Inhabited

/-- Lines 666-669: the extent given to the encoder of a pass. -/
def encoder_extent (pass : le_renderpass_o) (swapchain_extent : Extent2D) : Extent2D :=
  { width := if pass.width != 0 then pass.width else swapchain_extent.width
    height := if pass.height != 0 then pass.height else swapchain_extent.height }

/-- The loop of `rendergraph_execute` (lines 662-694) over the passes still to
be visited; `none` when `allocIt` points past the allocator array. -/
def execute_loop (backend : le_backend_o) (ppAllocators : List Nat)
    (stagingAllocator pipelineCache : Nat) (swapchain_extent : Extent2D) :
    List Nat → Heap → Nat → List ExecuteRecord → Option (Heap × Nat × List ExecuteRecord)
  | [], heap, allocIt, records => some (heap, allocIt, records)
  | pass :: rest, heap, allocIt, records =>
    if (heap pass).callbackExecute != 0 && (heap pass).sort_key != 0 then
      match ppAllocators[allocIt]? with
      | none => none
      | some allocator =>
        let extent := encoder_extent (heap pass) swapchain_extent
        let encoder := backend.encoder_create allocator pipelineCache stagingAllocator extent
        let heap1 : Heap := fun q => if q = pass then { heap pass with encoder := encoder } else heap q
        let record : ExecuteRecord :=
          { pass := pass
            allocIt := allocIt
            allocator := allocator
            encoder_extent := extent
            encoder := encoder
            default_scissor_viewport :=
              decide ((heap pass).type = LeRenderPassType.LE_RENDER_PASS_TYPE_DRAW)
            callbackExecute := (heap pass).callbackExecute
            execute_callback_user_data := (heap pass).execute_callback_user_data }
        execute_loop backend ppAllocators stagingAllocator pipelineCache swapchain_extent
          rest heap1 (allocIt + 1) (records ++ [record])
    else
      execute_loop backend ppAllocators stagingAllocator pipelineCache swapchain_extent
        rest heap allocIt records

/-- Outcome of `rendergraph_execute`: the heap with the encoders stored on the
passes, the number of transient allocators requested, and the record of every
pass that was given an encoder and executed, in order. -/
structure ExecuteResult where
  heap : Heap
  requested_allocators : Nat
  records : List ExecuteRecord

/-- Function `rendergraph_execute`. -/
def rendergraph_execute (heap : Heap) (self : le_rendergraph_o) (frameIndex : Nat)
    (backend : le_backend_o) : Option ExecuteResult :=
  let ppAllocators := backend.get_transient_allocators frameIndex self.passes.length
  let stagingAllocator := backend.get_staging_allocator frameIndex
  let pipelineCache := backend.get_pipeline_cache
  let swapchain_extent := backend.get_swapchain_extent
  match execute_loop backend ppAllocators stagingAllocator pipelineCache swapchain_extent
      self.passes heap 0 [] with
  | none => none
  | some (heap1, _, records) =>
    some { heap := heap1, requested_allocators := self.passes.length, records := records }

/-- The pass is recorded by `rendergraph_execute`: it has an execute callback
and a nonzero sort key. -/
def isExecuted (pass : le_renderpass_o) : Bool :=
  pass.callbackExecute != 0 && pass.sort_key != 0

/-- A backend with allocators 100, 101, ..., a swapchain of 1920 x 1080, and
encoders numbered after their allocator. -/
def exampleBackend : le_backend_o where
  get_transient_allocators := fun _ n => (List.range n).map (· + 100)
  get_staging_allocator := fun _ => 7
  get_pipeline_cache := 8
  get_swapchain_extent := { width := 1920, height := 1080 }
  encoder_create := fun allocator _ _ _ => allocator + 1000

/-- The backend of `exampleBackend` with a swapchain of 800 x 600. -/
def exampleBackendSmall : le_backend_o :=
  { exampleBackend with get_swapchain_extent := { width := 800, height := 600 } }

/-- Built passes at addresses 0 to 3: pass 0 draws at 256 x 128, pass 1 has no
execute callback, pass 2 has sort key 0, pass 3 uses the swapchain width. -/
def exampleExecuteHeap : Heap := fun q =>
  if q = 0 then { callbackExecute := 5, sort_key := 3, width := 256, height := 128
                  type := LeRenderPassType.LE_RENDER_PASS_TYPE_DRAW }
  else if q = 1 then { sort_key := 2 }
  else if q = 2 then { callbackExecute := 5 }
  else { callbackExecute := 6, sort_key := 1, height := 64 }

/-- Function `renderpass_steal_encoder`: the returned encoder and the pass afterwards. -/
def renderpass_steal_encoder (self : le_renderpass_o) : Nat × le_renderpass_o :=
  let result := self.encoder
  (result, { self with encoder := 0 })

/-- Function `renderpass_destroy`: the encoders handed to `encoder_i.destroy`
before the pass object is deleted. -/
def renderpass_destroy (self : le_renderpass_o) : List Nat :=
  if self.encoder != 0 then [self.encoder] else []

/-! ## Job system (`le_jobs.cpp`)

Pointers to counters, fibers and workers are addresses (`0` is `nullptr`), and
an address stands for one allocation; the objects live in heaps, functions
from addresses to values. The id of the thread that runs the loop of a worker
is represented by the address of that worker. The job queue mutex is
represented by the lock and unlock actions in the log, which records, in
order, the actions of the code that the properties are stated about.

The functions of this section give what a call does when no other thread
runs in between; they state the properties of single calls. A call of
`le_worker_thread_dispatch` is given whole and in two parts: the first part
runs from the entry up to the return of `asm_switch` in line 298, the job's
run up to its yield or its return included, the second part is lines 306 to
314. What a job does is given from outside, as a `job_run`; what it writes to
memory is not tracked. The properties of every state of the running system
are stated on the section `The job system line by line`, which takes the same
code one line at a time. -/

/-- Constant `FIBER_POOL_SIZE`. -/
def FIBER_POOL_SIZE : Nat := 12

/-- Constant `MAX_WORKER_THREAD_COUNT`. -/
def MAX_WORKER_THREAD_COUNT : Nat := 16

/-- Constant `le_fiber_o::STACK_SIZE`. -/
def STACK_SIZE : Nat := 2 ^ 16

/-- Constant `le_fiber_o::NUM_REGISTERS`. -/
def NUM_REGISTERS : Nat := 6

/-- Modelled from the spec: the job `le_jobs_api::le_job_o` is declared in
`le_jobs.h`, which is not among the sources: a function pointer, its parameter
and the completion counter. -/
structure le_job_o where
  fun_ptr : Nat := 0
  fun_param : Nat := 0
  complete_counter : Nat := 0
  deriving DecidableEq, Repr, Inhabited

/-- Fiber object `le_fiber_o`. -/
structure le_fiber_o where
  stack : Nat := 0
  job_param : Nat := 0
  stack_bottom : Nat := 0
  next_fiber : Nat := 0
  job_complete_counter : Nat := 0
  job_complete : Nat := 0
  fiber_active : Nat := 0
  deriving DecidableEq, Repr, Inhabited

/-- Worker object `le_worker_thread_o`, without its `std::thread`;
`this_fiber` is its first member, so the address of `this_fiber` is the
address of the worker. -/
structure le_worker_thread_o where
  this_fiber : le_fiber_o := {}
  current_fiber : Nat := 0
  job_manager : Nat := 0
  thread_id : Nat := 0
  stop_thread : Nat := 0
  deriving DecidableEq, Repr, Inhabited

/-- Manager object `le_job_manager_o`, without its mutex; `fibers` lists the
entries of the array `fibers[ FIBER_POOL_SIZE ]`. -/
structure le_job_manager_o where
  counters : List Nat := []
  fibers : List Nat := []
  job_queue : List le_job_o := []
  deriving DecidableEq, Repr, Inhabited

/-- The actions of the job system that are logged. -/
inductive JobEvent where
  /-- Lines 407-408: `new counter_t()` returned the counter, which was set to the number of jobs. -/
  | counter_new (counter num_jobs : Nat)
  /-- Line 402: `delete counter`. -/
  | counter_delete (counter : Nat)
  /-- Line 256: the lock guard takes `job_queue_mutex`. -/
  | mutex_lock
  /-- Lines 262 and 266: the lock guard releases `job_queue_mutex`. -/
  | mutex_unlock
  /-- Line 417: `job_queue.push_back`. -/
  | queue_push_back (job : le_job_o)
  /-- Lines 264-265: `job_queue.front` and `job_queue.pop_front`. -/
  | queue_pop_front (job : le_job_o)
  /-- Line 285: the worker returns empty-handed with the job it popped. -/
  | no_fiber_available (worker : Nat) (job : le_job_o)
  /-- Line 298: `asm_switch` from the worker to its current fiber. -/
  | switch_to_fiber (worker fiber : Nat)
  /-- Line 149: `le_fiber_yield` switches from the fiber back to the worker. -/
  | fiber_yield (worker fiber : Nat)
  /-- Line 218: the job function returned into `fiber_exit`. -/
  | fiber_exit (fiber counter : Nat)
  deriving DecidableEq, Repr, Inhabited

/-- The job system: the manager, the table `static_worker_thread` (all its
entries), the heaps of counters (`counter_t::data`), fibers and workers, the
workers that are inside a call of `le_worker_thread_dispatch` at line 306
(control is back from the fiber), and the log. -/
structure JobSystem where
  manager : le_job_manager_o
  static_worker_thread : List Nat
  counter_heap : Nat → Nat
  fiber_heap : Nat → le_fiber_o
  worker_heap : Nat → le_worker_thread_o
  in_dispatch : Nat → Bool
  log : List JobEvent

/-- A decrement `--counter->data` of the atomic `uint32_t`. -/
def counter_decrement (data : Nat) : Nat := (data + 2 ^ 32 - 1) % 2 ^ 32

/-- A push `*( --fiber->stack ) = value` of one 8-byte word: the stack
pointer afterwards and the stores so far, each an address and a value. -/
def stack_push (st : Nat × List (Nat × Nat)) (value : Nat) : Nat × List (Nat × Nat) :=
  (st.1 - 8, st.2 ++ [(st.1 - 8, value)])

/-- Function `le_fiber_setup`: the fiber afterwards and the stores to the
fiber's stack memory, in order. `asm_call_fiber_exit` is the address of the
exit trampoline, `main_fiber` is the address of the host fiber and `fiber_ptr`
the address of the fiber. -/
def le_fiber_setup (asm_call_fiber_exit main_fiber fiber_ptr : Nat) (fiber : le_fiber_o)
    (job : le_job_o) : le_fiber_o × List (Nat × Nat) :=
  let st0 : Nat × List (Nat × Nat) := (fiber.stack_bottom + STACK_SIZE, [])
  let st1 := stack_push st0 0
  let st2 := stack_push st1 fiber_ptr
  let st3 := stack_push st2 main_fiber
  let st4 := stack_push st3 asm_call_fiber_exit
  let st5 := stack_push st4 job.fun_ptr
  let st6 := (List.range NUM_REGISTERS).foldl (fun st _ => stack_push st 0) st5
  ({ fiber with stack := st6.1
                job_param := job.fun_param
                job_complete := 0
                job_complete_counter := job.complete_counter },
   st6.2)

/-- What a job does when the worker switches to its fiber: it runs until it
calls `le_fiber_yield`, or until its function returns. -/
inductive JobOutcome where
  | yields
  | returns
  deriving DecidableEq, Repr, Inhabited

/-- One run of a job from the switch to its fiber to the switch back: what
the job does, the stack pointer of the worker that `asm_switch` saves in
`this_fiber.stack` on the way in, and the stack pointer of the job that
`asm_switch` saves in the fiber's `stack` on the way back. -/
structure job_run where
  outcome : JobOutcome := JobOutcome.returns
  host_stack : Nat := 0
  fiber_stack : Nat := 0
  deriving DecidableEq, Repr, Inhabited

/-- The scan of `static_worker_thread` in `le_fiber_yield` (lines 138-143)
for the worker with the given thread id: `none` when the scan reaches a null
entry, where the assert of line 145 fails, or runs past the last entry of the
table. -/
def find_yielding_thread (worker_heap : Nat → le_worker_thread_o) (this_thread_id : Nat) :
    List Nat → Option Nat
  | [] => none
  | t :: rest =>
    if t = 0 then none
    else if this_thread_id = (worker_heap t).thread_id then some t
    else find_yielding_thread worker_heap this_thread_id rest

/-- Function `le_fiber_yield`, called by the job that runs on the thread of
the worker `self`; `fiber_stack` is the stack pointer that `asm_switch`
saves. The result is `none` when the assert fails, and when the switch goes to
the host fiber of another worker than the one that runs the job. -/
def le_fiber_yield (s : JobSystem) (self fiber_stack : Nat) : Option JobSystem :=
  match find_yielding_thread s.worker_heap (s.worker_heap self).thread_id
      s.static_worker_thread with
  | none => none
  | some yielding_thread =>
    let fiber := (s.worker_heap yielding_thread).current_fiber
    if yielding_thread = self then
      some { s with
        fiber_heap := fun p =>
          if p = fiber then { s.fiber_heap fiber with stack := fiber_stack } else s.fiber_heap p
        log := s.log ++ [JobEvent.fiber_yield yielding_thread fiber] }
    else none

/-- Function `fiber_exit`, which the job function of `fiber` returns into;
`fiber_stack` is the stack pointer that `asm_switch` saves. The result is
`none` when the counter it decrements has been deleted. -/
def fiber_exit (s : JobSystem) (fiber fiber_stack : Nat) : Option JobSystem :=
  let counter := (s.fiber_heap fiber).job_complete_counter
  let log1 := s.log ++ [JobEvent.fiber_exit fiber counter]
  let fiber_heap1 : Nat → le_fiber_o := fun p =>
    if p = fiber then { s.fiber_heap fiber with job_complete := 1, stack := fiber_stack }
    else s.fiber_heap p
  if counter ≠ 0 then
    if counter ∈ s.manager.counters then
      some { s with
        counter_heap := fun c =>
          if c = counter then counter_decrement (s.counter_heap counter) else s.counter_heap c
        fiber_heap := fiber_heap1
        log := log1 }
    else none
  else
    some { s with fiber_heap := fiber_heap1, log := log1 }

/-- Lines 271-280: the scan of the fiber pool for the first fiber whose
`fiber_active` the compare-exchange changes from 0 to 1; the claimed fiber and
the fiber heap afterwards, `none` when the scan reaches the end of the pool. -/
def claim_idle_fiber (fiber_heap : Nat → le_fiber_o) :
    List Nat → Option (Nat × (Nat → le_fiber_o))
  | [] => none
  | fiber :: rest =>
    if (fiber_heap fiber).fiber_active = 0 then
      some (fiber, fun p => if p = fiber then { fiber_heap fiber with fiber_active := 1 }
                            else fiber_heap p)
    else claim_idle_fiber fiber_heap rest

/-- Lines 250-293 of `le_worker_thread_dispatch` for the worker at address
`self`: the system afterwards, and whether control goes on to line 298
(`false` when the call returns in line 261 or 285). -/
def dispatch_acquire (asm_call_fiber_exit : Nat) (s : JobSystem) (self : Nat) :
    JobSystem × Bool :=
  if (s.worker_heap self).current_fiber = 0 then
    match s.manager.job_queue with
    | [] =>
      ({ s with log := s.log ++ [JobEvent.mutex_lock, JobEvent.mutex_unlock] }, false)
    | job :: rest =>
      let log1 := s.log ++
        [JobEvent.mutex_lock, JobEvent.queue_pop_front job, JobEvent.mutex_unlock]
      match claim_idle_fiber s.fiber_heap s.manager.fibers with
      | none =>
        ({ s with
            manager := { s.manager with job_queue := rest }
            log := log1 ++ [JobEvent.no_fiber_available self job] }, false)
      | some (fiber, fiber_heap1) =>
        let setup := le_fiber_setup asm_call_fiber_exit self fiber (fiber_heap1 fiber) job
        ({ s with
            manager := { s.manager with job_queue := rest }
            fiber_heap := fun p => if p = fiber then setup.1 else fiber_heap1 p
            worker_heap := fun w =>
              if w = self then { s.worker_heap self with current_fiber := fiber }
              else s.worker_heap w
            log := log1 }, true)
  else (s, true)

/-- Line 298 of `le_worker_thread_dispatch` and the run of the job up to the
switch back to the worker, which is then at line 306. -/
def dispatch_switch (s : JobSystem) (self : Nat) (run : job_run) : Option JobSystem :=
  let fiber := (s.worker_heap self).current_fiber
  let s1 : JobSystem := { s with
    worker_heap := fun w =>
      if w = self then
        { s.worker_heap self with
          this_fiber := { (s.worker_heap self).this_fiber with stack := run.host_stack } }
      else s.worker_heap w
    in_dispatch := fun w => if w = self then true else s.in_dispatch w
    log := s.log ++ [JobEvent.switch_to_fiber self fiber] }
  match run.outcome with
  | JobOutcome.yields => le_fiber_yield s1 self run.fiber_stack
  | JobOutcome.returns => fiber_exit s1 fiber run.fiber_stack

/-- The first step of a call of `le_worker_thread_dispatch`: from the entry
to the return in line 261 or 285, or to line 306. -/
def dispatch_begin (asm_call_fiber_exit : Nat) (s : JobSystem) (self : Nat) (run : job_run) :
    Option JobSystem :=
  let acquired := dispatch_acquire asm_call_fiber_exit s self
  if acquired.2 then dispatch_switch acquired.1 self run else some acquired.1

/-- The second step of a call of `le_worker_thread_dispatch`: lines 306-314. -/
def dispatch_end (s : JobSystem) (self : Nat) : JobSystem :=
  let fiber := (s.worker_heap self).current_fiber
  let s1 : JobSystem := { s with in_dispatch := fun w => if w = self then false else s.in_dispatch w }
  if (s.fiber_heap fiber).job_complete = 1 then
    { s1 with
      fiber_heap := fun p =>
        if p = fiber then { s.fiber_heap fiber with fiber_active := 0 } else s.fiber_heap p
      worker_heap := fun w =>
        if w = self then { s.worker_heap self with current_fiber := 0 } else s.worker_heap w }
  else s1

/-- Function `le_worker_thread_dispatch` for the worker at address `self`, as
one call; `run` is what the job does when the worker switches to it. -/
def le_worker_thread_dispatch (asm_call_fiber_exit : Nat) (s : JobSystem) (self : Nat)
    (run : job_run) : Option JobSystem :=
  let acquired := dispatch_acquire asm_call_fiber_exit s self
  if acquired.2 then
    match dispatch_switch acquired.1 self run with
    | none => none
    | some s1 => some (dispatch_end s1 self)
  else some acquired.1

/-- Function `le_job_manager_wait_for_counter_and_free`: `none` when the
counter has been deleted, and when the call does not return because the
counter differs from the target (no other step of the system is taken while
the call spins). -/
def le_job_manager_wait_for_counter_and_free (s : JobSystem) (counter target_value : Nat) :
    Option JobSystem :=
  if counter ∈ s.manager.counters then
    if s.counter_heap counter = target_value then
      some { s with
        manager := { s.manager with
          counters := s.manager.counters.filter (fun c => c != counter) }
        log := s.log ++ [JobEvent.counter_delete counter] }
    else none
  else none

/-- Function `le_job_manager_run_jobs`: `jobs` holds the `num_jobs` entries
of the array, `counter` is the address that `new counter_t()` returns, and
`p_counter` tells whether the out-parameter is non-null; the result is the
system afterwards and what was stored through the out-parameter. -/
def le_job_manager_run_jobs (s : JobSystem) (jobs : List le_job_o) (counter : Nat)
    (p_counter : Bool) : JobSystem × Option Nat :=
  let num_jobs := jobs.length
  let queued := jobs.map fun j =>
    ({ fun_ptr := j.fun_ptr, fun_param := j.fun_param, complete_counter := counter } : le_job_o)
  ({ s with
      manager := { s.manager with
        counters := counter :: s.manager.counters
        job_queue := s.manager.job_queue ++ queued }
      counter_heap := fun c => if c = counter then num_jobs else s.counter_heap c
      log := s.log ++ [JobEvent.counter_new counter num_jobs]
        ++ queued.map JobEvent.queue_push_back },
   if p_counter then some counter else none)

/-- The job system when `le_job_manager_create` has returned and the loop of
every worker thread has stored its thread id: `fibers` are the addresses of
the fibers of the pool, `stack_of` gives the stack allocated for each of them,
and `workers` are the addresses of the workers, registered in this order in
`static_worker_thread`. -/
def job_system_start (fibers workers : List Nat) (stack_of : Nat → Nat) : JobSystem :=
  { manager := { fibers := fibers }
    static_worker_thread :=
      workers ++ List.replicate (MAX_WORKER_THREAD_COUNT - workers.length) 0
    counter_heap := fun _ => 0
    fiber_heap := fun f => { stack_bottom := stack_of f }
    worker_heap := fun w => { thread_id := w }
    in_dispatch := fun _ => false
    log := [] }

/-! ### Creation and destruction of the job manager -/

/-- Lines 345-355 of `le_job_manager_create`: the worker of thread `i` is
stored in `static_worker_thread[ i ]`; `none` when an index is outside the
table. -/
def register_workers (static_worker_thread : List Nat) : List Nat → Nat → Option (List Nat)
  | [], _ => some static_worker_thread
  | w :: rest, i =>
    if i < static_worker_thread.length then
      register_workers (static_worker_thread.set i w) rest (i + 1)
    else none

/-- Function `le_job_manager_create`, up to its return: `static_worker_thread`
is the table before the call, `self` the address of the new manager, `fibers`
are the addresses that `le_fiber_create` returns, with their stacks
`stack_of`, and `workers` are the addresses of the new workers, one per thread,
so that `num_threads` is their number. The result is `none` when the assert
fails. The threads have not stored their ids yet. -/
def le_job_manager_create (static_worker_thread : List Nat) (self : Nat)
    (fibers workers : List Nat) (stack_of : Nat → Nat) : Option JobSystem :=
  if workers.length ≤ MAX_WORKER_THREAD_COUNT then
    match register_workers static_worker_thread workers 0 with
    | none => none
    | some table =>
      some
        { manager := { fibers := fibers }
          static_worker_thread := table
          counter_heap := fun _ => 0
          fiber_heap := fun f => { stack_bottom := stack_of f }
          worker_heap := fun w => if w ∈ workers then { job_manager := self } else {}
          in_dispatch := fun _ => false
          log := [] }
  else none

/-- Line 321 of `le_worker_thread_loop`: the thread of the worker stores its
id in the worker. -/
def worker_thread_loop_enter (s : JobSystem) (self : Nat) : JobSystem :=
  { s with
    worker_heap := fun w =>
      if w = self then { s.worker_heap self with thread_id := self } else s.worker_heap w }

/-- The job system when the threads of the given workers have entered their
loops. -/
def worker_threads_started (s : JobSystem) (workers : List Nat) : JobSystem :=
  workers.foldl worker_thread_loop_enter s

/-- Lines 359-361 of `le_job_manager_destroy`: the scan of
`static_worker_thread` up to the first null entry that sets `stop_thread`; the
worker heap afterwards and the workers visited, in order. The result is `none`
when the scan runs past the last entry of the table. -/
def stop_threads (worker_heap : Nat → le_worker_thread_o) :
    List Nat → Option ((Nat → le_worker_thread_o) × List Nat)
  | [] => none
  | t :: rest =>
    if t = 0 then some (worker_heap, [])
    else
      match stop_threads
          (fun w => if w = t then { worker_heap t with stop_thread := 1 } else worker_heap w)
          rest with
      | none => none
      | some (worker_heap1, visited) => some (worker_heap1, t :: visited)

/-- Lines 365-369 of `le_job_manager_destroy`: the scan of
`static_worker_thread` up to the first null entry that joins the thread of
each worker, deletes the worker and sets the entry to null; the table
afterwards and the workers visited, in order. The result is `none` when the
scan runs past the last entry of the table. Every join is taken to return. -/
def join_threads : List Nat → Option (List Nat × List Nat)
  | [] => none
  | t :: rest =>
    if t = 0 then some (t :: rest, [])
    else
      match join_threads rest with
      | none => none
      | some (table, visited) => some (0 :: table, t :: visited)

/-- Outcome of `le_job_manager_destroy`: the table and the worker heap
afterwards, the workers that the first and the second scan visited, and the
fibers and counters that were freed. -/
structure DestroyResult where
  static_worker_thread : List Nat
  worker_heap : Nat → le_worker_thread_o
  stopped : List Nat
  joined : List Nat
  destroyed_fibers : List Nat
  deleted_counters : List Nat

/-- Function `le_job_manager_destroy`. -/
def le_job_manager_destroy (s : JobSystem) : Option DestroyResult :=
  match stop_threads s.worker_heap s.static_worker_thread with
  | none => none
  | some (worker_heap1, stopped) =>
    match join_threads s.static_worker_thread with
    | none => none
    | some (table, joined) =>
      some
        { static_worker_thread := table
          worker_heap := worker_heap1
          stopped := stopped
          joined := joined
          destroyed_fibers := s.manager.fibers
          deleted_counters := s.manager.counters }

/-- Scene: sixteen workers. -/
def job_scene_sixteen : List Nat := [1, 2, 3, 4, 5, 6, 7, 8, 9, 10, 11, 12, 13, 14, 15, 16]

/-! ## Notions used to state the properties of the job system -/

/-- The counters that `new counter_t()` has returned so far. -/
def allocated_counters (log : List JobEvent) : List Nat :=
  log.filterMap fun e =>
    match e with
    | JobEvent.counter_new c _ => some c
    | _ => none

/-- Whether every mutation of the job queue in a log happens between a lock
and the next unlock of the mutex; `held` tells whether the mutex is held at
the start of the log. -/
def queue_mutations_locked (held : Bool) : List JobEvent → Bool
  | [] => true
  | JobEvent.mutex_lock :: rest => queue_mutations_locked true rest
  | JobEvent.mutex_unlock :: rest => queue_mutations_locked false rest
  | JobEvent.queue_push_back _ :: rest => held && queue_mutations_locked held rest
  | JobEvent.queue_pop_front _ :: rest => held && queue_mutations_locked held rest
  | _ :: rest => queue_mutations_locked held rest

/-- A dispatch call of each of the given workers in turn, each with the same
run of the job. -/
def dispatch_each (K : Nat) (run : job_run) : List Nat → JobSystem → Option JobSystem
  | [], s => some s
  | self :: rest, s =>
    match le_worker_thread_dispatch K s self run with
    | none => none
    | some s1 => dispatch_each K run rest s1

/-- Scene: a pool of 12 fibers. -/
def job_scene_pool : List Nat := [101, 102, 103, 104, 105, 106, 107, 108, 109, 110, 111, 112]

/-- Scene: a job manager with two workers, just created. -/
def job_scene_start : JobSystem := job_system_start job_scene_pool [1, 2] (fun f => f * 65536)

/-- Scene: one job was submitted, with counter 500. -/
def job_scene_queued : JobSystem :=
  (le_job_manager_run_jobs job_scene_start [{ fun_ptr := 7, fun_param := 8 }] 500 true).1

/-- Scene: worker 1 ran the job, which yielded; the worker is at line 306. -/
def job_scene_yielded : JobSystem :=
  (dispatch_begin 900 job_scene_queued 1 { outcome := JobOutcome.yields }).getD job_scene_queued

/-- Scene: a job manager with 13 workers, just created. -/
def job_scene_crowd_start : JobSystem :=
  job_system_start job_scene_pool [1, 2, 3, 4, 5, 6, 7, 8, 9, 10, 11, 12, 13]
    (fun f => f * 65536)

/-- Scene: 13 jobs were submitted with counter 500, and each of the workers 1
to 12 has made one dispatch call, in which its job yielded; every fiber of
the pool is active and one job is left in the queue. -/
def job_scene_crowd : JobSystem :=
  (dispatch_each 900 { outcome := JobOutcome.yields } [1, 2, 3, 4, 5, 6, 7, 8, 9, 10, 11, 12]
    (le_job_manager_run_jobs job_scene_crowd_start (List.replicate 13 { fun_ptr := 7 })
      500 true).1).getD job_scene_crowd_start

/-- Scene: 100 jobs were submitted with counter 500, and worker 1 has made
100 dispatch calls, in each of which the job returned. -/
def job_scene_hundred : JobSystem :=
  (dispatch_each 900 {} (List.replicate 100 1)
    (le_job_manager_run_jobs job_scene_start (List.replicate 100 {}) 500 true).1).getD
      job_scene_start

/-! ## The job system line by line

The threads of the job system are the worker threads, each in the loop of
`le_worker_thread_loop`, and one thread that calls `run_jobs` and
`wait_for_counter_and_free`. A state holds, besides the memory, the line that
each thread executes next, and a step is one thread executing that line, so
that every state which another thread can observe is a state of the system:
a step contains at most one access to memory that other threads access (an
operation on the mutex, a call of a member of the deque, an operation on an
atomic, `new` or `delete`), and the stores to `current_fiber` and
`job_complete` are steps of their own. The steps of the threads interleave in
any order; the atomics have the default, sequentially consistent ordering.
`run_jobs` pushes without the mutex; each call of a member of the deque is one
step, whichever thread makes it. `new` returns any address whose memory is
not allocated at that moment, so the address of a counter that was freed can
be returned again. What a job does between the switch to its fiber and its
yield or its return is given from outside, as a `job_run`, and is not tracked;
jobs do not call `run_jobs` or `wait_for_counter_and_free` themselves. The
field `in_dispatch` of the memory is not used here: the line of each thread
tells more. -/

/-- The line of `le_worker_thread_dispatch`, or of `fiber_exit`, that a
worker thread executes next, with the values of the locals `job` and `i`. -/
inductive WorkerPc where
  /-- Line 324: the thread is in its loop, about to call dispatch (line 250). -/
  | outside
  /-- Line 258: the thread holds the mutex and tests `job_queue.empty()`. -/
  | locked
  /-- Line 260: the queue was empty; the return in line 261 releases the mutex. -/
  | unlock_empty
  /-- Line 264: `job = job_queue.front()`. -/
  | at_front
  /-- Line 265: `job_queue.pop_front()`. -/
  | at_pop (job : le_job_o)
  /-- Line 266: the end of the block releases the mutex. -/
  | unlock (job : le_job_o)
  /-- Lines 272-275: the loop test and the compare-exchange on `fibers[ i ]`. -/
  | scan (job : le_job_o) (i : Nat)
  /-- Line 277: the compare-exchange on `fibers[ i ]` succeeded. -/
  | claimed (job : le_job_o) (i : Nat)
  /-- Line 292: `le_fiber_setup`. -/
  | setup (job : le_job_o)
  /-- Line 298: `asm_switch` to the current fiber. -/
  | switch
  /-- The thread runs the job on the fiber, up to line 221 of `fiber_exit`. -/
  | on_fiber
  /-- Line 224: `fiber->job_complete = 1`. -/
  | exit_flag
  /-- Line 226: `asm_switch` back to the worker. -/
  | exit_switch
  /-- Lines 306-309: control is back from the fiber. -/
  | check
  /-- Line 310: `self->current_fiber = nullptr`. -/
  | clear
  deriving DecidableEq, Repr, Inhabited

/-- The line of `le_job_manager_run_jobs` or of
`le_job_manager_wait_for_counter_and_free` that the calling thread executes
next, with the values of the parameters and locals. -/
inductive MainPc where
  /-- The thread is in neither function. -/
  | outside
  /-- Line 408: `new counter_t()` has returned `counter`. -/
  | run_store (counter : Nat) (jobs : List le_job_o)
  /-- Line 410: `counters.emplace_front`. -/
  | run_emplace (counter : Nat) (jobs : List le_job_o)
  /-- Lines 415-417: the loop over the jobs still to be pushed. -/
  | run_push (counter : Nat) (jobs : List le_job_o)
  /-- Line 394: the test of `counter->data` against the target value. -/
  | waiting (counter target_value : Nat)
  /-- Line 399: `counters.remove`. -/
  | removing (counter : Nat)
  /-- Line 402: `delete counter`. -/
  | deleting (counter : Nat)
  deriving DecidableEq, Repr, Inhabited

/-- The job system with its threads: the memory, the line each worker thread
executes next, the worker whose thread holds `job_queue_mutex` (0 when the
mutex is free), and the line the calling thread executes next. -/
structure JobThreads where
  system : JobSystem
  pc : Nat → WorkerPc
  mutex : Nat
  main : MainPc

/-- The state after a step of the thread of worker `self`: the memory and the
mutex afterwards and the line the thread executes next. -/
def worker_moves (s : JobThreads) (self : Nat) (system : JobSystem) (mutex : Nat)
    (pc : WorkerPc) : JobThreads :=
  { system := system
    pc := fun w => if w = self then pc else s.pc w
    mutex := mutex
    main := s.main }

/-- The state after a step of the calling thread. -/
def main_moves (s : JobThreads) (system : JobSystem) (main : MainPc) : JobThreads :=
  { system := system, pc := s.pc, mutex := s.mutex, main := main }

/-- Whether the memory of the counter at this address is allocated: from the
return of `new` in line 407 to the `delete` of line 402. Between the lines
410 and 399 the counter is in the list of the manager. -/
def counter_allocated (s : JobThreads) (counter : Nat) : Bool :=
  decide (counter ∈ s.system.manager.counters) ||
  (match s.main with
   | MainPc.run_store c _ => decide (c = counter)
   | MainPc.run_emplace c _ => decide (c = counter)
   | MainPc.deleting c => decide (c = counter)
   | _ => false)

/-- The workers registered in `static_worker_thread`. -/
def registered_workers (s : JobThreads) : List Nat :=
  s.system.static_worker_thread.filter (fun w => w != 0)

/-- One step of the thread of the worker at address `self`: the line of
`le_worker_thread_dispatch` or `fiber_exit` it executes next. The result is
`none` when the thread cannot take the step (the mutex is held), and when the
step is undefined: an index outside the pool, `front` or `pop_front` on an
empty queue, a failed assert in `le_fiber_yield`, a decrement of a counter
whose memory is not allocated. Of `run` the step uses what it needs. -/
def worker_step (asm_call_fiber_exit : Nat) (s : JobThreads) (self : Nat) (run : job_run) :
    Option JobThreads :=
  let sys := s.system
  let current_fiber := (sys.worker_heap self).current_fiber
  match s.pc self with
  | WorkerPc.outside =>
    -- line 250
    if current_fiber = 0 then
      -- line 256
      if s.mutex = 0 then
        some (worker_moves s self { sys with log := sys.log ++ [JobEvent.mutex_lock] } self
          WorkerPc.locked)
      else none
    else some (worker_moves s self sys s.mutex WorkerPc.switch)
  | WorkerPc.locked =>
    -- line 258
    if sys.manager.job_queue.isEmpty then
      some (worker_moves s self sys s.mutex WorkerPc.unlock_empty)
    else some (worker_moves s self sys s.mutex WorkerPc.at_front)
  | WorkerPc.unlock_empty =>
    -- lines 260-261
    some (worker_moves s self { sys with log := sys.log ++ [JobEvent.mutex_unlock] } 0
      WorkerPc.outside)
  | WorkerPc.at_front =>
    -- line 264
    match sys.manager.job_queue with
    | [] => none
    | job :: _ => some (worker_moves s self sys s.mutex (WorkerPc.at_pop job))
  | WorkerPc.at_pop job =>
    -- line 265
    match sys.manager.job_queue with
    | [] => none
    | front :: rest =>
      some (worker_moves s self
        { sys with
          manager := { sys.manager with job_queue := rest }
          log := sys.log ++ [JobEvent.queue_pop_front front] }
        s.mutex (WorkerPc.unlock job))
  | WorkerPc.unlock job =>
    -- line 266
    some (worker_moves s self { sys with log := sys.log ++ [JobEvent.mutex_unlock] } 0
      (WorkerPc.scan job 0))
  | WorkerPc.scan job i =>
    -- line 272
    if i = FIBER_POOL_SIZE then
      -- lines 282-285
      some (worker_moves s self
        { sys with log := sys.log ++ [JobEvent.no_fiber_available self job] } s.mutex
        WorkerPc.outside)
    else
      -- line 275
      match sys.manager.fibers[i]? with
      | none => none
      | some fiber =>
        if (sys.fiber_heap fiber).fiber_active = 0 then
          some (worker_moves s self
            { sys with
              fiber_heap := fun p =>
                if p = fiber then { sys.fiber_heap fiber with fiber_active := 1 }
                else sys.fiber_heap p }
            s.mutex (WorkerPc.claimed job i))
        else some (worker_moves s self sys s.mutex (WorkerPc.scan job (i + 1)))
  | WorkerPc.claimed job i =>
    -- line 277
    match sys.manager.fibers[i]? with
    | none => none
    | some fiber =>
      some (worker_moves s self
        { sys with
          worker_heap := fun w =>
            if w = self then { sys.worker_heap self with current_fiber := fiber }
            else sys.worker_heap w }
        s.mutex (WorkerPc.setup job))
  | WorkerPc.setup job =>
    -- line 292
    let setup := le_fiber_setup asm_call_fiber_exit self current_fiber
      (sys.fiber_heap current_fiber) job
    some (worker_moves s self
      { sys with
        fiber_heap := fun p => if p = current_fiber then setup.1 else sys.fiber_heap p }
      s.mutex WorkerPc.switch)
  | WorkerPc.switch =>
    -- line 298
    some (worker_moves s self
      { sys with
        worker_heap := fun w =>
          if w = self then
            { sys.worker_heap self with
              this_fiber := { (sys.worker_heap self).this_fiber with stack := run.host_stack } }
          else sys.worker_heap w
        log := sys.log ++ [JobEvent.switch_to_fiber self current_fiber] }
      s.mutex WorkerPc.on_fiber)
  | WorkerPc.on_fiber =>
    match run.outcome with
    | JobOutcome.yields =>
      -- lines 128-151
      match le_fiber_yield sys self run.fiber_stack with
      | none => none
      | some sys1 => some (worker_moves s self sys1 s.mutex WorkerPc.check)
    | JobOutcome.returns =>
      -- lines 218-222
      let counter := (sys.fiber_heap current_fiber).job_complete_counter
      let log1 := sys.log ++ [JobEvent.fiber_exit current_fiber counter]
      if counter ≠ 0 then
        if counter_allocated s counter then
          some (worker_moves s self
            { sys with
              counter_heap := fun c =>
                if c = counter then counter_decrement (sys.counter_heap counter)
                else sys.counter_heap c
              log := log1 }
            s.mutex WorkerPc.exit_flag)
        else none
      else some (worker_moves s self { sys with log := log1 } s.mutex WorkerPc.exit_flag)
  | WorkerPc.exit_flag =>
    -- line 224
    some (worker_moves s self
      { sys with
        fiber_heap := fun p =>
          if p = current_fiber then { sys.fiber_heap current_fiber with job_complete := 1 }
          else sys.fiber_heap p }
      s.mutex WorkerPc.exit_switch)
  | WorkerPc.exit_switch =>
    -- line 226
    some (worker_moves s self
      { sys with
        fiber_heap := fun p =>
          if p = current_fiber then { sys.fiber_heap current_fiber with stack := run.fiber_stack }
          else sys.fiber_heap p }
      s.mutex WorkerPc.check)
  | WorkerPc.check =>
    -- line 306
    if (sys.fiber_heap current_fiber).job_complete = 1 then
      -- line 309
      some (worker_moves s self
        { sys with
          fiber_heap := fun p =>
            if p = current_fiber then { sys.fiber_heap current_fiber with fiber_active := 0 }
            else sys.fiber_heap p }
        s.mutex WorkerPc.clear)
    else some (worker_moves s self sys s.mutex WorkerPc.outside)
  | WorkerPc.clear =>
    -- line 310
    some (worker_moves s self
      { sys with
        worker_heap := fun w =>
          if w = self then { sys.worker_heap self with current_fiber := 0 }
          else sys.worker_heap w }
      s.mutex WorkerPc.outside)

/-- One step of the calling thread inside `le_job_manager_run_jobs` or
`le_job_manager_wait_for_counter_and_free`: the line it executes next. The
result is `none` when the thread is in neither function, and when the test of
line 394 reads a counter whose memory is not allocated. A test of line 394
that finds another value than the target leaves the thread at line 394. The
store through `p_counter` in line 422 goes to memory of the caller. -/
def main_step (s : JobThreads) : Option JobThreads :=
  let sys := s.system
  match s.main with
  | MainPc.outside => none
  | MainPc.run_store counter jobs =>
    -- line 408
    some (main_moves s
      { sys with
        counter_heap := fun c => if c = counter then jobs.length else sys.counter_heap c
        log := sys.log ++ [JobEvent.counter_new counter jobs.length] }
      (MainPc.run_emplace counter jobs))
  | MainPc.run_emplace counter jobs =>
    -- line 410
    some (main_moves s
      { sys with manager := { sys.manager with counters := counter :: sys.manager.counters } }
      (MainPc.run_push counter jobs))
  | MainPc.run_push _ [] =>
    -- lines 415, 421-424
    some (main_moves s sys MainPc.outside)
  | MainPc.run_push counter (j :: rest) =>
    -- line 417
    let job : le_job_o :=
      { fun_ptr := j.fun_ptr, fun_param := j.fun_param, complete_counter := counter }
    some (main_moves s
      { sys with
        manager := { sys.manager with job_queue := sys.manager.job_queue ++ [job] }
        log := sys.log ++ [JobEvent.queue_push_back job] }
      (MainPc.run_push counter rest))
  | MainPc.waiting counter target_value =>
    -- line 394
    if counter_allocated s counter then
      if sys.counter_heap counter = target_value then
        some (main_moves s sys (MainPc.removing counter))
      else some s
    else none
  | MainPc.removing counter =>
    -- line 399
    some (main_moves s
      { sys with
        manager := { sys.manager with
          counters := sys.manager.counters.filter (fun c => c != counter) } }
      (MainPc.deleting counter))
  | MainPc.deleting counter =>
    -- line 402
    some (main_moves s { sys with log := sys.log ++ [JobEvent.counter_delete counter] }
      MainPc.outside)

/-- A step of one thread of the job system. -/
inductive ThreadStep where
  /-- The thread of the worker `self` executes its next line. -/
  | worker (self : Nat) (run : job_run)
  /-- The calling thread calls `le_job_manager_run_jobs` with the `num_jobs`
  entries `jobs` and executes line 407, where `new` returns `counter`. -/
  | run_jobs (jobs : List le_job_o) (counter : Nat)
  /-- The calling thread calls `le_job_manager_wait_for_counter_and_free`. -/
  | wait_for_counter_and_free (counter target_value : Nat)
  /-- The calling thread executes the next line of the function it is in. -/
  | main
  deriving DecidableEq, Repr, Inhabited

/-- A step of the job system. Only registered workers have threads; `new`
returns an address that is not null and whose memory is not allocated at that
moment, and the counter it constructs holds 0; `num_jobs` is a `uint32_t`. -/
def thread_step (asm_call_fiber_exit : Nat) (s : JobThreads) : ThreadStep → Option JobThreads
  | ThreadStep.worker self run =>
    if self ∈ registered_workers s then worker_step asm_call_fiber_exit s self run else none
  | ThreadStep.run_jobs jobs counter =>
    if s.main = MainPc.outside ∧ jobs.length < 2 ^ 32 ∧ counter ≠ 0 ∧
        counter_allocated s counter = false then
      -- line 407
      some (main_moves s
        { s.system with
          counter_heap := fun c => if c = counter then 0 else s.system.counter_heap c }
        (MainPc.run_store counter jobs))
    else none
  | ThreadStep.wait_for_counter_and_free counter target_value =>
    if s.main = MainPc.outside then some (main_moves s s.system (MainPc.waiting counter target_value))
    else none
  | ThreadStep.main => main_step s

/-- The steps of a list, one after the other. -/
def run_steps (asm_call_fiber_exit : Nat) : List ThreadStep → JobThreads → Option JobThreads
  | [], s => some s
  | step :: rest, s =>
    match thread_step asm_call_fiber_exit s step with
    | none => none
    | some s1 => run_steps asm_call_fiber_exit rest s1

/-- The job system with its threads when `le_job_manager_create` has
returned and every worker thread has stored its thread id and is in its loop. -/
def job_threads_start (fibers workers : List Nat) (stack_of : Nat → Nat) : JobThreads :=
  { system := job_system_start fibers workers stack_of
    pc := fun _ => WorkerPc.outside
    mutex := 0
    main := MainPc.outside }

/-- Whether a step is taken by a caller that passes only the target values
in `allowed` to `le_job_manager_wait_for_counter_and_free`. -/
def step_permitted (allowed : Nat → Bool) : ThreadStep → Bool
  | ThreadStep.wait_for_counter_and_free _ target_value => allowed target_value
  | _ => true

/-- The states of the job system that are reachable from its start by steps
of its threads, in any interleaving, with a caller that passes only the
target values in `allowed` to `le_job_manager_wait_for_counter_and_free`. -/
inductive Reachable (asm_call_fiber_exit : Nat) (allowed : Nat → Bool) : JobThreads → Prop where
  | start (fibers workers : List Nat) (stack_of : Nat → Nat) :
      fibers.length = FIBER_POOL_SIZE → fibers.Nodup → 0 ∉ fibers →
      workers.length ≤ MAX_WORKER_THREAD_COUNT → workers.Nodup → 0 ∉ workers →
      Reachable asm_call_fiber_exit allowed (job_threads_start fibers workers stack_of)
  | step (s s1 : JobThreads) (step : ThreadStep) :
      Reachable asm_call_fiber_exit allowed s → step_permitted allowed step = true →
      thread_step asm_call_fiber_exit s step = some s1 →
      Reachable asm_call_fiber_exit allowed s1

/-- Every target value. -/
def any_target : Nat → Bool := fun _ => true

/-- The fiber that a worker thread holds at a line, given the worker's
`current_fiber` and the pool; 0 when it holds none. -/
def held_of (pc : WorkerPc) (current_fiber : Nat) (fibers : List Nat) : Nat :=
  match pc with
  | WorkerPc.claimed _ i => fibers.getD i 0
  | WorkerPc.clear => 0
  | _ => current_fiber

/-- The fiber that a worker holds, 0 when it holds none: a worker holds a
fiber from its successful compare-exchange on the fiber's `fiber_active`
(line 275) until it stores 0 to `fiber_active` (line 309). Between the lines
275 and 277 the fiber is `fibers[ i ]`, from line 277 on it is the worker's
`current_fiber`. -/
def held_fiber (s : JobThreads) (w : Nat) : Nat :=
  held_of (s.pc w) (s.system.worker_heap w).current_fiber s.system.manager.fibers

/-- Whether a thread at this line holds `job_queue_mutex`. -/
def in_critical : WorkerPc → Bool
  | WorkerPc.locked => true
  | WorkerPc.unlock_empty => true
  | WorkerPc.at_front => true
  | WorkerPc.at_pop _ => true
  | WorkerPc.unlock _ => true
  | _ => false

/-- What the line of a worker thread tells about the worker's `current_fiber`
and about the `job_complete` of that fiber. -/
def pc_agrees (pc : WorkerPc) (current_fiber job_complete : Nat) (fibers : List Nat) : Prop :=
  match pc with
  | WorkerPc.outside => current_fiber ≠ 0 → job_complete ≠ 1
  | WorkerPc.claimed _ i => current_fiber = 0 ∧ i < fibers.length
  | WorkerPc.setup _ => current_fiber ≠ 0
  | WorkerPc.switch => current_fiber ≠ 0 ∧ job_complete ≠ 1
  | WorkerPc.on_fiber => current_fiber ≠ 0 ∧ job_complete ≠ 1
  | WorkerPc.exit_flag => current_fiber ≠ 0
  | WorkerPc.exit_switch => current_fiber ≠ 0 ∧ job_complete = 1
  | WorkerPc.check => current_fiber ≠ 0
  | WorkerPc.clear => current_fiber ≠ 0 ∧ current_fiber ∈ fibers
  | _ => current_fiber = 0

/-- What the line of a worker thread tells about the job queue. -/
def queue_agrees (pc : WorkerPc) (job_queue : List le_job_o) : Prop :=
  match pc with
  | WorkerPc.at_front => job_queue ≠ []
  | WorkerPc.at_pop job => job_queue.head? = some job
  | _ => True

/-- The invariant of the job system with its threads that relates the lines
of the worker threads to the memory. -/
structure ThreadsInv (s : JobThreads) : Prop where
  pool_nodup : s.system.manager.fibers.Nodup
  pool_nonzero : 0 ∉ s.system.manager.fibers
  workers_nodup : (registered_workers s).Nodup
  unregistered : ∀ w : Nat, w ∉ registered_workers s →
    s.pc w = WorkerPc.outside ∧ (s.system.worker_heap w).current_fiber = 0
  agrees : ∀ w : Nat, pc_agrees (s.pc w) (s.system.worker_heap w).current_fiber
    (s.system.fiber_heap (s.system.worker_heap w).current_fiber).job_complete
    s.system.manager.fibers
  held_active : ∀ w : Nat, held_fiber s w ≠ 0 →
    held_fiber s w ∈ s.system.manager.fibers ∧
    (s.system.fiber_heap (held_fiber s w)).fiber_active = 1
  active_held : ∀ f : Nat, f ∈ s.system.manager.fibers →
    (s.system.fiber_heap f).fiber_active = 0 ∨
    ((s.system.fiber_heap f).fiber_active = 1 ∧ ∃ w : Nat, held_fiber s w = f)
  held_unique : ∀ w1 w2 : Nat, held_fiber s w1 = held_fiber s w2 → held_fiber s w1 ≠ 0 → w1 = w2
  mutex_holder : ∀ w : Nat, in_critical (s.pc w) = true → s.mutex = w
  queue_front : ∀ w : Nat, queue_agrees (s.pc w) s.system.manager.job_queue

/-- Scene: the job system with two workers and its threads, just created. -/
def job_threads_scene : JobThreads :=
  job_threads_start job_scene_pool [1, 2] (fun f => f * 65536)

/-- The state of the scene after the steps of a trace; the scene itself when
a step of the trace cannot be taken. -/
def job_threads_after (trace : List ThreadStep) : JobThreads :=
  (run_steps 900 trace job_threads_scene).getD job_threads_scene

/-- Trace: `run_jobs` with two jobs and the counter at 500 runs to its end;
then worker 1 takes the first job, runs it to its return on fiber 101 and
executes line 309. -/
def job_trace_released : List ThreadStep :=
  [ThreadStep.run_jobs [{ fun_ptr := 7, fun_param := 8 }, { fun_ptr := 9, fun_param := 10 }] 500]
    ++ List.replicate 5 ThreadStep.main ++ List.replicate 13 (ThreadStep.worker 1 {})

/-- Trace: after `job_trace_released`, with worker 1 still before line 310,
worker 2 takes the second job, claims fiber 101 and executes line 277. -/
def job_trace_shared : List ThreadStep :=
  job_trace_released ++ List.replicate 7 (ThreadStep.worker 2 {})

/-- No target value: the caller never waits. -/
def no_target : Nat → Bool := fun _ => false

/-- What is compared of two memories of a scene: the manager, the worker
table, the counter at 500, the fibers of the pool, the workers and the log. -/
structure SceneMemory where
  manager : le_job_manager_o
  static_worker_thread : List Nat
  counter : Nat
  fibers : List le_fiber_o
  workers : List le_worker_thread_o
  log : List JobEvent
  deriving DecidableEq

/-- The part of a memory of a scene that is compared, with the given workers. -/
def job_memory (workers : List Nat) (s : JobSystem) : SceneMemory :=
  { manager := s.manager
    static_worker_thread := s.static_worker_thread
    counter := s.counter_heap 500
    fibers := job_scene_pool.map s.fiber_heap
    workers := workers.map s.worker_heap
    log := s.log }

/-- The job system with the given memory and every thread between two calls. -/
def job_threads_idle (system : JobSystem) : JobThreads :=
  { system := system, pc := fun _ => WorkerPc.outside, mutex := 0, main := MainPc.outside }

/-- The memory after the steps of a trace, taken from the given memory with
every thread between two calls; `none` when a step cannot be taken or a thread
is not between two calls at the end. -/
def memory_by_lines (trace : List ThreadStep) (workers : List Nat) (system : JobSystem) :
    Option JobSystem :=
  match run_steps 900 trace (job_threads_idle system) with
  | none => none
  | some s =>
    if s.main = MainPc.outside ∧ s.mutex = 0 ∧ workers.all (fun w => s.pc w == WorkerPc.outside)
    then some s.system else none

/-- The invariant of the parallel vectors of a pass that `PassInv` leaves
out: attachments and textures are stored one-to-one, and `readResources`,
`writeResources` and `textureInfoIds` hold no handle twice. -/
def PassVectorsInv (p : le_renderpass_o) : Prop :=
  p.imageAttachments.length = p.attachmentResources.length ∧
  p.textureInfoIds.length = p.textureInfos.length ∧
  p.readResources.Nodup ∧ p.writeResources.Nodup ∧ p.textureInfoIds.Nodup

/-- A table with a cycle and a self-reference: pass 0 depends on pass 1 and
pass 1 on pass 0; pass 2 depends on itself. -/
def depsCyclic : List (List Nat) := [[1], [0], [2]]

/-- An older writer overtakes the producer: A(writes X and S), B(writes X),
C(reads X, writes T), D(reads T and S, root). The resolver makes B the
producer of X for C. -/
def sceneOvertaken : List le_renderpass_o :=
  [mkPass [] ["X", "S"] 0, mkPass [] ["X"] 0, mkPass ["X"] ["T"] 0, mkPass ["T", "S"] [] 1]

/-! ## Theorems -/

theorem land_lor_ne_zero_left (a b m : Nat) (h : a &&& m ≠ 0) : (a ||| b) &&& m ≠ 0 := by
  obtain ⟨i, hi⟩ := Nat.ne_zero_implies_bit_true h
  intro h0
  have h1 : ((a ||| b) &&& m).testBit i = true := by
    rw [Nat.testBit_and] at hi ⊢
    rw [Nat.testBit_or]
    simp only [Bool.and_eq_true] at hi
    simp [hi.1, hi.2]
  rw [h0] at h1
  simp at h1

theorem resourceWillBeReadFrom_iff (K : le_renderer_h) (info : le_resource_info_t) :
    resourceWillBeReadFrom K info = true ↔ HasReadFlag K info := by
  unfold resourceWillBeReadFrom HasReadFlag
  cases h : info.type <;> simp [h]

theorem resourceWillBeWrittenTo_iff (K : le_renderer_h) (info : le_resource_info_t) :
    resourceWillBeWrittenTo K info = true ↔ HasWriteFlag K info := by
  unfold resourceWillBeWrittenTo HasWriteFlag
  cases h : info.type <;> simp [h]

theorem consolidate_read_mono (K : le_renderer_h) {s r c : le_resource_info_t}
    (h : consolidate s r = some c) (hs : resourceWillBeReadFrom K s = true) :
    resourceWillBeReadFrom K c = true := by
  unfold consolidate at h
  split at h
  · simp at h
  · rename_i hty
    simp only [ne_eq, not_not] at hty
    split at h
    · rename_i hb
      simp only [Option.some.injEq] at h
      subst h
      have hsb : s.type = LeResourceType.eBuffer := by rw [hty, hb]
      simp only [resourceWillBeReadFrom, hsb, bne_iff_ne, ne_eq] at hs ⊢
      exact land_lor_ne_zero_left _ _ _ hs
    · rename_i hi
      split at h
      · simp only [Option.some.injEq] at h
        subst h
        have hsb : s.type = LeResourceType.eImage := by rw [hty, hi]
        simp only [resourceWillBeReadFrom, hsb, bne_iff_ne, ne_eq] at hs ⊢
        exact land_lor_ne_zero_left _ _ _ hs
      · simp at h
    · simp only [Option.some.injEq] at h
      subst h
      exact hs

theorem consolidate_write_mono (K : le_renderer_h) {s r c : le_resource_info_t}
    (h : consolidate s r = some c) (hs : resourceWillBeWrittenTo K s = true) :
    resourceWillBeWrittenTo K c = true := by
  unfold consolidate at h
  split at h
  · simp at h
  · rename_i hty
    simp only [ne_eq, not_not] at hty
    split at h
    · rename_i hb
      simp only [Option.some.injEq] at h
      subst h
      have hsb : s.type = LeResourceType.eBuffer := by rw [hty, hb]
      simp only [resourceWillBeWrittenTo, hsb, bne_iff_ne, ne_eq] at hs ⊢
      exact land_lor_ne_zero_left _ _ _ hs
    · rename_i hi
      split at h
      · simp only [Option.some.injEq] at h
        subst h
        have hsb : s.type = LeResourceType.eImage := by rw [hty, hi]
        simp only [resourceWillBeWrittenTo, hsb, bne_iff_ne, ne_eq] at hs ⊢
        exact land_lor_ne_zero_left _ _ _ hs
      · simp at h
    · simp only [Option.some.injEq] at h
      subst h
      exact hs

/-- What `update_read_write` does to each field. -/
theorem update_read_write_spec (K : le_renderer_h) (s : le_renderpass_o)
    (h : le_resource_handle_t) (c : le_resource_info_t) :
    (update_read_write K s h c).readResources =
        (if resourceWillBeReadFrom K c = true ∧ h ∉ s.readResources
          then s.readResources ++ [h] else s.readResources) ∧
    (update_read_write K s h c).writeResources =
        (if resourceWillBeWrittenTo K c = true ∧ h ∉ s.writeResources
          then s.writeResources ++ [h] else s.writeResources) ∧
    (update_read_write K s h c) =
      { s with readResources := (update_read_write K s h c).readResources
               writeResources := (update_read_write K s h c).writeResources } := by
  unfold update_read_write vector_contains
  by_cases h1 : resourceWillBeReadFrom K c = true <;> by_cases h2 : h ∈ s.readResources <;>
    by_cases h3 : resourceWillBeWrittenTo K c = true <;> by_cases h4 : h ∈ s.writeResources <;>
    simp [h1, h2, h3, h4]

theorem mem_update_read (K : le_renderer_h) (s : le_renderpass_o)
    (h : le_resource_handle_t) (c : le_resource_info_t) (x : le_resource_handle_t) :
    x ∈ (update_read_write K s h c).readResources ↔
      x ∈ s.readResources ∨ (x = h ∧ resourceWillBeReadFrom K c = true) := by
  rw [(update_read_write_spec K s h c).1]
  by_cases h1 : resourceWillBeReadFrom K c = true <;> by_cases h2 : h ∈ s.readResources
  · simp only [h1, h2, not_true_eq_false, and_false, if_false, and_true]
    constructor
    · exact Or.inl
    · rintro (hx | hx)
      · exact hx
      · exact hx ▸ h2
  · simp [h1, h2]
  · simp [h1]
  · simp [h1]

theorem mem_update_write (K : le_renderer_h) (s : le_renderpass_o)
    (h : le_resource_handle_t) (c : le_resource_info_t) (x : le_resource_handle_t) :
    x ∈ (update_read_write K s h c).writeResources ↔
      x ∈ s.writeResources ∨ (x = h ∧ resourceWillBeWrittenTo K c = true) := by
  rw [(update_read_write_spec K s h c).2.1]
  by_cases h1 : resourceWillBeWrittenTo K c = true <;> by_cases h2 : h ∈ s.writeResources
  · simp only [h1, h2, not_true_eq_false, and_false, if_false, and_true]
    constructor
    · exact Or.inl
    · rintro (hx | hx)
      · exact hx
      · exact hx ▸ h2
  · simp [h1, h2]
  · simp [h1]
  · simp [h1]

theorem update_read_write_resources (K : le_renderer_h) (s : le_renderpass_o)
    (h : le_resource_handle_t) (c : le_resource_info_t) :
    (update_read_write K s h c).resources = s.resources ∧
    (update_read_write K s h c).resourceInfos = s.resourceInfos := by
  have h3 := (update_read_write_spec K s h c).2.2
  constructor
  · rw [h3]
  · rw [h3]

/-- The two ways `renderpass_use_resource` succeeds. -/
theorem use_resource_cases (K : le_renderer_h) {p p1 : le_renderpass_o}
    {h : le_resource_handle_t} {r : le_resource_info_t}
    (hu : renderpass_use_resource K p h r = some p1) :
    (h ∉ p.resources ∧
      p1 = update_read_write K
            { p with resources := p.resources ++ [h], resourceInfos := p.resourceInfos ++ [r] }
            h r) ∨
    (h ∈ p.resources ∧ ∃ s c, p.resourceInfos[p.resources.indexOf h]? = some s ∧
      consolidate s r = some c ∧
      p1 = update_read_write K
            { p with resourceInfos := p.resourceInfos.set (p.resources.indexOf h) c } h c) := by
  unfold renderpass_use_resource at hu
  split at hu
  · simp at hu
  · simp only at hu
    split at hu
    · rename_i hidx
      left
      refine ⟨?_, ?_⟩
      · intro hmem
        have := List.indexOf_lt_length.mpr hmem
        omega
      · simpa using hu.symm
    · rename_i hidx
      right
      refine ⟨?_, ?_⟩
      · by_contra hmem
        exact hidx (List.indexOf_eq_length.mpr hmem)
      · split at hu
        · simp at hu
        · rename_i s hs
          split at hu
          · simp at hu
          · rename_i c hc
            exact ⟨s, c, hs, hc, by simpa using hu.symm⟩

theorem use_resource_inv (K : le_renderer_h) {p p1 : le_renderpass_o}
    {h : le_resource_handle_t} {r : le_resource_info_t}
    (hinv : PassInv K p) (hu : renderpass_use_resource K p h r = some p1) : PassInv K p1 := by
  obtain ⟨hlen, hnd, hrd, hwr, hrw⟩ := hinv
  rcases use_resource_cases K hu with ⟨hnot, rfl⟩ | ⟨hmem, s, c, hs, hc, rfl⟩
  · -- new handle
    refine ⟨?_, ?_, ?_, ?_, ?_⟩
    · simp [(update_read_write_resources K _ h r).1, (update_read_write_resources K _ h r).2, hlen]
    · rw [(update_read_write_resources K _ h r).1]
      simp only
      rw [List.nodup_append]
      refine ⟨hnd, List.nodup_singleton _, ?_⟩
      intro a ha hb
      simp only [List.mem_singleton] at hb
      exact hnot (hb ▸ ha)
    · intro x hx
      rw [mem_update_read] at hx
      rw [(update_read_write_resources K _ h r).1]
      simp only [List.mem_append, List.mem_singleton]
      rcases hx with hx | ⟨hx, _⟩
      · exact Or.inl (hrd x hx)
      · exact Or.inr hx
    · intro x hx
      rw [mem_update_write] at hx
      rw [(update_read_write_resources K _ h r).1]
      simp only [List.mem_append, List.mem_singleton]
      rcases hx with hx | ⟨hx, _⟩
      · exact Or.inl (hwr x hx)
      · exact Or.inr hx
    · intro i x info hx hinfo
      rw [(update_read_write_resources K _ h r).1] at hx
      rw [(update_read_write_resources K _ h r).2] at hinfo
      simp only at hx hinfo
      rw [mem_update_read, mem_update_write]
      simp only
      by_cases hi : i < p.resources.length
      · rw [List.getElem?_append_left hi] at hx
        rw [List.getElem?_append_left (hlen ▸ hi)] at hinfo
        have hxm : x ∈ p.resources := List.mem_iff_getElem?.mpr ⟨i, hx⟩
        have hne : x ≠ h := fun e => hnot (e ▸ hxm)
        have := hrw i x info hx hinfo
        simp [hne, this]
      · have hi1 : p.resources.length ≤ i := Nat.le_of_not_lt hi
        rw [List.getElem?_append_right hi1] at hx
        rw [List.getElem?_append_right (hlen ▸ hi1)] at hinfo
        have h0 : i - p.resources.length = 0 := by
          by_contra hne
          rw [List.getElem?_eq_none (by simp; omega)] at hx
          simp at hx
        rw [h0] at hx
        rw [← hlen, h0] at hinfo
        simp only [List.getElem?_cons_zero, Option.some.injEq] at hx hinfo
        subst hx
        subst hinfo
        have h1 : h ∉ p.readResources := fun hm => hnot (hrd h hm)
        have h2 : h ∉ p.writeResources := fun hm => hnot (hwr h hm)
        simp [h1, h2]
  · -- known handle
    have hk : p.resources.indexOf h < p.resources.length := List.indexOf_lt_length.mpr hmem
    have hkh : p.resources[p.resources.indexOf h]? = some h := by
      rw [List.getElem?_eq_getElem hk]
      simp
    have hold := hrw _ h s hkh hs
    refine ⟨?_, ?_, ?_, ?_, ?_⟩
    · simp [(update_read_write_resources K _ h c).1, (update_read_write_resources K _ h c).2, hlen]
    · rw [(update_read_write_resources K _ h c).1]
      exact hnd
    · intro x hx
      rw [mem_update_read] at hx
      rw [(update_read_write_resources K _ h c).1]
      rcases hx with hx | ⟨hx, _⟩
      · exact hrd x hx
      · exact hx ▸ hmem
    · intro x hx
      rw [mem_update_write] at hx
      rw [(update_read_write_resources K _ h c).1]
      rcases hx with hx | ⟨hx, _⟩
      · exact hwr x hx
      · exact hx ▸ hmem
    · intro i x info hx hinfo
      rw [(update_read_write_resources K _ h c).1] at hx
      rw [(update_read_write_resources K _ h c).2] at hinfo
      simp only at hx hinfo
      rw [mem_update_read, mem_update_write]
      simp only
      by_cases hik : i = p.resources.indexOf h
      · subst hik
        rw [hkh] at hx
        simp only [Option.some.injEq] at hx
        subst hx
        rw [List.getElem?_set_self (hlen ▸ hk)] at hinfo
        simp only [Option.some.injEq] at hinfo
        subst hinfo
        have m1 := consolidate_read_mono K hc
        have m2 := consolidate_write_mono K hc
        constructor
        · constructor
          · rintro (hx | ⟨_, hx⟩)
            · exact m1 (hold.1.mp hx)
            · exact hx
          · intro hx
            exact Or.inr ⟨rfl, hx⟩
        · constructor
          · rintro (hx | ⟨_, hx⟩)
            · exact m2 (hold.2.mp hx)
            · exact hx
          · intro hx
            exact Or.inr ⟨rfl, hx⟩
      · rw [List.getElem?_set_ne (Ne.symm hik)] at hinfo
        have hne : x ≠ h := by
          intro e
          subst e
          have hi : i < p.resources.length := by
            by_contra hge
            rw [List.getElem?_eq_none (Nat.le_of_not_lt hge)] at hx
            simp at hx
          have e1 : p.resources[i] = x := by
            rw [List.getElem?_eq_getElem hi] at hx
            simpa using hx
          have e2 : p.resources[p.resources.indexOf x] = x := by simp
          exact hik ((List.Nodup.getElem_inj_iff hnd).mp (e1.trans e2.symm))
        have := hrw i x info hx hinfo
        simp [hne, this]

theorem create_inv (K : le_renderer_h) (name : String) (t : LeRenderPassType) :
    PassInv K (renderpass_create K name t) := by
  refine ⟨rfl, List.nodup_nil, ?_, ?_, ?_⟩
  · intro h hh
    simp [renderpass_create] at hh
  · intro h hh
    simp [renderpass_create] at hh
  · intro i h info hh
    simp [renderpass_create] at hh

theorem reachable_inv (K : le_renderer_h) {p : le_renderpass_o} (hp : PassReachable K p) :
    PassInv K p := by
  induction hp with
  | create name t => exact create_inv K name t
  | use_resource h r _ hu ih => exact use_resource_inv K ih hu
  | add_color_attachment h r a _ hu ih =>
    unfold renderpass_add_color_attachment at hu
    refine use_resource_inv K ?_ hu
    exact ih
  | add_depth_stencil_attachment h r a _ hu ih =>
    unfold renderpass_add_depth_stencil_attachment at hu
    refine use_resource_inv K ?_ hu
    exact ih
  | sample_texture h ti _ hu ih =>
    unfold renderpass_sample_texture at hu
    split at hu
    · simp only [Option.some.injEq] at hu
      exact hu ▸ ih
    · refine use_resource_inv K ?_ hu
      exact ih

/-- C1: in every pass state reachable from a fresh pass by use_resource,
add_color_attachment, add_depth_stencil_attachment and sample_texture calls
that trip no assertion, the resource at every index `i` is in `readResources`
exactly when its stored info has a read flag of its kind, and in
`writeResources` exactly when it has a write flag of its kind. -/
theorem C1_membership_matches_stored_usage (K : le_renderer_h) (p : le_renderpass_o)
    (hp : PassReachable K p) (i : Nat) (hi : i < p.resources.length) :
    ∃ info, p.resourceInfos[i]? = some info ∧
      (p.resources[i] ∈ p.readResources ↔ HasReadFlag K info) ∧
      (p.resources[i] ∈ p.writeResources ↔ HasWriteFlag K info) := by
  obtain ⟨hlen, _, _, _, hrw⟩ := reachable_inv K hp
  have hi2 : i < p.resourceInfos.length := hlen ▸ hi
  refine ⟨p.resourceInfos[i], List.getElem?_eq_getElem hi2, ?_⟩
  have := hrw i p.resources[i] p.resourceInfos[i] (List.getElem?_eq_getElem hi)
    (List.getElem?_eq_getElem hi2)
  rw [resourceWillBeReadFrom_iff, resourceWillBeWrittenTo_iff] at this
  exact this

theorem passSampledThenColor_reachable : PassReachable vkHeader passSampledThenColor :=
  PassReachable.add_color_attachment (mkHandle "img") { type := LeResourceType.eImage } {}
    (@PassReachable.use_resource vkHeader _
      { id := 1, debugName := "p", resources := [mkHandle "img"]
        resourceInfos := [{ type := LeResourceType.eImage, image := { usage := 0x4 } }]
        readResources := [mkHandle "img"] }
      (mkHandle "img")
      { type := LeResourceType.eImage, image := { usage := 0x4 } }
      (PassReachable.create "p" LeRenderPassType.LE_RENDER_PASS_TYPE_UNDEFINED)
      (by decide))
    (by decide)

theorem C1_membership_matches_stored_usage_witness :
    PassReachable vkHeader passSampledThenColor ∧
    ∃ info, passSampledThenColor.resourceInfos[0]? = some info ∧
      (passSampledThenColor.resources[0] ∈ passSampledThenColor.readResources ↔
        HasReadFlag vkHeader info) ∧
      (passSampledThenColor.resources[0] ∈ passSampledThenColor.writeResources ↔
        HasWriteFlag vkHeader info) :=
  ⟨passSampledThenColor_reachable,
   C1_membership_matches_stored_usage vkHeader passSampledThenColor
     passSampledThenColor_reachable 0 (by decide)⟩

/-- The successful run of `renderpass_use_resource` on a handle the pass does
not know. -/
theorem use_resource_new (K : le_renderer_h) (p : le_renderpass_o)
    (h : le_resource_handle_t) (r : le_resource_info_t)
    (hty : r.type = LeResourceType.eBuffer ∨ r.type = LeResourceType.eImage)
    (hnew : h ∉ p.resources) :
    renderpass_use_resource K p h r = some (update_read_write K
      { p with resources := p.resources ++ [h], resourceInfos := p.resourceInfos ++ [r] } h r) := by
  unfold renderpass_use_resource
  rw [if_neg (not_not.mpr hty)]
  simp only
  rw [if_pos (List.indexOf_eq_length.mpr hnew)]

/-- The successful run of `renderpass_use_resource` on a known handle. -/
theorem use_resource_known (K : le_renderer_h) (p : le_renderpass_o)
    (h : le_resource_handle_t) (r s c : le_resource_info_t)
    (hty : r.type = LeResourceType.eBuffer ∨ r.type = LeResourceType.eImage)
    (hmem : h ∈ p.resources) (hs : p.resourceInfos[p.resources.indexOf h]? = some s)
    (hc : consolidate s r = some c) :
    renderpass_use_resource K p h r = some (update_read_write K
      { p with resourceInfos := p.resourceInfos.set (p.resources.indexOf h) c } h c) := by
  unfold renderpass_use_resource
  rw [if_neg (not_not.mpr hty)]
  simp only
  have hk : p.resources.indexOf h < p.resources.length := List.indexOf_lt_length.mpr hmem
  rw [if_neg (Nat.ne_of_lt hk), hs]
  simp only [hc]

/-- C9: for a handle the pass does not know yet, use_resource (with an info of
kind buffer or image, as its first assertion demands) succeeds, appends the
handle to `resources` and the info, unmodified, to `resourceInfos`, so that all
earlier entries of both vectors are unchanged; when the two vectors had equal
length the new handle and the new info sit at the same index. -/
theorem C9_use_resource_appends_unknown_handle (K : le_renderer_h) (p : le_renderpass_o)
    (h : le_resource_handle_t) (r : le_resource_info_t)
    (hty : r.type = LeResourceType.eBuffer ∨ r.type = LeResourceType.eImage)
    (hnew : h ∉ p.resources) :
    ∃ p1, renderpass_use_resource K p h r = some p1 ∧
      p1.resources = p.resources ++ [h] ∧
      p1.resourceInfos = p.resourceInfos ++ [r] ∧
      (∀ j, j < p.resources.length → p1.resources[j]? = p.resources[j]?) ∧
      (∀ j, j < p.resourceInfos.length → p1.resourceInfos[j]? = p.resourceInfos[j]?) ∧
      (p.resources.length = p.resourceInfos.length →
        p1.resources[p.resources.length]? = some h ∧
        p1.resourceInfos[p.resources.length]? = some r) := by
  refine ⟨_, use_resource_new K p h r hty hnew, ?_⟩
  have e1 := (update_read_write_resources K
    { p with resources := p.resources ++ [h], resourceInfos := p.resourceInfos ++ [r] } h r).1
  have e2 := (update_read_write_resources K
    { p with resources := p.resources ++ [h], resourceInfos := p.resourceInfos ++ [r] } h r).2
  simp only at e1 e2
  refine ⟨e1, e2, ?_, ?_, ?_⟩
  · intro j hj
    rw [e1, List.getElem?_append_left hj]
  · intro j hj
    rw [e2, List.getElem?_append_left hj]
  · intro hlen
    constructor
    · rw [e1, List.getElem?_append_right (Nat.le_refl _)]
      simp
    · rw [e2, hlen, List.getElem?_append_right (Nat.le_refl _)]
      simp

theorem C9_use_resource_appends_unknown_handle_witness :
    ∃ p1, renderpass_use_resource vkHeader passOneImage (mkBuffer "buf")
        { type := LeResourceType.eBuffer, buffer := { size := 64, usage := 0x80 } } = some p1 ∧
      p1.resources = passOneImage.resources ++ [mkBuffer "buf"] ∧
      p1.resourceInfos = passOneImage.resourceInfos ++
        [{ type := LeResourceType.eBuffer, buffer := { size := 64, usage := 0x80 } }] ∧
      (∀ j, j < passOneImage.resources.length → p1.resources[j]? = passOneImage.resources[j]?) ∧
      (∀ j, j < passOneImage.resourceInfos.length →
        p1.resourceInfos[j]? = passOneImage.resourceInfos[j]?) ∧
      (passOneImage.resources.length = passOneImage.resourceInfos.length →
        p1.resources[passOneImage.resources.length]? = some (mkBuffer "buf") ∧
        p1.resourceInfos[passOneImage.resources.length]? =
          some { type := LeResourceType.eBuffer, buffer := { size := 64, usage := 0x80 } }) :=
  C9_use_resource_appends_unknown_handle vkHeader passOneImage (mkBuffer "buf")
    { type := LeResourceType.eBuffer, buffer := { size := 64, usage := 0x80 } }
    (Or.inl rfl) (by decide)

/-- C10: when a handle is known to the pass with a stored buffer info,
use_resource with a buffer info (sizes being 32-bit values) succeeds, sets the
stored size to the maximum of the stored and the incoming size and the stored
usage to the bitwise or of both usages, keeps the stored type, leaves
`resources` as it was and changes no other entry of `resourceInfos`. -/
theorem C10_use_resource_consolidates_buffer (K : le_renderer_h) (p : le_renderpass_o)
    (h : le_resource_handle_t) (r s : le_resource_info_t)
    (hmem : h ∈ p.resources)
    (hs : p.resourceInfos[p.resources.indexOf h]? = some s)
    (hsty : s.type = LeResourceType.eBuffer) (hrty : r.type = LeResourceType.eBuffer)
    (hs32 : s.buffer.size < 2 ^ 32) (hr32 : r.buffer.size < 2 ^ 32) :
    ∃ p1 info, renderpass_use_resource K p h r = some p1 ∧
      p1.resources = p.resources ∧
      p1.resourceInfos.length = p.resourceInfos.length ∧
      p1.resourceInfos[p.resources.indexOf h]? = some info ∧
      info.type = LeResourceType.eBuffer ∧
      info.buffer.size = max s.buffer.size r.buffer.size ∧
      info.buffer.usage = s.buffer.usage ||| r.buffer.usage ∧
      (∀ j, j ≠ p.resources.indexOf h → p1.resourceInfos[j]? = p.resourceInfos[j]?) := by
  obtain ⟨c, hcd⟩ : ∃ c : le_resource_info_t, c = { s with
      buffer := { size := max s.buffer.size r.buffer.size
                  usage := s.buffer.usage ||| r.buffer.usage } } := ⟨_, rfl⟩
  have hc : consolidate s r = some c := by
    unfold consolidate
    rw [if_neg (by rw [hsty, hrty]; simp)]
    simp only [hrty, max_uint32, Nat.mod_eq_of_lt hs32, Nat.mod_eq_of_lt hr32, hcd]
  have hk : p.resources.indexOf h < p.resourceInfos.length := by
    by_contra hge
    rw [List.getElem?_eq_none (Nat.le_of_not_lt hge)] at hs
    simp at hs
  refine ⟨_, c, use_resource_known K p h r s c (Or.inl hrty) hmem hs hc, ?_⟩
  have e1 := (update_read_write_resources K
    { p with resourceInfos := p.resourceInfos.set (p.resources.indexOf h) c } h c).1
  have e2 := (update_read_write_resources K
    { p with resourceInfos := p.resourceInfos.set (p.resources.indexOf h) c } h c).2
  simp only at e1 e2
  refine ⟨e1, ?_, ?_, ?_, ?_, ?_, ?_⟩
  · rw [e2, List.length_set]
  · rw [e2, List.getElem?_set_self hk]
  · rw [hcd]
    exact hsty
  · rw [hcd]
  · rw [hcd]
  · intro j hj
    rw [e2, List.getElem?_set_ne (Ne.symm hj)]

theorem C10_use_resource_consolidates_buffer_witness :
    ∃ p1 info, renderpass_use_resource vkHeader passBufferAndImage (mkBuffer "buf")
        { type := LeResourceType.eBuffer, buffer := { size := 256, usage := 0x40 } } = some p1 ∧
      p1.resources = passBufferAndImage.resources ∧
      p1.resourceInfos.length = passBufferAndImage.resourceInfos.length ∧
      p1.resourceInfos[passBufferAndImage.resources.indexOf (mkBuffer "buf")]? = some info ∧
      info.type = LeResourceType.eBuffer ∧
      info.buffer.size = max 64 256 ∧
      info.buffer.usage = 0x80 ||| 0x40 ∧
      (∀ j, j ≠ passBufferAndImage.resources.indexOf (mkBuffer "buf") →
        p1.resourceInfos[j]? = passBufferAndImage.resourceInfos[j]?) :=
  C10_use_resource_consolidates_buffer vkHeader passBufferAndImage (mkBuffer "buf")
    { type := LeResourceType.eBuffer, buffer := { size := 256, usage := 0x40 } }
    { type := LeResourceType.eBuffer, buffer := { size := 64, usage := 0x80 } }
    (by decide) (by decide) rfl rfl (by decide) (by decide)

theorem foldl_eq_filterMap {α β : Type} (table : α → Option β) (f : List β → α → List β)
    (h1 : ∀ acc r x, table r = some x → f acc r = acc ++ [x])
    (h2 : ∀ acc r, table r = none → f acc r = acc) (reads : List α) (acc : List β) :
    reads.foldl f acc = acc ++ reads.filterMap table := by
  induction reads generalizing acc with
  | nil => simp
  | cons r rs ih =>
    rw [List.foldl_cons, ih]
    cases h : table r with
    | none => simp [List.filterMap_cons, h, h2 acc r h]
    | some x => simp [List.filterMap_cons, h, h1 acc r x h]

theorem resolve_reads_eq (table : WriteAttachmentTable) (reads : List le_resource_handle_t) :
    resolve_reads table reads = reads.filterMap table := by
  unfold resolve_reads
  rw [foldl_eq_filterMap table _ (fun acc r x h => by simp [h]) (fun acc r h => by simp [h])]
  simp

theorem resolve_writes_apply (table : WriteAttachmentTable) (writes : List le_resource_handle_t)
    (idx : Nat) (r : le_resource_handle_t) :
    resolve_writes table writes idx r = if r ∈ writes then some idx else table r := by
  unfold resolve_writes
  induction writes generalizing table with
  | nil => simp
  | cons w ws ih =>
    rw [List.foldl_cons, ih]
    by_cases h1 : r ∈ ws
    · simp [h1]
    · by_cases h2 : r = w
      · simp [h2]
      · simp [h1, h2]

theorem lastWriterBefore_zero (passes : List le_renderpass_o) (r : le_resource_handle_t) :
    lastWriterBefore passes 0 r = none := by
  simp [lastWriterBefore]

theorem lastWriterBefore_succ (passes : List le_renderpass_o) (i : Nat)
    (r : le_resource_handle_t) :
    lastWriterBefore passes (i + 1) r =
      if r ∈ writesOf passes i then some i else lastWriterBefore passes i r := by
  unfold lastWriterBefore
  rw [List.range_succ, List.reverse_append, List.reverse_singleton, List.singleton_append,
    List.find?_cons]
  by_cases h : r ∈ writesOf passes i <;> simp [h]

/-- The defining property of `lastWriterBefore`. -/
theorem lastWriterBefore_eq_some_iff (passes : List le_renderpass_o) (i : Nat)
    (r : le_resource_handle_t) (j : Nat) :
    lastWriterBefore passes i r = some j ↔
      j < i ∧ r ∈ writesOf passes j ∧ ∀ k, j < k → k < i → r ∉ writesOf passes k := by
  induction i with
  | zero => simp [lastWriterBefore_zero]
  | succ i ih =>
    rw [lastWriterBefore_succ]
    by_cases h : r ∈ writesOf passes i
    · rw [if_pos h]
      constructor
      · intro e
        simp only [Option.some.injEq] at e
        subst e
        exact ⟨Nat.lt_succ_self _, h, fun k h1 h2 => absurd h2 (by omega)⟩
      · rintro ⟨h1, _, h3⟩
        by_cases e : j = i
        · rw [e]
        · exact absurd h (h3 i (by omega) (Nat.lt_succ_self _))
    · rw [if_neg h, ih]
      constructor
      · rintro ⟨h1, h2, h3⟩
        refine ⟨by omega, h2, fun k hk1 hk2 => ?_⟩
        by_cases e : k = i
        · rw [e]; exact h
        · exact h3 k hk1 (by omega)
      · rintro ⟨h1, h2, h3⟩
        have hne : j ≠ i := fun e => h (e ▸ h2)
        exact ⟨by omega, h2, fun k hk1 hk2 => h3 k hk1 (by omega)⟩

theorem lastWriterBefore_eq_none_iff (passes : List le_renderpass_o) (i : Nat)
    (r : le_resource_handle_t) :
    lastWriterBefore passes i r = none ↔ ∀ j, j < i → r ∉ writesOf passes j := by
  unfold lastWriterBefore
  simp

theorem resolve_loop_eq (passes pre rest : List le_renderpass_o) (table : WriteAttachmentTable)
    (acc : List (List Nat)) (hp : passes = pre ++ rest)
    (ht : ∀ r, table r = lastWriterBefore passes pre.length r)
    (ha : acc = expectedDependencies passes pre.length) :
    resolve_loop rest pre.length table acc = expectedDependencies passes passes.length := by
  induction rest generalizing pre table acc with
  | nil =>
    simp only [resolve_loop]
    rw [ha, hp]
    simp
  | cons pass rest ih =>
    simp only [resolve_loop]
    have hidx : passes[pre.length]? = some pass := by
      rw [hp, List.getElem?_append_right (Nat.le_refl _)]
      simp
    have h := ih (pre ++ [pass]) (resolve_writes table pass.writeResources pre.length)
      (acc ++ [resolve_reads table pass.readResources]) (by rw [hp]; simp) ?_ ?_
    · simpa using h
    · intro r
      rw [resolve_writes_apply, List.length_append, List.length_singleton, lastWriterBefore_succ]
      have : writesOf passes pre.length = pass.writeResources := by
        simp [writesOf, hidx]
      rw [this, ht]
    · rw [List.length_append, List.length_singleton, ha]
      unfold expectedDependencies
      rw [List.range_succ, List.map_append, List.map_singleton, resolve_reads_eq]
      have : readsOf passes pre.length = pass.readResources := by
        simp [readsOf, hidx]
      rw [this]
      congr 3
      funext r
      exact ht r

theorem resolve_eq_expected (passes : List le_renderpass_o) :
    rendergraph_resolve_resource_ids passes = expectedDependencies passes passes.length := by
  unfold rendergraph_resolve_resource_ids
  exact resolve_loop_eq passes [] passes (fun _ => none) [] rfl
    (fun r => (lastWriterBefore_zero passes r).symm) rfl

theorem resolve_length (passes : List le_renderpass_o) :
    (rendergraph_resolve_resource_ids passes).length = passes.length := by
  rw [resolve_eq_expected]
  simp [expectedDependencies]

theorem resolve_getElem? (passes : List le_renderpass_o) (i : Nat) (hi : i < passes.length) :
    (rendergraph_resolve_resource_ids passes)[i]? =
      some ((readsOf passes i).filterMap (lastWriterBefore passes i)) := by
  rw [resolve_eq_expected]
  unfold expectedDependencies
  rw [List.getElem?_map, List.getElem?_range hi]
  rfl

/-- Every entry of a dependency list is an earlier pass that is the last
writer of a resource the pass reads. -/
theorem resolve_mem (passes : List le_renderpass_o) (b a : Nat) (l : List Nat)
    (hl : (rendergraph_resolve_resource_ids passes)[b]? = some l) (ha : a ∈ l) :
    b < passes.length ∧ ∃ r, r ∈ readsOf passes b ∧ lastWriterBefore passes b r = some a := by
  have hb : b < passes.length := by
    by_contra hge
    rw [List.getElem?_eq_none (by rw [resolve_length]; omega)] at hl
    simp at hl
  rw [resolve_getElem? passes b hb] at hl
  simp only [Option.some.injEq] at hl
  subst hl
  rw [List.mem_filterMap] at ha
  exact ⟨hb, ha⟩

/-- C2: every index `a` that rendergraph_resolve_resource_ids puts in the
dependency list of pass `b` is smaller than `b`, and some resource is written
by pass `a`, read by pass `b` and written by no pass strictly between them. -/
theorem C2_dependency_is_earlier_last_writer (passes : List le_renderpass_o) (b a : Nat)
    (l : List Nat) (hl : (rendergraph_resolve_resource_ids passes)[b]? = some l) (ha : a ∈ l) :
    a < b ∧ b < passes.length ∧
      ∃ r, r ∈ writesOf passes a ∧ r ∈ readsOf passes b ∧
        ∀ k, a < k → k < b → r ∉ writesOf passes k := by
  obtain ⟨hb, r, hr, hw⟩ := resolve_mem passes b a l hl ha
  rw [lastWriterBefore_eq_some_iff] at hw
  exact ⟨hw.1, hb, r, hw.2.1, hr, hw.2.2⟩

theorem C2_dependency_is_earlier_last_writer_witness :
    1 < 2 ∧ 2 < sceneChain.length ∧
      ∃ r, r ∈ writesOf sceneChain 1 ∧ r ∈ readsOf sceneChain 2 ∧
        ∀ k, 1 < k → k < 2 → r ∉ writesOf sceneChain k :=
  C2_dependency_is_earlier_last_writer sceneChain 2 1 [1] (by decide) (by decide)

/-- C3: rendergraph_resolve_resource_ids returns one dependency list per pass,
and the list of pass `i` consists, for each `r` of the pass's read resources
in order, of the largest index `j < i` whose pass writes `r` when there is
one, and of nothing for `r` otherwise; with A(writes X), B(writes X),
C(reads X) the list of C is `[1]`, which is B alone. -/
theorem C3_dependency_list_is_last_writers (passes : List le_renderpass_o) (i : Nat)
    (hi : i < passes.length) :
    (rendergraph_resolve_resource_ids passes).length = passes.length ∧
    (rendergraph_resolve_resource_ids passes)[i]? =
      some (passes[i].readResources.filterMap (lastWriterBefore passes i)) ∧
    (∀ r j, lastWriterBefore passes i r = some j ↔
      j < i ∧ r ∈ writesOf passes j ∧ ∀ k, j < k → k < i → r ∉ writesOf passes k) ∧
    (∀ r, lastWriterBefore passes i r = none ↔ ∀ j, j < i → r ∉ writesOf passes j) ∧
    rendergraph_resolve_resource_ids sceneMultiWriter = [[], [], [1]] := by
  refine ⟨resolve_length passes, ?_, lastWriterBefore_eq_some_iff passes i,
    lastWriterBefore_eq_none_iff passes i, by decide⟩
  rw [resolve_getElem? passes i hi]
  simp [readsOf, List.getElem?_eq_getElem hi]

theorem C3_dependency_list_is_last_writers_witness :
    2 < sceneMultiWriter.length ∧
    (rendergraph_resolve_resource_ids sceneMultiWriter)[2]? = some [1] :=
  ⟨by decide,
   (C3_dependency_list_is_last_writers sceneMultiWriter 2 (by decide)).2.1.trans (by decide)⟩

theorem Joins.refl (so : List Nat) : Joins (fun _ _ => False) so so :=
  ⟨rfl, fun _ => ⟨Nat.le_refl _, fun _ h => h.elim, Or.inl rfl⟩⟩

theorem Joins.trans {V1 V2 : Nat → Nat → Prop} {so so1 so2 : List Nat}
    (h1 : Joins V1 so so1) (h2 : Joins V2 so1 so2) :
    Joins (fun i v => V1 i v ∨ V2 i v) so so2 := by
  refine ⟨h2.1.trans h1.1, fun i => ?_⟩
  obtain ⟨a1, b1, c1⟩ := h1.2 i
  obtain ⟨a2, b2, c2⟩ := h2.2 i
  refine ⟨Nat.le_trans a1 a2, ?_, ?_⟩
  · rintro v (hv | hv)
    · exact Nat.le_trans (b1 v hv) a2
    · exact b2 v hv
  · rcases c2 with c2 | c2
    · rcases c1 with c1 | c1
      · exact Or.inl (c2.trans c1)
      · exact Or.inr (Or.inl (c2 ▸ c1))
    · exact Or.inr (Or.inr c2)

theorem Joins.congr {V W : Nat → Nat → Prop} {so so1 : List Nat} (h : Joins V so so1)
    (hvw : ∀ i v, V i v ↔ W i v) : Joins W so so1 := by
  refine ⟨h.1, fun i => ?_⟩
  obtain ⟨a, b, c⟩ := h.2 i
  exact ⟨a, fun v hv => b v ((hvw i v).mpr hv), c.imp id (hvw i _).mp⟩

/-- Lines 505-509: storing the recursion depth when it exceeds the stored order. -/
theorem Joins.record (so : List Nat) (cur depth : Nat) (hcur : cur < so.length) :
    Joins (fun i v => i = cur ∧ v = depth) so
      (if so.getD cur 0 < depth then so.set cur depth else so) := by
  by_cases h : so.getD cur 0 < depth
  · rw [if_pos h]
    refine ⟨List.length_set _ _ _, fun i => ?_⟩
    by_cases hi : i = cur
    · subst hi
      have e : (so.set i depth).getD i 0 = depth := by
        simp [List.getD_eq_getElem?_getD, List.getElem?_set_self hcur]
      rw [e]
      exact ⟨Nat.le_of_lt h, fun v hv => Nat.le_of_eq hv.2, Or.inr ⟨rfl, rfl⟩⟩
    · have e : (so.set cur depth).getD i 0 = so.getD i 0 := by
        simp [List.getD_eq_getElem?_getD, List.getElem?_set_ne (Ne.symm hi)]
      rw [e]
      exact ⟨Nat.le_refl _, fun v hv => absurd hv.1 hi, Or.inl rfl⟩
  · rw [if_neg h]
    refine ⟨rfl, fun i => ⟨Nat.le_refl _, ?_, Or.inl rfl⟩⟩
    rintro v ⟨rfl, rfl⟩
    exact Nat.le_of_not_lt h

/-- A loop that joins `V s` for each `s` of a list joins all of them. -/
theorem foldlM_joins (f : List Nat → Nat → Option (List Nat)) (V : Nat → Nat → Nat → Prop)
    (n : Nat) (l : List Nat)
    (hf : ∀ s ∈ l, ∀ so : List Nat, so.length = n → ∃ so1, f so s = some so1 ∧ Joins (V s) so so1)
    (so : List Nat) (hso : so.length = n) :
    ∃ so1, l.foldlM f so = some so1 ∧ Joins (fun i v => ∃ s ∈ l, V s i v) so so1 := by
  induction l generalizing so with
  | nil =>
    refine ⟨so, rfl, ?_⟩
    exact (Joins.refl so).congr (fun i v => by simp)
  | cons a l ih =>
    obtain ⟨so1, h1, j1⟩ := hf a (List.mem_cons_self _ _) so hso
    obtain ⟨so2, h2, j2⟩ := ih (fun s hs => hf s (List.mem_cons_of_mem _ hs)) so1
      (j1.1.trans hso)
    refine ⟨so2, ?_, ?_⟩
    · rw [List.foldlM_cons, h1]
      exact h2
    · exact (j1.trans j2).congr (fun i v => by simp)

theorem Visits.iff (deps : List (List Nat)) (cur depth i v : Nat) :
    Visits deps cur depth i v ↔
      depth ≤ LE_rendergraph_RECURSION_DEPTH ∧
      ((cur < deps.length ∧ i = cur ∧ v = depth) ∨
        ∃ s ∈ deps.getD cur [], Visits deps s (depth + 1) i v) := by
  constructor
  · intro h
    cases h with
    | here _ _ hd hc => exact ⟨hd, Or.inl ⟨hc, rfl, rfl⟩⟩
    | step _ _ s _ _ hd hs hv => exact ⟨hd, Or.inr ⟨s, hs, hv⟩⟩
  · rintro ⟨hd, ⟨hc, rfl, rfl⟩ | ⟨s, hs, hv⟩⟩
    · exact Visits.here _ _ hd hc
    · exact Visits.step _ _ s _ _ hd hs hv

/-- The traversal never fails on a table whose entries are pass indices, and
raises every sort order to the largest depth at which it reaches the pass. -/
theorem traverse_joins (deps : List (List Nat))
    (hdeps : ∀ b a, a ∈ deps.getD b [] → a < deps.length) :
    ∀ (fuel cur depth : Nat) (so : List Nat), so.length = deps.length → cur < deps.length →
      0 < fuel → LE_rendergraph_RECURSION_DEPTH + 2 ≤ fuel + depth →
      ∃ so1, rendergraph_traverse_passes fuel deps cur depth so = some so1 ∧
        Joins (Visits deps cur depth) so so1 := by
  intro fuel
  induction fuel with
  | zero => intro cur depth so _ _ h0; exact absurd h0 (Nat.lt_irrefl 0)
  | succ fuel ih =>
    intro cur depth so hso hcur _ hfuel
    unfold rendergraph_traverse_passes
    by_cases hd : depth > LE_rendergraph_RECURSION_DEPTH
    · rw [if_pos hd]
      refine ⟨so, rfl, (Joins.refl so).congr (fun i v => ?_)⟩
      constructor
      · exact False.elim
      · intro h
        rw [Visits.iff] at h
        exact absurd h.1 (Nat.not_le_of_gt hd)
    · rw [if_neg hd]
      have hd1 : depth ≤ LE_rendergraph_RECURSION_DEPTH := Nat.le_of_not_lt hd
      have hcur1 : cur < so.length := hso ▸ hcur
      rw [List.getElem?_eq_getElem hcur1, List.getElem?_eq_getElem hcur]
      simp only
      have e0 : so[cur] = so.getD cur 0 := by
        simp [List.getD_eq_getElem?_getD, List.getElem?_eq_getElem hcur1]
      rw [e0]
      have j0 := Joins.record so cur depth hcur1
      have hsrcs : deps.getD cur [] = deps[cur] := by
        simp [List.getD_eq_getElem?_getD, List.getElem?_eq_getElem hcur]
      obtain ⟨so1, h1, j1⟩ := foldlM_joins
        (fun sort_order sourcePass =>
          rendergraph_traverse_passes fuel deps sourcePass (depth + 1) sort_order)
        (fun s => Visits deps s (depth + 1)) deps.length deps[cur]
        (fun s hs so2 hso2 =>
          ih s (depth + 1) so2 hso2 (hdeps cur s (hsrcs ▸ hs))
            (by unfold LE_rendergraph_RECURSION_DEPTH at hfuel hd1; omega)
            (by omega))
        _ (j0.1.trans hso)
      refine ⟨so1, h1, (j0.trans j1).congr (fun i v => ?_)⟩
      rw [Visits.iff deps cur depth i v, hsrcs]
      constructor
      · rintro (⟨rfl, rfl⟩ | h)
        · exact ⟨hd1, Or.inl ⟨hcur, rfl, rfl⟩⟩
        · exact ⟨hd1, Or.inr h⟩
      · rintro ⟨_, ⟨_, rfl, rfl⟩ | h⟩
        · exact Or.inl ⟨rfl, rfl⟩
        · exact Or.inr h

theorem find_root_loop_mem (rest : List le_renderpass_o) (i : Nat) (roots : List Nat) (r : Nat) :
    r ∈ find_root_loop rest i roots ↔
      r ∈ roots ∨ ∃ k pass, rest[k]? = some pass ∧ renderpass_get_is_root pass = true ∧
        r = i + k := by
  induction rest generalizing i roots with
  | nil => simp [find_root_loop]
  | cons p rest ih =>
    rw [find_root_loop, ih]
    constructor
    · rintro (h | ⟨k, pass, h1, h2, h3⟩)
      · by_cases hp : renderpass_get_is_root p = true
        · rw [if_pos hp] at h
          rcases List.mem_append.mp h with h | h
          · exact Or.inl h
          · exact Or.inr ⟨0, p, by simp, hp, by simpa using h⟩
        · rw [if_neg hp] at h
          exact Or.inl h
      · exact Or.inr ⟨k + 1, pass, by simpa using h1, h2, by omega⟩
    · rintro (h | ⟨k, pass, h1, h2, h3⟩)
      · left
        by_cases hp : renderpass_get_is_root p = true
        · rw [if_pos hp]; exact List.mem_append_left _ h
        · rw [if_neg hp]; exact h
      · cases k with
        | zero =>
          simp only [List.getElem?_cons_zero, Option.some.injEq] at h1
          subst h1
          left
          rw [if_pos h2]
          exact List.mem_append_right _ (by simp [h3])
        | succ k =>
          right
          exact ⟨k, pass, by simpa using h1, h2, by omega⟩

theorem mem_find_root_passes (passes : List le_renderpass_o) (r : Nat) :
    r ∈ rendergraph_find_root_passes passes ↔
      ∃ pass, passes[r]? = some pass ∧ renderpass_get_is_root pass = true := by
  unfold rendergraph_find_root_passes
  rw [find_root_loop_mem]
  constructor
  · rintro (h | ⟨k, pass, h1, h2, h3⟩)
    · simp at h
    · exact ⟨pass, by rw [h3, Nat.zero_add]; exact h1, h2⟩
  · rintro ⟨pass, h1, h2⟩
    exact Or.inr ⟨r, pass, h1, h2, by omega⟩

theorem getD_mem_getElem? {deps : List (List Nat)} {b a : Nat} (h : a ∈ deps.getD b []) :
    ∃ l, deps[b]? = some l ∧ a ∈ l := by
  rw [List.getD_eq_getElem?_getD] at h
  cases hb : deps[b]? with
  | none => rw [hb] at h; simp at h
  | some l => rw [hb] at h; exact ⟨l, rfl, h⟩

/-- Every dependency the resolver lists is an earlier pass. -/
theorem resolve_dep_lt (passes : List le_renderpass_o) (b a : Nat)
    (h : a ∈ (rendergraph_resolve_resource_ids passes).getD b []) :
    a < b ∧ b < passes.length := by
  obtain ⟨l, hl, ha⟩ := getD_mem_getElem? h
  obtain ⟨hb, r, _, hw⟩ := resolve_mem passes b a l hl ha
  rw [lastWriterBefore_eq_some_iff] at hw
  exact ⟨hw.1, hb⟩

theorem resolve_dep_in_range (passes : List le_renderpass_o) (b a : Nat)
    (h : a ∈ (rendergraph_resolve_resource_ids passes).getD b []) :
    a < (rendergraph_resolve_resource_ids passes).length := by
  rw [resolve_length]
  have := resolve_dep_lt passes b a h
  omega

/-- The traversal of all roots never fails, and the sort order of every pass
is the largest depth at which the traversal of some root reaches it. -/
theorem compute_sort_orders_joins (passes : List le_renderpass_o) :
    ∃ so, compute_sort_orders passes = some so ∧
      Joins (fun i v => ∃ r ∈ rendergraph_find_root_passes passes,
          Visits (rendergraph_resolve_resource_ids passes) r 1 i v)
        (List.replicate passes.length 0) so := by
  unfold compute_sort_orders
  simp only
  refine foldlM_joins _ (fun r => Visits (rendergraph_resolve_resource_ids passes) r 1)
    passes.length _ ?_ _ (List.length_replicate _ _)
  intro r hr so hso
  obtain ⟨pass, hp, _⟩ := (mem_find_root_passes passes r).mp hr
  have hr1 : r < passes.length := by
    by_contra hge
    rw [List.getElem?_eq_none (Nat.le_of_not_lt hge)] at hp
    simp at hp
  exact traverse_joins _ (resolve_dep_in_range passes) traverse_fuel r 1 so
    (by rw [resolve_length]; exact hso) (by rw [resolve_length]; exact hr1)
    (by decide) (by decide)

theorem Visits.path {deps : List (List Nat)} {cur depth i v : Nat}
    (h : Visits deps cur depth i v) :
    ∃ p : List Nat, isDepPath deps (cur :: p) = true ∧ (cur :: p).getLast? = some i ∧
      v = depth + p.length ∧ v ≤ LE_rendergraph_RECURSION_DEPTH := by
  induction h with
  | here cur depth hd hc => exact ⟨[], by simp [isDepPath, hc], rfl, rfl, hd⟩
  | step cur depth s i v hd hs _ ih =>
    obtain ⟨p, h1, h2, h3, h4⟩ := ih
    refine ⟨s :: p, ?_, ?_, ?_, h4⟩
    · rw [isDepPath, h1, decide_eq_true hs]
      rfl
    · rw [List.getLast?_cons_cons]
      exact h2
    · rw [h3, List.length_cons]
      omega

theorem Visits.of_path (deps : List (List Nat)) (p : List Nat) :
    ∀ (cur depth i : Nat), isDepPath deps (cur :: p) = true → (cur :: p).getLast? = some i →
      depth + p.length ≤ LE_rendergraph_RECURSION_DEPTH →
      Visits deps cur depth i (depth + p.length) := by
  induction p with
  | nil =>
    intro cur depth i h1 h2 h3
    simp only [isDepPath, decide_eq_true_eq] at h1
    simp only [List.getLast?_singleton, Option.some.injEq] at h2
    subst h2
    exact Visits.here _ _ h3 h1
  | cons s p ih =>
    intro cur depth i h1 h2 h3
    simp only [isDepPath, Bool.and_eq_true, decide_eq_true_eq] at h1
    rw [List.getLast?_cons_cons] at h2
    rw [List.length_cons] at h3 ⊢
    have := ih s (depth + 1) i h1.2 h2 (by omega)
    refine Visits.step _ _ s _ _ (by omega) h1.1 ?_
    have e : depth + (p.length + 1) = depth + 1 + p.length := by omega
    rw [e]
    exact this

/-- A dependency path of the resolver's table descends through the pass indices. -/
theorem depPath_length_le (passes : List le_renderpass_o) (p : List Nat) :
    ∀ cur, isDepPath (rendergraph_resolve_resource_ids passes) (cur :: p) = true →
      p.length ≤ cur ∧ cur < passes.length := by
  induction p with
  | nil =>
    intro cur h
    simp only [isDepPath, decide_eq_true_eq, resolve_length] at h
    exact ⟨Nat.zero_le _, h⟩
  | cons s p ih =>
    intro cur h
    simp only [isDepPath, Bool.and_eq_true, decide_eq_true_eq] at h
    have h1 := resolve_dep_lt passes cur s h.1
    have h2 := ih s h.2
    rw [List.length_cons]
    exact ⟨by omega, h1.2⟩

theorem depPath_length_le_passes (passes : List le_renderpass_o) (path : List Nat)
    (h : isDepPath (rendergraph_resolve_resource_ids passes) path = true) :
    path.length ≤ passes.length := by
  cases path with
  | nil => simp [isDepPath] at h
  | cons cur p =>
    have := depPath_length_le passes p cur h
    rw [List.length_cons]
    omega

theorem stable_sort_perm {T : Type} (comp : T → T → Bool) (l : List T) :
    (stable_sort comp l).Perm l :=
  List.perm_insertionSort _ l

theorem stable_sort_sorted {T : Type} (key : T → Nat) (l : List T) :
    (stable_sort (byDescendingKey key) l).Pairwise (fun a b => key b ≤ key a) := by
  unfold stable_sort
  haveI : IsTotal T (fun a b => byDescendingKey key b a = false) :=
    ⟨fun a b => by simp only [byDescendingKey, decide_eq_false_iff_not]; omega⟩
  haveI : IsTrans T (fun a b => byDescendingKey key b a = false) :=
    ⟨fun a b c => by simp only [byDescendingKey, decide_eq_false_iff_not]; omega⟩
  have h := List.sorted_insertionSort (fun a b => byDescendingKey key b a = false) l
  refine List.Pairwise.imp ?_ h
  intro a b hab
  simp only [byDescendingKey, decide_eq_false_iff_not] at hab
  omega

theorem stable_sort_filter_key {T : Type} (key : T → Nat) (l : List T) (k : Nat) :
    (stable_sort (byDescendingKey key) l).filter (fun p => key p == k) =
      l.filter (fun p => key p == k) := by
  have hsub : List.Sublist (l.filter (fun p => key p == k))
      (stable_sort (byDescendingKey key) l) := by
    unfold stable_sort
    refine List.sublist_insertionSort ?_ (List.filter_sublist l)
    refine List.pairwise_of_forall_mem_list ?_
    intro a ha b hb
    have ha1 := (List.mem_filter.mp ha).2
    have hb1 := (List.mem_filter.mp hb).2
    simp only [beq_iff_eq] at ha1 hb1
    simp only [byDescendingKey, decide_eq_false_iff_not]
    omega
  have hsub2 := hsub.filter (fun p => key p == k)
  rw [List.filter_filter] at hsub2
  simp only [Bool.and_self] at hsub2
  have hperm : ((stable_sort (byDescendingKey key) l).filter (fun p => key p == k)).Perm
      (l.filter (fun p => key p == k)) := (stable_sort_perm _ l).filter _
  exact (hsub2.eq_of_length hperm.length_eq.symm).symm

theorem indexOf_lt_of_sorted {T : Type} [DecidableEq T] (key : T → Nat) (l : List T)
    (hs : l.Pairwise (fun a b => key b ≤ key a)) (a b : T) (ha : a ∈ l) (hb : b ∈ l)
    (hab : key b < key a) : l.indexOf a < l.indexOf b := by
  induction l with
  | nil => simp at ha
  | cons x xs ih =>
    rw [List.pairwise_cons] at hs
    by_cases hax : a = x
    · subst hax
      have hba : a ≠ b := fun e => by rw [e] at hab; exact Nat.lt_irrefl _ hab
      rw [List.indexOf_cons_self, List.indexOf_cons_ne _ hba]
      exact Nat.succ_pos _
    · have ha1 : a ∈ xs := (List.mem_cons.mp ha).resolve_left hax
      by_cases hbx : b = x
      · subst hbx
        have := hs.1 a ha1
        omega
      · have hb1 : b ∈ xs := (List.mem_cons.mp hb).resolve_left hbx
        rw [List.indexOf_cons_ne _ (Ne.symm hax), List.indexOf_cons_ne _ (Ne.symm hbx)]
        exact Nat.succ_lt_succ (ih hs.2 ha1 hb1)

theorem store_sort_keys_spec (ps : List Nat) (hnd : ps.Nodup) :
    ∀ (heap : Heap) (ks : List Nat), ks.length = ps.length →
      (∀ i (hi : i < ps.length),
        store_sort_keys heap ps ks ps[i] = { heap ps[i] with sort_key := ks.getD i 0 }) ∧
      (∀ q, q ∉ ps → store_sort_keys heap ps ks q = heap q) := by
  induction ps with
  | nil =>
    intro heap ks _
    refine ⟨fun i hi => absurd hi (Nat.not_lt_zero _), fun q _ => ?_⟩
    cases ks <;> rfl
  | cons p ps ih =>
    intro heap ks hks
    cases ks with
    | nil => simp at hks
    | cons k ks =>
      rw [List.nodup_cons] at hnd
      simp only [List.length_cons, Nat.add_right_cancel_iff] at hks
      obtain ⟨h1, h2⟩ := ih hnd.2
        (fun q => if q = p then { heap p with sort_key := k } else heap q) ks hks
      simp only [store_sort_keys]
      constructor
      · intro i hi
        cases i with
        | zero =>
          simp only [List.getElem_cons_zero, List.getD_cons_zero]
          rw [h2 p hnd.1]
          simp
        | succ i =>
          simp only [List.getElem_cons_succ, List.getD_cons_succ]
          have hi1 : i < ps.length := by simpa using hi
          rw [h1 i hi1]
          have hne : ps[i] ≠ p := fun e => hnd.1 (e ▸ List.getElem_mem hi1)
          simp [hne]
      · intro q hq
        rw [List.mem_cons, not_or] at hq
        rw [h2 q hq.2]
        simp [hq.1]

theorem replicate_getD_zero (n i : Nat) : (List.replicate n 0).getD i 0 = 0 := by
  rw [List.getD_eq_getElem?_getD]
  by_cases h : i < n
  · rw [List.getElem?_eq_getElem (by simpa using h)]
    simp
  · rw [List.getElem?_eq_none (by simpa using h)]
    rfl

theorem isDepPath_cons_ne_nil {deps : List (List Nat)} {path : List Nat}
    (h : isDepPath deps path = true) : ∃ cur p, path = cur :: p := by
  cases path with
  | nil => simp [isDepPath] at h
  | cons cur p => exact ⟨cur, p, rfl⟩

/-- The sort orders that `rendergraph_build` computes, in terms of the
dependency paths that start at a root and have at most
`LE_rendergraph_RECURSION_DEPTH` passes. -/
theorem sort_orders_spec (passes : List le_renderpass_o) :
    ∃ so, compute_sort_orders passes = some so ∧ so.length = passes.length ∧
      ∀ i,
        (∀ path, IsRootPath passes path i → path.length ≤ LE_rendergraph_RECURSION_DEPTH →
          path.length ≤ so.getD i 0) ∧
        (so.getD i 0 = 0 ∨
          ∃ path, IsRootPath passes path i ∧ path.length = so.getD i 0 ∧
            path.length ≤ LE_rendergraph_RECURSION_DEPTH) := by
  obtain ⟨so, hso, hlen, hj⟩ := compute_sort_orders_joins passes
  refine ⟨so, hso, by simpa using hlen, fun i => ?_⟩
  obtain ⟨_, hb, hc⟩ := hj i
  constructor
  · rintro path ⟨h1, ⟨r, pass, h2, h3, h4⟩, h5⟩ hl
    obtain ⟨cur, p, rfl⟩ := isDepPath_cons_ne_nil h1
    simp only [List.head?_cons, Option.some.injEq] at h2
    subst h2
    have hv := Visits.of_path _ p cur 1 i h1 h5
      (by rw [List.length_cons] at hl; omega)
    have := hb _ ⟨cur, (mem_find_root_passes passes cur).mpr ⟨pass, h3, h4⟩, hv⟩
    rw [List.length_cons]
    omega
  · rcases hc with hc | ⟨r, hr, hv⟩
    · left
      rw [hc, replicate_getD_zero]
    · right
      obtain ⟨p, h1, h2, h3, h4⟩ := hv.path
      obtain ⟨pass, hp1, hp2⟩ := (mem_find_root_passes passes r).mp hr
      refine ⟨r :: p, ⟨h1, ⟨r, pass, rfl, hp1, hp2⟩, h2⟩, ?_, ?_⟩
      · rw [List.length_cons, h3]; omega
      · rw [List.length_cons]; omega

/-- A dependency path extended by a dependency of its last pass. -/
theorem isDepPath_append (deps : List (List Nat)) (a b : Nat) (hab : a ∈ deps.getD b [])
    (ha : a < deps.length) :
    ∀ path : List Nat, isDepPath deps path = true → path.getLast? = some b →
      isDepPath deps (path ++ [a]) = true := by
  intro path
  induction path with
  | nil => intro h; simp [isDepPath] at h
  | cons x xs ih =>
    intro h hl
    cases xs with
    | nil =>
      simp only [List.getLast?_singleton, Option.some.injEq] at hl
      subst hl
      simp only [List.singleton_append, isDepPath, Bool.and_eq_true, decide_eq_true_eq]
      exact ⟨hab, ha⟩
    | cons y ys =>
      simp only [isDepPath, Bool.and_eq_true, decide_eq_true_eq] at h
      rw [List.getLast?_cons_cons] at hl
      have := ih h.2 hl
      simp only [List.cons_append, isDepPath, Bool.and_eq_true, decide_eq_true_eq]
      exact ⟨h.1, this⟩

theorem IsRootPath.extend {passes : List le_renderpass_o} {path : List Nat} {a b : Nat}
    (h : IsRootPath passes path b)
    (hab : a ∈ (rendergraph_resolve_resource_ids passes).getD b []) :
    IsRootPath passes (path ++ [a]) a := by
  obtain ⟨h1, ⟨r, pass, h2, h3, h4⟩, h5⟩ := h
  refine ⟨isDepPath_append _ a b hab (resolve_dep_in_range passes b a hab) path h1 h5,
    ⟨r, pass, ?_, h3, h4⟩, by simp⟩
  obtain ⟨cur, p, rfl⟩ := isDepPath_cons_ne_nil h1
  simpa using h2

/-- A pass with sort order below the recursion limit has a smaller sort order
than each of its dependencies. -/
theorem sort_order_dep_gt (passes : List le_renderpass_o) (so : List Nat)
    (hso : compute_sort_orders passes = some so) (a b : Nat)
    (hab : a ∈ (rendergraph_resolve_resource_ids passes).getD b [])
    (h1 : 1 ≤ so.getD b 0) (h2 : so.getD b 0 < LE_rendergraph_RECURSION_DEPTH) :
    so.getD b 0 < so.getD a 0 := by
  obtain ⟨so1, hso1, _, hspec⟩ := sort_orders_spec passes
  rw [hso] at hso1
  simp only [Option.some.injEq] at hso1
  subst hso1
  rcases (hspec b).2 with h0 | ⟨path, hp, hl, _⟩
  · omega
  · have := (hspec a).1 (path ++ [a]) (hp.extend hab)
      (by rw [List.length_append, List.length_singleton]; omega)
    rw [List.length_append, List.length_singleton] at this
    omega

/-- What `rendergraph_build` returns for a graph of distinct pass pointers. -/
theorem build_spec (heap : Heap) (g : le_rendergraph_o) (hnd : g.passes.Nodup) :
    ∃ res so, rendergraph_build heap g = some res ∧
      compute_sort_orders (g.passes.map heap) = some so ∧
      so.length = g.passes.length ∧
      (∀ i p, g.passes[i]? = some p → res.heap p = { heap p with sort_key := so.getD i 0 }) ∧
      (∀ q, q ∉ g.passes → res.heap q = heap q) ∧
      res.graph.passes = stable_sort (byDescendingKey (fun p => (res.heap p).sort_key))
        (g.passes.filter (fun p => (res.heap p).sort_key != 0)) ∧
      res.destroyed = g.passes.filter (fun p => (res.heap p).sort_key == 0) := by
  obtain ⟨so, hso, hlen, _⟩ := sort_orders_spec (g.passes.map heap)
  rw [List.length_map] at hlen
  obtain ⟨hs1, hs2⟩ := store_sort_keys_spec g.passes hnd heap so hlen
  refine ⟨_, so, by unfold rendergraph_build; rw [hso], hso, hlen, ?_, hs2, rfl, rfl⟩
  intro i p hp
  have hi : i < g.passes.length := by
    by_contra hge
    rw [List.getElem?_eq_none (Nat.le_of_not_lt hge)] at hp
    simp at hp
  rw [List.getElem?_eq_getElem hi] at hp
  simp only [Option.some.injEq] at hp
  subst hp
  exact hs1 i hi

theorem getElem?_lt {α : Type} {l : List α} {i : Nat} {x : α} (h : l[i]? = some x) :
    i < l.length := by
  by_contra hge
  rw [List.getElem?_eq_none (Nat.le_of_not_lt hge)] at h
  simp at h

/-- Survivors of `rendergraph_build` are the submitted passes with a nonzero key. -/
theorem build_mem_passes (g : le_rendergraph_o) (res : BuildResult)
    (h : res.graph.passes = stable_sort (byDescendingKey (fun p => (res.heap p).sort_key))
        (g.passes.filter (fun p => (res.heap p).sort_key != 0))) (p : Nat) :
    p ∈ res.graph.passes ↔ p ∈ g.passes ∧ (res.heap p).sort_key ≠ 0 := by
  rw [h, (stable_sort_perm _ _).mem_iff, List.mem_filter]
  simp

/-- C4 (amended): after rendergraph_build of a graph of distinct passes, every
surviving pass whose sort key is below the recursion limit 20 has a sort key strictly smaller than the sort
key of every pass the resolver listed as its dependency. -/
theorem C4_dependency_has_larger_sort_key (heap : Heap) (g : le_rendergraph_o)
    (hnd : g.passes.Nodup) (b a pb pa : Nat)
    (hpb : g.passes[b]? = some pb) (hpa : g.passes[a]? = some pa)
    (hdep : a ∈ (rendergraph_resolve_resource_ids (g.passes.map heap)).getD b []) :
    ∃ res, rendergraph_build heap g = some res ∧
      (pb ∈ res.graph.passes → (res.heap pb).sort_key < LE_rendergraph_RECURSION_DEPTH →
        (res.heap pa).sort_key > (res.heap pb).sort_key) := by
  obtain ⟨res, so, hres, hso, _, hkey, _, hpasses, _⟩ := build_spec heap g hnd
  refine ⟨res, hres, fun hsurv hlt => ?_⟩
  have hb0 := ((build_mem_passes g res hpasses pb).mp hsurv).2
  rw [hkey b pb hpb] at hb0 hlt ⊢
  rw [hkey a pa hpa]
  simp only at hb0 hlt ⊢
  exact sort_order_dep_gt _ so hso a b hdep (Nat.pos_of_ne_zero hb0) hlt

theorem C4_dependency_has_larger_sort_key_witness :
    ∃ res, rendergraph_build (heapOf sceneDiamond) { passes := [0, 1, 2, 3] } = some res ∧
      (3 ∈ res.graph.passes → (res.heap 3).sort_key < LE_rendergraph_RECURSION_DEPTH →
        (res.heap 1).sort_key > (res.heap 3).sort_key) :=
  C4_dependency_has_larger_sort_key (heapOf sceneDiamond) { passes := [0, 1, 2, 3] }
    (by decide) 3 1 3 1 (by decide) (by decide) (by decide)

/-- C4 as stated fails on a chain of 21 passes whose last pass is the only
root: pass 1 survives the build with sort key 20, the resolver lists pass 0 as
its dependency, and the sort key of pass 0 (which stays 0) is not larger. -/
theorem C4_counterexample_chain_of_21 :
    ∃ res, rendergraph_build (heapOf (sceneLongChain 20)) { passes := List.range 21 }
        = some res ∧
      1 ∈ res.graph.passes ∧
      0 ∈ (rendergraph_resolve_resource_ids
            ((List.range 21).map (heapOf (sceneLongChain 20)))).getD 1 [] ∧
      (res.heap 1).sort_key = 20 ∧ (res.heap 0).sort_key = 0 ∧
      ¬ ((res.heap 0).sort_key > (res.heap 1).sort_key) := by
  have ev : (rendergraph_build (heapOf (sceneLongChain 20)) { passes := List.range 21 }).map
      (fun res => (decide (1 ∈ res.graph.passes), (res.heap 1).sort_key, (res.heap 0).sort_key))
      = some (true, 20, 0) := by decide
  cases hb : rendergraph_build (heapOf (sceneLongChain 20)) { passes := List.range 21 } with
  | none => rw [hb] at ev; simp at ev
  | some res =>
    rw [hb] at ev
    simp only [Option.map_some', Option.some.injEq, Prod.mk.injEq, decide_eq_true_eq] at ev
    refine ⟨res, rfl, ev.1, by decide, ev.2.1, ev.2.2, ?_⟩
    rw [ev.2.1, ev.2.2]
    decide

/-- A pass has a nonzero sort order exactly when a root reaches it along a
dependency path of at most `LE_rendergraph_RECURSION_DEPTH` passes. -/
theorem sort_order_ne_zero_iff (passes : List le_renderpass_o) (so : List Nat)
    (hso : compute_sort_orders passes = some so) (i : Nat) :
    so.getD i 0 ≠ 0 ↔
      ∃ path, IsRootPath passes path i ∧ path.length ≤ LE_rendergraph_RECURSION_DEPTH := by
  obtain ⟨so1, hso1, _, hspec⟩ := sort_orders_spec passes
  rw [hso] at hso1
  simp only [Option.some.injEq] at hso1
  subst hso1
  constructor
  · intro h
    rcases (hspec i).2 with h0 | ⟨path, hp, _, hl⟩
    · exact absurd h0 h
    · exact ⟨path, hp, hl⟩
  · rintro ⟨path, hp, hl⟩
    have h1 := (hspec i).1 path hp hl
    obtain ⟨cur, p, rfl⟩ := isDepPath_cons_ne_nil hp.1
    rw [List.length_cons] at h1
    omega

/-- C5 (amended): rendergraph_build of a graph of distinct passes keeps a pass
exactly when some root
reaches it along a dependency path of at most 20 passes (a root reaches
itself), and hands it to renderpass_destroy exactly when no root does; with
A(writes X), B(reads X, writes Y, not root), C(writes Z, root) only C is left
and A and B are destroyed. -/
theorem C5_pruned_iff_no_root_path (heap : Heap) (g : le_rendergraph_o)
    (hnd : g.passes.Nodup) (i p : Nat) (hp : g.passes[i]? = some p) :
    ∃ res, rendergraph_build heap g = some res ∧
      (p ∈ res.graph.passes ↔
        ∃ path, IsRootPath (g.passes.map heap) path i ∧
          path.length ≤ LE_rendergraph_RECURSION_DEPTH) ∧
      (p ∈ res.destroyed ↔
        ¬ ∃ path, IsRootPath (g.passes.map heap) path i ∧
          path.length ≤ LE_rendergraph_RECURSION_DEPTH) ∧
      (rendergraph_build (heapOf scenePruning) { passes := [0, 1, 2] }).map
        (fun r => (r.graph.passes, r.destroyed)) = some ([2], [0, 1]) := by
  obtain ⟨res, so, hres, hso, _, hkey, _, hpasses, hdestroyed⟩ := build_spec heap g hnd
  have hmem : p ∈ g.passes := List.getElem?_mem hp
  have hk : (res.heap p).sort_key = so.getD i 0 := by rw [hkey i p hp]
  refine ⟨res, hres, ?_, ?_, by decide⟩
  · rw [build_mem_passes g res hpasses p, hk, ← sort_order_ne_zero_iff _ so hso i]
    simp [hmem]
  · rw [hdestroyed, List.mem_filter, ← sort_order_ne_zero_iff _ so hso i, hk]
    simp [hmem]

theorem C5_pruned_iff_no_root_path_witness :
    ∃ res, rendergraph_build (heapOf sceneChain) { passes := [0, 1, 2] } = some res ∧
      (0 ∈ res.graph.passes ↔
        ∃ path, IsRootPath ([0, 1, 2].map (heapOf sceneChain)) path 0 ∧
          path.length ≤ LE_rendergraph_RECURSION_DEPTH) ∧
      (0 ∈ res.destroyed ↔
        ¬ ∃ path, IsRootPath ([0, 1, 2].map (heapOf sceneChain)) path 0 ∧
          path.length ≤ LE_rendergraph_RECURSION_DEPTH) ∧
      (rendergraph_build (heapOf scenePruning) { passes := [0, 1, 2] }).map
        (fun r => (r.graph.passes, r.destroyed)) = some ([2], [0, 1]) :=
  C5_pruned_iff_no_root_path (heapOf sceneChain) { passes := [0, 1, 2] } (by decide) 0 0
    (by decide)

/-- C5 as stated fails on a chain of 21 passes whose last pass is the only
root: the root reaches pass 0 along the dependency path 20, 19, ..., 0, yet the
build destroys pass 0 and leaves it out of the graph. -/
theorem C5_counterexample_chain_of_21 :
    ∃ res, rendergraph_build (heapOf (sceneLongChain 20)) { passes := List.range 21 }
        = some res ∧
      IsRootPath ((List.range 21).map (heapOf (sceneLongChain 20))) (List.range 21).reverse 0 ∧
      0 ∈ res.destroyed ∧ 0 ∉ res.graph.passes := by
  have ev : (rendergraph_build (heapOf (sceneLongChain 20)) { passes := List.range 21 }).map
      (fun res => (decide (0 ∈ res.destroyed), decide (0 ∉ res.graph.passes)))
      = some (true, true) := by decide
  cases hb : rendergraph_build (heapOf (sceneLongChain 20)) { passes := List.range 21 } with
  | none => rw [hb] at ev; simp at ev
  | some res =>
    rw [hb] at ev
    simp only [Option.map_some', Option.some.injEq, Prod.mk.injEq, decide_eq_true_eq] at ev
    refine ⟨res, rfl, ⟨by decide, ⟨20, heapOf (sceneLongChain 20) 20, by decide, by decide, by decide⟩,
        by decide⟩,
      ev.1, ev.2⟩

/-- C6: provided no dependency path that starts at a root has more than 20
passes, after rendergraph_build of a graph of distinct passes the sort key of
every submitted pass is the maximum number of passes on a dependency path from a root to it (no such path
is longer, and one has exactly that many passes), and it is 0 when there is no
such path; the chain A, B, C(root) gets keys 3, 2, 1 and the diamond A, B, C,
D(root) gets keys 3, 2, 2, 1. -/
theorem C6_sort_key_is_longest_root_path (heap : Heap) (g : le_rendergraph_o)
    (hnd : g.passes.Nodup)
    (hshort : ∀ path i, IsRootPath (g.passes.map heap) path i →
      path.length ≤ LE_rendergraph_RECURSION_DEPTH)
    (i p : Nat) (hp : g.passes[i]? = some p) :
    ∃ res, rendergraph_build heap g = some res ∧
      (∀ path, IsRootPath (g.passes.map heap) path i → path.length ≤ (res.heap p).sort_key) ∧
      ((∃ path, IsRootPath (g.passes.map heap) path i) →
        ∃ path, IsRootPath (g.passes.map heap) path i ∧
          path.length = (res.heap p).sort_key) ∧
      ((¬ ∃ path, IsRootPath (g.passes.map heap) path i) → (res.heap p).sort_key = 0) ∧
      (rendergraph_build (heapOf sceneChain) { passes := [0, 1, 2] }).map
        (fun r => [0, 1, 2].map (fun q => (r.heap q).sort_key)) = some [3, 2, 1] ∧
      (rendergraph_build (heapOf sceneDiamond) { passes := [0, 1, 2, 3] }).map
        (fun r => [0, 1, 2, 3].map (fun q => (r.heap q).sort_key)) = some [3, 2, 2, 1] := by
  obtain ⟨res, so, hres, hso, _, hkey, _, _, _⟩ := build_spec heap g hnd
  have hk : (res.heap p).sort_key = so.getD i 0 := by rw [hkey i p hp]
  obtain ⟨so1, hso1, _, hspec⟩ := sort_orders_spec (g.passes.map heap)
  rw [hso] at hso1
  simp only [Option.some.injEq] at hso1
  subst hso1
  refine ⟨res, hres, ?_, ?_, ?_, by decide, by decide⟩ <;> rw [hk]
  · intro path hpath
    exact (hspec i).1 path hpath (hshort path i hpath)
  · rintro ⟨path, hpath⟩
    rcases (hspec i).2 with h0 | ⟨path1, hp1, hl1, _⟩
    · have h1 := (hspec i).1 path hpath (hshort path i hpath)
      obtain ⟨cur, q, rfl⟩ := isDepPath_cons_ne_nil hpath.1
      rw [List.length_cons] at h1
      omega
    · exact ⟨path1, hp1, hl1⟩
  · intro hno
    rcases (hspec i).2 with h0 | ⟨path1, hp1, _, _⟩
    · exact h0
    · exact absurd ⟨path1, hp1⟩ hno

/-- In a graph of at most 20 passes no dependency path is longer than 20. -/
theorem short_of_length_le (passes : List le_renderpass_o)
    (hn : passes.length ≤ LE_rendergraph_RECURSION_DEPTH) (path : List Nat) (i : Nat)
    (h : IsRootPath passes path i) : path.length ≤ LE_rendergraph_RECURSION_DEPTH :=
  Nat.le_trans (depPath_length_le_passes passes path h.1) hn

theorem C6_sort_key_is_longest_root_path_witness :
    ∃ res, rendergraph_build (heapOf sceneDiamond) { passes := [0, 1, 2, 3] } = some res ∧
      (∀ path, IsRootPath ([0, 1, 2, 3].map (heapOf sceneDiamond)) path 0 →
        path.length ≤ (res.heap 0).sort_key) ∧
      ((∃ path, IsRootPath ([0, 1, 2, 3].map (heapOf sceneDiamond)) path 0) →
        ∃ path, IsRootPath ([0, 1, 2, 3].map (heapOf sceneDiamond)) path 0 ∧
          path.length = (res.heap 0).sort_key) ∧
      ((¬ ∃ path, IsRootPath ([0, 1, 2, 3].map (heapOf sceneDiamond)) path 0) →
        (res.heap 0).sort_key = 0) ∧
      (rendergraph_build (heapOf sceneChain) { passes := [0, 1, 2] }).map
        (fun r => [0, 1, 2].map (fun q => (r.heap q).sort_key)) = some [3, 2, 1] ∧
      (rendergraph_build (heapOf sceneDiamond) { passes := [0, 1, 2, 3] }).map
        (fun r => [0, 1, 2, 3].map (fun q => (r.heap q).sort_key)) = some [3, 2, 2, 1] :=
  C6_sort_key_is_longest_root_path (heapOf sceneDiamond) { passes := [0, 1, 2, 3] }
    (by decide) (short_of_length_le _ (by decide)) 0 0 (by decide)

/-- A root pass is a dependency path on its own. -/
theorem IsRootPath.single (passes : List le_renderpass_o) (i : Nat) (pass : le_renderpass_o)
    (hp : passes[i]? = some pass) (hroot : renderpass_get_is_root pass = true) :
    IsRootPath passes [i] i := by
  refine ⟨?_, ⟨i, pass, rfl, hp, hroot⟩, rfl⟩
  simp only [isDepPath, decide_eq_true_eq, resolve_length]
  exact getElem?_lt hp

/-- C7: after rendergraph_build of a graph of distinct passes the graph's pass
list is the submitted list
restricted to the passes with nonzero computed sort key, stably sorted by
descending sort key: it is a rearrangement of those passes, the keys never
increase along it, passes of equal key keep their submission order, every
survivor has key at least 1, and every root pass survives. -/
theorem C7_survivors_stably_sorted (heap : Heap) (g : le_rendergraph_o) (hnd : g.passes.Nodup) :
    ∃ res so, rendergraph_build heap g = some res ∧
      compute_sort_orders (g.passes.map heap) = some so ∧
      (∀ i p, g.passes[i]? = some p → (res.heap p).sort_key = so.getD i 0) ∧
      res.graph.passes.Perm (g.passes.filter (fun p => (res.heap p).sort_key != 0)) ∧
      res.graph.passes.Pairwise (fun a b => (res.heap b).sort_key ≤ (res.heap a).sort_key) ∧
      (∀ k, res.graph.passes.filter (fun p => (res.heap p).sort_key == k) =
        (g.passes.filter (fun p => (res.heap p).sort_key != 0)).filter
          (fun p => (res.heap p).sort_key == k)) ∧
      (∀ a b, List.Sublist [a, b] g.passes → a ∈ res.graph.passes → b ∈ res.graph.passes →
        (res.heap a).sort_key = (res.heap b).sort_key → List.Sublist [a, b] res.graph.passes) ∧
      (∀ p, p ∈ res.graph.passes → 1 ≤ (res.heap p).sort_key) ∧
      (∀ p, p ∈ g.passes → renderpass_get_is_root (heap p) = true → p ∈ res.graph.passes) := by
  obtain ⟨res, so, hres, hso, _, hkey, _, hpasses, _⟩ := build_spec heap g hnd
  have hmem := build_mem_passes g res hpasses
  refine ⟨res, so, hres, hso, ?_, ?_, ?_, ?_, ?_, ?_, ?_⟩
  · intro i p hp
    rw [hkey i p hp]
  · rw [hpasses]
    exact stable_sort_perm _ _
  · rw [hpasses]
    exact stable_sort_sorted (fun p => (res.heap p).sort_key) _
  · intro k
    rw [hpasses]
    exact stable_sort_filter_key (fun p => (res.heap p).sort_key) _ k
  · intro a b hsub ha hb hab
    have hf := hsub.filter (fun p => (res.heap p).sort_key != 0)
    have ha0 := ((hmem a).mp ha).2
    have hb0 := ((hmem b).mp hb).2
    have e : List.filter (fun p => (res.heap p).sort_key != 0) [a, b] = [a, b] := by
      simp [List.filter_cons, ha0, hb0]
    rw [e] at hf
    rw [hpasses]
    unfold stable_sort
    refine List.pair_sublist_insertionSort ?_ hf
    simp only [byDescendingKey, decide_eq_false_iff_not]
    omega
  · intro p hp
    exact Nat.pos_of_ne_zero ((hmem p).mp hp).2
  · intro p hp hroot
    obtain ⟨i, hi⟩ := List.mem_iff_getElem?.mp hp
    rw [hmem p, hkey i p hi]
    refine ⟨hp, ?_⟩
    have hpath : IsRootPath (g.passes.map heap) [i] i :=
      IsRootPath.single _ i (heap p) (by rw [List.getElem?_map, hi]; rfl) hroot
    exact (sort_order_ne_zero_iff _ so hso i).mpr
      ⟨[i], hpath, by unfold LE_rendergraph_RECURSION_DEPTH; simp⟩

theorem C7_survivors_stably_sorted_witness :
    ∃ res so, rendergraph_build (heapOf sceneDiamond) { passes := [0, 1, 2, 3] } = some res ∧
      compute_sort_orders ([0, 1, 2, 3].map (heapOf sceneDiamond)) = some so ∧
      (∀ i p, [0, 1, 2, 3][i]? = some p → (res.heap p).sort_key = so.getD i 0) ∧
      res.graph.passes.Perm ([0, 1, 2, 3].filter (fun p => (res.heap p).sort_key != 0)) ∧
      res.graph.passes.Pairwise (fun a b => (res.heap b).sort_key ≤ (res.heap a).sort_key) ∧
      (∀ k, res.graph.passes.filter (fun p => (res.heap p).sort_key == k) =
        ([0, 1, 2, 3].filter (fun p => (res.heap p).sort_key != 0)).filter
          (fun p => (res.heap p).sort_key == k)) ∧
      (∀ a b, List.Sublist [a, b] [0, 1, 2, 3] → a ∈ res.graph.passes →
        b ∈ res.graph.passes →
        (res.heap a).sort_key = (res.heap b).sort_key → List.Sublist [a, b] res.graph.passes) ∧
      (∀ p, p ∈ res.graph.passes → 1 ≤ (res.heap p).sort_key) ∧
      (∀ p, p ∈ [0, 1, 2, 3] → renderpass_get_is_root (heapOf sceneDiamond p) = true →
        p ∈ res.graph.passes) :=
  C7_survivors_stably_sorted (heapOf sceneDiamond) { passes := [0, 1, 2, 3] } (by decide)

/-- C8: provided no dependency path that starts at a root has more than 20
passes, every pass that survives rendergraph_build of a graph of distinct
passes has each of its dependencies in the built pass list too, at a strictly earlier position. -/
theorem C8_dependencies_placed_earlier (heap : Heap) (g : le_rendergraph_o)
    (hnd : g.passes.Nodup)
    (hshort : ∀ path i, IsRootPath (g.passes.map heap) path i →
      path.length ≤ LE_rendergraph_RECURSION_DEPTH)
    (b a pb pa : Nat) (hpb : g.passes[b]? = some pb) (hpa : g.passes[a]? = some pa)
    (hdep : a ∈ (rendergraph_resolve_resource_ids (g.passes.map heap)).getD b []) :
    ∃ res, rendergraph_build heap g = some res ∧
      (pb ∈ res.graph.passes →
        pa ∈ res.graph.passes ∧ res.graph.passes.indexOf pa < res.graph.passes.indexOf pb) := by
  obtain ⟨res, so, hres, hso, _, hkey, _, hpasses, _⟩ := build_spec heap g hnd
  have hmem := build_mem_passes g res hpasses
  refine ⟨res, hres, fun hsurv => ?_⟩
  have hb0 := ((hmem pb).mp hsurv).2
  have hkb : (res.heap pb).sort_key = so.getD b 0 := by rw [hkey b pb hpb]
  have hka : (res.heap pa).sort_key = so.getD a 0 := by rw [hkey a pa hpa]
  rw [hkb] at hb0
  obtain ⟨so1, hso1, _, hspec⟩ := sort_orders_spec (g.passes.map heap)
  rw [hso] at hso1
  simp only [Option.some.injEq] at hso1
  subst hso1
  have hlt : so.getD b 0 < LE_rendergraph_RECURSION_DEPTH := by
    rcases (hspec b).2 with h0 | ⟨path, hp, hl, _⟩
    · exact absurd h0 hb0
    · have := hshort (path ++ [a]) a (hp.extend hdep)
      rw [List.length_append, List.length_singleton] at this
      omega
  have hgt := sort_order_dep_gt _ so hso a b hdep (Nat.pos_of_ne_zero hb0) hlt
  have hsa : pa ∈ res.graph.passes := by
    rw [hmem pa, hka]
    exact ⟨List.getElem?_mem hpa, by omega⟩
  refine ⟨hsa, ?_⟩
  have hsorted : res.graph.passes.Pairwise
      (fun x y => (res.heap y).sort_key ≤ (res.heap x).sort_key) := by
    rw [hpasses]
    exact stable_sort_sorted (fun p => (res.heap p).sort_key) _
  exact indexOf_lt_of_sorted (fun p => (res.heap p).sort_key) _ hsorted pa pb hsa hsurv
    (by simp only; rw [hka, hkb]; exact hgt)

theorem C8_dependencies_placed_earlier_witness :
    ∃ res, rendergraph_build (heapOf sceneTwoPaths) { passes := [0, 1, 2] } = some res ∧
      (2 ∈ res.graph.passes →
        0 ∈ res.graph.passes ∧ res.graph.passes.indexOf 0 < res.graph.passes.indexOf 2) :=
  C8_dependencies_placed_earlier (heapOf sceneTwoPaths) { passes := [0, 1, 2] } (by decide)
    (short_of_length_le _ (by decide)) 2 0 2 0 (by decide) (by decide) (by decide)

/-- On a known handle `renderpass_use_resource` succeeds exactly when the
consolidation does. -/
theorem use_resource_known_eq (K : le_renderer_h) (p : le_renderpass_o)
    (h : le_resource_handle_t) (r s : le_resource_info_t)
    (hty : r.type = LeResourceType.eBuffer ∨ r.type = LeResourceType.eImage)
    (hmem : h ∈ p.resources) (hs : p.resourceInfos[p.resources.indexOf h]? = some s) :
    renderpass_use_resource K p h r =
      (consolidate s r).map (fun c => update_read_write K
        { p with resourceInfos := p.resourceInfos.set (p.resources.indexOf h) c } h c) := by
  cases hc : consolidate s r with
  | some c => rw [use_resource_known K p h r s c hty hmem hs hc]; rfl
  | none =>
    unfold renderpass_use_resource
    rw [if_neg (not_not.mpr hty)]
    simp only
    have hk : p.resources.indexOf h < p.resources.length := List.indexOf_lt_length.mpr hmem
    rw [if_neg (Nat.ne_of_lt hk), hs]
    simp only [hc]
    rfl

theorem consolidate_image (s r : le_resource_info_t) (hsty : s.type = LeResourceType.eImage)
    (hrty : r.type = LeResourceType.eImage) :
    consolidate s r =
      if ImageDescriptorsAgree s.image r.image then
        some { s with image := { s.image with usage := s.image.usage ||| r.image.usage } }
      else none := by
  unfold consolidate ImageDescriptorsAgree
  rw [if_neg (by rw [hsty, hrty]; simp)]
  simp only [hrty]

/-- C11: when a handle is known to the pass with a stored image info,
use_resource with an image info fails exactly when one of flags, imageType,
format, extent, mipLevels, arrayLayers, samples, tiling differs between the
stored and the incoming info; when it succeeds the stored info keeps those
eight fields (and its kind and buffer member), its usage becomes the bitwise
or of both usages, and no other entry of `resources` or `resourceInfos`
changes. -/
theorem C11_image_mismatch_fails (K : le_renderer_h) (p : le_renderpass_o)
    (h : le_resource_handle_t) (r s : le_resource_info_t)
    (hmem : h ∈ p.resources)
    (hs : p.resourceInfos[p.resources.indexOf h]? = some s)
    (hsty : s.type = LeResourceType.eImage) (hrty : r.type = LeResourceType.eImage) :
    (renderpass_use_resource K p h r = none ↔
      (s.image.flags ≠ r.image.flags ∨ s.image.imageType ≠ r.image.imageType ∨
       s.image.format ≠ r.image.format ∨ s.image.extent ≠ r.image.extent ∨
       s.image.mipLevels ≠ r.image.mipLevels ∨ s.image.arrayLayers ≠ r.image.arrayLayers ∨
       s.image.samples ≠ r.image.samples ∨ s.image.tiling ≠ r.image.tiling)) ∧
    (∀ p1, renderpass_use_resource K p h r = some p1 →
      p1.resources = p.resources ∧
      p1.resourceInfos[p.resources.indexOf h]? =
        some { s with image := { s.image with usage := s.image.usage ||| r.image.usage } } ∧
      (∀ j, j ≠ p.resources.indexOf h → p1.resourceInfos[j]? = p.resourceInfos[j]?)) := by
  have hk : p.resources.indexOf h < p.resourceInfos.length := getElem?_lt hs
  rw [use_resource_known_eq K p h r s (Or.inr hrty) hmem hs, consolidate_image s r hsty hrty]
  by_cases hall : ImageDescriptorsAgree s.image r.image
  · rw [if_pos hall]
    constructor
    · constructor
      · intro hnone
        simp at hnone
      · intro hdiff
        unfold ImageDescriptorsAgree at hall
        tauto
    · intro p1 hp1
      obtain ⟨c, hc⟩ : ∃ c : le_resource_info_t,
          c = { s with image := { s.image with usage := s.image.usage ||| r.image.usage } } :=
        ⟨_, rfl⟩
      rw [← hc] at hp1 ⊢
      simp only [Option.map_some', Option.some.injEq] at hp1
      subst hp1
      obtain ⟨e1, e2⟩ := update_read_write_resources K
        { p with resourceInfos := p.resourceInfos.set (p.resources.indexOf h) c } h c
      simp only at e1 e2
      refine ⟨e1, ?_, ?_⟩
      · rw [e2, List.getElem?_set_self hk]
      · intro j hj
        rw [e2, List.getElem?_set_ne (Ne.symm hj)]
  · rw [if_neg hall]
    constructor
    · constructor
      · intro _
        unfold ImageDescriptorsAgree at hall
        tauto
      · intro _
        rfl
    · intro p1 hp1
      simp at hp1

theorem C11_image_mismatch_fails_witness :
    (renderpass_use_resource vkHeader passImageFormat37 (mkHandle "img")
        { type := LeResourceType.eImage, image := { format := 44, usage := 0x10 } } = none ↔
      ((0 : Nat) ≠ 0 ∨ (0 : Nat) ≠ 0 ∨ (37 : Nat) ≠ 44 ∨ ({} : Extent3D) ≠ {} ∨
       (0 : Nat) ≠ 0 ∨ (0 : Nat) ≠ 0 ∨ (0 : Nat) ≠ 0 ∨ (0 : Nat) ≠ 0)) ∧
    renderpass_use_resource vkHeader passImageFormat37 (mkHandle "img")
        { type := LeResourceType.eImage, image := { format := 44, usage := 0x10 } } = none := by
  have h := (C11_image_mismatch_fails vkHeader passImageFormat37 (mkHandle "img")
    { type := LeResourceType.eImage, image := { format := 44, usage := 0x10 } }
    { type := LeResourceType.eImage, image := { format := 37, usage := 0x4 } }
    (by decide) (by decide) rfl rfl).1
  exact ⟨h, by decide⟩

theorem land_lor_ne_zero_right (a b m : Nat) (h : b &&& m ≠ 0) : (a ||| b) &&& m ≠ 0 := by
  rw [Nat.or_comm]
  exact land_lor_ne_zero_left b a m h

/-- A usage that has a bit of `x` has a bit of every mask that includes `x`. -/
theorem land_mask_ne_zero (u x m : Nat) (hu : u &&& x ≠ 0)
    (hsub : ∀ i, x.testBit i = true → m.testBit i = true) : u &&& m ≠ 0 := by
  obtain ⟨i, hi⟩ := Nat.ne_zero_implies_bit_true hu
  intro h0
  rw [Nat.testBit_and, Bool.and_eq_true] at hi
  have h1 : (u &&& m).testBit i = true := by
    rw [Nat.testBit_and, hi.1, hsub i hi.2]
    rfl
  rw [h0] at h1
  simp at h1

theorem image_read_mask_includes (K : le_renderer_h) (i : Nat) :
    (K.LE_IMAGE_USAGE_SAMPLED_BIT.testBit i = true → (ALL_IMAGE_READ_FLAGS K).testBit i = true) ∧
    (K.LE_IMAGE_USAGE_STORAGE_BIT.testBit i = true → (ALL_IMAGE_READ_FLAGS K).testBit i = true) ∧
    (K.LE_IMAGE_USAGE_COLOR_ATTACHMENT_BIT.testBit i = true →
      (ALL_IMAGE_READ_FLAGS K).testBit i = true) ∧
    (K.LE_IMAGE_USAGE_DEPTH_STENCIL_ATTACHMENT_BIT.testBit i = true →
      (ALL_IMAGE_READ_FLAGS K).testBit i = true) ∧
    (K.LE_IMAGE_USAGE_TRANSIENT_ATTACHMENT_BIT.testBit i = true →
      (ALL_IMAGE_READ_FLAGS K).testBit i = true) := by
  simp only [ALL_IMAGE_READ_FLAGS, Nat.testBit_or, Bool.or_eq_true]
  tauto

theorem image_write_mask_includes (K : le_renderer_h) (i : Nat) :
    (K.LE_IMAGE_USAGE_STORAGE_BIT.testBit i = true → (ALL_IMAGE_WRITE_FLAGS K).testBit i = true) ∧
    (K.LE_IMAGE_USAGE_COLOR_ATTACHMENT_BIT.testBit i = true →
      (ALL_IMAGE_WRITE_FLAGS K).testBit i = true) ∧
    (K.LE_IMAGE_USAGE_DEPTH_STENCIL_ATTACHMENT_BIT.testBit i = true →
      (ALL_IMAGE_WRITE_FLAGS K).testBit i = true) ∧
    (K.LE_IMAGE_USAGE_TRANSIENT_ATTACHMENT_BIT.testBit i = true →
      (ALL_IMAGE_WRITE_FLAGS K).testBit i = true) := by
  simp only [ALL_IMAGE_WRITE_FLAGS, Nat.testBit_or, Bool.or_eq_true]
  tauto

theorem buffer_write_mask_includes (K : le_renderer_h) (i : Nat) :
    (K.LE_BUFFER_USAGE_STORAGE_BUFFER_BIT.testBit i = true →
      (ALL_BUFFER_WRITE_FLAGS K).testBit i = true) ∧
    (K.LE_BUFFER_USAGE_STORAGE_TEXEL_BUFFER_BIT.testBit i = true →
      (ALL_BUFFER_WRITE_FLAGS K).testBit i = true) := by
  simp only [ALL_BUFFER_WRITE_FLAGS, Nat.testBit_or, Bool.or_eq_true]
  tauto

/-- The consolidated info has the kind of the incoming info. -/
theorem consolidate_type {s r c : le_resource_info_t} (h : consolidate s r = some c) :
    c.type = r.type ∧ s.type = r.type := by
  unfold consolidate at h
  split at h
  · simp at h
  · rename_i hty
    simp only [ne_eq, not_not] at hty
    split at h
    · simp only [Option.some.injEq] at h
      subst h
      exact ⟨hty, hty⟩
    · split at h
      · simp only [Option.some.injEq] at h
        subst h
        exact ⟨hty, hty⟩
      · simp at h
    · simp only [Option.some.injEq] at h
      subst h
      exact ⟨hty, hty⟩

/-- The usage of the consolidated info is the bitwise or of both usages. -/
theorem consolidate_usage {s r c : le_resource_info_t} (h : consolidate s r = some c) :
    (r.type = LeResourceType.eImage → c.image.usage = s.image.usage ||| r.image.usage) ∧
    (r.type = LeResourceType.eBuffer → c.buffer.usage = s.buffer.usage ||| r.buffer.usage) := by
  unfold consolidate at h
  split at h
  · simp at h
  · split at h
    · rename_i hb
      simp only [Option.some.injEq] at h
      subst h
      exact ⟨fun hi => (by rw [hb] at hi; cases hi), fun _ => rfl⟩
    · rename_i hi
      split at h
      · simp only [Option.some.injEq] at h
        subst h
        exact ⟨fun _ => rfl, fun hb => (by rw [hi] at hb; cases hb)⟩
      · simp at h
    · rename_i h1 h2
      exact ⟨fun hi => absurd hi h2, fun hb => absurd hb h1⟩

theorem consolidate_read_of_incoming (K : le_renderer_h) {s r c : le_resource_info_t}
    (h : consolidate s r = some c) (hr : resourceWillBeReadFrom K r = true) :
    resourceWillBeReadFrom K c = true := by
  have ht := (consolidate_type h).1
  have hu := consolidate_usage h
  unfold resourceWillBeReadFrom at hr ⊢
  rw [ht]
  cases hty : r.type <;> rw [hty] at hr <;> simp only [bne_iff_ne, ne_eq] at hr ⊢
  · rw [hu.2 hty]
    exact land_lor_ne_zero_right _ _ _ hr
  · rw [hu.1 hty]
    exact land_lor_ne_zero_right _ _ _ hr
  · exact absurd hr (by simp)
  · exact absurd hr (by simp)

theorem consolidate_write_of_incoming (K : le_renderer_h) {s r c : le_resource_info_t}
    (h : consolidate s r = some c) (hr : resourceWillBeWrittenTo K r = true) :
    resourceWillBeWrittenTo K c = true := by
  have ht := (consolidate_type h).1
  have hu := consolidate_usage h
  unfold resourceWillBeWrittenTo at hr ⊢
  rw [ht]
  cases hty : r.type <;> rw [hty] at hr <;> simp only [bne_iff_ne, ne_eq] at hr ⊢
  · rw [hu.2 hty]
    exact land_lor_ne_zero_right _ _ _ hr
  · rw [hu.1 hty]
    exact land_lor_ne_zero_right _ _ _ hr
  · exact absurd hr (by simp)
  · exact absurd hr (by simp)

/-- A declaration whose info has a read flag leaves the handle in `readResources`. -/
theorem use_resource_mem_read (K : le_renderer_h) {p p1 : le_renderpass_o}
    {h : le_resource_handle_t} {r : le_resource_info_t}
    (hu : renderpass_use_resource K p h r = some p1) (hr : resourceWillBeReadFrom K r = true) :
    h ∈ p1.readResources := by
  rcases use_resource_cases K hu with ⟨_, rfl⟩ | ⟨_, s, c, _, hc, rfl⟩
  · rw [mem_update_read]
    exact Or.inr ⟨rfl, hr⟩
  · rw [mem_update_read]
    exact Or.inr ⟨rfl, consolidate_read_of_incoming K hc hr⟩

/-- A declaration whose info has a write flag leaves the handle in `writeResources`. -/
theorem use_resource_mem_write (K : le_renderer_h) {p p1 : le_renderpass_o}
    {h : le_resource_handle_t} {r : le_resource_info_t}
    (hu : renderpass_use_resource K p h r = some p1) (hr : resourceWillBeWrittenTo K r = true) :
    h ∈ p1.writeResources := by
  rcases use_resource_cases K hu with ⟨_, rfl⟩ | ⟨_, s, c, _, hc, rfl⟩
  · rw [mem_update_write]
    exact Or.inr ⟨rfl, hr⟩
  · rw [mem_update_write]
    exact Or.inr ⟨rfl, consolidate_write_of_incoming K hc hr⟩

/-- C16 (amended): an image that a pass declares through use_resource with the
Storage, ColorAttachment, DepthStencilAttachment or TransientAttachment usage
bit set is afterwards in both `readResources` and `writeResources`; a buffer
declared with the StorageBuffer or StorageTexelBuffer usage bit set is
afterwards in `writeResources`. -/
theorem C16_storage_and_attachments_read_write (K : le_renderer_h) (p p1 : le_renderpass_o)
    (h : le_resource_handle_t) (r : le_resource_info_t)
    (hu : renderpass_use_resource K p h r = some p1) :
    (r.type = LeResourceType.eImage →
      (r.image.usage &&& K.LE_IMAGE_USAGE_STORAGE_BIT ≠ 0 ∨
       r.image.usage &&& K.LE_IMAGE_USAGE_COLOR_ATTACHMENT_BIT ≠ 0 ∨
       r.image.usage &&& K.LE_IMAGE_USAGE_DEPTH_STENCIL_ATTACHMENT_BIT ≠ 0 ∨
       r.image.usage &&& K.LE_IMAGE_USAGE_TRANSIENT_ATTACHMENT_BIT ≠ 0) →
      h ∈ p1.readResources ∧ h ∈ p1.writeResources) ∧
    (r.type = LeResourceType.eBuffer →
      (r.buffer.usage &&& K.LE_BUFFER_USAGE_STORAGE_BUFFER_BIT ≠ 0 ∨
       r.buffer.usage &&& K.LE_BUFFER_USAGE_STORAGE_TEXEL_BUFFER_BIT ≠ 0) →
      h ∈ p1.writeResources) := by
  constructor
  · intro hty hbit
    have hr : resourceWillBeReadFrom K r = true := by
      simp only [resourceWillBeReadFrom, hty, bne_iff_ne, ne_eq]
      rcases hbit with hb | hb | hb | hb
      · exact land_mask_ne_zero _ _ _ hb (fun i => (image_read_mask_includes K i).2.1)
      · exact land_mask_ne_zero _ _ _ hb (fun i => (image_read_mask_includes K i).2.2.1)
      · exact land_mask_ne_zero _ _ _ hb (fun i => (image_read_mask_includes K i).2.2.2.1)
      · exact land_mask_ne_zero _ _ _ hb (fun i => (image_read_mask_includes K i).2.2.2.2)
    have hw : resourceWillBeWrittenTo K r = true := by
      simp only [resourceWillBeWrittenTo, hty, bne_iff_ne, ne_eq]
      rcases hbit with hb | hb | hb | hb
      · exact land_mask_ne_zero _ _ _ hb (fun i => (image_write_mask_includes K i).1)
      · exact land_mask_ne_zero _ _ _ hb (fun i => (image_write_mask_includes K i).2.1)
      · exact land_mask_ne_zero _ _ _ hb (fun i => (image_write_mask_includes K i).2.2.1)
      · exact land_mask_ne_zero _ _ _ hb (fun i => (image_write_mask_includes K i).2.2.2)
    exact ⟨use_resource_mem_read K hu hr, use_resource_mem_write K hu hw⟩
  · intro hty hbit
    have hw : resourceWillBeWrittenTo K r = true := by
      simp only [resourceWillBeWrittenTo, hty, bne_iff_ne, ne_eq]
      rcases hbit with hb | hb
      · exact land_mask_ne_zero _ _ _ hb (fun i => (buffer_write_mask_includes K i).1)
      · exact land_mask_ne_zero _ _ _ hb (fun i => (buffer_write_mask_includes K i).2)
    exact use_resource_mem_write K hu hw

theorem C16_storage_and_attachments_read_write_witness :
    mkHandle "img" ∈ passStorageImage.readResources ∧
    mkHandle "img" ∈ passStorageImage.writeResources :=
  (C16_storage_and_attachments_read_write vkHeader passFresh passStorageImage (mkHandle "img")
    { type := LeResourceType.eImage, image := { usage := 0x8 } } (by decide)).1 rfl
    (Or.inl (by decide))

/-- C16 as stated fails for buffers: a buffer declared on a fresh pass with
only the StorageBuffer usage bit (0x20) ends up in `writeResources` and not in
`readResources`, because no storage bit is part of `ALL_BUFFER_READ_FLAGS`. -/
theorem C16_counterexample_storage_buffer :
    ∃ p1, renderpass_use_resource vkHeader passFresh (mkBuffer "buf")
        { type := LeResourceType.eBuffer, buffer := { size := 64, usage := 0x20 } } = some p1 ∧
      (0x20 : Nat) &&& vkHeader.LE_BUFFER_USAGE_STORAGE_BUFFER_BIT ≠ 0 ∧
      mkBuffer "buf" ∈ p1.writeResources ∧ mkBuffer "buf" ∉ p1.readResources :=
  ⟨{ passFresh with
      resources := [mkBuffer "buf"]
      resourceInfos := [{ type := LeResourceType.eBuffer, buffer := { size := 64, usage := 0x20 } }]
      writeResources := [mkBuffer "buf"] },
    by decide, by decide, by decide, by decide⟩

/-- C17: on a fresh pass, use_resource with an image or buffer info whose
usage is 0 succeeds and records the handle and its info, and leaves
`readResources` and `writeResources` empty. -/
theorem C17_zero_usage_neither_read_nor_written (K : le_renderer_h) (renderpass_name : String)
    (type_ : LeRenderPassType) (h : le_resource_handle_t) (r : le_resource_info_t)
    (hzero : (r.type = LeResourceType.eImage ∧ r.image.usage = 0) ∨
      (r.type = LeResourceType.eBuffer ∧ r.buffer.usage = 0)) :
    ∃ p1, renderpass_use_resource K (renderpass_create K renderpass_name type_) h r = some p1 ∧
      p1.resources = [h] ∧ p1.resourceInfos = [r] ∧
      p1.readResources = [] ∧ p1.writeResources = [] := by
  have hty : r.type = LeResourceType.eBuffer ∨ r.type = LeResourceType.eImage := by
    rcases hzero with hz | hz
    · exact Or.inr hz.1
    · exact Or.inl hz.1
  have hr : resourceWillBeReadFrom K r = false := by
    rcases hzero with hz | hz <;> simp [resourceWillBeReadFrom, hz.1, hz.2]
  have hw : resourceWillBeWrittenTo K r = false := by
    rcases hzero with hz | hz <;> simp [resourceWillBeWrittenTo, hz.1, hz.2]
  refine ⟨_, use_resource_new K _ h r hty (by simp [renderpass_create]), ?_⟩
  obtain ⟨e1, e2, _⟩ := update_read_write_spec K
    { renderpass_create K renderpass_name type_ with
      resources := (renderpass_create K renderpass_name type_).resources ++ [h]
      resourceInfos := (renderpass_create K renderpass_name type_).resourceInfos ++ [r] } h r
  obtain ⟨e3, e4⟩ := update_read_write_resources K
    { renderpass_create K renderpass_name type_ with
      resources := (renderpass_create K renderpass_name type_).resources ++ [h]
      resourceInfos := (renderpass_create K renderpass_name type_).resourceInfos ++ [r] } h r
  refine ⟨?_, ?_, ?_, ?_⟩
  · rw [e3]; rfl
  · rw [e4]; rfl
  · rw [e1, hr]; rfl
  · rw [e2, hw]; rfl

theorem C17_zero_usage_neither_read_nor_written_witness :
    ∃ p1, renderpass_use_resource vkHeader
        (renderpass_create vkHeader "p" LeRenderPassType.LE_RENDER_PASS_TYPE_DRAW)
        (mkBuffer "buf") { type := LeResourceType.eBuffer, buffer := { size := 16 } } = some p1 ∧
      p1.resources = [mkBuffer "buf"] ∧
      p1.resourceInfos = [{ type := LeResourceType.eBuffer, buffer := { size := 16 } }] ∧
      p1.readResources = [] ∧ p1.writeResources = [] :=
  C17_zero_usage_neither_read_nor_written vkHeader "p"
    LeRenderPassType.LE_RENDER_PASS_TYPE_DRAW (mkBuffer "buf")
    { type := LeResourceType.eBuffer, buffer := { size := 16 } } (Or.inr ⟨rfl, rfl⟩)

/-- C14: sample_texture with a texture id that the pass already holds in
`textureInfoIds` returns the pass unchanged, whatever texture info is passed;
and after any sample_texture call that succeeded, a second call with the same
id (and any texture info) returns the very same pass state. -/
theorem C14_sample_texture_idempotent (K : le_renderer_h) (p : le_renderpass_o)
    (texture : le_resource_handle_t) :
    (∀ textureInfo, texture ∈ p.textureInfoIds →
      renderpass_sample_texture K p texture textureInfo = some p) ∧
    (∀ textureInfo textureInfo2 p1, renderpass_sample_texture K p texture textureInfo = some p1 →
      renderpass_sample_texture K p1 texture textureInfo2 = some p1) := by
  have hfirst : ∀ (q : le_renderpass_o) ti, texture ∈ q.textureInfoIds →
      renderpass_sample_texture K q texture ti = some q := by
    intro q ti hmem
    unfold renderpass_sample_texture vector_contains
    rw [if_pos (by simpa using hmem)]
  refine ⟨hfirst p, ?_⟩
  intro ti ti2 p1 h1
  apply hfirst
  by_cases hmem : texture ∈ p.textureInfoIds
  · rw [hfirst p ti hmem] at h1
    simp only [Option.some.injEq] at h1
    exact h1 ▸ hmem
  · unfold renderpass_sample_texture vector_contains at h1
    rw [if_neg (by simpa using hmem)] at h1
    simp only at h1
    rcases use_resource_cases K h1 with ⟨_, rfl⟩ | ⟨_, s, c, _, _, rfl⟩
    · rw [(update_read_write_spec K _ _ _).2.2]
      simp
    · rw [(update_read_write_spec K _ _ _).2.2]
      simp

theorem C14_sample_texture_idempotent_witness :
    renderpass_sample_texture vkHeader passFresh (mkHandle "tex")
        { imageView := { imageId := mkHandle "imgA" } } = some passSampledA ∧
    renderpass_sample_texture vkHeader passSampledA (mkHandle "tex")
        { imageView := { imageId := mkHandle "imgB" } } = some passSampledA :=
  ⟨by decide,
   (C14_sample_texture_idempotent vkHeader passFresh (mkHandle "tex")).2
     { imageView := { imageId := mkHandle "imgA" } }
     { imageView := { imageId := mkHandle "imgB" } } passSampledA (by decide)⟩

/-- The tail of `renderpass_use_resource` changes nothing when the handle is
already in the lists that the info asks for. -/
theorem update_read_write_of_mem (K : le_renderer_h) (s : le_renderpass_o)
    (h : le_resource_handle_t) (c : le_resource_info_t)
    (hr : resourceWillBeReadFrom K c = true → h ∈ s.readResources)
    (hw : resourceWillBeWrittenTo K c = true → h ∈ s.writeResources) :
    update_read_write K s h c = s := by
  obtain ⟨e1, e2, e3⟩ := update_read_write_spec K s h c
  rw [e3, e1, e2]
  have h1 : ¬ (resourceWillBeReadFrom K c = true ∧ h ∉ s.readResources) :=
    fun hh => hh.2 (hr hh.1)
  have h2 : ¬ (resourceWillBeWrittenTo K c = true ∧ h ∉ s.writeResources) :=
    fun hh => hh.2 (hw hh.1)
  rw [if_neg h1, if_neg h2]

theorem use_resource_type (K : le_renderer_h) {p p1 : le_renderpass_o}
    {h : le_resource_handle_t} {r : le_resource_info_t}
    (hu : renderpass_use_resource K p h r = some p1) :
    r.type = LeResourceType.eBuffer ∨ r.type = LeResourceType.eImage := by
  unfold renderpass_use_resource at hu
  split at hu
  · simp at hu
  · rename_i hty
    exact not_not.mp hty

theorem set_of_getElem? {α : Type} (l : List α) (i : Nat) (x : α) (h : l[i]? = some x) :
    l.set i x = l := by
  apply List.ext_getElem?
  intro j
  by_cases hj : i = j
  · subst hj
    rw [List.getElem?_set_self (getElem?_lt h), h]
  · rw [List.getElem?_set_ne hj]

/-- Consolidating with the same incoming info a second time changes nothing. -/
theorem consolidate_idem {s r c : le_resource_info_t} (h : consolidate s r = some c) :
    consolidate c r = some c := by
  have ht := (consolidate_type h).1
  unfold consolidate at h ⊢
  split at h
  · simp at h
  · rw [if_neg (by rw [ht]; simp)]
    split at h
    · rename_i hb
      simp only [Option.some.injEq] at h
      subst h
      simp only [hb, max_uint32]
      congr 2
      · congr 1
        · have h1 : max (s.buffer.size % 2 ^ 32) (r.buffer.size % 2 ^ 32) < 2 ^ 32 :=
            max_lt (Nat.mod_lt _ (by decide)) (Nat.mod_lt _ (by decide))
          rw [Nat.mod_eq_of_lt h1]
          omega
        · rw [Nat.or_assoc, Nat.or_self]
    · rename_i hi
      split at h
      · rename_i hall
        simp only [Option.some.injEq] at h
        subst h
        simp only [hi]
        rw [if_pos hall]
        congr 3
        rw [Nat.or_assoc, Nat.or_self]
      · simp at h
    · rename_i h1 h2
      simp only [Option.some.injEq] at h
      subst h
      rfl

/-- Consolidating a stored info with itself returns it, for 32-bit sizes. -/
theorem consolidate_self (r : le_resource_info_t)
    (hty : r.type = LeResourceType.eBuffer ∨ r.type = LeResourceType.eImage)
    (h32 : r.type = LeResourceType.eBuffer → r.buffer.size < 2 ^ 32) :
    consolidate r r = some r := by
  obtain ⟨ty, ⟨sz, us⟩, img⟩ := r
  simp only at hty h32
  unfold consolidate
  rw [if_neg (by simp)]
  rcases hty with hb | hi
  · subst hb
    simp only [max_uint32, Nat.mod_eq_of_lt (h32 rfl), max_self, Nat.or_self]
  · subst hi
    simp only [and_self, if_true, Nat.or_self]

/-- C13: in a pass whose `resources` and `resourceInfos` have equal length,
when use_resource with a handle and an info (of 32-bit buffer size) succeeds,
a second use_resource with the same handle and info succeeds and returns the
pass state of the first call unchanged. -/
theorem C13_use_resource_idempotent (K : le_renderer_h) (p p1 : le_renderpass_o)
    (h : le_resource_handle_t) (r : le_resource_info_t)
    (hlen : p.resources.length = p.resourceInfos.length)
    (h32 : r.type = LeResourceType.eBuffer → r.buffer.size < 2 ^ 32)
    (hu : renderpass_use_resource K p h r = some p1) :
    renderpass_use_resource K p1 h r = some p1 := by
  have hty := use_resource_type K hu
  rcases use_resource_cases K hu with ⟨hnew, hp1⟩ | ⟨hmem, s, c, hs, hc, hp1⟩
  · have e1 : p1.resources = p.resources ++ [h] := by
      rw [hp1, (update_read_write_resources K _ h r).1]
    have e2 : p1.resourceInfos = p.resourceInfos ++ [r] := by
      rw [hp1, (update_read_write_resources K _ h r).2]
    have hidx : p1.resources.indexOf h = p.resources.length := by
      rw [e1, List.indexOf_append_of_not_mem hnew]
      simp
    have hs1 : p1.resourceInfos[p1.resources.indexOf h]? = some r := by
      rw [hidx, e2, hlen, List.getElem?_append_right (Nat.le_refl _)]
      simp
    have hmem1 : h ∈ p1.resources := by rw [e1]; simp
    rw [use_resource_known K p1 h r r r hty hmem1 hs1 (consolidate_self r hty h32)]
    have hset : p1.resourceInfos.set (p1.resources.indexOf h) r = p1.resourceInfos :=
      set_of_getElem? _ _ _ hs1
    rw [hset]
    congr 1
    refine update_read_write_of_mem K p1 h r ?_ ?_
    · intro hr
      rw [hp1, mem_update_read]
      exact Or.inr ⟨rfl, hr⟩
    · intro hw
      rw [hp1, mem_update_write]
      exact Or.inr ⟨rfl, hw⟩
  · have e1 : p1.resources = p.resources := by
      rw [hp1, (update_read_write_resources K _ h c).1]
    have e2 : p1.resourceInfos = p.resourceInfos.set (p.resources.indexOf h) c := by
      rw [hp1, (update_read_write_resources K _ h c).2]
    have hk : p.resources.indexOf h < p.resourceInfos.length := getElem?_lt hs
    have hs1 : p1.resourceInfos[p1.resources.indexOf h]? = some c := by
      rw [e1, e2, List.getElem?_set_self hk]
    have hmem1 : h ∈ p1.resources := by rw [e1]; exact hmem
    rw [use_resource_known K p1 h r c c hty hmem1 hs1 (consolidate_idem hc)]
    have hset : p1.resourceInfos.set (p1.resources.indexOf h) c = p1.resourceInfos :=
      set_of_getElem? _ _ _ hs1
    rw [hset]
    congr 1
    refine update_read_write_of_mem K p1 h c ?_ ?_
    · intro hr
      rw [hp1, mem_update_read]
      exact Or.inr ⟨rfl, hr⟩
    · intro hw
      rw [hp1, mem_update_write]
      exact Or.inr ⟨rfl, hw⟩

theorem C13_use_resource_idempotent_witness :
    renderpass_use_resource vkHeader passFresh (mkHandle "img")
        { type := LeResourceType.eImage, image := { usage := 0x8 } } = some passStorageImage ∧
    renderpass_use_resource vkHeader passStorageImage (mkHandle "img")
        { type := LeResourceType.eImage, image := { usage := 0x8 } } = some passStorageImage :=
  ⟨by decide,
   C13_use_resource_idempotent vkHeader passFresh passStorageImage (mkHandle "img")
     { type := LeResourceType.eImage, image := { usage := 0x8 } } (by decide)
     (fun hb => by cases hb) (by decide)⟩

theorem land_self_ne_zero (x : Nat) (h : x ≠ 0) : x &&& x ≠ 0 := by
  rw [Nat.and_self]
  exact h

/-- A usage into which bit `x` was or-ed has `x`, also after a consolidation. -/
theorem lor_land_bit (a x : Nat) : (a ||| x) &&& x = x := by
  apply Nat.eq_of_testBit_eq
  intro i
  rw [Nat.testBit_and, Nat.testBit_or]
  cases a.testBit i <;> cases x.testBit i <;> rfl

theorem lor_land_of_land (s u x : Nat) (h : u &&& x = x) : (s ||| u) &&& x = x := by
  apply Nat.eq_of_testBit_eq
  intro i
  have hi := congrArg (fun n => n.testBit i) h
  simp only [Nat.testBit_and] at hi
  rw [Nat.testBit_and, Nat.testBit_or]
  cases hs : s.testBit i <;> cases hu : u.testBit i <;> cases hx : x.testBit i <;>
    simp_all

theorem land_ne_zero_of_has (u x : Nat) (h : u &&& x = x) (hx : x ≠ 0) : u &&& x ≠ 0 := by
  rw [h]
  exact hx

/-- After a successful declaration with an image info that has all bits of
`x`, the info stored for the handle is an image info that has all bits of `x`. -/
theorem use_resource_stored_has_bit (K : le_renderer_h) {p p1 : le_renderpass_o}
    {h : le_resource_handle_t} {r : le_resource_info_t} (x : Nat)
    (hlen : p.resources.length = p.resourceInfos.length)
    (hty : r.type = LeResourceType.eImage) (hbit : r.image.usage &&& x = x)
    (hu : renderpass_use_resource K p h r = some p1) :
    ∃ c, p1.resourceInfos[p1.resources.indexOf h]? = some c ∧
      c.type = LeResourceType.eImage ∧ c.image.usage &&& x = x := by
  rcases use_resource_cases K hu with ⟨hnew, hp1⟩ | ⟨hmem, s, c, hs, hc, hp1⟩
  · have e1 : p1.resources = p.resources ++ [h] := by
      rw [hp1, (update_read_write_resources K _ h r).1]
    have e2 : p1.resourceInfos = p.resourceInfos ++ [r] := by
      rw [hp1, (update_read_write_resources K _ h r).2]
    have hidx : p1.resources.indexOf h = p.resources.length := by
      rw [e1, List.indexOf_append_of_not_mem hnew]
      simp
    refine ⟨r, ?_, hty, hbit⟩
    rw [hidx, e2, hlen, List.getElem?_append_right (Nat.le_refl _)]
    simp
  · have e1 : p1.resources = p.resources := by
      rw [hp1, (update_read_write_resources K _ h c).1]
    have e2 : p1.resourceInfos = p.resourceInfos.set (p.resources.indexOf h) c := by
      rw [hp1, (update_read_write_resources K _ h c).2]
    refine ⟨c, ?_, ?_, ?_⟩
    · rw [e1, e2, List.getElem?_set_self (getElem?_lt hs)]
    · rw [(consolidate_type hc).1, hty]
    · rw [(consolidate_usage hc).1 hty]
      exact lor_land_of_land _ _ _ hbit

/-- An image info that has a nonzero bit `x` of the read mask is read. -/
theorem image_read_of_bit (K : le_renderer_h) (r : le_resource_info_t) (x : Nat)
    (hty : r.type = LeResourceType.eImage) (hbit : r.image.usage &&& x = x) (hx : x ≠ 0)
    (hsub : ∀ i, x.testBit i = true → (ALL_IMAGE_READ_FLAGS K).testBit i = true) :
    resourceWillBeReadFrom K r = true := by
  simp only [resourceWillBeReadFrom, hty, bne_iff_ne, ne_eq]
  exact land_mask_ne_zero _ _ _ (land_ne_zero_of_has _ _ hbit hx) hsub

/-- An image info that has a nonzero bit `x` of the write mask is written. -/
theorem image_write_of_bit (K : le_renderer_h) (r : le_resource_info_t) (x : Nat)
    (hty : r.type = LeResourceType.eImage) (hbit : r.image.usage &&& x = x) (hx : x ≠ 0)
    (hsub : ∀ i, x.testBit i = true → (ALL_IMAGE_WRITE_FLAGS K).testBit i = true) :
    resourceWillBeWrittenTo K r = true := by
  simp only [resourceWillBeWrittenTo, hty, bne_iff_ne, ne_eq]
  exact land_mask_ne_zero _ _ _ (land_ne_zero_of_has _ _ hbit hx) hsub

/-- C15 (amended): in a pass whose `resources` and `resourceInfos` have equal
length, after a successful add_color_attachment with an image info the info
stored for the image has the ColorAttachment bit and the image is in both
`readResources` and `writeResources`, whatever the usage of the info passed;
the same holds for add_depth_stencil_attachment with the
DepthStencilAttachment bit; and after a successful sample_texture with a
texture id that was not yet in `textureInfoIds`, the info stored for the image
of the texture's image view has the Sampled bit and the image is in
`readResources`. -/
theorem C15_specializations_force_usage_bit (K : le_renderer_h) (p : le_renderpass_o)
    (hlen : p.resources.length = p.resourceInfos.length) :
    (∀ image_id resource_info attachmentInfo p1,
      resource_info.type = LeResourceType.eImage →
      K.LE_IMAGE_USAGE_COLOR_ATTACHMENT_BIT ≠ 0 →
      renderpass_add_color_attachment K p image_id resource_info attachmentInfo = some p1 →
      (∃ c, p1.resourceInfos[p1.resources.indexOf image_id]? = some c ∧
        c.type = LeResourceType.eImage ∧
        c.image.usage &&& K.LE_IMAGE_USAGE_COLOR_ATTACHMENT_BIT
          = K.LE_IMAGE_USAGE_COLOR_ATTACHMENT_BIT) ∧
      image_id ∈ p1.readResources ∧ image_id ∈ p1.writeResources) ∧
    (∀ image_id resource_info attachmentInfo p1,
      resource_info.type = LeResourceType.eImage →
      K.LE_IMAGE_USAGE_DEPTH_STENCIL_ATTACHMENT_BIT ≠ 0 →
      renderpass_add_depth_stencil_attachment K p image_id resource_info attachmentInfo
        = some p1 →
      (∃ c, p1.resourceInfos[p1.resources.indexOf image_id]? = some c ∧
        c.type = LeResourceType.eImage ∧
        c.image.usage &&& K.LE_IMAGE_USAGE_DEPTH_STENCIL_ATTACHMENT_BIT
          = K.LE_IMAGE_USAGE_DEPTH_STENCIL_ATTACHMENT_BIT) ∧
      image_id ∈ p1.readResources ∧ image_id ∈ p1.writeResources) ∧
    (∀ texture textureInfo p1,
      texture ∉ p.textureInfoIds →
      K.LE_IMAGE_USAGE_SAMPLED_BIT ≠ 0 →
      renderpass_sample_texture K p texture textureInfo = some p1 →
      (∃ c, p1.resourceInfos[p1.resources.indexOf textureInfo.imageView.imageId]? = some c ∧
        c.type = LeResourceType.eImage ∧
        c.image.usage &&& K.LE_IMAGE_USAGE_SAMPLED_BIT = K.LE_IMAGE_USAGE_SAMPLED_BIT) ∧
      textureInfo.imageView.imageId ∈ p1.readResources) := by
  refine ⟨?_, ?_, ?_⟩
  · intro image_id info att p1 hty hx hu
    unfold renderpass_add_color_attachment at hu
    simp only at hu
    have hbit := lor_land_bit info.image.usage K.LE_IMAGE_USAGE_COLOR_ATTACHMENT_BIT
    refine ⟨use_resource_stored_has_bit K _ (by exact hlen) (by exact hty) (by exact hbit) hu,
      use_resource_mem_read K hu (image_read_of_bit K _ _ (by exact hty) (by exact hbit) hx
        (fun i => (image_read_mask_includes K i).2.2.1)),
      use_resource_mem_write K hu (image_write_of_bit K _ _ (by exact hty) (by exact hbit) hx
        (fun i => (image_write_mask_includes K i).2.1))⟩
  · intro image_id info att p1 hty hx hu
    unfold renderpass_add_depth_stencil_attachment at hu
    simp only at hu
    have hbit := lor_land_bit info.image.usage K.LE_IMAGE_USAGE_DEPTH_STENCIL_ATTACHMENT_BIT
    refine ⟨use_resource_stored_has_bit K _ (by exact hlen) (by exact hty) (by exact hbit) hu,
      use_resource_mem_read K hu (image_read_of_bit K _ _ (by exact hty) (by exact hbit) hx
        (fun i => (image_read_mask_includes K i).2.2.2.1)),
      use_resource_mem_write K hu (image_write_of_bit K _ _ (by exact hty) (by exact hbit) hx
        (fun i => (image_write_mask_includes K i).2.2.1))⟩
  · intro texture ti p1 hnew hx hu
    unfold renderpass_sample_texture vector_contains at hu
    rw [if_neg (by simpa using hnew)] at hu
    simp only at hu
    have hbit : (ImageInfoBuilder_build K K.LE_IMAGE_USAGE_SAMPLED_BIT
        ti.imageView.format).image.usage &&& K.LE_IMAGE_USAGE_SAMPLED_BIT
        = K.LE_IMAGE_USAGE_SAMPLED_BIT :=
      lor_land_bit K.imageInfoBuilderDefault.usage K.LE_IMAGE_USAGE_SAMPLED_BIT
    exact ⟨use_resource_stored_has_bit K _ (by exact hlen) (by rfl) (by exact hbit) hu,
      use_resource_mem_read K hu (image_read_of_bit K _ _ (by rfl) (by exact hbit) hx
        (fun i => (image_read_mask_includes K i).1))⟩

theorem C15_specializations_force_usage_bit_witness :
    (∃ c, passColorAttached.resourceInfos[passColorAttached.resources.indexOf (mkHandle "img")]?
        = some c ∧
      c.type = LeResourceType.eImage ∧
      c.image.usage &&& vkHeader.LE_IMAGE_USAGE_COLOR_ATTACHMENT_BIT
        = vkHeader.LE_IMAGE_USAGE_COLOR_ATTACHMENT_BIT) ∧
    mkHandle "img" ∈ passColorAttached.readResources ∧
    mkHandle "img" ∈ passColorAttached.writeResources :=
  (C15_specializations_force_usage_bit vkHeader passFresh (by decide)).1 (mkHandle "img")
    { type := LeResourceType.eImage } {} passColorAttached rfl (by decide) (by decide)

/-- C15 as stated fails for sample_texture: after texture `tex` was sampled
with image `imgA`, a sample_texture call with the same texture id and image
`imgB` returns early, so `imgB` is neither declared nor in `readResources`. -/
theorem C15_counterexample_known_texture_id :
    renderpass_sample_texture vkHeader passFresh (mkHandle "tex")
        { imageView := { imageId := mkHandle "imgA" } } = some passSampledA ∧
    ∃ p2, renderpass_sample_texture vkHeader passSampledA (mkHandle "tex")
        { imageView := { imageId := mkHandle "imgB" } } = some p2 ∧
      mkHandle "imgB" ∉ p2.resources ∧ mkHandle "imgB" ∉ p2.readResources :=
  ⟨by decide, passSampledA, by decide, by decide, by decide⟩

/-- C12: on a fresh pass, use_resource for an image handle with usage `u1` and
then with usage `u2` (all other descriptor fields equal) both succeed and
leave exactly one `resources` entry, the handle, whose stored usage is
`u1 ||| u2`; with `u1` the Sampled bit and `u2` the ColorAttachment bit (both
bits being nonzero) `readResources` and `writeResources` each hold the handle
exactly once. -/
theorem C12_two_declarations_or_usage (K : le_renderer_h) (renderpass_name : String)
    (type_ : LeRenderPassType) (h : le_resource_handle_t) (img : ImageInfo) (b : BufferInfo)
    (u1 u2 : Nat) :
    ∃ p1 p2,
      renderpass_use_resource K (renderpass_create K renderpass_name type_) h
        { type := LeResourceType.eImage, buffer := b, image := { img with usage := u1 } }
        = some p1 ∧
      renderpass_use_resource K p1 h
        { type := LeResourceType.eImage, buffer := b, image := { img with usage := u2 } }
        = some p2 ∧
      p2.resources = [h] ∧
      p2.resourceInfos =
        [{ type := LeResourceType.eImage, buffer := b, image := { img with usage := u1 ||| u2 } }] ∧
      (K.LE_IMAGE_USAGE_SAMPLED_BIT ≠ 0 → K.LE_IMAGE_USAGE_COLOR_ATTACHMENT_BIT ≠ 0 →
        u1 = K.LE_IMAGE_USAGE_SAMPLED_BIT → u2 = K.LE_IMAGE_USAGE_COLOR_ATTACHMENT_BIT →
        p2.readResources = [h] ∧ p2.writeResources = [h]) := by
  obtain ⟨i1, hi1⟩ : ∃ i1 : le_resource_info_t, i1 =
      { type := LeResourceType.eImage, buffer := b, image := { img with usage := u1 } } :=
    ⟨_, rfl⟩
  obtain ⟨i2, hi2⟩ : ∃ i2 : le_resource_info_t, i2 =
      { type := LeResourceType.eImage, buffer := b, image := { img with usage := u2 } } :=
    ⟨_, rfl⟩
  obtain ⟨c, hc⟩ : ∃ c : le_resource_info_t, c =
      { type := LeResourceType.eImage, buffer := b, image := { img with usage := u1 ||| u2 } } :=
    ⟨_, rfl⟩
  rw [← hi1, ← hi2, ← hc]
  obtain ⟨p0, hp0⟩ : ∃ p0, p0 = renderpass_create K renderpass_name type_ := ⟨_, rfl⟩
  rw [← hp0]
  have h0res : p0.resources = [] := by rw [hp0]; rfl
  have h0inf : p0.resourceInfos = [] := by rw [hp0]; rfl
  have h0rd : p0.readResources = [] := by rw [hp0]; rfl
  have h0wr : p0.writeResources = [] := by rw [hp0]; rfl
  have hty1 : i1.type = LeResourceType.eImage := by rw [hi1]
  have hty2 : i2.type = LeResourceType.eImage := by rw [hi2]
  -- first call
  obtain ⟨q1, hq1⟩ : ∃ q1 : le_renderpass_o, q1 =
      { p0 with resources := p0.resources ++ [h], resourceInfos := p0.resourceInfos ++ [i1] } :=
    ⟨_, rfl⟩
  have hcall1 : renderpass_use_resource K p0 h i1 = some (update_read_write K q1 h i1) := by
    rw [hq1]
    exact use_resource_new K p0 h i1 (Or.inr hty1) (by rw [h0res]; simp)
  obtain ⟨p1, hp1⟩ : ∃ p1, p1 = update_read_write K q1 h i1 := ⟨_, rfl⟩
  have e1res : p1.resources = [h] := by
    rw [hp1, (update_read_write_resources K q1 h i1).1, hq1, h0res]; rfl
  have e1inf : p1.resourceInfos = [i1] := by
    rw [hp1, (update_read_write_resources K q1 h i1).2, hq1, h0inf]; rfl
  have e1rd : p1.readResources = if resourceWillBeReadFrom K i1 = true then [h] else [] := by
    rw [hp1, (update_read_write_spec K q1 h i1).1]
    have : q1.readResources = [] := by rw [hq1]; exact h0rd
    rw [this]
    simp
  have e1wr : p1.writeResources = if resourceWillBeWrittenTo K i1 = true then [h] else [] := by
    rw [hp1, (update_read_write_spec K q1 h i1).2.1]
    have : q1.writeResources = [] := by rw [hq1]; exact h0wr
    rw [this]
    simp
  -- second call
  have hidx : p1.resources.indexOf h = 0 := by rw [e1res]; simp
  have hcons : consolidate i1 i2 = some c := by
    rw [consolidate_image i1 i2 hty1 hty2, hi1, hi2, hc]
    simp [ImageDescriptorsAgree]
  obtain ⟨q2, hq2⟩ : ∃ q2 : le_renderpass_o, q2 =
      { p1 with resourceInfos := p1.resourceInfos.set (p1.resources.indexOf h) c } := ⟨_, rfl⟩
  have hcall2 : renderpass_use_resource K p1 h i2 = some (update_read_write K q2 h c) := by
    rw [hq2]
    exact use_resource_known K p1 h i2 i1 c (Or.inr hty2) (by rw [e1res]; simp)
      (by rw [hidx, e1inf]; rfl) hcons
  refine ⟨p1, update_read_write K q2 h c, by rw [hp1]; exact hcall1, hcall2, ?_, ?_, ?_⟩
  · rw [(update_read_write_resources K q2 h c).1, hq2]
    exact e1res
  · rw [(update_read_write_resources K q2 h c).2, hq2]
    simp only
    rw [hidx, e1inf]
    rfl
  · intro hS hC hu1 hu2
    have hcty : c.type = LeResourceType.eImage := by rw [hc]
    have hr1 : resourceWillBeReadFrom K i1 = true :=
      image_read_of_bit K i1 K.LE_IMAGE_USAGE_SAMPLED_BIT hty1
        (by rw [hi1, hu1]; exact Nat.and_self _) hS
        (fun i => (image_read_mask_includes K i).1)
    have hwc : resourceWillBeWrittenTo K c = true :=
      image_write_of_bit K c K.LE_IMAGE_USAGE_COLOR_ATTACHMENT_BIT hcty
        (by rw [hc, hu2]; exact lor_land_bit _ _) hC
        (fun i => (image_write_mask_includes K i).2.1)
    have q2rd : q2.readResources = [h] := by rw [hq2]; simp only; rw [e1rd, if_pos hr1]
    have q2wr : q2.writeResources = p1.writeResources := by rw [hq2]
    constructor
    · rw [(update_read_write_spec K q2 h c).1, q2rd]
      simp
    · rw [(update_read_write_spec K q2 h c).2.1, q2wr, e1wr]
      by_cases hw1 : resourceWillBeWrittenTo K i1 = true
      · simp [hw1]
      · simp [hw1, hwc]

theorem C12_two_declarations_or_usage_witness :
    ∃ p1 p2,
      renderpass_use_resource vkHeader
        (renderpass_create vkHeader "p" LeRenderPassType.LE_RENDER_PASS_TYPE_DRAW)
        (mkHandle "img") { type := LeResourceType.eImage, buffer := {}, image := { usage := 0x4 } }
        = some p1 ∧
      renderpass_use_resource vkHeader p1 (mkHandle "img")
        { type := LeResourceType.eImage, buffer := {}, image := { usage := 0x10 } } = some p2 ∧
      p2.resources = [mkHandle "img"] ∧
      p2.resourceInfos =
        [{ type := LeResourceType.eImage, buffer := {}, image := { usage := 0x4 ||| 0x10 } }] ∧
      p2.readResources = [mkHandle "img"] ∧ p2.writeResources = [mkHandle "img"] := by
  obtain ⟨p1, p2, h1, h2, h3, h4, h5⟩ := C12_two_declarations_or_usage vkHeader "p"
    LeRenderPassType.LE_RENDER_PASS_TYPE_DRAW (mkHandle "img") {} {} 0x4 0x10
  exact ⟨p1, p2, h1, h2, h3, h4, h5 (by decide) (by decide) rfl rfl⟩

theorem filter_congr_heap (f : le_renderpass_o → Bool) (heap heap1 : Heap) (l : List Nat)
    (h : ∀ q, q ∈ l → heap1 q = heap q) :
    l.filter (fun q => f (heap1 q)) = l.filter (fun q => f (heap q)) := by
  apply List.filter_congr
  intro q hq
  rw [h q hq]

/-- What the loop of `render_module_setup_passes` adds to its state. -/
theorem setup_passes_loop_spec (callbacks : SetupCallbacks) (l : List Nat) (hnd : l.Nodup) :
    ∀ st : SetupState,
      (setup_passes_loop callbacks l st).setup_calls =
        st.setup_calls ++ l.filter (fun q => renderpass_has_setup_callback (st.heap q)) ∧
      (setup_passes_loop callbacks l st).graph.passes =
        st.graph.passes ++ l.filter (fun q => setupKeeps callbacks (st.heap q)) ∧
      (setup_passes_loop callbacks l st).destroyed =
        st.destroyed ++ l.filter (fun q => setupDrops callbacks (st.heap q)) ∧
      (∀ q, q ∉ l → (setup_passes_loop callbacks l st).heap q = st.heap q) ∧
      (∀ q, q ∈ l → renderpass_has_setup_callback (st.heap q) = true →
        (setup_passes_loop callbacks l st).heap q =
          (renderpass_run_setup_callback callbacks (st.heap q)).1) ∧
      (∀ q, q ∈ l → renderpass_has_setup_callback (st.heap q) = false →
        (setup_passes_loop callbacks l st).heap q = st.heap q) := by
  induction l with
  | nil =>
    intro st
    simp [setup_passes_loop]
  | cons pass rest ih =>
    intro st
    rw [List.nodup_cons] at hnd
    have hrest : ∀ (h1 : Heap), h1 = (fun q => if q = pass then
        (renderpass_run_setup_callback callbacks (st.heap pass)).1 else st.heap q) →
        ∀ q, q ∈ rest → h1 q = st.heap q := by
      intro h1 e q hq
      have hne : q ≠ pass := fun e1 => hnd.1 (e1 ▸ hq)
      rw [e]
      simp [hne]
    by_cases hcb : renderpass_has_setup_callback (st.heap pass) = true
    · by_cases hok : (renderpass_run_setup_callback callbacks (st.heap pass)).2 = true
      · rw [setup_passes_loop, if_pos hcb]
        simp only [hok, if_true]
        obtain ⟨h1, h2, h3, h4, h5, h6⟩ := ih hnd.2
          { st with heap := fun q => if q = pass then
                      (renderpass_run_setup_callback callbacks (st.heap pass)).1 else st.heap q
                    graph := rendergraph_add_renderpass st.graph pass
                    setup_calls := st.setup_calls ++ [pass] }
        simp only at h1 h2 h3 h4 h5 h6
        rw [filter_congr_heap _ st.heap _ rest (hrest _ rfl)] at h1 h2 h3
        refine ⟨?_, ?_, ?_, ?_, ?_, ?_⟩
        · rw [h1, List.filter_cons, if_pos hcb]
          simp
        · rw [h2, List.filter_cons, if_pos (by simp [setupKeeps, hok])]
          simp [rendergraph_add_renderpass]
        · rw [h3, List.filter_cons, if_neg (by simp [setupDrops, hok])]
        · intro q hq
          rw [List.mem_cons, not_or] at hq
          rw [h4 q hq.2]
          simp [hq.1]
        · intro q hq hcbq
          by_cases hqp : q = pass
          · subst hqp
            rw [h4 q hnd.1]
            simp
          · have hq1 : q ∈ rest := (List.mem_cons.mp hq).resolve_left hqp
            rw [h5 q hq1 (by simpa [hqp] using hcbq)]
            simp [hqp]
        · intro q hq hcbq
          have hqp : q ≠ pass := fun e => by rw [e, hcb] at hcbq; cases hcbq
          have hq1 : q ∈ rest := (List.mem_cons.mp hq).resolve_left hqp
          rw [h6 q hq1 (by simpa [hqp] using hcbq)]
          simp [hqp]
      · rw [setup_passes_loop, if_pos hcb]
        simp only [hok, Bool.false_eq_true, if_false]
        obtain ⟨h1, h2, h3, h4, h5, h6⟩ := ih hnd.2
          { st with heap := fun q => if q = pass then
                      (renderpass_run_setup_callback callbacks (st.heap pass)).1 else st.heap q
                    setup_calls := st.setup_calls ++ [pass]
                    destroyed := st.destroyed ++ [pass] }
        simp only at h1 h2 h3 h4 h5 h6
        rw [filter_congr_heap _ st.heap _ rest (hrest _ rfl)] at h1 h2 h3
        have hok1 : (renderpass_run_setup_callback callbacks (st.heap pass)).2 = false := by
          simpa using hok
        refine ⟨?_, ?_, ?_, ?_, ?_, ?_⟩
        · rw [h1, List.filter_cons, if_pos hcb]
          simp
        · rw [h2, List.filter_cons, if_neg (by simp [setupKeeps, hok1, hcb])]
        · rw [h3, List.filter_cons, if_pos (by simp [setupDrops, hok1, hcb])]
          simp
        · intro q hq
          rw [List.mem_cons, not_or] at hq
          rw [h4 q hq.2]
          simp [hq.1]
        · intro q hq hcbq
          by_cases hqp : q = pass
          · subst hqp
            rw [h4 q hnd.1]
            simp
          · have hq1 : q ∈ rest := (List.mem_cons.mp hq).resolve_left hqp
            rw [h5 q hq1 (by simpa [hqp] using hcbq)]
            simp [hqp]
        · intro q hq hcbq
          have hqp : q ≠ pass := fun e => by rw [e, hcb] at hcbq; cases hcbq
          have hq1 : q ∈ rest := (List.mem_cons.mp hq).resolve_left hqp
          rw [h6 q hq1 (by simpa [hqp] using hcbq)]
          simp [hqp]
    · rw [setup_passes_loop, if_neg hcb]
      have hcb1 : renderpass_has_setup_callback (st.heap pass) = false := by simpa using hcb
      obtain ⟨h1, h2, h3, h4, h5, h6⟩ := ih hnd.2
        { st with graph := rendergraph_add_renderpass st.graph pass }
      simp only at h1 h2 h3 h4 h5 h6
      refine ⟨?_, ?_, ?_, ?_, ?_, ?_⟩
      · rw [h1, List.filter_cons, if_neg hcb]
      · rw [h2, List.filter_cons, if_pos (by simp [setupKeeps, hcb1])]
        simp [rendergraph_add_renderpass]
      · rw [h3, List.filter_cons, if_neg (by simp [setupDrops, hcb1])]
      · intro q hq
        rw [List.mem_cons, not_or] at hq
        exact h4 q hq.2
      · intro q hq hcbq
        have hqp : q ≠ pass := fun e => by rw [e, hcb1] at hcbq; cases hcbq
        exact h5 q ((List.mem_cons.mp hq).resolve_left hqp) hcbq
      · intro q hq hcbq
        by_cases hqp : q = pass
        · subst hqp
          exact h4 q hnd.1
        · exact h6 q ((List.mem_cons.mp hq).resolve_left hqp) hcbq

/-- C18: for a module of distinct passes, none of them already in the graph,
render_module_setup_passes invokes the setup callback once, in submission
order, for each module pass that has one and for no other pass; afterwards
the graph's pass list is its previous list followed, in submission order, by
the module passes that have no setup callback or whose callback returned true;
the passes whose callback returned false are destroyed and are neither in the
graph nor in the module; and the module's pass list is empty. -/
theorem C18_setup_passes_transfers_or_destroys (callbacks : SetupCallbacks) (heap : Heap)
    (self : le_render_module_o) (g : le_rendergraph_o)
    (hnd : self.passes.Nodup) (hdisj : ∀ p, p ∈ self.passes → p ∉ g.passes) :
    (render_module_setup_passes callbacks heap self g).setup_calls =
      self.passes.filter (fun p => renderpass_has_setup_callback (heap p)) ∧
    (∀ p, p ∈ self.passes →
      (render_module_setup_passes callbacks heap self g).setup_calls.count p =
        if renderpass_has_setup_callback (heap p) = true then 1 else 0) ∧
    (render_module_setup_passes callbacks heap self g).graph.passes =
      g.passes ++ self.passes.filter (fun p =>
        !renderpass_has_setup_callback (heap p) ||
          (renderpass_run_setup_callback callbacks (heap p)).2) ∧
    (render_module_setup_passes callbacks heap self g).destroyed =
      self.passes.filter (fun p =>
        renderpass_has_setup_callback (heap p) &&
          !(renderpass_run_setup_callback callbacks (heap p)).2) ∧
    (∀ p, p ∈ (render_module_setup_passes callbacks heap self g).destroyed →
      p ∉ (render_module_setup_passes callbacks heap self g).graph.passes ∧
      p ∉ (render_module_setup_passes callbacks heap self g).module.passes) ∧
    (render_module_setup_passes callbacks heap self g).module.passes = [] := by
  obtain ⟨h1, h2, h3, _, _, _⟩ := setup_passes_loop_spec callbacks self.passes hnd
    { heap := heap, graph := g, setup_calls := [], destroyed := [] }
  simp only [List.nil_append] at h1 h2 h3
  have e1 : (render_module_setup_passes callbacks heap self g).setup_calls =
      self.passes.filter (fun p => renderpass_has_setup_callback (heap p)) := h1
  have e2 : (render_module_setup_passes callbacks heap self g).graph.passes =
      g.passes ++ self.passes.filter (fun p => setupKeeps callbacks (heap p)) := h2
  have e3 : (render_module_setup_passes callbacks heap self g).destroyed =
      self.passes.filter (fun p => setupDrops callbacks (heap p)) := h3
  refine ⟨e1, ?_, e2, e3, ?_, rfl⟩
  · intro p hp
    rw [e1]
    by_cases hcb : renderpass_has_setup_callback (heap p) = true
    · rw [if_pos hcb]
      exact List.count_eq_one_of_mem (hnd.filter _) (List.mem_filter.mpr ⟨hp, hcb⟩)
    · rw [if_neg hcb]
      exact List.count_eq_zero_of_not_mem (fun hm => hcb (List.mem_filter.mp hm).2)
  · intro p hp
    rw [e3, List.mem_filter] at hp
    refine ⟨?_, by simp [render_module_setup_passes]⟩
    rw [e2, List.mem_append, List.mem_filter]
    rintro (hg | ⟨_, hk⟩)
    · exact hdisj p hp.1 hg
    · have hd := hp.2
      simp only [setupDrops, Bool.and_eq_true, Bool.not_eq_true'] at hd
      simp only [setupKeeps, Bool.or_eq_true, Bool.not_eq_true'] at hk
      rcases hk with hk | hk
      · rw [hd.1] at hk; cases hk
      · rw [hd.2] at hk; cases hk

theorem C18_setup_passes_transfers_or_destroys_witness :
    (render_module_setup_passes exampleSetupCallbacks exampleModuleHeap
        { passes := [10, 11, 12] } { passes := [1, 2] }).setup_calls = [11, 12] ∧
    (render_module_setup_passes exampleSetupCallbacks exampleModuleHeap
        { passes := [10, 11, 12] } { passes := [1, 2] }).graph.passes = [1, 2, 10, 11] ∧
    (render_module_setup_passes exampleSetupCallbacks exampleModuleHeap
        { passes := [10, 11, 12] } { passes := [1, 2] }).destroyed = [12] ∧
    (render_module_setup_passes exampleSetupCallbacks exampleModuleHeap
        { passes := [10, 11, 12] } { passes := [1, 2] }).module.passes = [] := by
  obtain ⟨h1, _, h3, h4, _, h6⟩ := C18_setup_passes_transfers_or_destroys
    exampleSetupCallbacks exampleModuleHeap { passes := [10, 11, 12] } { passes := [1, 2] }
    (by decide) (by decide)
  exact ⟨h1.trans (by decide), h3.trans (by decide), h4.trans (by decide), h6⟩

theorem isExecuted_congr {a b : le_renderpass_o} (e : Nat)
    (h : a = { b with encoder := e }) : isExecuted a = isExecuted b := by
  rw [h]; rfl

/-- What the loop of `rendergraph_execute` does, in terms of the heap `heap0`
at the start of the function: the current heap differs from it in encoders
only. -/
theorem execute_loop_spec (backend : le_backend_o) (ppAllocators : List Nat)
    (sa pc : Nat) (sw : Extent2D) (heap0 : Heap) :
    ∀ (l : List Nat) (heap : Heap) (k : Nat) (records : List ExecuteRecord),
      (∀ q, heap q = { heap0 q with encoder := (heap q).encoder }) →
      k + (l.filter (fun q => isExecuted (heap0 q))).length ≤ ppAllocators.length →
      ∃ heap1 recs,
        execute_loop backend ppAllocators sa pc sw l heap k records
          = some (heap1, k + recs.length, records ++ recs) ∧
        recs.map (fun r => r.pass) = l.filter (fun q => isExecuted (heap0 q)) ∧
        (∀ j r, recs[j]? = some r →
          r.allocIt = k + j ∧ ppAllocators[k + j]? = some r.allocator) ∧
        (∀ r, r ∈ recs →
          r.encoder_extent = encoder_extent (heap0 r.pass) sw ∧
          r.encoder = backend.encoder_create r.allocator pc sa r.encoder_extent ∧
          r.callbackExecute = (heap0 r.pass).callbackExecute ∧
          r.execute_callback_user_data = (heap0 r.pass).execute_callback_user_data ∧
          r.default_scissor_viewport =
            decide ((heap0 r.pass).type = LeRenderPassType.LE_RENDER_PASS_TYPE_DRAW)) ∧
        (∀ q, heap1 q = { heap0 q with encoder := (heap1 q).encoder }) ∧
        (∀ q, (q ∉ l ∨ isExecuted (heap0 q) = false) → heap1 q = heap q) ∧
        (l.Nodup → ∀ r, r ∈ recs → (heap1 r.pass).encoder = r.encoder) := by
  intro l
  induction l with
  | nil =>
    intro heap k records hinv _
    refine ⟨heap, [], by simp [execute_loop], rfl, ?_, ?_, hinv, fun _ _ => rfl, ?_⟩
    · intro j r hr; simp at hr
    · intro r hr; simp at hr
    · intro _ r hr; simp at hr
  | cons pass rest ih =>
    intro heap k records hinv hbound
    have hp := hinv pass
    have hex : isExecuted (heap pass) = isExecuted (heap0 pass) := isExecuted_congr _ hp
    by_cases hcond : isExecuted (heap0 pass) = true
    · rw [List.filter_cons, if_pos hcond, List.length_cons] at hbound
      have hk : k < ppAllocators.length := by omega
      obtain ⟨e, he⟩ : ∃ e, e = backend.encoder_create ppAllocators[k] pc sa
          (encoder_extent (heap pass) sw) := ⟨_, rfl⟩
      obtain ⟨heapA, hA⟩ : ∃ heapA : Heap, heapA =
          fun q => if q = pass then { heap pass with encoder := e } else heap q := ⟨_, rfl⟩
      obtain ⟨rec0, hrec0⟩ : ∃ rec0 : ExecuteRecord, rec0 =
          { pass := pass, allocIt := k, allocator := ppAllocators[k]
            encoder_extent := encoder_extent (heap pass) sw
            encoder := e
            default_scissor_viewport :=
              decide ((heap pass).type = LeRenderPassType.LE_RENDER_PASS_TYPE_DRAW)
            callbackExecute := (heap pass).callbackExecute
            execute_callback_user_data := (heap pass).execute_callback_user_data } := ⟨_, rfl⟩
      have hstep : execute_loop backend ppAllocators sa pc sw (pass :: rest) heap k records =
          execute_loop backend ppAllocators sa pc sw rest heapA (k + 1) (records ++ [rec0]) := by
        rw [execute_loop]
        have hc : ((heap pass).callbackExecute != 0 && (heap pass).sort_key != 0) = true := by
          have := hex.trans hcond
          exact this
        rw [if_pos hc, List.getElem?_eq_getElem hk]
        simp only
        rw [hA, hrec0, he]
      have hinvA : ∀ q, heapA q = { heap0 q with encoder := (heapA q).encoder } := by
        intro q
        rw [hA]
        by_cases hq : q = pass
        · subst hq
          simp only [if_true]
          rw [hp]
        · simp only [hq, if_false]
          exact hinv q
      obtain ⟨heap1, recs, h1, h2, h3, h4, h5, h6, h7⟩ := ih heapA (k + 1) (records ++ [rec0])
        hinvA (by omega)
      have hpass0 : heap pass = { heap0 pass with encoder := (heap pass).encoder } := hp
      have hext : encoder_extent (heap pass) sw = encoder_extent (heap0 pass) sw := by
        rw [hp]; rfl
      refine ⟨heap1, rec0 :: recs, ?_, ?_, ?_, ?_, h5, ?_, ?_⟩
      · rw [hstep, h1, List.length_cons]
        simp only [List.append_assoc, List.singleton_append, Option.some.injEq, Prod.mk.injEq,
          and_true, true_and]
        omega
      · rw [List.map_cons, h2, List.filter_cons, if_pos hcond, hrec0]
      · intro j r hr
        cases j with
        | zero =>
          simp only [List.getElem?_cons_zero, Option.some.injEq] at hr
          subst hr
          rw [hrec0]
          exact ⟨rfl, List.getElem?_eq_getElem hk⟩
        | succ j =>
          simp only [List.getElem?_cons_succ] at hr
          have := h3 j r hr
          have e1 : k + 1 + j = k + (j + 1) := by omega
          rw [e1] at this
          exact this
      · intro r hr
        rcases List.mem_cons.mp hr with hr | hr
        · subst hr
          rw [hrec0]
          simp only
          refine ⟨hext, ?_, ?_, ?_, ?_⟩
          · rw [he]
          · rw [hp]
          · rw [hp]
          · rw [hp]
        · exact h4 r hr
      · intro q hq
        have hq1 : heap1 q = heapA q := by
          apply h6
          rcases hq with hq | hq
          · left
            exact fun hm => hq (List.mem_cons_of_mem _ hm)
          · right
            exact hq
        rw [hq1, hA]
        have hne : q ≠ pass := by
          rcases hq with hq | hq
          · exact fun e1 => hq (e1 ▸ List.mem_cons_self _ _)
          · intro e1
            rw [e1, hcond] at hq
            cases hq
        simp [hne]
      · intro hnd r hr
        rw [List.nodup_cons] at hnd
        rcases List.mem_cons.mp hr with hr | hr
        · subst hr
          have : heap1 pass = heapA pass := h6 pass (Or.inl hnd.1)
          rw [hrec0]
          simp only
          rw [this, hA]
          simp
        · exact h7 hnd.2 r hr
    · have hcond1 : isExecuted (heap0 pass) = false := by simpa using hcond
      rw [List.filter_cons, if_neg hcond] at hbound
      have hstep : execute_loop backend ppAllocators sa pc sw (pass :: rest) heap k records =
          execute_loop backend ppAllocators sa pc sw rest heap k records := by
        rw [execute_loop]
        have hc : ¬ (((heap pass).callbackExecute != 0 && (heap pass).sort_key != 0) = true) := by
          have := hex.trans hcond1
          intro h
          rw [show ((heap pass).callbackExecute != 0 && (heap pass).sort_key != 0)
            = isExecuted (heap pass) from rfl, this] at h
          cases h
        rw [if_neg hc]
      obtain ⟨heap1, recs, h1, h2, h3, h4, h5, h6, h7⟩ := ih heap k records hinv hbound
      refine ⟨heap1, recs, by rw [hstep, h1], ?_, h3, h4, h5, ?_, ?_⟩
      · rw [h2, List.filter_cons, if_neg hcond]
      · intro q hq
        apply h6
        rcases hq with hq | hq
        · left
          exact fun hm => hq (List.mem_cons_of_mem _ hm)
        · right
          exact hq
      · intro hnd r hr
        rw [List.nodup_cons] at hnd
        exact h7 hnd.2 r hr

/-- What `rendergraph_execute` returns when the backend hands out as many
allocators as it is asked for. -/
theorem execute_spec (heap : Heap) (g : le_rendergraph_o) (frameIndex : Nat)
    (backend : le_backend_o)
    (hB : (backend.get_transient_allocators frameIndex g.passes.length).length
      = g.passes.length) :
    ∃ res, rendergraph_execute heap g frameIndex backend = some res ∧
      res.requested_allocators = g.passes.length ∧
      res.records.map (fun r => r.pass) = g.passes.filter (fun q => isExecuted (heap q)) ∧
      (∀ (j : Nat) (r : ExecuteRecord), res.records[j]? = some r →
        r.allocIt = j ∧
        (backend.get_transient_allocators frameIndex g.passes.length)[j]? = some r.allocator) ∧
      (∀ r, r ∈ res.records →
        r.encoder_extent = encoder_extent (heap r.pass) backend.get_swapchain_extent ∧
        r.encoder = backend.encoder_create r.allocator backend.get_pipeline_cache
          (backend.get_staging_allocator frameIndex) r.encoder_extent ∧
        r.callbackExecute = (heap r.pass).callbackExecute ∧
        r.execute_callback_user_data = (heap r.pass).execute_callback_user_data ∧
        r.default_scissor_viewport =
          decide ((heap r.pass).type = LeRenderPassType.LE_RENDER_PASS_TYPE_DRAW)) ∧
      (∀ q, res.heap q = { heap q with encoder := (res.heap q).encoder }) ∧
      (∀ q, (q ∉ g.passes ∨ isExecuted (heap q) = false) → res.heap q = heap q) ∧
      (g.passes.Nodup → ∀ r, r ∈ res.records → (res.heap r.pass).encoder = r.encoder) := by
  obtain ⟨heap1, recs, h1, h2, h3, h4, h5, h6, h7⟩ := execute_loop_spec backend
    (backend.get_transient_allocators frameIndex g.passes.length)
    (backend.get_staging_allocator frameIndex) backend.get_pipeline_cache
    backend.get_swapchain_extent heap g.passes heap 0 [] (fun q => rfl)
    (by rw [hB, Nat.zero_add]; exact List.length_filter_le _ _)
  refine ⟨{ heap := heap1, requested_allocators := g.passes.length, records := recs },
    ?_, rfl, h2, ?_, h4, h5, h6, h7⟩
  · unfold rendergraph_execute
    simp only [h1, List.nil_append]
  · intro j r hr
    have := h3 j r (by exact hr)
    rw [Nat.zero_add] at this
    exact this

/-- C19: rendergraph_execute (with a backend that hands out the requested
number of allocators) returns, and creates an encoder for exactly the passes
of the graph that have an execute callback and a nonzero sort key, in graph
order, so each such pass has its record; the encoder of a record is the one
the backend creates with the extent of the record, and with distinct passes it
is the encoder stored on the pass; that extent has the pass width when that is
nonzero and the swapchain width otherwise, and the pass height when that is
nonzero and the swapchain height otherwise; so for a pass with both dimensions
nonzero it is the pass's own extent, the same as in the run with any other
backend, whatever its swapchain extent is; and no pass has its width or
height changed. -/
theorem C19_encoder_extent_per_component (heap : Heap) (g : le_rendergraph_o) (frameIndex : Nat)
    (backend : le_backend_o)
    (hB : (backend.get_transient_allocators frameIndex g.passes.length).length
      = g.passes.length) :
    ∃ res, rendergraph_execute heap g frameIndex backend = some res ∧
      res.records.map (fun r => r.pass) =
        g.passes.filter (fun q => (heap q).callbackExecute != 0 && (heap q).sort_key != 0) ∧
      (∀ q, q ∈ g.passes → (heap q).callbackExecute ≠ 0 → (heap q).sort_key ≠ 0 →
        ∃ r, r ∈ res.records ∧ r.pass = q) ∧
      (∀ r, r ∈ res.records →
        r.encoder_extent.width =
          (if (heap r.pass).width ≠ 0 then (heap r.pass).width
           else backend.get_swapchain_extent.width) ∧
        r.encoder_extent.height =
          (if (heap r.pass).height ≠ 0 then (heap r.pass).height
           else backend.get_swapchain_extent.height) ∧
        ((heap r.pass).width ≠ 0 → (heap r.pass).height ≠ 0 →
          r.encoder_extent = { width := (heap r.pass).width, height := (heap r.pass).height }) ∧
        r.encoder = backend.encoder_create r.allocator backend.get_pipeline_cache
          (backend.get_staging_allocator frameIndex) r.encoder_extent ∧
        (g.passes.Nodup → (res.heap r.pass).encoder = r.encoder)) ∧
      (∀ backend2 : le_backend_o,
        (backend2.get_transient_allocators frameIndex g.passes.length).length
          = g.passes.length →
        ∃ res2, rendergraph_execute heap g frameIndex backend2 = some res2 ∧
          res2.records.map (fun r => r.pass) = res.records.map (fun r => r.pass) ∧
          ∀ r r2, r ∈ res.records → r2 ∈ res2.records → r2.pass = r.pass →
            (heap r.pass).width ≠ 0 → (heap r.pass).height ≠ 0 →
            r2.encoder_extent = r.encoder_extent) ∧
      (∀ q, (res.heap q).width = (heap q).width ∧ (res.heap q).height = (heap q).height) := by
  obtain ⟨res, hres, _, h2, _, h4, h5, _, h7⟩ := execute_spec heap g frameIndex backend hB
  refine ⟨res, hres, h2, ?_, ?_, ?_, ?_⟩
  · intro q hq hc hs
    have hm : q ∈ res.records.map (fun r => r.pass) := by
      rw [h2, List.mem_filter]
      exact ⟨hq, by simp [isExecuted, hc, hs]⟩
    obtain ⟨r, hr, hrq⟩ := List.mem_map.mp hm
    exact ⟨r, hr, hrq⟩
  · intro r hr
    obtain ⟨he, hc, _⟩ := h4 r hr
    refine ⟨?_, ?_, ?_, hc, fun hnd => h7 hnd r hr⟩
    · rw [he]
      by_cases hw : (heap r.pass).width = 0 <;> simp [encoder_extent, hw]
    · rw [he]
      by_cases hh : (heap r.pass).height = 0 <;> simp [encoder_extent, hh]
    · intro hw hh
      rw [he]
      simp [encoder_extent, hw, hh]
  · intro backend2 hB2
    obtain ⟨res2, hres2, _, k2, _, k4, _, _, _⟩ := execute_spec heap g frameIndex backend2 hB2
    refine ⟨res2, hres2, by rw [k2, h2], ?_⟩
    intro r r2 hr hr2 hp hw hh
    rw [(h4 r hr).1, (k4 r2 hr2).1, hp]
    simp [encoder_extent, hw, hh]
  · intro q
    have := h5 q
    constructor
    · rw [this]
    · rw [this]

theorem C19_encoder_extent_per_component_witness :
    (exampleBackend.get_transient_allocators 0 4).length = 4 ∧
    (exampleBackendSmall.get_transient_allocators 0 4).length = 4 ∧
    ∃ res res2,
      rendergraph_execute exampleExecuteHeap { passes := [0, 1, 2, 3] } 0 exampleBackend
        = some res ∧
      rendergraph_execute exampleExecuteHeap { passes := [0, 1, 2, 3] } 0 exampleBackendSmall
        = some res2 ∧
      res.records.map (fun r => (r.pass, r.encoder_extent, r.encoder)) =
        [(0, { width := 256, height := 128 }, 1100), (3, { width := 1920, height := 64 }, 1101)] ∧
      res2.records.map (fun r => (r.pass, r.encoder_extent, r.encoder)) =
        [(0, { width := 256, height := 128 }, 1100), (3, { width := 800, height := 64 }, 1101)] ∧
      [0, 1, 2, 3].map (fun q => ((res.heap q).width, (res.heap q).height, (res.heap q).encoder))
        = [(256, 128, 1100), (0, 0, 0), (0, 0, 0), (0, 64, 1101)] := by
  refine ⟨by decide, by decide, ?_⟩
  obtain ⟨res, hres, _, _, _, hsw, _⟩ := C19_encoder_extent_per_component exampleExecuteHeap
    { passes := [0, 1, 2, 3] } 0 exampleBackend (by decide)
  obtain ⟨res2, hres2, _, _⟩ := hsw exampleBackendSmall (by decide)
  have ev : (rendergraph_execute exampleExecuteHeap { passes := [0, 1, 2, 3] } 0
      exampleBackend).map (fun res =>
        (res.records.map (fun r => (r.pass, r.encoder_extent, r.encoder)),
         [0, 1, 2, 3].map (fun q =>
            ((res.heap q).width, (res.heap q).height, (res.heap q).encoder)))) =
      some ([(0, { width := 256, height := 128 }, 1100), (3, { width := 1920, height := 64 }, 1101)],
        [(256, 128, 1100), (0, 0, 0), (0, 0, 0), (0, 64, 1101)]) := by
    decide
  have ev2 : (rendergraph_execute exampleExecuteHeap { passes := [0, 1, 2, 3] } 0
      exampleBackendSmall).map (fun res =>
        res.records.map (fun r => (r.pass, r.encoder_extent, r.encoder))) =
      some [(0, { width := 256, height := 128 }, 1100), (3, { width := 800, height := 64 }, 1101)] := by
    decide
  rw [hres] at ev
  rw [hres2] at ev2
  simp only [Option.map_some', Option.some.injEq, Prod.mk.injEq] at ev ev2
  exact ⟨res, res2, hres, hres2, ev.1, ev2, ev.2⟩

/-- C20: rendergraph_execute (with a backend that hands out the requested
number of allocators) requests as many transient allocators as the graph has
passes and never reads past them; it creates an encoder and invokes the
execute callback, in graph order, for exactly the passes that have an execute
callback and a nonzero sort key; the k-th such pass receives the encoder
created on allocator k, and k is below the number of passes; a pass without
execute callback is left as it was, with no encoder given to it. -/
theorem C20_one_allocator_per_executed_pass (heap : Heap) (g : le_rendergraph_o)
    (frameIndex : Nat) (backend : le_backend_o)
    (hB : (backend.get_transient_allocators frameIndex g.passes.length).length
      = g.passes.length) :
    ∃ res, rendergraph_execute heap g frameIndex backend = some res ∧
      res.requested_allocators = g.passes.length ∧
      res.records.map (fun r => r.pass) =
        g.passes.filter (fun q => (heap q).callbackExecute != 0 && (heap q).sort_key != 0) ∧
      (∀ (k : Nat) (r : ExecuteRecord), res.records[k]? = some r →
        r.allocIt = k ∧ k < g.passes.length ∧
        (backend.get_transient_allocators frameIndex g.passes.length)[k]? = some r.allocator ∧
        r.encoder = backend.encoder_create r.allocator backend.get_pipeline_cache
          (backend.get_staging_allocator frameIndex) r.encoder_extent ∧
        r.callbackExecute = (heap r.pass).callbackExecute ∧
        r.execute_callback_user_data = (heap r.pass).execute_callback_user_data) ∧
      (∀ q, (heap q).callbackExecute = 0 →
        res.heap q = heap q ∧ ∀ r, r ∈ res.records → r.pass ≠ q) ∧
      (g.passes.Nodup → ∀ r, r ∈ res.records → (res.heap r.pass).encoder = r.encoder) := by
  obtain ⟨res, hres, h1, h2, h3, h4, _, h6, h7⟩ := execute_spec heap g frameIndex backend hB
  refine ⟨res, hres, h1, h2, ?_, ?_, h7⟩
  · intro k r hr
    obtain ⟨ha, hb⟩ := h3 k r hr
    have hk : k < g.passes.length := by
      have := getElem?_lt hb
      rw [hB] at this
      exact this
    have hmem : r ∈ res.records := List.getElem?_mem hr
    obtain ⟨_, hc, hd, he, _⟩ := h4 r hmem
    exact ⟨ha, hk, hb, hc, hd, he⟩
  · intro q hq
    have hne : isExecuted (heap q) = false := by simp [isExecuted, hq]
    refine ⟨h6 q (Or.inr hne), ?_⟩
    intro r hr hrq
    have hm : r.pass ∈ res.records.map (fun r => r.pass) := List.mem_map.mpr ⟨r, hr, rfl⟩
    rw [h2, List.mem_filter, hrq, hne] at hm
    cases hm.2

theorem C20_one_allocator_per_executed_pass_witness :
    ∃ res, rendergraph_execute exampleExecuteHeap { passes := [0, 1, 2, 3] } 0 exampleBackend
        = some res ∧
      res.requested_allocators = 4 ∧
      res.records.map (fun r => r.pass) = [0, 3] ∧
      res.records.map (fun r => r.allocIt) = [0, 1] := by
  obtain ⟨res, hres, h1, h2, _, _, _⟩ := C20_one_allocator_per_executed_pass exampleExecuteHeap
    { passes := [0, 1, 2, 3] } 0 exampleBackend (by decide)
  have ev : (rendergraph_execute exampleExecuteHeap { passes := [0, 1, 2, 3] } 0
      exampleBackend).map (fun r => r.records.map (fun r => r.allocIt)) = some [0, 1] := by
    decide
  rw [hres] at ev
  simp only [Option.map_some', Option.some.injEq] at ev
  exact ⟨res, hres, h1, h2.trans (by decide), ev⟩

/-- C21: renderpass_steal_encoder returns the encoder stored on the pass and
leaves a pass that differs only in its encoder slot, which is null; a second
steal returns null; renderpass_destroy calls the encoder's destroy, once and
on the stored encoder, exactly when the slot is non-null, so it destroys
nothing after the encoder was stolen. -/
theorem C21_steal_encoder_single_take (self : le_renderpass_o) :
    (renderpass_steal_encoder self).1 = self.encoder ∧
    (renderpass_steal_encoder self).2 = { self with encoder := 0 } ∧
    (renderpass_steal_encoder (renderpass_steal_encoder self).2).1 = 0 ∧
    (self.encoder ≠ 0 → renderpass_destroy self = [self.encoder]) ∧
    (self.encoder = 0 → renderpass_destroy self = []) ∧
    renderpass_destroy (renderpass_steal_encoder self).2 = [] := by
  refine ⟨rfl, rfl, rfl, ?_, ?_, ?_⟩
  · intro h
    simp [renderpass_destroy, h]
  · intro h
    simp [renderpass_destroy, h]
  · simp [renderpass_destroy, renderpass_steal_encoder]

theorem C21_steal_encoder_single_take_witness :
    (renderpass_steal_encoder { encoder := 1100 }).1 = 1100 ∧
    renderpass_destroy { encoder := 1100 } = [1100] ∧
    renderpass_destroy (renderpass_steal_encoder { encoder := 1100 }).2 = [] :=
  ⟨(C21_steal_encoder_single_take { encoder := 1100 }).1,
   (C21_steal_encoder_single_take { encoder := 1100 }).2.2.2.1 (by decide),
   (C21_steal_encoder_single_take { encoder := 1100 }).2.2.2.2.2⟩

/-! ### Job system: the functions -/

theorem claim_idle_fiber_none (fiber_heap : Nat → le_fiber_o) (l : List Nat) :
    claim_idle_fiber fiber_heap l = none ↔ ∀ f ∈ l, (fiber_heap f).fiber_active ≠ 0 := by
  induction l with
  | nil => simp [claim_idle_fiber]
  | cons a l ih =>
    unfold claim_idle_fiber
    by_cases h : (fiber_heap a).fiber_active = 0
    · simp [h]
    · simp [h, ih]

theorem claim_idle_fiber_some (fiber_heap : Nat → le_fiber_o) (l : List Nat) (f : Nat)
    (fh : Nat → le_fiber_o) (h : claim_idle_fiber fiber_heap l = some (f, fh)) :
    (∃ i : Nat, l[i]? = some f ∧
      ∀ j : Nat, j < i → ∀ g : Nat, l[j]? = some g → (fiber_heap g).fiber_active ≠ 0) ∧
    (fiber_heap f).fiber_active = 0 ∧
    fh = fun p => if p = f then { fiber_heap f with fiber_active := 1 } else fiber_heap p := by
  induction l with
  | nil => simp [claim_idle_fiber] at h
  | cons a l ih =>
    unfold claim_idle_fiber at h
    by_cases ha : (fiber_heap a).fiber_active = 0
    · simp only [ha, if_true, Option.some.injEq, Prod.mk.injEq] at h
      obtain ⟨h1, h2⟩ := h
      subst h1
      refine ⟨⟨0, by simp, ?_⟩, ha, h2.symm⟩
      intro j hj
      omega
    · simp only [ha, if_false] at h
      obtain ⟨⟨i, hi, hlt⟩, h2, h3⟩ := ih h
      refine ⟨⟨i + 1, by simpa using hi, ?_⟩, h2, h3⟩
      intro j hj g hg
      cases j with
      | zero =>
        simp at hg
        subst hg
        exact ha
      | succ j =>
        exact hlt j (by omega) g (by simpa using hg)

theorem claim_idle_fiber_isSome (fiber_heap : Nat → le_fiber_o) (l : List Nat)
    (h : ∃ f ∈ l, (fiber_heap f).fiber_active = 0) :
    ∃ f fh, claim_idle_fiber fiber_heap l = some (f, fh) := by
  cases hc : claim_idle_fiber fiber_heap l with
  | none =>
    obtain ⟨f, hf, h0⟩ := h
    exact absurd h0 ((claim_idle_fiber_none fiber_heap l).1 hc f hf)
  | some r => exact ⟨r.1, r.2, rfl⟩

/-- C22: for every job array, le_job_manager_run_jobs allocates one counter
and sets it to the number of jobs, puts it at the front of the manager's list
of counters, leaves the entries already in the job queue in place and appends
one entry per job, in array order, with the job's function and parameter and
that counter, changes no other counter, and stores the counter through the
out-parameter exactly when it is non-null. -/
theorem C22_run_jobs_counter_and_queue (s : JobSystem) (jobs : List le_job_o) (counter : Nat)
    (p_counter : Bool) :
    (le_job_manager_run_jobs s jobs counter p_counter).1.counter_heap counter = jobs.length ∧
    allocated_counters (le_job_manager_run_jobs s jobs counter p_counter).1.log =
      allocated_counters s.log ++ [counter] ∧
    (le_job_manager_run_jobs s jobs counter p_counter).1.manager.counters =
      counter :: s.manager.counters ∧
    (le_job_manager_run_jobs s jobs counter p_counter).1.manager.job_queue =
      s.manager.job_queue ++ jobs.map (fun j =>
        { fun_ptr := j.fun_ptr, fun_param := j.fun_param, complete_counter := counter }) ∧
    (∀ i : Nat, i < s.manager.job_queue.length →
      (le_job_manager_run_jobs s jobs counter p_counter).1.manager.job_queue[i]? =
        s.manager.job_queue[i]?) ∧
    (∀ (i : Nat) (j : le_job_o), jobs[i]? = some j →
      (le_job_manager_run_jobs s jobs counter p_counter).1.manager.job_queue[
          s.manager.job_queue.length + i]? =
        some { fun_ptr := j.fun_ptr, fun_param := j.fun_param, complete_counter := counter }) ∧
    (le_job_manager_run_jobs s jobs counter p_counter).1.manager.job_queue.length =
      s.manager.job_queue.length + jobs.length ∧
    (∀ c : Nat, c ≠ counter →
      (le_job_manager_run_jobs s jobs counter p_counter).1.counter_heap c = s.counter_heap c) ∧
    (le_job_manager_run_jobs s jobs counter true).2 = some counter ∧
    (le_job_manager_run_jobs s jobs counter false).2 = none := by
  refine ⟨by simp [le_job_manager_run_jobs], ?_, rfl, rfl, ?_, ?_,
    by simp [le_job_manager_run_jobs], ?_, rfl, rfl⟩
  · simp [le_job_manager_run_jobs, allocated_counters, List.filterMap_append,
      List.filterMap_map]
  · intro i hi
    simp [le_job_manager_run_jobs, List.getElem?_append_left hi]
  · intro i j hj
    simp [le_job_manager_run_jobs, List.getElem?_append_right, hj]
  · intro c hc
    simp [le_job_manager_run_jobs, hc]

theorem dispatch_acquire_resume (K : Nat) (s : JobSystem) (self : Nat)
    (hcf : (s.worker_heap self).current_fiber ≠ 0) :
    dispatch_acquire K s self = (s, true) := by
  simp [dispatch_acquire, hcf]

theorem dispatch_acquire_empty (K : Nat) (s : JobSystem) (self : Nat)
    (hcf : (s.worker_heap self).current_fiber = 0) (hq : s.manager.job_queue = []) :
    dispatch_acquire K s self =
      ({ s with log := s.log ++ [JobEvent.mutex_lock, JobEvent.mutex_unlock] }, false) := by
  simp [dispatch_acquire, hcf, hq]

theorem dispatch_acquire_no_fiber (K : Nat) (s : JobSystem) (self : Nat) (job : le_job_o)
    (rest : List le_job_o)
    (hcf : (s.worker_heap self).current_fiber = 0) (hq : s.manager.job_queue = job :: rest)
    (hc : claim_idle_fiber s.fiber_heap s.manager.fibers = none) :
    dispatch_acquire K s self =
      ({ s with
          manager := { s.manager with job_queue := rest }
          log := s.log ++ [JobEvent.mutex_lock, JobEvent.queue_pop_front job,
            JobEvent.mutex_unlock] ++ [JobEvent.no_fiber_available self job] }, false) := by
  simp [dispatch_acquire, hcf, hq, hc]

theorem dispatch_acquire_claim (K : Nat) (s : JobSystem) (self : Nat) (job : le_job_o)
    (rest : List le_job_o) (f : Nat) (fh : Nat → le_fiber_o)
    (hcf : (s.worker_heap self).current_fiber = 0) (hq : s.manager.job_queue = job :: rest)
    (hc : claim_idle_fiber s.fiber_heap s.manager.fibers = some (f, fh)) :
    dispatch_acquire K s self =
      ({ s with
          manager := { s.manager with job_queue := rest }
          fiber_heap := fun p =>
            if p = f then (le_fiber_setup K self f (fh f) job).1 else fh p
          worker_heap := fun w =>
            if w = self then { s.worker_heap self with current_fiber := f }
            else s.worker_heap w
          log := s.log ++ [JobEvent.mutex_lock, JobEvent.queue_pop_front job,
            JobEvent.mutex_unlock] }, true) := by
  simp [dispatch_acquire, hcf, hq, hc]

theorem le_fiber_setup_fields (K main_fiber fiber_ptr : Nat) (fiber : le_fiber_o)
    (job : le_job_o) :
    (le_fiber_setup K main_fiber fiber_ptr fiber job).1.job_param = job.fun_param ∧
    (le_fiber_setup K main_fiber fiber_ptr fiber job).1.job_complete = 0 ∧
    (le_fiber_setup K main_fiber fiber_ptr fiber job).1.job_complete_counter =
      job.complete_counter ∧
    (le_fiber_setup K main_fiber fiber_ptr fiber job).1.fiber_active = fiber.fiber_active ∧
    (le_fiber_setup K main_fiber fiber_ptr fiber job).1.stack_bottom = fiber.stack_bottom :=
  ⟨rfl, rfl, rfl, rfl, rfl⟩

/-- C27: when the worker has no current fiber, the job queue is not empty and
every fiber of the pool (all 12 of them) is active, a call of
le_worker_thread_dispatch returns, with the front job removed from the queue
and the rest of the queue as it was, with every fiber, every worker (its
current_fiber included) and every counter unchanged; the log gains the pop
under the mutex and the empty-handed return, and no switch to a fiber. -/
theorem C27_no_idle_fiber_drops_job (K : Nat) (s : JobSystem) (self : Nat) (run : job_run)
    (job : le_job_o) (rest : List le_job_o)
    (hcf : (s.worker_heap self).current_fiber = 0)
    (hq : s.manager.job_queue = job :: rest)
    (hactive : ∀ f ∈ s.manager.fibers, (s.fiber_heap f).fiber_active ≠ 0) :
    ∃ s1 : JobSystem, le_worker_thread_dispatch K s self run = some s1 ∧
      s1.manager.job_queue = rest ∧
      s1.fiber_heap = s.fiber_heap ∧
      s1.worker_heap = s.worker_heap ∧
      (s1.worker_heap self).current_fiber = 0 ∧
      s1.counter_heap = s.counter_heap ∧
      s1.manager.counters = s.manager.counters ∧
      s1.manager.fibers = s.manager.fibers ∧
      s1.log = s.log ++ [JobEvent.mutex_lock, JobEvent.queue_pop_front job,
        JobEvent.mutex_unlock, JobEvent.no_fiber_available self job] := by
  have hc := (claim_idle_fiber_none s.fiber_heap s.manager.fibers).2 hactive
  have ha := dispatch_acquire_no_fiber K s self job rest hcf hq hc
  refine ⟨(dispatch_acquire K s self).1, ?_, ?_⟩
  · unfold le_worker_thread_dispatch
    simp only [ha, Bool.false_eq_true, if_false]
  · rw [ha]
    simp [hcf]

theorem counter_decrement_pos (x : Nat) (h0 : 0 < x) (h1 : x < 2 ^ 32) :
    counter_decrement x + 1 = x := by
  unfold counter_decrement
  have : x + 2 ^ 32 - 1 = (x - 1) + 2 ^ 32 := by omega
  rw [this, Nat.add_mod_right, Nat.mod_eq_of_lt (by omega)]
  omega

/-- What a returning call of `dispatch_switch` has done. -/
theorem dispatch_switch_some (s s1 : JobSystem) (self : Nat) (run : job_run)
    (h : dispatch_switch s self run = some s1) :
    s1.manager = s.manager ∧ s1.static_worker_thread = s.static_worker_thread ∧
    (∀ w : Nat, (s1.worker_heap w).current_fiber = (s.worker_heap w).current_fiber) ∧
    (∀ w : Nat, (s1.worker_heap w).thread_id = (s.worker_heap w).thread_id) ∧
    (s1.in_dispatch = fun w => if w = self then true else s.in_dispatch w) ∧
    (∀ p : Nat, p ≠ (s.worker_heap self).current_fiber → s1.fiber_heap p = s.fiber_heap p) ∧
    (s1.fiber_heap (s.worker_heap self).current_fiber).fiber_active =
      (s.fiber_heap (s.worker_heap self).current_fiber).fiber_active ∧
    (s1.fiber_heap (s.worker_heap self).current_fiber).job_complete_counter =
      (s.fiber_heap (s.worker_heap self).current_fiber).job_complete_counter ∧
    (s1.fiber_heap (s.worker_heap self).current_fiber).job_param =
      (s.fiber_heap (s.worker_heap self).current_fiber).job_param ∧
    (s1.fiber_heap (s.worker_heap self).current_fiber).stack = run.fiber_stack ∧
    ((run.outcome = JobOutcome.yields ∧
        find_yielding_thread s.worker_heap (s.worker_heap self).thread_id
          s.static_worker_thread = some self ∧
        (s1.fiber_heap (s.worker_heap self).current_fiber).job_complete =
          (s.fiber_heap (s.worker_heap self).current_fiber).job_complete ∧
        s1.counter_heap = s.counter_heap ∧
        s1.log = s.log ++ [JobEvent.switch_to_fiber self (s.worker_heap self).current_fiber,
          JobEvent.fiber_yield self (s.worker_heap self).current_fiber]) ∨
     (run.outcome = JobOutcome.returns ∧
        (s1.fiber_heap (s.worker_heap self).current_fiber).job_complete = 1 ∧
        s1.log = s.log ++ [JobEvent.switch_to_fiber self (s.worker_heap self).current_fiber,
          JobEvent.fiber_exit (s.worker_heap self).current_fiber
            (s.fiber_heap (s.worker_heap self).current_fiber).job_complete_counter] ∧
        (((s.fiber_heap (s.worker_heap self).current_fiber).job_complete_counter = 0 ∧
            s1.counter_heap = s.counter_heap) ∨
         ((s.fiber_heap (s.worker_heap self).current_fiber).job_complete_counter ≠ 0 ∧
            (s.fiber_heap (s.worker_heap self).current_fiber).job_complete_counter ∈
              s.manager.counters ∧
            s1.counter_heap = fun c =>
              if c = (s.fiber_heap (s.worker_heap self).current_fiber).job_complete_counter then
                counter_decrement (s.counter_heap
                  (s.fiber_heap (s.worker_heap self).current_fiber).job_complete_counter)
              else s.counter_heap c)))) := by
  unfold dispatch_switch at h
  cases hrun : run.outcome with
  | yields =>
    simp only [hrun, le_fiber_yield] at h
    have hfind : ∀ t : Nat,
        find_yielding_thread
          (fun w => if w = self then
            { s.worker_heap self with
              this_fiber := { (s.worker_heap self).this_fiber with stack := run.host_stack } }
            else s.worker_heap w)
          t s.static_worker_thread =
        find_yielding_thread s.worker_heap t s.static_worker_thread := by
      intro t
      induction s.static_worker_thread with
      | nil => rfl
      | cons a l ih =>
        unfold find_yielding_thread
        rw [ih]
        by_cases ha : a = self
        · subst ha
          simp
        · simp [ha]
    rw [hfind] at h
    simp only [if_true] at h
    cases hf : find_yielding_thread s.worker_heap (s.worker_heap self).thread_id
        s.static_worker_thread with
    | none => simp [hf] at h
    | some y =>
      simp only [hf] at h
      by_cases hy : y = self
      · subst hy
        simp only [if_true, Option.some.injEq] at h
        subst h
        refine ⟨rfl, rfl, ?_, ?_, rfl, ?_, by simp, by simp, by simp, by simp, Or.inl ?_⟩
        · intro w
          by_cases hw : w = y <;> simp [hw]
        · intro w
          by_cases hw : w = y <;> simp [hw]
        · intro p hp
          simp [hp]
        · exact ⟨rfl, rfl, by simp, rfl, by simp⟩
      · simp [hy] at h
  | returns =>
    simp only [hrun, fiber_exit] at h
    by_cases hc0 : (s.fiber_heap (s.worker_heap self).current_fiber).job_complete_counter = 0
    · simp only [hc0, ne_eq, not_true_eq_false, if_false, Option.some.injEq] at h
      subst h
      refine ⟨rfl, rfl, ?_, ?_, rfl, ?_, by simp, by simp [hc0], by simp, by simp, Or.inr ?_⟩
      · intro w
        by_cases hw : w = self <;> simp [hw]
      · intro w
        by_cases hw : w = self <;> simp [hw]
      · intro p hp
        simp [hp]
      · exact ⟨rfl, by simp, by simp [hc0], Or.inl ⟨hc0, rfl⟩⟩
    · by_cases hlive : (s.fiber_heap (s.worker_heap self).current_fiber).job_complete_counter ∈
          s.manager.counters
      · simp only [ne_eq, hc0, not_false_eq_true, if_true, hlive, Option.some.injEq] at h
        subst h
        refine ⟨rfl, rfl, ?_, ?_, rfl, ?_, by simp, by simp, by simp, by simp, Or.inr ?_⟩
        · intro w
          by_cases hw : w = self <;> simp [hw]
        · intro w
          by_cases hw : w = self <;> simp [hw]
        · intro p hp
          simp [hp]
        · exact ⟨rfl, by simp, by simp, Or.inr ⟨hc0, hlive, rfl⟩⟩
      · simp [hc0, hlive] at h

/-- The call `dispatch_switch` returns when the job returns and its counter is
null or live, and when the job yields and the scan of the worker table finds
the worker. -/
theorem dispatch_switch_isSome (s : JobSystem) (self : Nat) (run : job_run)
    (h : (run.outcome = JobOutcome.returns ∧
        ((s.fiber_heap (s.worker_heap self).current_fiber).job_complete_counter = 0 ∨
         (s.fiber_heap (s.worker_heap self).current_fiber).job_complete_counter ∈
            s.manager.counters)) ∨
      (run.outcome = JobOutcome.yields ∧
        find_yielding_thread s.worker_heap (s.worker_heap self).thread_id
          s.static_worker_thread = some self)) :
    ∃ s1 : JobSystem, dispatch_switch s self run = some s1 := by
  have hfind : ∀ t : Nat,
      find_yielding_thread
        (fun w => if w = self then
          { s.worker_heap self with
            this_fiber := { (s.worker_heap self).this_fiber with stack := run.host_stack } }
          else s.worker_heap w)
        t s.static_worker_thread =
      find_yielding_thread s.worker_heap t s.static_worker_thread := by
    intro t
    induction s.static_worker_thread with
    | nil => rfl
    | cons a l ih =>
      unfold find_yielding_thread
      rw [ih]
      by_cases ha : a = self
      · subst ha
        simp
      · simp [ha]
  rcases h with ⟨hrun, hc⟩ | ⟨hrun, hf⟩
  · unfold dispatch_switch
    simp only [hrun, fiber_exit]
    rcases hc with hc | hc
    · simp [hc]
    · by_cases hc0 : (s.fiber_heap (s.worker_heap self).current_fiber).job_complete_counter = 0
      · simp [hc0]
      · simp [hc0, hc]
  · unfold dispatch_switch
    simp only [hrun, le_fiber_yield]
    rw [hfind]
    simp [hf]

/-- What `dispatch_acquire` has done when it claimed a fiber. -/
theorem dispatch_acquire_claim_fields (K : Nat) (s : JobSystem) (self : Nat) (job : le_job_o)
    (rest : List le_job_o) (f : Nat) (fh : Nat → le_fiber_o)
    (hcf : (s.worker_heap self).current_fiber = 0) (hq : s.manager.job_queue = job :: rest)
    (hc : claim_idle_fiber s.fiber_heap s.manager.fibers = some (f, fh)) :
    (dispatch_acquire K s self).2 = true ∧
    (dispatch_acquire K s self).1.manager.job_queue = rest ∧
    (dispatch_acquire K s self).1.manager.counters = s.manager.counters ∧
    (dispatch_acquire K s self).1.manager.fibers = s.manager.fibers ∧
    (dispatch_acquire K s self).1.static_worker_thread = s.static_worker_thread ∧
    (dispatch_acquire K s self).1.counter_heap = s.counter_heap ∧
    ((dispatch_acquire K s self).1.worker_heap self).current_fiber = f ∧
    (∀ w : Nat, w ≠ self → (dispatch_acquire K s self).1.worker_heap w = s.worker_heap w) ∧
    (∀ w : Nat, ((dispatch_acquire K s self).1.worker_heap w).thread_id =
      (s.worker_heap w).thread_id) ∧
    (dispatch_acquire K s self).1.in_dispatch = s.in_dispatch ∧
    (dispatch_acquire K s self).1.log = s.log ++ [JobEvent.mutex_lock,
      JobEvent.queue_pop_front job, JobEvent.mutex_unlock] ∧
    ((dispatch_acquire K s self).1.fiber_heap f).fiber_active = 1 ∧
    ((dispatch_acquire K s self).1.fiber_heap f).job_complete = 0 ∧
    ((dispatch_acquire K s self).1.fiber_heap f).job_complete_counter = job.complete_counter ∧
    ((dispatch_acquire K s self).1.fiber_heap f).job_param = job.fun_param ∧
    (∀ p : Nat, p ≠ f → (dispatch_acquire K s self).1.fiber_heap p = s.fiber_heap p) := by
  obtain ⟨-, -, hfh⟩ := claim_idle_fiber_some _ _ _ _ hc
  rw [dispatch_acquire_claim K s self job rest f fh hcf hq hc]
  subst hfh
  refine ⟨rfl, rfl, rfl, rfl, rfl, rfl, by simp, ?_, ?_, rfl, rfl, by simp [le_fiber_setup],
    by simp [le_fiber_setup], by simp [le_fiber_setup], by simp [le_fiber_setup], ?_⟩
  · intro w hw
    simp [hw]
  · intro w
    by_cases hw : w = self <;> simp [hw]
  · intro p hp
    simp [hp]

/-- C28: when the worker has no current fiber, the job queue is not empty
and some fiber of the pool is idle, the first part of the dispatch call pops
the front job and claims the idle fiber of lowest pool index, setting its
fiber_active to 1 and making it the worker's current fiber, set up with the
job; if the job function returns without yielding, and the job's counter is a
live counter whose value is a positive 32-bit number, the whole call returns
with that counter one lower, every other counter unchanged, the claimed
fiber's fiber_active 0 and job_complete 1, every other fiber unchanged, and
the worker's current_fiber null; the log shows the pop under the mutex, one
switch to the claimed fiber and one fiber exit. -/
theorem C28_returning_job_completes_in_one_dispatch (K : Nat) (s : JobSystem) (self : Nat)
    (run : job_run) (job : le_job_o) (rest : List le_job_o)
    (hcf : (s.worker_heap self).current_fiber = 0)
    (hq : s.manager.job_queue = job :: rest)
    (hidle : ∃ f ∈ s.manager.fibers, (s.fiber_heap f).fiber_active = 0)
    (hrun : run.outcome = JobOutcome.returns)
    (hc0 : job.complete_counter ≠ 0)
    (hlive : job.complete_counter ∈ s.manager.counters)
    (hpos : 0 < s.counter_heap job.complete_counter)
    (hlt : s.counter_heap job.complete_counter < 2 ^ 32) :
    ∃ (s1 : JobSystem) (f i : Nat),
      s.manager.fibers[i]? = some f ∧ (s.fiber_heap f).fiber_active = 0 ∧
      (∀ j : Nat, j < i → ∀ g : Nat, s.manager.fibers[j]? = some g →
        (s.fiber_heap g).fiber_active ≠ 0) ∧
      (dispatch_acquire K s self).2 = true ∧
      (dispatch_acquire K s self).1.manager.job_queue = rest ∧
      ((dispatch_acquire K s self).1.worker_heap self).current_fiber = f ∧
      ((dispatch_acquire K s self).1.fiber_heap f).fiber_active = 1 ∧
      ((dispatch_acquire K s self).1.fiber_heap f).job_param = job.fun_param ∧
      ((dispatch_acquire K s self).1.fiber_heap f).job_complete_counter = job.complete_counter ∧
      (∀ p : Nat, p ≠ f → (dispatch_acquire K s self).1.fiber_heap p = s.fiber_heap p) ∧
      le_worker_thread_dispatch K s self run = some s1 ∧
      s1.manager.job_queue = rest ∧
      s1.counter_heap job.complete_counter + 1 = s.counter_heap job.complete_counter ∧
      (∀ c : Nat, c ≠ job.complete_counter → s1.counter_heap c = s.counter_heap c) ∧
      (s1.fiber_heap f).fiber_active = 0 ∧
      (s1.fiber_heap f).job_complete = 1 ∧
      (∀ p : Nat, p ≠ f → s1.fiber_heap p = s.fiber_heap p) ∧
      (s1.worker_heap self).current_fiber = 0 ∧
      s1.log = s.log ++ [JobEvent.mutex_lock, JobEvent.queue_pop_front job,
        JobEvent.mutex_unlock, JobEvent.switch_to_fiber self f,
        JobEvent.fiber_exit f job.complete_counter] := by
  obtain ⟨f, fh, hc⟩ := claim_idle_fiber_isSome s.fiber_heap s.manager.fibers hidle
  obtain ⟨⟨i, hi, hbefore⟩, hf0, -⟩ := claim_idle_fiber_some _ _ _ _ hc
  obtain ⟨a1, a2, a3, a4, a5, a6, a7, a8, a9, a10, a11, a12, a13, a14, a15, a16⟩ :=
    dispatch_acquire_claim_fields K s self job rest f fh hcf hq hc
  obtain ⟨s1, hs1⟩ := dispatch_switch_isSome (dispatch_acquire K s self).1 self run
    (Or.inl ⟨hrun, Or.inr (by rw [a7, a14, a3]; exact hlive)⟩)
  obtain ⟨b1, b2, b3, b4, b5, b6, b7, b8, b9, b10, b11⟩ := dispatch_switch_some _ _ _ _ hs1
  rw [a7] at b6 b7 b8 b9 b10 b11
  rw [a14] at b11
  have b11 : (s1.fiber_heap f).job_complete = 1 ∧
      s1.log = (dispatch_acquire K s self).1.log ++
        [JobEvent.switch_to_fiber self f, JobEvent.fiber_exit f job.complete_counter] ∧
      s1.counter_heap = fun c =>
        if c = job.complete_counter then
          counter_decrement ((dispatch_acquire K s self).1.counter_heap job.complete_counter)
        else (dispatch_acquire K s self).1.counter_heap c := by
    rcases b11 with ⟨h, -⟩ | ⟨-, h1, h2, h3⟩
    · rw [hrun] at h
      cases h
    · rcases h3 with ⟨h, -⟩ | ⟨-, -, h⟩
      · exact absurd h hc0
      · exact ⟨h1, h2, h⟩
  obtain ⟨c1, c2, c3⟩ := b11
  have hcf1 : (s1.worker_heap self).current_fiber = f := by rw [b3, a7]
  refine ⟨dispatch_end s1 self, f, i, hi, hf0, hbefore, a1, a2, a7, a12, a15, a14, a16, ?_, ?_,
    ?_, ?_, ?_, ?_, ?_, ?_, ?_⟩
  · unfold le_worker_thread_dispatch
    simp only [a1, if_true, hs1]
  · simp only [dispatch_end, hcf1, c1, if_true]
    rw [b1, a2]
  · simp only [dispatch_end, hcf1, c1, if_true]
    rw [c3, a6]
    simp only [if_true]
    exact counter_decrement_pos _ hpos hlt
  · intro c hc
    simp only [dispatch_end, hcf1, c1, if_true]
    rw [c3, a6]
    simp [hc]
  · simp [dispatch_end, hcf1, c1]
  · simp [dispatch_end, hcf1, c1]
  · intro p hp
    simp only [dispatch_end, hcf1, c1, if_true, hp, if_false]
    rw [b6 p hp, a16 p hp]
  · simp [dispatch_end, hcf1, c1]
  · simp only [dispatch_end, hcf1, c1, if_true]
    rw [c2, a11]
    simp

theorem find_yielding_thread_congr (h1 h2 : Nat → le_worker_thread_o)
    (h : ∀ w : Nat, (h1 w).thread_id = (h2 w).thread_id) (t : Nat) (l : List Nat) :
    find_yielding_thread h1 t l = find_yielding_thread h2 t l := by
  induction l with
  | nil => rfl
  | cons a l ih =>
    unfold find_yielding_thread
    rw [ih, h a]

/-- What `dispatch_end` does. -/
theorem dispatch_end_fields (s : JobSystem) (self : Nat) :
    (dispatch_end s self).manager = s.manager ∧
    (dispatch_end s self).static_worker_thread = s.static_worker_thread ∧
    (dispatch_end s self).counter_heap = s.counter_heap ∧
    (dispatch_end s self).log = s.log ∧
    ((dispatch_end s self).in_dispatch = fun w => if w = self then false else s.in_dispatch w) ∧
    (∀ w : Nat, w ≠ self → (dispatch_end s self).worker_heap w = s.worker_heap w) ∧
    (∀ w : Nat, ((dispatch_end s self).worker_heap w).thread_id = (s.worker_heap w).thread_id) ∧
    (∀ p : Nat, p ≠ (s.worker_heap self).current_fiber →
      (dispatch_end s self).fiber_heap p = s.fiber_heap p) ∧
    ((s.fiber_heap (s.worker_heap self).current_fiber).job_complete = 1 →
      ((dispatch_end s self).worker_heap self).current_fiber = 0 ∧
      (dispatch_end s self).fiber_heap (s.worker_heap self).current_fiber =
        { s.fiber_heap (s.worker_heap self).current_fiber with fiber_active := 0 }) ∧
    ((s.fiber_heap (s.worker_heap self).current_fiber).job_complete ≠ 1 →
      (dispatch_end s self).worker_heap = s.worker_heap ∧
      (dispatch_end s self).fiber_heap = s.fiber_heap) := by
  by_cases h : (s.fiber_heap (s.worker_heap self).current_fiber).job_complete = 1
  · refine ⟨by simp [dispatch_end, h], by simp [dispatch_end, h], by simp [dispatch_end, h],
      by simp [dispatch_end, h], by simp [dispatch_end, h], ?_, ?_, ?_, ?_, ?_⟩
    · intro w hw
      simp [dispatch_end, h, hw]
    · intro w
      by_cases hw : w = self <;> simp [dispatch_end, h, hw]
    · intro p hp
      simp [dispatch_end, h, hp]
    · intro _
      simp [dispatch_end, h]
    · intro hn
      exact absurd h hn
  · refine ⟨by simp [dispatch_end, h], by simp [dispatch_end, h], by simp [dispatch_end, h],
      by simp [dispatch_end, h], by simp [dispatch_end, h], ?_, ?_, ?_, ?_, ?_⟩
    · intro w _
      simp [dispatch_end, h]
    · intro w
      simp [dispatch_end, h]
    · intro p _
      simp [dispatch_end, h]
    · intro h1
      exact absurd h1 h
    · intro _
      simp [dispatch_end, h]

/-- C29: (1) when a worker without a current fiber claims a fiber for the
front job and the job yields, the dispatch call returns with the claimed
fiber as the worker's current fiber, its fiber_active 1, its job_complete 0
and every counter unchanged; (2) when the unfinished job (job_complete = 0)
on a worker's current fiber is resumed and yields, the call returns with the
fiber still the worker's current fiber, its fiber_active and its counter as
before, its job_complete 0, and every counter unchanged; (3) every returning dispatch call of a worker whose current_fiber
is not null leaves the job queue as it is, leaves every other fiber as it is,
and switches to that fiber: the log gains the switch to it, followed by the
yield or the exit of that fiber; (4) such a call returns when the job returns
and the counter of the fiber is null or live. Yields need the scan of the
worker table to find the worker. -/
theorem C29_yielding_fiber_stays_attached (K : Nat) (s : JobSystem) (self : Nat) (run : job_run) :
    (∀ (job : le_job_o) (rest : List le_job_o),
      (s.worker_heap self).current_fiber = 0 → s.manager.job_queue = job :: rest →
      (∃ f ∈ s.manager.fibers, (s.fiber_heap f).fiber_active = 0) →
      run.outcome = JobOutcome.yields →
      find_yielding_thread s.worker_heap (s.worker_heap self).thread_id
        s.static_worker_thread = some self →
      ∃ (s1 : JobSystem) (f : Nat), le_worker_thread_dispatch K s self run = some s1 ∧
        f ∈ s.manager.fibers ∧ (s.fiber_heap f).fiber_active = 0 ∧
        (s1.worker_heap self).current_fiber = f ∧
        (s1.fiber_heap f).fiber_active = 1 ∧ (s1.fiber_heap f).job_complete = 0 ∧
        (s1.fiber_heap f).job_complete_counter = job.complete_counter ∧
        s1.counter_heap = s.counter_heap) ∧
    ((s.worker_heap self).current_fiber ≠ 0 →
      run.outcome = JobOutcome.yields →
      find_yielding_thread s.worker_heap (s.worker_heap self).thread_id
        s.static_worker_thread = some self →
      (s.fiber_heap (s.worker_heap self).current_fiber).job_complete = 0 →
      ∃ s1 : JobSystem, le_worker_thread_dispatch K s self run = some s1 ∧
        (s1.worker_heap self).current_fiber = (s.worker_heap self).current_fiber ∧
        (s1.fiber_heap (s.worker_heap self).current_fiber).fiber_active =
          (s.fiber_heap (s.worker_heap self).current_fiber).fiber_active ∧
        (s1.fiber_heap (s.worker_heap self).current_fiber).job_complete = 0 ∧
        (s1.fiber_heap (s.worker_heap self).current_fiber).job_complete_counter =
          (s.fiber_heap (s.worker_heap self).current_fiber).job_complete_counter ∧
        s1.counter_heap = s.counter_heap) ∧
    ((s.worker_heap self).current_fiber ≠ 0 →
      ∀ s1 : JobSystem, le_worker_thread_dispatch K s self run = some s1 →
        s1.manager = s.manager ∧
        (∀ p : Nat, p ≠ (s.worker_heap self).current_fiber →
          s1.fiber_heap p = s.fiber_heap p) ∧
        (s1.log = s.log ++ [JobEvent.switch_to_fiber self (s.worker_heap self).current_fiber,
            JobEvent.fiber_yield self (s.worker_heap self).current_fiber] ∨
         s1.log = s.log ++ [JobEvent.switch_to_fiber self (s.worker_heap self).current_fiber,
            JobEvent.fiber_exit (s.worker_heap self).current_fiber
              (s.fiber_heap (s.worker_heap self).current_fiber).job_complete_counter])) ∧
    ((s.worker_heap self).current_fiber ≠ 0 →
      run.outcome = JobOutcome.returns →
      ((s.fiber_heap (s.worker_heap self).current_fiber).job_complete_counter = 0 ∨
        (s.fiber_heap (s.worker_heap self).current_fiber).job_complete_counter ∈
          s.manager.counters) →
      ∃ s1 : JobSystem, le_worker_thread_dispatch K s self run = some s1) := by
  refine ⟨?_, ?_, ?_, ?_⟩
  · intro job rest hcf hq hidle hrun hfind
    obtain ⟨f, fh, hc⟩ := claim_idle_fiber_isSome s.fiber_heap s.manager.fibers hidle
    obtain ⟨⟨i, hi, -⟩, hf0, -⟩ := claim_idle_fiber_some _ _ _ _ hc
    obtain ⟨a1, a2, a3, a4, a5, a6, a7, a8, a9, a10, a11, a12, a13, a14, a15, a16⟩ :=
      dispatch_acquire_claim_fields K s self job rest f fh hcf hq hc
    obtain ⟨s1, hs1⟩ := dispatch_switch_isSome (dispatch_acquire K s self).1 self run
      (Or.inr ⟨hrun, by
        rw [a9, a5, find_yielding_thread_congr _ s.worker_heap a9]
        exact hfind⟩)
    obtain ⟨b1, b2, b3, b4, b5, b6, b7, b8, b9, b10, b11⟩ := dispatch_switch_some _ _ _ _ hs1
    rw [a7] at b6 b7 b8 b9 b10 b11
    have b11 : (s1.fiber_heap f).job_complete = 0 ∧ s1.counter_heap = s.counter_heap := by
      rcases b11 with ⟨-, -, h1, h2, -⟩ | ⟨h, -⟩
      · exact ⟨by rw [h1, a13], by rw [h2, a6]⟩
      · rw [hrun] at h
        cases h
    obtain ⟨c1, c2⟩ := b11
    have hcf1 : (s1.worker_heap self).current_fiber = f := by rw [b3, a7]
    obtain ⟨d1, d2, d3, d4, d5, d6, d7, d8, d9, d10⟩ := dispatch_end_fields s1 self
    rw [hcf1] at d8 d9 d10
    obtain ⟨d11, d12⟩ := d10 (by rw [c1]; decide)
    refine ⟨dispatch_end s1 self, f, ?_, List.getElem?_mem hi, hf0, ?_, ?_, ?_, ?_, ?_⟩
    · unfold le_worker_thread_dispatch
      simp only [a1, if_true, hs1]
    · rw [d11, hcf1]
    · rw [d12, b7, a12]
    · rw [d12, c1]
    · rw [d12, b8, a14]
    · rw [d3, c2]
  · intro hcf hrun hfind h0
    have ha := dispatch_acquire_resume K s self hcf
    obtain ⟨s1, hs1⟩ := dispatch_switch_isSome s self run (Or.inr ⟨hrun, hfind⟩)
    obtain ⟨b1, b2, b3, b4, b5, b6, b7, b8, b9, b10, b11⟩ := dispatch_switch_some _ _ _ _ hs1
    have b11 : (s1.fiber_heap (s.worker_heap self).current_fiber).job_complete = 0 ∧
        s1.counter_heap = s.counter_heap := by
      rcases b11 with ⟨-, -, h1, h2, -⟩ | ⟨h, -⟩
      · exact ⟨by rw [h1, h0], h2⟩
      · rw [hrun] at h
        cases h
    obtain ⟨c1, c2⟩ := b11
    obtain ⟨d1, d2, d3, d4, d5, d6, d7, d8, d9, d10⟩ := dispatch_end_fields s1 self
    rw [b3 self] at d8 d9 d10
    obtain ⟨d11, d12⟩ := d10 (by rw [c1]; decide)
    refine ⟨dispatch_end s1 self, ?_, ?_, ?_, ?_, ?_, ?_⟩
    · unfold le_worker_thread_dispatch
      simp only [ha, if_true, hs1]
    · rw [d11, b3]
    · rw [d12, b7]
    · rw [d12, c1]
    · rw [d12, b8]
    · rw [d3, c2]
  · intro hcf s1 h
    have ha := dispatch_acquire_resume K s self hcf
    unfold le_worker_thread_dispatch at h
    simp only [ha, if_true] at h
    cases hs : dispatch_switch s self run with
    | none => simp [hs] at h
    | some s2 =>
      simp only [hs, Option.some.injEq] at h
      subst h
      obtain ⟨b1, b2, b3, b4, b5, b6, b7, b8, b9, b10, b11⟩ := dispatch_switch_some _ _ _ _ hs
      obtain ⟨d1, d2, d3, d4, d5, d6, d7, d8, d9, d10⟩ := dispatch_end_fields s2 self
      rw [b3 self] at d8
      refine ⟨by rw [d1, b1], ?_, ?_⟩
      · intro p hp
        rw [d8 p hp, b6 p hp]
      · rw [d4]
        rcases b11 with ⟨-, -, -, -, h⟩ | ⟨-, -, h, -⟩
        · exact Or.inl h
        · exact Or.inr h
  · intro hcf hrun hc
    have ha := dispatch_acquire_resume K s self hcf
    obtain ⟨s1, hs1⟩ := dispatch_switch_isSome s self run (Or.inl ⟨hrun, hc⟩)
    refine ⟨dispatch_end s1 self, ?_⟩
    unfold le_worker_thread_dispatch
    simp only [ha, if_true, hs1]

/-- What a returning call of `le_job_manager_wait_for_counter_and_free` has done. -/
theorem wait_for_counter_and_free_some (s s1 : JobSystem) (counter target_value : Nat)
    (h : le_job_manager_wait_for_counter_and_free s counter target_value = some s1) :
    counter ∈ s.manager.counters ∧ s.counter_heap counter = target_value ∧
    s1.manager.counters = s.manager.counters.filter (fun c => c != counter) ∧
    s1.manager.fibers = s.manager.fibers ∧ s1.manager.job_queue = s.manager.job_queue ∧
    s1.counter_heap = s.counter_heap ∧ s1.fiber_heap = s.fiber_heap ∧
    s1.worker_heap = s.worker_heap ∧ s1.in_dispatch = s.in_dispatch ∧
    s1.log = s.log ++ [JobEvent.counter_delete counter] := by
  unfold le_job_manager_wait_for_counter_and_free at h
  by_cases hl : counter ∈ s.manager.counters
  · by_cases ht : s.counter_heap counter = target_value
    · simp only [hl, ht, if_true, Option.some.injEq] at h
      subst h
      exact ⟨hl, ht, rfl, rfl, rfl, rfl, rfl, rfl, rfl, rfl⟩
    · simp [hl, ht] at h
  · simp [hl] at h

/-- C30: when le_job_manager_wait_for_counter_and_free returns, the counter
had the target value, it is no longer in the manager's list of counters, the
list is the old list without the occurrences of the counter, so that every
other counter is still in it, in the same order, and the delete of the counter
is logged; and when the list before the call is the one that run_jobs built
by putting this counter, not in the list before, in front, the list after the
call is the list from before run_jobs. -/
theorem C30_wait_removes_counter (s s1 : JobSystem) (counter target_value : Nat)
    (h : le_job_manager_wait_for_counter_and_free s counter target_value = some s1) :
    s.counter_heap counter = target_value ∧
    counter ∉ s1.manager.counters ∧
    s1.manager.counters = s.manager.counters.filter (fun c => c != counter) ∧
    (∀ c : Nat, c ≠ counter → (c ∈ s1.manager.counters ↔ c ∈ s.manager.counters)) ∧
    List.Sublist s1.manager.counters s.manager.counters ∧
    s1.log = s.log ++ [JobEvent.counter_delete counter] ∧
    (∀ (s0 : JobSystem) (jobs : List le_job_o) (p_counter : Bool),
      counter ∉ s0.manager.counters →
      s.manager.counters =
        (le_job_manager_run_jobs s0 jobs counter p_counter).1.manager.counters →
      s1.manager.counters = s0.manager.counters) := by
  obtain ⟨-, ht, hc, -, -, -, -, -, -, hlog⟩ := wait_for_counter_and_free_some s s1 _ _ h
  refine ⟨ht, by rw [hc]; simp, hc, ?_, by rw [hc]; exact List.filter_sublist _, hlog, ?_⟩
  · intro c hne
    rw [hc]
    simp [hne]
  · intro s0 jobs p hn he
    rw [hc, he]
    simp only [le_job_manager_run_jobs]
    rw [List.filter_cons_of_neg (by simp)]
    rw [List.filter_eq_self]
    intro a ha
    have : a ≠ counter := fun e => hn (e ▸ ha)
    simpa using this

/-- C23: le_job_manager_run_jobs pushes its jobs to the job queue without
taking the queue mutex: what it adds to the log is the allocation of the
counter followed by one push per job, with no lock and no unlock of the mutex,
so for a non-empty job array the pushes are mutations of the queue outside the
mutex; whereas the log that the first part of le_worker_thread_dispatch adds
has its pop between a lock and the unlock. -/
theorem C23_run_jobs_pushes_without_mutex (K : Nat) (s : JobSystem) (jobs : List le_job_o)
    (counter : Nat) (p_counter : Bool) (self : Nat) :
    (∃ added : List JobEvent,
      (le_job_manager_run_jobs s jobs counter p_counter).1.log = s.log ++ added ∧
      JobEvent.mutex_lock ∉ added ∧ JobEvent.mutex_unlock ∉ added ∧
      (∀ j ∈ jobs, JobEvent.queue_push_back
        { fun_ptr := j.fun_ptr, fun_param := j.fun_param, complete_counter := counter } ∈
          added) ∧
      (jobs ≠ [] → queue_mutations_locked false added = false)) ∧
    (∃ added : List JobEvent,
      (dispatch_acquire K s self).1.log = s.log ++ added ∧
      queue_mutations_locked false added = true ∧
      (∀ (job : le_job_o) (rest : List le_job_o),
        (s.worker_heap self).current_fiber = 0 → s.manager.job_queue = job :: rest →
        [JobEvent.mutex_lock, JobEvent.queue_pop_front job, JobEvent.mutex_unlock] <+: added)) := by
  constructor
  · refine ⟨JobEvent.counter_new counter jobs.length ::
      jobs.map (fun j => JobEvent.queue_push_back ⟨j.fun_ptr, j.fun_param, counter⟩),
      ?_, ?_, ?_, ?_, ?_⟩
    · simp [le_job_manager_run_jobs, Function.comp_def]
    · simp
    · simp
    · intro j hj
      simp only [List.mem_cons, List.mem_map]
      exact Or.inr ⟨j, hj, rfl⟩
    · intro hne
      cases jobs with
      | nil => exact absurd rfl hne
      | cons j rest => simp [queue_mutations_locked]
  · by_cases hcf : (s.worker_heap self).current_fiber = 0
    · cases hq : s.manager.job_queue with
      | nil =>
        refine ⟨[JobEvent.mutex_lock, JobEvent.mutex_unlock], ?_, by decide, ?_⟩
        · rw [dispatch_acquire_empty K s self hcf hq]
        · intro job rest _ h
          cases h
      | cons job rest =>
        cases hc : claim_idle_fiber s.fiber_heap s.manager.fibers with
        | none =>
          refine ⟨[JobEvent.mutex_lock, JobEvent.queue_pop_front job, JobEvent.mutex_unlock,
            JobEvent.no_fiber_available self job], ?_, by simp [queue_mutations_locked], ?_⟩
          · rw [dispatch_acquire_no_fiber K s self job rest hcf hq hc]
            simp
          · intro job1 rest1 _ h
            cases h
            exact ⟨[JobEvent.no_fiber_available self job], rfl⟩
        | some r =>
          refine ⟨[JobEvent.mutex_lock, JobEvent.queue_pop_front job, JobEvent.mutex_unlock],
            ?_, by simp [queue_mutations_locked], ?_⟩
          · rw [dispatch_acquire_claim K s self job rest r.1 r.2 hcf hq hc]
          · intro job1 rest1 _ h
            cases h
            exact List.prefix_refl _
    · refine ⟨[], ?_, by decide, ?_⟩
      · rw [dispatch_acquire_resume K s self hcf]
        simp
      · intro job rest h
        exact absurd h hcf

theorem countP_same (l : List Nat) (p q : Nat → Bool) (h : ∀ x ∈ l, q x = p x) :
    l.countP q = l.countP p := by
  apply List.countP_congr
  intro x hx
  rw [h x hx]

/-! ### Job system: the threads, line by line -/

theorem registered_nonzero (s : JobThreads) (w : Nat) (h : w ∈ registered_workers s) : w ≠ 0 := by
  simp [registered_workers] at h
  exact h.2

theorem pc_agrees_unheld (pc : WorkerPc) (cf j j1 : Nat) (fibers : List Nat)
    (h : held_of pc cf fibers = 0) (ha : pc_agrees pc cf j fibers) : pc_agrees pc cf j1 fibers := by
  cases pc <;> simp_all [pc_agrees, held_of]

theorem held_of_eq (pc : WorkerPc) (cf : Nat) (fibers : List Nat)
    (h : held_of pc cf fibers ≠ 0) (hc : cf ≠ 0) (j : Nat) (ha : pc_agrees pc cf j fibers) :
    held_of pc cf fibers = cf := by
  cases pc <;> simp_all [pc_agrees, held_of]

theorem threads_inv_moves (s : JobThreads) (self : Nat) (sys1 : JobSystem) (m1 : Nat)
    (p1 : WorkerPc) (hs : ThreadsInv s) (hreg : self ∈ registered_workers s)
    (hfib : sys1.manager.fibers = s.system.manager.fibers)
    (htab : sys1.static_worker_thread = s.system.static_worker_thread)
    (hcf : ∀ w : Nat, w ≠ self →
      (sys1.worker_heap w).current_fiber = (s.system.worker_heap w).current_fiber)
    (hfh : ∀ g : Nat, g ≠ held_fiber s self →
      g ≠ held_of p1 (sys1.worker_heap self).current_fiber s.system.manager.fibers →
      (sys1.fiber_heap g).fiber_active = (s.system.fiber_heap g).fiber_active ∧
      (sys1.fiber_heap g).job_complete = (s.system.fiber_heap g).job_complete)
    (hheld :
      (held_of p1 (sys1.worker_heap self).current_fiber s.system.manager.fibers
          = held_fiber s self ∧
        (sys1.fiber_heap (held_fiber s self)).fiber_active =
          (s.system.fiber_heap (held_fiber s self)).fiber_active) ∨
      (held_fiber s self = 0 ∧
        held_of p1 (sys1.worker_heap self).current_fiber s.system.manager.fibers
          ∈ s.system.manager.fibers ∧
        (s.system.fiber_heap
          (held_of p1 (sys1.worker_heap self).current_fiber s.system.manager.fibers)).fiber_active
          = 0 ∧
        (sys1.fiber_heap
          (held_of p1 (sys1.worker_heap self).current_fiber s.system.manager.fibers)).fiber_active
          = 1) ∨
      (held_of p1 (sys1.worker_heap self).current_fiber s.system.manager.fibers = 0 ∧
        (sys1.fiber_heap (held_fiber s self)).fiber_active = 0))
    (hag : pc_agrees p1 (sys1.worker_heap self).current_fiber
      (sys1.fiber_heap (sys1.worker_heap self).current_fiber).job_complete
      s.system.manager.fibers)
    (hmx : (in_critical p1 = true → m1 = self) ∧
      (m1 = s.mutex ∨ (s.mutex = 0 ∧ m1 = self) ∨ (s.mutex = self ∧ m1 = 0)))
    (hq1 : sys1.manager.job_queue = s.system.manager.job_queue ∨ in_critical (s.pc self) = true)
    (hq2 : queue_agrees p1 sys1.manager.job_queue) :
    ThreadsInv (worker_moves s self sys1 m1 p1) := by
  have hself0 : self ≠ 0 := registered_nonzero s self hreg
  -- the fiber held afterwards, by each worker
  have hheld_self : held_fiber (worker_moves s self sys1 m1 p1) self =
      held_of p1 (sys1.worker_heap self).current_fiber s.system.manager.fibers := by
    simp [held_fiber, worker_moves, hfib]
  have hheld_other : ∀ w : Nat, w ≠ self →
      held_fiber (worker_moves s self sys1 m1 p1) w = held_fiber s w := by
    intro w hw
    simp [held_fiber, worker_moves, hfib, hw, hcf w hw]
  generalize hh1 : held_of p1 (sys1.worker_heap self).current_fiber s.system.manager.fibers = h1
    at hheld_self hfh hheld
  -- the held fiber of another worker is neither the old nor the new fiber of this worker
  have hsep : ∀ w : Nat, w ≠ self → held_fiber s w ≠ 0 →
      held_fiber s w ≠ held_fiber s self ∧ held_fiber s w ≠ h1 := by
    intro w hw hne
    have h1' : held_fiber s w ≠ held_fiber s self := by
      intro e
      exact hw (hs.held_unique w self e hne)
    refine ⟨h1', ?_⟩
    rcases hheld with ⟨e, _⟩ | ⟨_, _, e, _⟩ | ⟨e, _⟩
    · rw [e]
      exact h1'
    · intro e2
      have := (hs.held_active w hne).2
      rw [e2, e] at this
      cases this
    · rw [e]
      exact hne
  have hreg_eq : registered_workers (worker_moves s self sys1 m1 p1) = registered_workers s := by
    simp [registered_workers, worker_moves, htab]
  refine
    { pool_nodup := ?_, pool_nonzero := ?_, workers_nodup := ?_, unregistered := ?_,
      agrees := ?_, held_active := ?_, active_held := ?_, held_unique := ?_,
      mutex_holder := ?_, queue_front := ?_ }
  · show sys1.manager.fibers.Nodup
    rw [hfib]
    exact hs.pool_nodup
  · show 0 ∉ sys1.manager.fibers
    rw [hfib]
    exact hs.pool_nonzero
  · rw [hreg_eq]
    exact hs.workers_nodup
  · intro w hw
    rw [hreg_eq] at hw
    have hne : w ≠ self := fun e => hw (e ▸ hreg)
    have := hs.unregistered w hw
    simp [worker_moves, hne, hcf w hne, this]
  · intro w
    by_cases hw : w = self
    · subst hw
      simp only [worker_moves, if_true, hfib]
      exact hag
    · simp only [worker_moves, if_neg hw, hfib, hcf w hw]
      have ha := hs.agrees w
      by_cases hz : held_fiber s w = 0
      · exact pc_agrees_unheld _ _ _ _ _ hz ha
      · by_cases hc0 : (s.system.worker_heap w).current_fiber = 0
        · rw [hc0] at ha ⊢
          revert ha
          cases s.pc w <;> simp [pc_agrees]
        · have he := held_of_eq _ _ _ hz hc0 _ ha
          have hsp := hsep w hw hz
          have := (hfh (held_fiber s w) hsp.1 hsp.2).2
          rw [show held_fiber s w = (s.system.worker_heap w).current_fiber from he] at this
          rw [this]
          exact ha
  · intro w hne
    by_cases hw : w = self
    · subst hw
      rw [hheld_self] at hne ⊢
      show h1 ∈ sys1.manager.fibers ∧ (sys1.fiber_heap h1).fiber_active = 1
      rw [hfib]
      rcases hheld with ⟨e, e2⟩ | ⟨_, e1, _, e2⟩ | ⟨e, _⟩
      · rw [e] at hne ⊢
        have := hs.held_active w hne
        exact ⟨this.1, by rw [e2]; exact this.2⟩
      · exact ⟨e1, e2⟩
      · exact absurd e hne
    · rw [hheld_other w hw] at hne ⊢
      show _ ∈ sys1.manager.fibers ∧ (sys1.fiber_heap _).fiber_active = 1
      rw [hfib]
      have := hs.held_active w hne
      have hsp := hsep w hw hne
      exact ⟨this.1, by rw [(hfh _ hsp.1 hsp.2).1]; exact this.2⟩
  · intro f hf
    have hf' : f ∈ s.system.manager.fibers := by
      rw [← hfib]
      exact hf
    have hf0 : f ≠ 0 := fun e => hs.pool_nonzero (e ▸ hf')
    show (sys1.fiber_heap f).fiber_active = 0 ∨
      ((sys1.fiber_heap f).fiber_active = 1 ∧ ∃ w, held_fiber (worker_moves s self sys1 m1 p1) w = f)
    by_cases hfn : f = h1
    · -- the fiber held by this worker afterwards
      right
      rcases hheld with ⟨e, e2⟩ | ⟨_, _, _, e2⟩ | ⟨e, _⟩
      · have hne : held_fiber s self ≠ 0 := by
          rw [← e, ← hfn]
          exact hf0
        have := (hs.held_active self hne).2
        refine ⟨?_, self, by rw [hheld_self, hfn]⟩
        rw [hfn, e, e2]
        exact this
      · exact ⟨by rw [hfn]; exact e2, self, by rw [hheld_self, hfn]⟩
      · exact absurd (hfn.trans e) hf0
    · by_cases hfo : f = held_fiber s self
      · -- the fiber held before and not afterwards
        rcases hheld with ⟨e, _⟩ | ⟨e, _⟩ | ⟨_, e2⟩
        · exact absurd (hfo.trans e.symm) hfn
        · exact absurd (hfo.trans e) hf0
        · left
          rw [hfo]
          exact e2
      · obtain ⟨ea, _⟩ := hfh f hfo hfn
        rw [ea]
        rcases hs.active_held f hf' with h | ⟨h, w, hw⟩
        · exact Or.inl h
        · right
          refine ⟨h, w, ?_⟩
          have hne : w ≠ self := by
            intro e
            rw [e] at hw
            exact hfo hw.symm
          rw [hheld_other w hne]
          exact hw
  · intro w1 w2 he hne
    by_cases h1s : w1 = self
    · by_cases h2s : w2 = self
      · rw [h1s, h2s]
      · exfalso
        subst h1s
        rw [hheld_self, hheld_other w2 h2s] at he
        rw [hheld_self] at hne
        have hne2 : held_fiber s w2 ≠ 0 := by
          rw [← he]
          exact hne
        exact (hsep w2 h2s hne2).2 he.symm
    · by_cases h2s : w2 = self
      · exfalso
        subst h2s
        rw [hheld_self, hheld_other w1 h1s] at he
        rw [hheld_other w1 h1s] at hne
        exact (hsep w1 h1s hne).2 he
      · rw [hheld_other w1 h1s, hheld_other w2 h2s] at he
        rw [hheld_other w1 h1s] at hne
        exact hs.held_unique w1 w2 he hne
  · intro w hc
    show m1 = w
    by_cases hw : w = self
    · subst hw
      simp only [worker_moves, if_true] at hc
      exact hmx.1 hc
    · simp only [worker_moves, if_neg hw] at hc
      have hm := hs.mutex_holder w hc
      have hwreg : w ∈ registered_workers s := by
        by_contra hn
        have := (hs.unregistered w hn).1
        rw [this] at hc
        simp [in_critical] at hc
      have hw0 := registered_nonzero s w hwreg
      rcases hmx.2 with e | ⟨e, _⟩ | ⟨e, _⟩
      · rw [e, hm]
      · rw [hm] at e
        exact absurd e hw0
      · rw [hm] at e
        exact absurd e hw
  · intro w
    show queue_agrees ((worker_moves s self sys1 m1 p1).pc w) sys1.manager.job_queue
    by_cases hw : w = self
    · subst hw
      simp only [worker_moves, if_true]
      exact hq2
    · simp only [worker_moves, if_neg hw]
      rcases hq1 with e | e
      · rw [e]
        exact hs.queue_front w
      · have hm := hs.mutex_holder self e
        have hnc : in_critical (s.pc w) = false := by
          by_contra hn
          have := hs.mutex_holder w (by simpa using hn)
          exact hw (this.symm.trans hm)
        revert hnc
        cases s.pc w <;> simp [in_critical, queue_agrees]

theorem threads_inv_main (s : JobThreads) (sys1 : JobSystem) (main1 : MainPc)
    (hs : ThreadsInv s)
    (hfib : sys1.manager.fibers = s.system.manager.fibers)
    (htab : sys1.static_worker_thread = s.system.static_worker_thread)
    (hwh : sys1.worker_heap = s.system.worker_heap)
    (hfh : sys1.fiber_heap = s.system.fiber_heap)
    (hq : ∃ l : List le_job_o, sys1.manager.job_queue = s.system.manager.job_queue ++ l) :
    ThreadsInv (main_moves s sys1 main1) := by
  have hheld : ∀ w : Nat, held_fiber (main_moves s sys1 main1) w = held_fiber s w := by
    intro w
    simp [held_fiber, main_moves, hfib, hwh]
  refine
    { pool_nodup := ?_, pool_nonzero := ?_, workers_nodup := ?_, unregistered := ?_,
      agrees := ?_, held_active := ?_, active_held := ?_, held_unique := ?_,
      mutex_holder := ?_, queue_front := ?_ }
  · show sys1.manager.fibers.Nodup
    rw [hfib]
    exact hs.pool_nodup
  · show 0 ∉ sys1.manager.fibers
    rw [hfib]
    exact hs.pool_nonzero
  · show (sys1.static_worker_thread.filter (fun w => w != 0)).Nodup
    rw [htab]
    exact hs.workers_nodup
  · intro w hw
    have hw' : w ∉ registered_workers s := by
      simpa [registered_workers, main_moves, htab] using hw
    have := hs.unregistered w hw'
    simpa [main_moves, hwh] using this
  · intro w
    have := hs.agrees w
    simpa [main_moves, hwh, hfh, hfib] using this
  · intro w hne
    rw [hheld] at hne ⊢
    have := hs.held_active w hne
    simpa [main_moves, hfh, hfib] using this
  · intro f hf
    have hf' : f ∈ s.system.manager.fibers := by
      rw [← hfib]
      exact hf
    rcases hs.active_held f hf' with h | ⟨h, w, hw⟩
    · left
      simpa [main_moves, hfh] using h
    · right
      exact ⟨by simpa [main_moves, hfh] using h, w, by rw [hheld]; exact hw⟩
  · intro w1 w2 he hne
    rw [hheld, hheld] at he
    rw [hheld] at hne
    exact hs.held_unique w1 w2 he hne
  · intro w hc
    exact hs.mutex_holder w hc
  · intro w
    have := hs.queue_front w
    obtain ⟨l, hl⟩ := hq
    show queue_agrees (s.pc w) sys1.manager.job_queue
    rw [hl]
    revert this
    cases s.pc w <;> simp [queue_agrees]
    · intro h
      exact fun e => absurd e h
    · intro h
      cases hq0 : s.system.manager.job_queue with
      | nil => simp [hq0] at h
      | cons a t => simpa [hq0] using h

theorem le_fiber_yield_some (sys sys1 : JobSystem) (self st : Nat)
    (h : le_fiber_yield sys self st = some sys1) :
    sys1 = { sys with
      fiber_heap := fun p =>
        if p = (sys.worker_heap self).current_fiber then
          { sys.fiber_heap (sys.worker_heap self).current_fiber with stack := st }
        else sys.fiber_heap p
      log := sys.log ++ [JobEvent.fiber_yield self (sys.worker_heap self).current_fiber] } := by
  unfold le_fiber_yield at h
  cases hf : find_yielding_thread sys.worker_heap (sys.worker_heap self).thread_id
      sys.static_worker_thread with
  | none => simp [hf] at h
  | some y =>
    simp only [hf] at h
    by_cases hy : y = self
    · subst hy
      simp at h
      exact h.symm
    · simp [hy] at h

theorem threads_inv_start (fibers workers : List Nat) (stack_of : Nat → Nat)
    (hnd : fibers.Nodup) (h0 : 0 ∉ fibers) (hwnd : workers.Nodup) (hw0 : 0 ∉ workers) :
    ThreadsInv (job_threads_start fibers workers stack_of) := by
  refine
    { pool_nodup := hnd, pool_nonzero := h0, workers_nodup := ?_, unregistered := ?_,
      agrees := ?_, held_active := ?_, active_held := ?_, held_unique := ?_,
      mutex_holder := ?_, queue_front := ?_ }
  · have : registered_workers (job_threads_start fibers workers stack_of) = workers := by
      simp only [registered_workers, job_threads_start, job_system_start, List.filter_append]
      have h1 : workers.filter (fun w => w != 0) = workers := by
        rw [List.filter_eq_self]
        intro a ha
        have : a ≠ 0 := fun e => hw0 (e ▸ ha)
        simpa using this
      have h2 : (List.replicate (MAX_WORKER_THREAD_COUNT - workers.length) 0).filter
          (fun w => w != 0) = [] := by
        rw [List.filter_eq_nil_iff]
        intro a ha
        have := List.eq_of_mem_replicate ha
        simp [this]
      rw [h1, h2, List.append_nil]
    rw [this]
    exact hwnd
  · intro w _
    simp [job_threads_start, job_system_start]
  · intro w
    simp [job_threads_start, job_system_start, pc_agrees]
  · intro w hne
    simp [held_fiber, held_of, job_threads_start, job_system_start] at hne
  · intro f _
    left
    simp [job_threads_start, job_system_start]
  · intro w1 w2 _ hne
    simp [held_fiber, held_of, job_threads_start, job_system_start] at hne
  · intro w hc
    simp [job_threads_start, in_critical] at hc
  · intro w
    simp [job_threads_start, queue_agrees]

theorem worker_step_inv (K : Nat) (s s1 : JobThreads) (self : Nat) (run : job_run)
    (hs : ThreadsInv s) (hreg : self ∈ registered_workers s)
    (h : worker_step K s self run = some s1) : ThreadsInv s1 := by
  have hag := hs.agrees self
  have hqf := hs.queue_front self
  have hha := hs.held_active self
  have hself0 : self ≠ 0 := registered_nonzero s self hreg
  unfold worker_step at h
  cases hpc : s.pc self with
  | outside =>
    rw [hpc] at hag
    simp only [hpc] at h
    have hh : held_fiber s self = (s.system.worker_heap self).current_fiber := by
      simp [held_fiber, held_of, hpc]
    by_cases hc : (s.system.worker_heap self).current_fiber = 0
    · simp only [hc, if_true] at h
      by_cases hm : s.mutex = 0
      · simp only [hm, if_true, Option.some.injEq] at h
        subst h
        refine threads_inv_moves s self _ _ _ hs hreg rfl rfl (fun w _ => rfl) ?_ ?_ ?_ ?_ ?_ ?_
        · intro g _ _
          exact ⟨rfl, rfl⟩
        · left
          simp [hh, hc, held_of]
        · simp [pc_agrees, hc]
        · simp [in_critical, hm]
        · left
          rfl
        · simp [queue_agrees]
      · simp [hm] at h
    · simp only [hc, if_false, Option.some.injEq] at h
      subst h
      refine threads_inv_moves s self _ _ _ hs hreg rfl rfl (fun w _ => rfl) ?_ ?_ ?_ ?_ ?_ ?_
      · intro g _ _
        exact ⟨rfl, rfl⟩
      · left
        simp [hh, held_of]
      · simp only [pc_agrees] at hag ⊢
        exact ⟨hc, hag hc⟩
      · simp [in_critical]
      · left
        rfl
      · simp [queue_agrees]
  | locked =>
    rw [hpc] at hag
    simp only [pc_agrees] at hag
    simp only [hpc] at h
    have hh : held_fiber s self = 0 := by
      simp [held_fiber, held_of, hpc, hag]
    have hm : s.mutex = self := hs.mutex_holder self (by rw [hpc]; rfl)
    by_cases he : s.system.manager.job_queue.isEmpty = true
    · simp only [he, if_true, Option.some.injEq] at h
      subst h
      refine threads_inv_moves s self _ _ _ hs hreg rfl rfl (fun w _ => rfl) ?_ ?_ ?_ ?_ ?_ ?_
      · intro g _ _
        exact ⟨rfl, rfl⟩
      · left
        simp [hh, held_of, hag]
      · simp [pc_agrees, hag]
      · simp [in_critical, hm]
      · left
        rfl
      · simp [queue_agrees]
    · simp only [he, Bool.false_eq_true, if_false, Option.some.injEq] at h
      subst h
      refine threads_inv_moves s self _ _ _ hs hreg rfl rfl (fun w _ => rfl) ?_ ?_ ?_ ?_ ?_ ?_
      · intro g _ _
        exact ⟨rfl, rfl⟩
      · left
        simp [hh, held_of, hag]
      · simp [pc_agrees, hag]
      · simp [in_critical, hm]
      · left
        rfl
      · simp only [queue_agrees]
        intro e
        rw [e] at he
        exact he rfl
  | unlock_empty =>
    rw [hpc] at hag
    simp only [pc_agrees] at hag
    simp only [hpc, Option.some.injEq] at h
    have hh : held_fiber s self = 0 := by
      simp [held_fiber, held_of, hpc, hag]
    have hm : s.mutex = self := hs.mutex_holder self (by rw [hpc]; rfl)
    subst h
    refine threads_inv_moves s self _ _ _ hs hreg rfl rfl (fun w _ => rfl) ?_ ?_ ?_ ?_ ?_ ?_
    · intro g _ _
      exact ⟨rfl, rfl⟩
    · left
      simp [hh, held_of, hag]
    · simp [pc_agrees, hag]
    · simp [in_critical, hm]
    · left
      rfl
    · simp [queue_agrees]
  | at_front =>
    rw [hpc] at hag
    simp only [pc_agrees] at hag
    simp only [hpc] at h
    have hh : held_fiber s self = 0 := by
      simp [held_fiber, held_of, hpc, hag]
    have hm : s.mutex = self := hs.mutex_holder self (by rw [hpc]; rfl)
    cases hq : s.system.manager.job_queue with
    | nil => simp [hq] at h
    | cons job rest =>
      simp only [hq, Option.some.injEq] at h
      subst h
      refine threads_inv_moves s self _ _ _ hs hreg rfl rfl (fun w _ => rfl) ?_ ?_ ?_ ?_ ?_ ?_
      · intro g _ _
        exact ⟨rfl, rfl⟩
      · left
        simp [hh, held_of, hag]
      · simp [pc_agrees, hag]
      · simp [in_critical, hm]
      · left
        rfl
      · simp [queue_agrees, hq]
  | at_pop job =>
    rw [hpc] at hag
    simp only [pc_agrees] at hag
    simp only [hpc] at h
    have hh : held_fiber s self = 0 := by
      simp [held_fiber, held_of, hpc, hag]
    have hm : s.mutex = self := hs.mutex_holder self (by rw [hpc]; rfl)
    cases hq : s.system.manager.job_queue with
    | nil => simp [hq] at h
    | cons front rest =>
      simp only [hq, Option.some.injEq] at h
      subst h
      refine threads_inv_moves s self _ _ _ hs hreg rfl rfl (fun w _ => rfl) ?_ ?_ ?_ ?_ ?_ ?_
      · intro g _ _
        exact ⟨rfl, rfl⟩
      · left
        simp [hh, held_of, hag]
      · simp [pc_agrees, hag]
      · simp [in_critical, hm]
      · right
        rw [hpc]
        rfl
      · simp [queue_agrees]
  | unlock job =>
    rw [hpc] at hag
    simp only [pc_agrees] at hag
    simp only [hpc, Option.some.injEq] at h
    have hh : held_fiber s self = 0 := by
      simp [held_fiber, held_of, hpc, hag]
    have hm : s.mutex = self := hs.mutex_holder self (by rw [hpc]; rfl)
    subst h
    refine threads_inv_moves s self _ _ _ hs hreg rfl rfl (fun w _ => rfl) ?_ ?_ ?_ ?_ ?_ ?_
    · intro g _ _
      exact ⟨rfl, rfl⟩
    · left
      simp [hh, held_of, hag]
    · simp [pc_agrees, hag]
    · simp [in_critical, hm]
    · left
      rfl
    · simp [queue_agrees]
  | scan job i =>
    rw [hpc] at hag
    simp only [pc_agrees] at hag
    simp only [hpc] at h
    have hh : held_fiber s self = 0 := by
      simp [held_fiber, held_of, hpc, hag]
    by_cases hi : i = FIBER_POOL_SIZE
    · simp only [hi, if_true, Option.some.injEq] at h
      subst h
      refine threads_inv_moves s self _ _ _ hs hreg rfl rfl (fun w _ => rfl) ?_ ?_ ?_ ?_ ?_ ?_
      · intro g _ _
        exact ⟨rfl, rfl⟩
      · left
        simp [hh, held_of, hag]
      · simp [pc_agrees, hag]
      · simp [in_critical]
      · left
        rfl
      · simp [queue_agrees]
    · simp only [hi, if_false] at h
      cases hf : s.system.manager.fibers[i]? with
      | none => simp [hf] at h
      | some fiber =>
        simp only [hf] at h
        have hmem : fiber ∈ s.system.manager.fibers := List.getElem?_mem hf
        have hlt : i < s.system.manager.fibers.length := (List.getElem?_eq_some_iff.mp hf).1
        have hgd : s.system.manager.fibers[i]?.getD 0 = fiber := by
          simp [hf]
        by_cases hfa : (s.system.fiber_heap fiber).fiber_active = 0
        · simp only [hfa, if_true, Option.some.injEq] at h
          subst h
          refine threads_inv_moves s self _ _ _ hs hreg rfl rfl (fun w _ => rfl) ?_ ?_ ?_ ?_ ?_ ?_
          · intro g _ hg
            simp only [held_of, List.getD_eq_getElem?_getD, hgd] at hg
            simp [hg]
          · right
            left
            simp [hh, held_of, hgd, hmem, hfa]
          · simp [pc_agrees, hag, hlt]
          · simp [in_critical]
          · left
            rfl
          · simp [queue_agrees]
        · simp only [hfa, if_false, Option.some.injEq] at h
          subst h
          refine threads_inv_moves s self _ _ _ hs hreg rfl rfl (fun w _ => rfl) ?_ ?_ ?_ ?_ ?_ ?_
          · intro g _ _
            exact ⟨rfl, rfl⟩
          · left
            simp [hh, held_of, hag]
          · simp [pc_agrees, hag]
          · simp [in_critical]
          · left
            rfl
          · simp [queue_agrees]
  | claimed job i =>
    rw [hpc] at hag
    simp only [pc_agrees] at hag
    simp only [hpc] at h
    cases hf : s.system.manager.fibers[i]? with
    | none => simp [hf] at h
    | some fiber =>
      simp only [hf, Option.some.injEq] at h
      have hmem : fiber ∈ s.system.manager.fibers := List.getElem?_mem hf
      have hf0 : fiber ≠ 0 := fun e => hs.pool_nonzero (e ▸ hmem)
      have hgd : s.system.manager.fibers[i]?.getD 0 = fiber := by
        simp [hf]
      have hh : held_fiber s self = fiber := by
        simp [held_fiber, held_of, hpc, hgd]
      subst h
      refine threads_inv_moves s self _ _ _ hs hreg rfl rfl ?_ ?_ ?_ ?_ ?_ ?_ ?_
      · intro w hw
        simp [hw]
      · intro g _ _
        exact ⟨rfl, rfl⟩
      · left
        simp [hh, held_of]
      · simp [pc_agrees, hf0]
      · simp [in_critical]
      · left
        rfl
      · simp [queue_agrees]
  | setup job =>
    rw [hpc] at hag
    simp only [pc_agrees] at hag
    simp only [hpc, Option.some.injEq] at h
    have hh : held_fiber s self = (s.system.worker_heap self).current_fiber := by
      simp [held_fiber, held_of, hpc]
    subst h
    refine threads_inv_moves s self _ _ _ hs hreg rfl rfl (fun w _ => rfl) ?_ ?_ ?_ ?_ ?_ ?_
    · intro g hg _
      rw [hh] at hg
      simp [hg]
    · left
      simp [hh, held_of, le_fiber_setup]
    · simp [pc_agrees, hag, le_fiber_setup]
    · simp [in_critical]
    · left
      rfl
    · simp [queue_agrees]
  | switch =>
    rw [hpc] at hag
    simp only [pc_agrees] at hag
    simp only [hpc, Option.some.injEq] at h
    have hh : held_fiber s self = (s.system.worker_heap self).current_fiber := by
      simp [held_fiber, held_of, hpc]
    subst h
    refine threads_inv_moves s self _ _ _ hs hreg rfl rfl ?_ ?_ ?_ ?_ ?_ ?_ ?_
    · intro w hw
      simp [hw]
    · intro g _ _
      exact ⟨rfl, rfl⟩
    · left
      simp [hh, held_of]
    · simp [pc_agrees, hag]
    · simp [in_critical]
    · left
      rfl
    · simp [queue_agrees]
  | on_fiber =>
    rw [hpc] at hag
    simp only [pc_agrees] at hag
    simp only [hpc] at h
    have hh : held_fiber s self = (s.system.worker_heap self).current_fiber := by
      simp [held_fiber, held_of, hpc]
    cases ho : run.outcome with
    | yields =>
      simp only [ho] at h
      cases hy : le_fiber_yield s.system self run.fiber_stack with
      | none => simp [hy] at h
      | some sys1 =>
        simp only [hy, Option.some.injEq] at h
        have hsys := le_fiber_yield_some _ _ _ _ hy
        subst h
        subst hsys
        refine threads_inv_moves s self _ _ _ hs hreg rfl rfl (fun w _ => rfl) ?_ ?_ ?_ ?_ ?_ ?_
        · intro g hg _
          rw [hh] at hg
          simp [hg]
        · left
          simp [hh, held_of]
        · simp [pc_agrees, hag]
        · simp [in_critical]
        · left
          rfl
        · simp [queue_agrees]
    | returns =>
      simp only [ho] at h
      by_cases hc : (s.system.fiber_heap (s.system.worker_heap self).current_fiber).job_complete_counter = 0
      · simp only [hc, ne_eq, not_true_eq_false, if_false, Option.some.injEq] at h
        subst h
        refine threads_inv_moves s self _ _ _ hs hreg rfl rfl (fun w _ => rfl) ?_ ?_ ?_ ?_ ?_ ?_
        · intro g _ _
          exact ⟨rfl, rfl⟩
        · left
          simp [hh, held_of]
        · simp [pc_agrees, hag]
        · simp [in_critical]
        · left
          rfl
        · simp [queue_agrees]
      · simp only [ne_eq, hc, not_false_eq_true, if_true] at h
        by_cases hal : counter_allocated s
            (s.system.fiber_heap (s.system.worker_heap self).current_fiber).job_complete_counter = true
        · simp only [hal, if_true, Option.some.injEq] at h
          subst h
          refine threads_inv_moves s self _ _ _ hs hreg rfl rfl (fun w _ => rfl) ?_ ?_ ?_ ?_ ?_ ?_
          · intro g _ _
            exact ⟨rfl, rfl⟩
          · left
            simp [hh, held_of]
          · simp [pc_agrees, hag]
          · simp [in_critical]
          · left
            rfl
          · simp [queue_agrees]
        · simp [hal] at h
  | exit_flag =>
    rw [hpc] at hag
    simp only [pc_agrees] at hag
    simp only [hpc, Option.some.injEq] at h
    have hh : held_fiber s self = (s.system.worker_heap self).current_fiber := by
      simp [held_fiber, held_of, hpc]
    subst h
    refine threads_inv_moves s self _ _ _ hs hreg rfl rfl (fun w _ => rfl) ?_ ?_ ?_ ?_ ?_ ?_
    · intro g hg _
      rw [hh] at hg
      simp [hg]
    · left
      simp [hh, held_of]
    · simp [pc_agrees, hag]
    · simp [in_critical]
    · left
      rfl
    · simp [queue_agrees]
  | exit_switch =>
    rw [hpc] at hag
    simp only [pc_agrees] at hag
    simp only [hpc, Option.some.injEq] at h
    have hh : held_fiber s self = (s.system.worker_heap self).current_fiber := by
      simp [held_fiber, held_of, hpc]
    subst h
    refine threads_inv_moves s self _ _ _ hs hreg rfl rfl (fun w _ => rfl) ?_ ?_ ?_ ?_ ?_ ?_
    · intro g hg _
      rw [hh] at hg
      simp [hg]
    · left
      simp [hh, held_of]
    · simp [pc_agrees, hag]
    · simp [in_critical]
    · left
      rfl
    · simp [queue_agrees]
  | check =>
    rw [hpc] at hag
    simp only [pc_agrees] at hag
    simp only [hpc] at h
    have hh : held_fiber s self = (s.system.worker_heap self).current_fiber := by
      simp [held_fiber, held_of, hpc]
    rw [hh] at hha
    by_cases hj : (s.system.fiber_heap (s.system.worker_heap self).current_fiber).job_complete = 1
    · simp only [hj, if_true, Option.some.injEq] at h
      subst h
      refine threads_inv_moves s self _ _ _ hs hreg rfl rfl (fun w _ => rfl) ?_ ?_ ?_ ?_ ?_ ?_
      · intro g hg _
        rw [hh] at hg
        simp [hg]
      · right
        right
        simp [hh, held_of]
      · simp [pc_agrees, hag, (hha hag).1]
      · simp [in_critical]
      · left
        rfl
      · simp [queue_agrees]
    · simp only [hj, if_false, Option.some.injEq] at h
      subst h
      refine threads_inv_moves s self _ _ _ hs hreg rfl rfl (fun w _ => rfl) ?_ ?_ ?_ ?_ ?_ ?_
      · intro g _ _
        exact ⟨rfl, rfl⟩
      · left
        simp [hh, held_of]
      · simp [pc_agrees, hj]
      · simp [in_critical]
      · left
        rfl
      · simp [queue_agrees]
  | clear =>
    rw [hpc] at hag
    simp only [pc_agrees] at hag
    simp only [hpc, Option.some.injEq] at h
    have hh : held_fiber s self = 0 := by
      simp [held_fiber, held_of, hpc]
    subst h
    refine threads_inv_moves s self _ _ _ hs hreg rfl rfl ?_ ?_ ?_ ?_ ?_ ?_ ?_
    · intro w hw
      simp [hw]
    · intro g _ _
      exact ⟨rfl, rfl⟩
    · left
      simp [hh, held_of]
    · simp [pc_agrees]
    · simp [in_critical]
    · left
      rfl
    · simp [queue_agrees]

theorem main_step_inv (s s1 : JobThreads) (hs : ThreadsInv s) (h : main_step s = some s1) :
    ThreadsInv s1 := by
  unfold main_step at h
  cases hm : s.main with
  | outside => simp [hm] at h
  | run_store counter jobs =>
    simp only [hm, Option.some.injEq] at h
    subst h
    exact threads_inv_main s _ _ hs rfl rfl rfl rfl ⟨[], by simp⟩
  | run_emplace counter jobs =>
    simp only [hm, Option.some.injEq] at h
    subst h
    exact threads_inv_main s _ _ hs rfl rfl rfl rfl ⟨[], by simp⟩
  | run_push counter jobs =>
    cases jobs with
    | nil =>
      simp only [hm, Option.some.injEq] at h
      subst h
      exact threads_inv_main s _ _ hs rfl rfl rfl rfl ⟨[], by simp⟩
    | cons j rest =>
      simp only [hm, Option.some.injEq] at h
      subst h
      exact threads_inv_main s _ _ hs rfl rfl rfl rfl ⟨_, rfl⟩
  | waiting counter target_value =>
    simp only [hm] at h
    by_cases ha : counter_allocated s counter = true
    · simp only [ha, if_true] at h
      by_cases hv : s.system.counter_heap counter = target_value
      · simp only [hv, if_true, Option.some.injEq] at h
        subst h
        exact threads_inv_main s _ _ hs rfl rfl rfl rfl ⟨[], by simp⟩
      · simp only [hv, if_false, Option.some.injEq] at h
        subst h
        exact hs
    · simp [ha] at h
  | removing counter =>
    simp only [hm, Option.some.injEq] at h
    subst h
    exact threads_inv_main s _ _ hs rfl rfl rfl rfl ⟨[], by simp⟩
  | deleting counter =>
    simp only [hm, Option.some.injEq] at h
    subst h
    exact threads_inv_main s _ _ hs rfl rfl rfl rfl ⟨[], by simp⟩

theorem thread_step_inv (K : Nat) (s s1 : JobThreads) (step : ThreadStep) (hs : ThreadsInv s)
    (h : thread_step K s step = some s1) : ThreadsInv s1 := by
  cases step with
  | worker self run =>
    simp only [thread_step] at h
    by_cases hreg : self ∈ registered_workers s
    · simp only [hreg, if_true] at h
      exact worker_step_inv K s s1 self run hs hreg h
    · simp [hreg] at h
  | run_jobs jobs counter =>
    simp only [thread_step] at h
    split at h
    · simp only [Option.some.injEq] at h
      subst h
      exact threads_inv_main s _ _ hs rfl rfl rfl rfl ⟨[], by simp⟩
    · cases h
  | wait_for_counter_and_free counter target_value =>
    simp only [thread_step] at h
    split at h
    · simp only [Option.some.injEq] at h
      subst h
      exact threads_inv_main s _ _ hs rfl rfl rfl rfl ⟨[], by simp⟩
    · cases h
  | main => exact main_step_inv s s1 hs h

theorem reachable_threads_inv (K : Nat) (allowed : Nat → Bool) (s : JobThreads)
    (h : Reachable K allowed s) : ThreadsInv s := by
  induction h with
  | start fibers workers stack_of _ hnd h0 _ hwnd hw0 =>
    exact threads_inv_start fibers workers stack_of hnd h0 hwnd hw0
  | step s s1 step _ _ hstep ih => exact thread_step_inv K s s1 step ih hstep

theorem reachable_mono (K : Nat) (a b : Nat → Bool) (hab : ∀ t : Nat, a t = true → b t = true)
    (s : JobThreads) (h : Reachable K a s) : Reachable K b s := by
  induction h with
  | start fibers workers stack_of h1 h2 h3 h4 h5 h6 =>
    exact Reachable.start fibers workers stack_of h1 h2 h3 h4 h5 h6
  | step s s1 step _ hp hstep ih =>
    refine Reachable.step s s1 step ih ?_ hstep
    cases step with
    | wait_for_counter_and_free c t => exact hab t hp
    | _ => rfl

theorem run_steps_reachable (K : Nat) (allowed : Nat → Bool) (steps : List ThreadStep) :
    ∀ s s1 : JobThreads, Reachable K allowed s →
      (∀ step, step ∈ steps → step_permitted allowed step = true) →
      run_steps K steps s = some s1 → Reachable K allowed s1 := by
  induction steps with
  | nil =>
    intro s s1 hr _ h
    simp only [run_steps, Option.some.injEq] at h
    rw [← h]
    exact hr
  | cons step rest ih =>
    intro s s1 hr hp h
    simp only [run_steps] at h
    cases hstep : thread_step K s step with
    | none => simp [hstep] at h
    | some s2 =>
      simp only [hstep] at h
      exact ih s2 s1
        (Reachable.step s s2 step hr (hp step (List.mem_cons_self _ _)) hstep)
        (fun st hst => hp st (List.mem_cons_of_mem _ hst)) h

theorem job_threads_scene_reachable (allowed : Nat → Bool) :
    Reachable 900 allowed job_threads_scene :=
  Reachable.start _ _ _ (by decide) (by decide) (by decide) (by decide) (by decide) (by decide)

theorem job_threads_after_reachable (allowed : Nat → Bool) (trace : List ThreadStep)
    (hp : ∀ step, step ∈ trace → step_permitted allowed step = true) :
    Reachable 900 allowed (job_threads_after trace) := by
  unfold job_threads_after
  cases h : run_steps 900 trace job_threads_scene with
  | none => exact job_threads_scene_reachable allowed
  | some s1 =>
    exact run_steps_reachable 900 allowed trace _ _ (job_threads_scene_reachable allowed) hp h

theorem worker_step_flags (K : Nat) (s s1 : JobThreads) (self : Nat) (run : job_run)
    (hs : ThreadsInv s) (h : worker_step K s self run = some s1) (f : Nat)
    (hne : (s1.system.fiber_heap f).fiber_active ≠ (s.system.fiber_heap f).fiber_active) :
    (∃ (job : le_job_o) (i : Nat), s.pc self = WorkerPc.scan job i ∧
      s.system.manager.fibers[i]? = some f ∧
      (s.system.fiber_heap f).fiber_active = 0 ∧ (s1.system.fiber_heap f).fiber_active = 1 ∧
      s1.pc self = WorkerPc.claimed job i ∧ held_fiber s self = 0 ∧ held_fiber s1 self = f) ∨
    (s.pc self = WorkerPc.check ∧ (s.system.worker_heap self).current_fiber = f ∧
      held_fiber s self = f ∧
      (s.system.fiber_heap f).fiber_active = 1 ∧ (s1.system.fiber_heap f).fiber_active = 0 ∧
      s1.pc self = WorkerPc.clear ∧ held_fiber s1 self = 0) := by
  have hag := hs.agrees self
  have hha := hs.held_active self
  unfold worker_step at h
  cases hpc : s.pc self with
  | outside =>
    simp only [hpc] at h
    split at h
    · split at h
      · simp only [Option.some.injEq] at h
        subst h
        exact absurd rfl hne
      · cases h
    · simp only [Option.some.injEq] at h
      subst h
      exact absurd rfl hne
  | locked =>
    simp only [hpc] at h
    split at h <;>
    · simp only [Option.some.injEq] at h
      subst h
      exact absurd rfl hne
  | unlock_empty =>
    simp only [hpc, Option.some.injEq] at h
    subst h
    exact absurd rfl hne
  | at_front =>
    simp only [hpc] at h
    split at h
    · cases h
    · simp only [Option.some.injEq] at h
      subst h
      exact absurd rfl hne
  | at_pop job =>
    simp only [hpc] at h
    split at h
    · cases h
    · simp only [Option.some.injEq] at h
      subst h
      exact absurd rfl hne
  | unlock job =>
    simp only [hpc, Option.some.injEq] at h
    subst h
    exact absurd rfl hne
  | scan job i =>
    rw [hpc] at hag
    simp only [pc_agrees] at hag
    simp only [hpc] at h
    by_cases hi : i = FIBER_POOL_SIZE
    · simp only [hi, if_true, Option.some.injEq] at h
      subst h
      exact absurd rfl hne
    · simp only [hi, if_false] at h
      cases hf : s.system.manager.fibers[i]? with
      | none => simp [hf] at h
      | some fiber =>
        simp only [hf] at h
        by_cases hfa : (s.system.fiber_heap fiber).fiber_active = 0
        · simp only [hfa, if_true, Option.some.injEq] at h
          subst h
          left
          by_cases e : f = fiber
          · subst e
            refine ⟨job, i, rfl, hf, hfa, by simp [worker_moves], by simp [worker_moves], ?_, ?_⟩
            · simp [held_fiber, held_of, hpc, hag]
            · simp [held_fiber, held_of, worker_moves, hf]
          · simp [worker_moves, e] at hne
        · simp only [hfa, if_false, Option.some.injEq] at h
          subst h
          exact absurd rfl hne
  | claimed job i =>
    simp only [hpc] at h
    split at h
    · cases h
    · simp only [Option.some.injEq] at h
      subst h
      exact absurd rfl hne
  | setup job =>
    simp only [hpc, Option.some.injEq] at h
    subst h
    exfalso
    apply hne
    by_cases e : f = (s.system.worker_heap self).current_fiber
    · subst e
      simp [worker_moves, le_fiber_setup]
    · simp [worker_moves, e]
  | switch =>
    simp only [hpc, Option.some.injEq] at h
    subst h
    exact absurd rfl hne
  | on_fiber =>
    simp only [hpc] at h
    cases ho : run.outcome with
    | yields =>
      simp only [ho] at h
      cases hy : le_fiber_yield s.system self run.fiber_stack with
      | none => simp [hy] at h
      | some sys1 =>
        simp only [hy, Option.some.injEq] at h
        have hsys := le_fiber_yield_some _ _ _ _ hy
        subst h
        subst hsys
        exfalso
        apply hne
        by_cases e : f = (s.system.worker_heap self).current_fiber
        · subst e
          simp [worker_moves]
        · simp [worker_moves, e]
    | returns =>
      simp only [ho] at h
      split at h
      · split at h
        · simp only [Option.some.injEq] at h
          subst h
          exact absurd rfl hne
        · cases h
      · simp only [Option.some.injEq] at h
        subst h
        exact absurd rfl hne
  | exit_flag =>
    simp only [hpc, Option.some.injEq] at h
    subst h
    exfalso
    apply hne
    by_cases e : f = (s.system.worker_heap self).current_fiber
    · subst e
      simp [worker_moves]
    · simp [worker_moves, e]
  | exit_switch =>
    simp only [hpc, Option.some.injEq] at h
    subst h
    exfalso
    apply hne
    by_cases e : f = (s.system.worker_heap self).current_fiber
    · subst e
      simp [worker_moves]
    · simp [worker_moves, e]
  | check =>
    rw [hpc] at hag
    simp only [pc_agrees] at hag
    have hh : held_fiber s self = (s.system.worker_heap self).current_fiber := by
      simp [held_fiber, held_of, hpc]
    rw [hh] at hha
    simp only [hpc] at h
    by_cases hj : (s.system.fiber_heap (s.system.worker_heap self).current_fiber).job_complete = 1
    · simp only [hj, if_true, Option.some.injEq] at h
      subst h
      right
      by_cases e : f = (s.system.worker_heap self).current_fiber
      · subst e
        refine ⟨rfl, rfl, hh, (hha hag).2, by simp [worker_moves], by simp [worker_moves], ?_⟩
        simp [held_fiber, held_of, worker_moves]
      · simp [worker_moves, e] at hne
    · simp only [hj, if_false, Option.some.injEq] at h
      subst h
      exact absurd rfl hne
  | clear =>
    simp only [hpc, Option.some.injEq] at h
    subst h
    exact absurd rfl hne

theorem main_step_flags (s s1 : JobThreads) (h : main_step s = some s1) :
    s1.system.fiber_heap = s.system.fiber_heap := by
  unfold main_step at h
  cases hm : s.main with
  | outside => simp [hm] at h
  | run_store counter jobs =>
    simp only [hm, Option.some.injEq] at h
    subst h
    rfl
  | run_emplace counter jobs =>
    simp only [hm, Option.some.injEq] at h
    subst h
    rfl
  | run_push counter jobs =>
    cases jobs with
    | nil =>
      simp only [hm, Option.some.injEq] at h
      subst h
      rfl
    | cons j rest =>
      simp only [hm, Option.some.injEq] at h
      subst h
      rfl
  | waiting counter target_value =>
    simp only [hm] at h
    split at h
    · split at h <;>
      · simp only [Option.some.injEq] at h
        subst h
        rfl
    · cases h
  | removing counter =>
    simp only [hm, Option.some.injEq] at h
    subst h
    rfl
  | deleting counter =>
    simp only [hm, Option.some.injEq] at h
    subst h
    rfl

set_option maxHeartbeats 2000000 in
set_option maxRecDepth 1000000 in
/-- On the scenes, the steps of a thread, taken line by line with no other
thread in between, leave the memory that the functions for whole calls leave,
and the thread between two calls: for `run_jobs`; for a dispatch call that
finds the queue empty; for one that claims a fiber and whose job returns; for
one that claims a fiber and whose job yields; for one that resumes a yielded
job, which returns; for one that pops a job and finds no fiber idle; and for
`wait_for_counter_and_free`. -/
theorem line_steps_agree_with_calls :
    (memory_by_lines
        ([ThreadStep.run_jobs [{ fun_ptr := 7, fun_param := 8 }] 500]
          ++ List.replicate 4 ThreadStep.main) [1, 2] job_scene_start).map (job_memory [1, 2]) =
      some (job_memory [1, 2]
        (le_job_manager_run_jobs job_scene_start [{ fun_ptr := 7, fun_param := 8 }] 500 true).1) ∧
    (memory_by_lines (List.replicate 3 (ThreadStep.worker 2 {})) [1, 2] job_scene_start).map
        (job_memory [1, 2]) =
      (le_worker_thread_dispatch 900 job_scene_start 2 {}).map (job_memory [1, 2]) ∧
    (le_worker_thread_dispatch 900 job_scene_start 2 {}).isSome = true ∧
    (memory_by_lines (List.replicate 14 (ThreadStep.worker 1 {})) [1, 2] job_scene_queued).map
        (job_memory [1, 2]) =
      (le_worker_thread_dispatch 900 job_scene_queued 1 {}).map (job_memory [1, 2]) ∧
    (le_worker_thread_dispatch 900 job_scene_queued 1 {}).isSome = true ∧
    (memory_by_lines
        (List.replicate 11 (ThreadStep.worker 1 { outcome := JobOutcome.yields })) [1, 2]
        job_scene_queued).map (job_memory [1, 2]) =
      (le_worker_thread_dispatch 900 job_scene_queued 1 { outcome := JobOutcome.yields }).map
        (job_memory [1, 2]) ∧
    ((le_worker_thread_dispatch 900 job_scene_queued 1 { outcome := JobOutcome.yields }).bind
        (fun s => memory_by_lines (List.replicate 7 (ThreadStep.worker 1 {})) [1, 2] s)).map
        (job_memory [1, 2]) =
      ((le_worker_thread_dispatch 900 job_scene_queued 1 { outcome := JobOutcome.yields }).bind
        (fun s => le_worker_thread_dispatch 900 s 1 {})).map (job_memory [1, 2]) ∧
    ((le_worker_thread_dispatch 900 job_scene_queued 1 { outcome := JobOutcome.yields }).bind
        (fun s => le_worker_thread_dispatch 900 s 1 {})).isSome = true ∧
    (memory_by_lines (List.replicate 18 (ThreadStep.worker 13 {}))
        [1, 2, 3, 4, 5, 6, 7, 8, 9, 10, 11, 12, 13] job_scene_crowd).map
        (job_memory [1, 2, 3, 4, 5, 6, 7, 8, 9, 10, 11, 12, 13]) =
      (le_worker_thread_dispatch 900 job_scene_crowd 13 {}).map
        (job_memory [1, 2, 3, 4, 5, 6, 7, 8, 9, 10, 11, 12, 13]) ∧
    (le_worker_thread_dispatch 900 job_scene_crowd 13 {}).isSome = true ∧
    ((le_worker_thread_dispatch 900 job_scene_queued 1 {}).bind
        (fun s => memory_by_lines
          [ThreadStep.wait_for_counter_and_free 500 0, ThreadStep.main, ThreadStep.main,
            ThreadStep.main] [1, 2] s)).map (job_memory [1, 2]) =
      ((le_worker_thread_dispatch 900 job_scene_queued 1 {}).bind
        (fun s => le_job_manager_wait_for_counter_and_free s 500 0)).map (job_memory [1, 2]) ∧
    ((le_worker_thread_dispatch 900 job_scene_queued 1 {}).bind
        (fun s => le_job_manager_wait_for_counter_and_free s 500 0)).isSome = true := by
  refine ⟨by decide, by decide, by decide, by decide, by decide, by decide, by decide,
    by decide, by decide, by decide, by decide, by decide⟩

/-- C26 (counterexample): after worker 1 has run a job to its end on fiber
101 and executed line 309, and before it executes line 310, fiber 101 is the
`current_fiber` of worker 1 with `fiber_active` 0; when worker 2 then takes
the next job, its compare-exchange on fiber 101 succeeds, and after line 277
fiber 101 is the `current_fiber` of worker 1 and of worker 2. Both states are
reachable whatever target values the caller waits for. -/
theorem C26_counterexample_current_fiber_of_two_workers :
    (run_steps 900 job_trace_released job_threads_scene).isSome = true ∧
    (run_steps 900 job_trace_shared job_threads_scene).isSome = true ∧
    (∀ allowed : Nat → Bool, Reachable 900 allowed (job_threads_after job_trace_released)) ∧
    (∀ allowed : Nat → Bool, Reachable 900 allowed (job_threads_after job_trace_shared)) ∧
    ((job_threads_after job_trace_released).system.worker_heap 1).current_fiber = 101 ∧
    ((job_threads_after job_trace_released).system.fiber_heap 101).fiber_active = 0 ∧
    ((job_threads_after job_trace_shared).system.worker_heap 1).current_fiber = 101 ∧
    ((job_threads_after job_trace_shared).system.worker_heap 2).current_fiber = 101 ∧
    ((job_threads_after job_trace_shared).system.fiber_heap 101).fiber_active = 1 := by
  refine ⟨by decide, by decide, ?_, ?_, by decide, by decide, by decide, by decide, by decide⟩
  · intro allowed
    exact reachable_mono 900 no_target allowed (fun t ht => by cases ht) _
      (job_threads_after_reachable no_target job_trace_released (by decide))
  · intro allowed
    exact reachable_mono 900 no_target allowed (fun t ht => by cases ht) _
      (job_threads_after_reachable no_target job_trace_shared (by decide))

/-- C26 (amended): in every state reachable by steps of the threads, line by
line and in any interleaving, a fiber of the pool has `fiber_active` 0 and no
worker holds it, or it has `fiber_active` 1 and exactly one worker holds it,
where a worker holds a fiber from its successful compare-exchange (line 275)
until its store of 0 to `fiber_active` (line 309); a `current_fiber` that is
not null is a fiber of the pool, and the worker holds it, with `fiber_active`
1, unless the worker is between line 309 and line 310; two workers have the
same non-null `current_fiber` only while one of them is between line 309 and
line 310; a held fiber is the `current_fiber` of its holder except between
the lines 275 and 277, where it is `fibers[ i ]` and `current_fiber` is still
null; and a step changes `fiber_active` of a fiber only from 0 to 1, by the
compare-exchange of the worker that holds it from then on, or from 1 to 0, in
line 309, by the worker that held it. -/
theorem C26_active_fiber_held_by_one_worker (K : Nat) (allowed : Nat → Bool) (s : JobThreads)
    (h : Reachable K allowed s) :
    (∀ f : Nat, f ∈ s.system.manager.fibers →
      ((s.system.fiber_heap f).fiber_active = 0 ∧ ∀ w : Nat, held_fiber s w ≠ f) ∨
      ((s.system.fiber_heap f).fiber_active = 1 ∧
        ∃ w : Nat, held_fiber s w = f ∧ ∀ w2 : Nat, held_fiber s w2 = f → w2 = w)) ∧
    (∀ w : Nat, (s.system.worker_heap w).current_fiber ≠ 0 →
      (s.system.worker_heap w).current_fiber ∈ s.system.manager.fibers ∧
      (s.pc w = WorkerPc.clear ∨
        (held_fiber s w = (s.system.worker_heap w).current_fiber ∧
          (s.system.fiber_heap (s.system.worker_heap w).current_fiber).fiber_active = 1))) ∧
    (∀ w1 w2 : Nat, w1 ≠ w2 → (s.system.worker_heap w1).current_fiber ≠ 0 →
      (s.system.worker_heap w1).current_fiber = (s.system.worker_heap w2).current_fiber →
      s.pc w1 = WorkerPc.clear ∨ s.pc w2 = WorkerPc.clear) ∧
    (∀ w : Nat, held_fiber s w ≠ 0 →
      held_fiber s w = (s.system.worker_heap w).current_fiber ∨
      ∃ (job : le_job_o) (i : Nat), s.pc w = WorkerPc.claimed job i ∧
        (s.system.worker_heap w).current_fiber = 0 ∧
        s.system.manager.fibers[i]? = some (held_fiber s w)) ∧
    (∀ (step : ThreadStep) (s1 : JobThreads), thread_step K s step = some s1 →
      ∀ f : Nat,
        (s1.system.fiber_heap f).fiber_active ≠ (s.system.fiber_heap f).fiber_active →
        ∃ (self : Nat) (run : job_run), step = ThreadStep.worker self run ∧
          ((∃ (job : le_job_o) (i : Nat), s.pc self = WorkerPc.scan job i ∧
              s.system.manager.fibers[i]? = some f ∧
              (s.system.fiber_heap f).fiber_active = 0 ∧
              (s1.system.fiber_heap f).fiber_active = 1 ∧
              s1.pc self = WorkerPc.claimed job i ∧
              held_fiber s self = 0 ∧ held_fiber s1 self = f) ∨
           (s.pc self = WorkerPc.check ∧ (s.system.worker_heap self).current_fiber = f ∧
              held_fiber s self = f ∧
              (s.system.fiber_heap f).fiber_active = 1 ∧
              (s1.system.fiber_heap f).fiber_active = 0 ∧
              s1.pc self = WorkerPc.clear ∧ held_fiber s1 self = 0))) := by
  have hs := reachable_threads_inv K allowed s h
  have hcur : ∀ w : Nat, (s.system.worker_heap w).current_fiber ≠ 0 →
      s.pc w ≠ WorkerPc.clear → held_fiber s w = (s.system.worker_heap w).current_fiber := by
    intro w hc hp
    have ha := hs.agrees w
    unfold held_fiber
    revert ha hp
    cases s.pc w <;> simp [pc_agrees, held_of, hc]
  refine ⟨?_, ?_, ?_, ?_, ?_⟩
  · intro f hf
    have hf0 : f ≠ 0 := fun e => hs.pool_nonzero (e ▸ hf)
    rcases hs.active_held f hf with h0 | ⟨h1, w, hw⟩
    · left
      refine ⟨h0, ?_⟩
      intro w hw
      have := (hs.held_active w (by rw [hw]; exact hf0)).2
      rw [hw, h0] at this
      cases this
    · right
      refine ⟨h1, w, hw, ?_⟩
      intro w2 hw2
      exact hs.held_unique w2 w (hw2.trans hw.symm) (by rw [hw2]; exact hf0)
  · intro w hc
    by_cases hp : s.pc w = WorkerPc.clear
    · have ha := hs.agrees w
      rw [hp] at ha
      exact ⟨ha.2, Or.inl hp⟩
    · have hh := hcur w hc hp
      have := hs.held_active w (by rw [hh]; exact hc)
      rw [hh] at this
      exact ⟨this.1, Or.inr ⟨hh, this.2⟩⟩
  · intro w1 w2 hne hc he
    by_contra hn
    rw [not_or] at hn
    have h1 := hcur w1 hc hn.1
    have h2 := hcur w2 (by rw [← he]; exact hc) hn.2
    exact hne (hs.held_unique w1 w2 (by rw [h1, h2, he]) (by rw [h1]; exact hc))
  · intro w hne
    have ha := hs.agrees w
    unfold held_fiber at hne ⊢
    cases hpc : s.pc w with
    | claimed job i =>
      right
      rw [hpc] at ha hne
      simp only [pc_agrees] at ha
      refine ⟨job, i, rfl, ha.1, ?_⟩
      simp only [held_of]
      rw [List.getD_eq_getElem?_getD, List.getElem?_eq_getElem ha.2]
      rfl
    | clear =>
      rw [hpc] at hne
      simp [held_of] at hne
    | _ =>
      left
      simp [held_of]
  · intro step s1 hstep f hne
    cases step with
    | worker self run =>
      simp only [thread_step] at hstep
      by_cases hreg : self ∈ registered_workers s
      · simp only [hreg, if_true] at hstep
        exact ⟨self, run, rfl, worker_step_flags K s s1 self run hs hstep f hne⟩
      · simp [hreg] at hstep
    | run_jobs jobs counter =>
      simp only [thread_step] at hstep
      split at hstep
      · simp only [Option.some.injEq] at hstep
        subst hstep
        exact absurd rfl hne
      · cases hstep
    | wait_for_counter_and_free counter target_value =>
      simp only [thread_step] at hstep
      split at hstep
      · simp only [Option.some.injEq] at hstep
        subst hstep
        exact absurd rfl hne
      · cases hstep
    | main =>
      have := main_step_flags s s1 hstep
      rw [this] at hne
      exact absurd rfl hne

theorem C26_active_fiber_held_by_one_worker_witness :
    Reachable 900 any_target (job_threads_after job_trace_shared) ∧
    ((job_threads_after job_trace_shared).system.fiber_heap 101).fiber_active = 1 ∧
    held_fiber (job_threads_after job_trace_shared) 2 = 101 ∧
    (∀ w : Nat, held_fiber (job_threads_after job_trace_shared) w = 101 → w = 2) ∧
    (job_threads_after job_trace_shared).pc 1 = WorkerPc.clear ∧
    (job_threads_after job_trace_shared).pc 2 =
      WorkerPc.setup { fun_ptr := 9, fun_param := 10, complete_counter := 500 } := by
  have hr : Reachable 900 any_target (job_threads_after job_trace_shared) :=
    job_threads_after_reachable any_target job_trace_shared (by decide)
  have h2 : held_fiber (job_threads_after job_trace_shared) 2 = 101 := by decide
  refine ⟨hr, by decide, h2, ?_, by decide, by decide⟩
  rcases (C26_active_fiber_held_by_one_worker 900 any_target _ hr).1 101 (by decide) with
    ⟨_, hno⟩ | ⟨_, w, _, hw⟩
  · exact absurd h2 (hno 2)
  · intro w1 hw1
    rw [hw w1 hw1, hw 2 h2]

theorem C22_run_jobs_counter_and_queue_witness :
    job_scene_queued.counter_heap 500 = 1 ∧
    job_scene_queued.manager.counters = [500] ∧
    job_scene_queued.manager.job_queue =
      [{ fun_ptr := 7, fun_param := 8, complete_counter := 500 }] :=
  ⟨(C22_run_jobs_counter_and_queue job_scene_start [{ fun_ptr := 7, fun_param := 8 }] 500
      true).1,
   (C22_run_jobs_counter_and_queue job_scene_start [{ fun_ptr := 7, fun_param := 8 }] 500
      true).2.2.1,
   (C22_run_jobs_counter_and_queue job_scene_start [{ fun_ptr := 7, fun_param := 8 }] 500
      true).2.2.2.1⟩

theorem C23_run_jobs_pushes_without_mutex_witness :
    ∃ added : List JobEvent, job_scene_queued.log = job_scene_start.log ++ added ∧
      JobEvent.mutex_lock ∉ added ∧
      JobEvent.queue_push_back { fun_ptr := 7, fun_param := 8, complete_counter := 500 } ∈
        added ∧
      queue_mutations_locked false added = false := by
  obtain ⟨added, h1, h2, -, h3, h4⟩ := (C23_run_jobs_pushes_without_mutex 900 job_scene_start
    [{ fun_ptr := 7, fun_param := 8 }] 500 true 1).1
  exact ⟨added, h1, h2, h3 _ (List.mem_singleton.2 rfl), h4 (by decide)⟩

theorem C27_no_idle_fiber_drops_job_witness :
    ∃ s1 : JobSystem, le_worker_thread_dispatch 900 job_scene_crowd 13 {} = some s1 ∧
      s1.manager.job_queue = [] ∧ s1.fiber_heap = job_scene_crowd.fiber_heap ∧
      (s1.worker_heap 13).current_fiber = 0 ∧
      s1.counter_heap = job_scene_crowd.counter_heap := by
  obtain ⟨s1, h1, h2, h3, -, h5, h6, -⟩ := C27_no_idle_fiber_drops_job 900 job_scene_crowd 13 {}
    { fun_ptr := 7, complete_counter := 500 } [] (by decide) (by decide) (by decide)
  exact ⟨s1, h1, h2, h3, h5, h6⟩

theorem C28_returning_job_completes_in_one_dispatch_witness :
    ∃ s1 : JobSystem, le_worker_thread_dispatch 900 job_scene_queued 1 {} = some s1 ∧
      s1.counter_heap 500 + 1 = 1 ∧ (s1.fiber_heap 101).fiber_active = 0 ∧
      (s1.worker_heap 1).current_fiber = 0 := by
  obtain ⟨s1, f, i, h1, -, -, -, -, h6, -, -, -, -, h11, -, h13, -, h15, -, -, h18, -⟩ :=
    C28_returning_job_completes_in_one_dispatch 900 job_scene_queued 1 {}
      { fun_ptr := 7, fun_param := 8, complete_counter := 500 } [] (by decide) (by decide)
      ⟨101, by decide, by decide⟩ rfl (by decide) (by decide) (by decide) (by decide)
  have hf : f = 101 := by
    rw [← h6]
    decide
  subst hf
  exact ⟨s1, h11, h13, h15, h18⟩

theorem C29_yielding_fiber_stays_attached_witness :
    (∃ (s1 : JobSystem) (f : Nat),
      le_worker_thread_dispatch 900 job_scene_queued 1 { outcome := JobOutcome.yields } =
        some s1 ∧
      (s1.worker_heap 1).current_fiber = f ∧ (s1.fiber_heap f).fiber_active = 1 ∧
      (s1.fiber_heap f).job_complete = 0 ∧ s1.counter_heap = job_scene_queued.counter_heap) ∧
    (∃ s1 : JobSystem,
      le_worker_thread_dispatch 900 job_scene_yielded 1 { outcome := JobOutcome.yields } =
        some s1 ∧
      (s1.worker_heap 1).current_fiber = (job_scene_yielded.worker_heap 1).current_fiber ∧
      s1.counter_heap = job_scene_yielded.counter_heap) := by
  constructor
  · obtain ⟨s1, f, h1, -, -, h4, h5, h6, -, h8⟩ :=
      (C29_yielding_fiber_stays_attached 900 job_scene_queued 1
        { outcome := JobOutcome.yields }).1 ⟨7, 8, 500⟩ [] (by decide) (by decide)
        ⟨101, by decide, by decide⟩ rfl (by decide)
    exact ⟨s1, f, h1, h4, h5, h6, h8⟩
  · obtain ⟨s1, h1, h2, -, -, -, h6⟩ :=
      (C29_yielding_fiber_stays_attached 900 job_scene_yielded 1
        { outcome := JobOutcome.yields }).2.1 (by decide) rfl (by decide) (by decide)
    exact ⟨s1, h1, h2, h6⟩

set_option maxRecDepth 100000 in
theorem C30_wait_removes_counter_witness :
    ∃ s1 : JobSystem,
      le_job_manager_wait_for_counter_and_free job_scene_hundred 500 0 = some s1 ∧
      s1.manager.counters = [] := by
  obtain ⟨s1, h⟩ := Option.isSome_iff_exists.1
    (by decide : (le_job_manager_wait_for_counter_and_free job_scene_hundred 500 0).isSome = true)
  exact ⟨s1, h, (C30_wait_removes_counter job_scene_hundred s1 500 0 h).2.2.2.2.2.2
    job_scene_start (List.replicate 100 {}) true (by decide) (by decide)⟩

/-! ### Job system: the worker table -/

theorem register_workers_spec (workers : List Nat) :
    ∀ (pre : List Nat) (k : Nat), workers.length ≤ k →
      register_workers (pre ++ List.replicate k 0) workers pre.length =
        some (pre ++ workers ++ List.replicate (k - workers.length) 0) := by
  induction workers with
  | nil =>
    intro pre k _
    simp [register_workers]
  | cons w rest ih =>
    intro pre k hk
    rw [List.length_cons] at hk
    obtain ⟨k1, rfl⟩ : ∃ k1, k = k1 + 1 := ⟨k - 1, by omega⟩
    unfold register_workers
    have hlt : pre.length < (pre ++ List.replicate (k1 + 1) 0).length := by
      rw [List.length_append, List.length_replicate]
      omega
    rw [if_pos hlt]
    have hset : (pre ++ List.replicate (k1 + 1) 0).set pre.length w =
        (pre ++ [w]) ++ List.replicate k1 0 := by
      rw [List.set_append_right _ _ (Nat.le_refl _), Nat.sub_self, List.replicate_succ,
        List.set_cons_zero]
      simp
    rw [hset]
    have := ih (pre ++ [w]) k1 (by omega)
    rw [List.length_append, List.length_singleton] at this
    rw [this, List.length_cons]
    simp

theorem stop_threads_keeps (l : List Nat) :
    ∀ (wh wh1 : Nat → le_worker_thread_o) (visited : List Nat),
      stop_threads wh l = some (wh1, visited) →
      (∀ w : Nat, (wh w).stop_thread = 1 → (wh1 w).stop_thread = 1) ∧
      (∀ w ∈ visited, (wh1 w).stop_thread = 1) := by
  induction l with
  | nil =>
    intro wh wh1 visited h
    simp [stop_threads] at h
  | cons t rest ih =>
    intro wh wh1 visited h
    unfold stop_threads at h
    by_cases ht : t = 0
    · simp only [ht, if_true, Option.some.injEq, Prod.mk.injEq] at h
      obtain ⟨h1, h2⟩ := h
      subst h1 h2
      exact ⟨fun _ hw => hw, fun w hw => by simp at hw⟩
    · simp only [ht, if_false] at h
      cases hr : stop_threads
          (fun w => if w = t then { wh t with stop_thread := 1 } else wh w) rest with
      | none => simp [hr] at h
      | some r =>
        obtain ⟨wh2, v⟩ := r
        simp only [hr, Option.some.injEq, Prod.mk.injEq] at h
        obtain ⟨h1, h2⟩ := h
        subst h1 h2
        obtain ⟨k1, k2⟩ := ih _ _ _ hr
        constructor
        · intro w hw
          apply k1
          by_cases hwt : w = t
          · simp [hwt]
          · simp [hwt, hw]
        · intro w hw
          rcases List.mem_cons.1 hw with e | e
          · apply k1
            simp [e]
          · exact k2 w e

theorem stop_threads_spec (workers : List Nat) (h0 : 0 ∉ workers) (k : Nat) :
    ∀ wh : Nat → le_worker_thread_o,
      (0 < k → ∃ wh1, stop_threads wh (workers ++ List.replicate k 0) = some (wh1, workers)) ∧
      (k = 0 → stop_threads wh (workers ++ List.replicate k 0) = none) := by
  induction workers with
  | nil =>
    intro wh
    constructor
    · intro hk
      obtain ⟨k1, rfl⟩ : ∃ k1, k = k1 + 1 := ⟨k - 1, by omega⟩
      exact ⟨wh, by simp [List.replicate_succ, stop_threads]⟩
    · intro hk
      subst hk
      simp [stop_threads]
  | cons t rest ih =>
    intro wh
    have ht : t ≠ 0 := fun e => h0 (by simp [e])
    have h0r : 0 ∉ rest := fun e => h0 (List.mem_cons_of_mem _ e)
    obtain ⟨i1, i2⟩ := ih h0r
      (fun w => if w = t then { wh t with stop_thread := 1 } else wh w)
    constructor
    · intro hk
      obtain ⟨wh1, h1⟩ := i1 hk
      refine ⟨wh1, ?_⟩
      rw [List.cons_append]
      unfold stop_threads
      simp only [ht, if_false, h1]
    · intro hk
      rw [List.cons_append]
      unfold stop_threads
      simp only [ht, if_false, i2 hk]

theorem join_threads_spec (workers : List Nat) (h0 : 0 ∉ workers) (k : Nat) :
    (0 < k → join_threads (workers ++ List.replicate k 0) =
      some (List.replicate (workers.length + k) 0, workers)) ∧
    (k = 0 → join_threads (workers ++ List.replicate k 0) = none) := by
  induction workers with
  | nil =>
    constructor
    · intro hk
      obtain ⟨k1, rfl⟩ : ∃ k1, k = k1 + 1 := ⟨k - 1, by omega⟩
      simp [List.replicate_succ, join_threads]
    · intro hk
      subst hk
      simp [join_threads]
  | cons t rest ih =>
    have ht : t ≠ 0 := fun e => h0 (by simp [e])
    have h0r : 0 ∉ rest := fun e => h0 (List.mem_cons_of_mem _ e)
    obtain ⟨i1, i2⟩ := ih h0r
    constructor
    · intro hk
      rw [List.cons_append]
      unfold join_threads
      simp only [ht, if_false, i1 hk, List.length_cons]
      have : rest.length + 1 + k = (rest.length + k) + 1 := by omega
      rw [this, List.replicate_succ]
    · intro hk
      rw [List.cons_append]
      unfold join_threads
      simp only [ht, if_false, i2 hk]

theorem find_yielding_thread_spec (wh : Nat → le_worker_thread_o) (workers rest : List Nat)
    (h0 : 0 ∉ workers) (hid : ∀ t ∈ workers, (wh t).thread_id = t) (w : Nat)
    (hw : w ∈ workers) : find_yielding_thread wh w (workers ++ rest) = some w := by
  induction workers with
  | nil => simp at hw
  | cons t ws ih =>
    have ht : t ≠ 0 := fun e => h0 (by simp [e])
    rw [List.cons_append]
    unfold find_yielding_thread
    simp only [ht, if_false, hid t (by simp)]
    by_cases hwt : w = t
    · simp [hwt]
    · simp only [hwt, if_false]
      exact ih (fun e => h0 (List.mem_cons_of_mem _ e))
        (fun x hx => hid x (List.mem_cons_of_mem _ hx))
        ((List.mem_cons.1 hw).resolve_left hwt)

theorem worker_threads_started_spec (workers : List Nat) :
    ∀ s : JobSystem,
      (worker_threads_started s workers).static_worker_thread = s.static_worker_thread ∧
      (∀ t ∈ workers, ((worker_threads_started s workers).worker_heap t).thread_id = t) ∧
      (∀ t : Nat, (s.worker_heap t).thread_id = t →
        ((worker_threads_started s workers).worker_heap t).thread_id = t) := by
  induction workers with
  | nil =>
    intro s
    exact ⟨rfl, fun t ht => by simp at ht, fun t ht => ht⟩
  | cons w rest ih =>
    intro s
    obtain ⟨i1, i2, i3⟩ := ih (worker_thread_loop_enter s w)
    unfold worker_threads_started at i1 i2 i3 ⊢
    rw [List.foldl_cons]
    refine ⟨by rw [i1]; rfl, ?_, ?_⟩
    · intro t ht
      rcases List.mem_cons.1 ht with e | e
      · apply i3
        simp [worker_thread_loop_enter, e]
      · exact i2 t e
    · intro t ht
      apply i3
      by_cases htw : t = w
      · simp [worker_thread_loop_enter, htw]
      · simp [worker_thread_loop_enter, htw, ht]

/-- The fields that `renderpass_use_resource` leaves alone. -/
theorem use_resource_other_fields (K : le_renderer_h) {p p1 : le_renderpass_o}
    {h : le_resource_handle_t} {r : le_resource_info_t}
    (hu : renderpass_use_resource K p h r = some p1) :
    p1.imageAttachments = p.imageAttachments ∧
    p1.attachmentResources = p.attachmentResources ∧
    p1.textureInfoIds = p.textureInfoIds ∧ p1.textureInfos = p.textureInfos := by
  rcases use_resource_cases K hu with ⟨_, e⟩ | ⟨_, s, c, _, _, e⟩
  · rw [e, (update_read_write_spec K _ h r).2.2]
    exact ⟨rfl, rfl, rfl, rfl⟩
  · rw [e, (update_read_write_spec K _ h c).2.2]
    exact ⟨rfl, rfl, rfl, rfl⟩

theorem update_read_write_nodup (K : le_renderer_h) (s : le_renderpass_o)
    (h : le_resource_handle_t) (c : le_resource_info_t)
    (hr : s.readResources.Nodup) (hw : s.writeResources.Nodup) :
    (update_read_write K s h c).readResources.Nodup ∧
    (update_read_write K s h c).writeResources.Nodup := by
  obtain ⟨h1, h2, -⟩ := update_read_write_spec K s h c
  rw [h1, h2]
  constructor
  · split
    · rename_i hc
      exact List.Nodup.append hr (List.nodup_singleton _) (by simpa using hc.2)
    · exact hr
  · split
    · rename_i hc
      exact List.Nodup.append hw (List.nodup_singleton _) (by simpa using hc.2)
    · exact hw

theorem use_resource_vectors_inv (K : le_renderer_h) {p p1 : le_renderpass_o}
    {h : le_resource_handle_t} {r : le_resource_info_t}
    (hinv : PassVectorsInv p) (hu : renderpass_use_resource K p h r = some p1) :
    PassVectorsInv p1 := by
  obtain ⟨h1, h2, h3, h4, h5⟩ := hinv
  obtain ⟨e1, e2, e3, e4⟩ := use_resource_other_fields K hu
  refine ⟨by rw [e1, e2]; exact h1, by rw [e3, e4]; exact h2, ?_, ?_, by rw [e3]; exact h5⟩
  · rcases use_resource_cases K hu with ⟨_, e⟩ | ⟨_, s, c, _, _, e⟩
    · rw [e]
      exact (update_read_write_nodup K _ h r (by exact h3) (by exact h4)).1
    · rw [e]
      exact (update_read_write_nodup K _ h c (by exact h3) (by exact h4)).1
  · rcases use_resource_cases K hu with ⟨_, e⟩ | ⟨_, s, c, _, _, e⟩
    · rw [e]
      exact (update_read_write_nodup K _ h r (by exact h3) (by exact h4)).2
    · rw [e]
      exact (update_read_write_nodup K _ h c (by exact h3) (by exact h4)).2

theorem reachable_vectors_inv (K : le_renderer_h) {p : le_renderpass_o}
    (hp : PassReachable K p) : PassVectorsInv p := by
  induction hp with
  | create name t =>
    exact ⟨rfl, rfl, List.nodup_nil, List.nodup_nil, List.nodup_nil⟩
  | use_resource h r _ hu ih => exact use_resource_vectors_inv K ih hu
  | add_color_attachment h r a _ hu ih =>
    unfold renderpass_add_color_attachment at hu
    refine use_resource_vectors_inv K ?_ hu
    obtain ⟨h1, h2, h3, h4, h5⟩ := ih
    exact ⟨by simp [h1], h2, h3, h4, h5⟩
  | add_depth_stencil_attachment h r a _ hu ih =>
    unfold renderpass_add_depth_stencil_attachment at hu
    refine use_resource_vectors_inv K ?_ hu
    obtain ⟨h1, h2, h3, h4, h5⟩ := ih
    exact ⟨by simp [h1], h2, h3, h4, h5⟩
  | sample_texture h ti _ hu ih =>
    unfold renderpass_sample_texture at hu
    split at hu
    · simp only [Option.some.injEq] at hu
      exact hu ▸ ih
    · rename_i hc
      refine use_resource_vectors_inv K ?_ hu
      obtain ⟨h1, h2, h3, h4, h5⟩ := ih
      refine ⟨h1, by simp [h2], h3, h4, ?_⟩
      simp only [vector_contains, decide_eq_true_eq] at hc
      exact List.Nodup.append h5 (List.nodup_singleton _) (by simpa using hc)

/-- C33: in every pass state reachable from a fresh pass by use_resource,
add_color_attachment, add_depth_stencil_attachment and sample_texture calls
that trip no assertion, the parallel vectors are one-to-one: resources and
resourceInfos have equal length, imageAttachments and attachmentResources
have equal length, and textureInfoIds and textureInfos have equal length. -/
theorem C33_parallel_vectors_same_length (K : le_renderer_h) (p : le_renderpass_o)
    (hp : PassReachable K p) :
    p.resources.length = p.resourceInfos.length ∧
    p.imageAttachments.length = p.attachmentResources.length ∧
    p.textureInfoIds.length = p.textureInfos.length :=
  ⟨(reachable_inv K hp).1, (reachable_vectors_inv K hp).1, (reachable_vectors_inv K hp).2.1⟩

theorem C33_parallel_vectors_same_length_witness :
    passSampledThenColor.resources.length = passSampledThenColor.resourceInfos.length ∧
    passSampledThenColor.imageAttachments.length =
      passSampledThenColor.attachmentResources.length ∧
    passSampledThenColor.textureInfoIds.length = passSampledThenColor.textureInfos.length :=
  C33_parallel_vectors_same_length vkHeader passSampledThenColor passSampledThenColor_reachable

/-- C38: in every pass state reachable from a fresh pass by declaration calls
that trip no assertion, none of resources, readResources, writeResources and
textureInfoIds holds a handle twice; and every add_color_attachment and
add_depth_stencil_attachment call that trips no assertion appends exactly the
given attachment info to imageAttachments and the given image to
attachmentResources, also when the image is attached already, so both
vectors grow by one. -/
theorem C38_no_duplicate_handles (K : le_renderer_h) (p : le_renderpass_o)
    (hp : PassReachable K p) :
    p.resources.Nodup ∧ p.readResources.Nodup ∧ p.writeResources.Nodup ∧
    p.textureInfoIds.Nodup ∧
    (∀ (image_id : le_resource_handle_t) (resource_info : le_resource_info_t)
      (attachmentInfo : le_image_attachment_info_t) (p1 : le_renderpass_o),
      (renderpass_add_color_attachment K p image_id resource_info attachmentInfo = some p1 ∨
        renderpass_add_depth_stencil_attachment K p image_id resource_info attachmentInfo
          = some p1) →
      p1.imageAttachments = p.imageAttachments ++ [attachmentInfo] ∧
      p1.attachmentResources = p.attachmentResources ++ [image_id] ∧
      p1.imageAttachments.length = p.imageAttachments.length + 1 ∧
      p1.attachmentResources.length = p.attachmentResources.length + 1) := by
  obtain ⟨-, -, h3, h4, h5⟩ := reachable_vectors_inv K hp
  refine ⟨(reachable_inv K hp).2.1, h3, h4, h5, ?_⟩
  intro image_id resource_info attachmentInfo p1 hu
  have key : p1.imageAttachments = p.imageAttachments ++ [attachmentInfo] ∧
      p1.attachmentResources = p.attachmentResources ++ [image_id] := by
    rcases hu with hu | hu
    · unfold renderpass_add_color_attachment at hu
      obtain ⟨e1, e2, -, -⟩ := use_resource_other_fields K hu
      exact ⟨e1, e2⟩
    · unfold renderpass_add_depth_stencil_attachment at hu
      obtain ⟨e1, e2, -, -⟩ := use_resource_other_fields K hu
      exact ⟨e1, e2⟩
  refine ⟨key.1, key.2, ?_, ?_⟩
  · rw [key.1]
    simp
  · rw [key.2]
    simp

theorem C38_no_duplicate_handles_witness :
    passSampledThenColor.resources.Nodup ∧ passSampledThenColor.readResources.Nodup ∧
    ∃ p1 : le_renderpass_o,
      renderpass_add_color_attachment vkHeader passSampledThenColor (mkHandle "img")
        { type := LeResourceType.eImage } {} = some p1 ∧
      p1.attachmentResources = [mkHandle "img", mkHandle "img"] ∧
      p1.imageAttachments.length = 2 := by
  have h := C38_no_duplicate_handles vkHeader passSampledThenColor passSampledThenColor_reachable
  obtain ⟨p1, hp1⟩ := Option.isSome_iff_exists.1
    (by decide : (renderpass_add_color_attachment vkHeader passSampledThenColor (mkHandle "img")
        { type := LeResourceType.eImage } {}).isSome = true)
  obtain ⟨-, h2, h3, -⟩ := h.2.2.2.2 _ _ _ p1 (Or.inl hp1)
  exact ⟨h.1, h.2.1, p1, hp1, h2, h3⟩

/-- C34: le_fiber_setup leaves the fiber's stack pointer 11 words of 8 bytes,
88 bytes, below the end of the 65536-byte stack that starts at stack_bottom;
it makes 11 stores of one word each which, listed from the stack pointer
upward, are 6 zero words, the job function address, the address of the
fiber-exit trampoline, the host fiber pointer, the fiber's own pointer and a
zero padding word, at the addresses stack + 0, stack + 8, ..., stack + 80; it
sets job_param to the job's parameter, job_complete to 0 and
job_complete_counter to the job's counter, and leaves stack_bottom,
next_fiber and fiber_active as they are. -/
theorem C34_fiber_setup_stack_layout (asm_call_fiber_exit main_fiber fiber_ptr : Nat)
    (fiber : le_fiber_o) (job : le_job_o) :
    (le_fiber_setup asm_call_fiber_exit main_fiber fiber_ptr fiber job).1.stack + 11 * 8 =
      fiber.stack_bottom + 65536 ∧
    (le_fiber_setup asm_call_fiber_exit main_fiber fiber_ptr fiber job).2.reverse =
      [((le_fiber_setup asm_call_fiber_exit main_fiber fiber_ptr fiber job).1.stack, 0),
       ((le_fiber_setup asm_call_fiber_exit main_fiber fiber_ptr fiber job).1.stack + 8, 0),
       ((le_fiber_setup asm_call_fiber_exit main_fiber fiber_ptr fiber job).1.stack + 16, 0),
       ((le_fiber_setup asm_call_fiber_exit main_fiber fiber_ptr fiber job).1.stack + 24, 0),
       ((le_fiber_setup asm_call_fiber_exit main_fiber fiber_ptr fiber job).1.stack + 32, 0),
       ((le_fiber_setup asm_call_fiber_exit main_fiber fiber_ptr fiber job).1.stack + 40, 0),
       ((le_fiber_setup asm_call_fiber_exit main_fiber fiber_ptr fiber job).1.stack + 48,
          job.fun_ptr),
       ((le_fiber_setup asm_call_fiber_exit main_fiber fiber_ptr fiber job).1.stack + 56,
          asm_call_fiber_exit),
       ((le_fiber_setup asm_call_fiber_exit main_fiber fiber_ptr fiber job).1.stack + 64,
          main_fiber),
       ((le_fiber_setup asm_call_fiber_exit main_fiber fiber_ptr fiber job).1.stack + 72,
          fiber_ptr),
       ((le_fiber_setup asm_call_fiber_exit main_fiber fiber_ptr fiber job).1.stack + 80, 0)] ∧
    (le_fiber_setup asm_call_fiber_exit main_fiber fiber_ptr fiber job).1.job_param =
      job.fun_param ∧
    (le_fiber_setup asm_call_fiber_exit main_fiber fiber_ptr fiber job).1.job_complete = 0 ∧
    (le_fiber_setup asm_call_fiber_exit main_fiber fiber_ptr fiber job).1.job_complete_counter =
      job.complete_counter ∧
    (le_fiber_setup asm_call_fiber_exit main_fiber fiber_ptr fiber job).1.stack_bottom =
      fiber.stack_bottom ∧
    (le_fiber_setup asm_call_fiber_exit main_fiber fiber_ptr fiber job).1.next_fiber =
      fiber.next_fiber ∧
    (le_fiber_setup asm_call_fiber_exit main_fiber fiber_ptr fiber job).1.fiber_active =
      fiber.fiber_active := by
  have hsp : (le_fiber_setup asm_call_fiber_exit main_fiber fiber_ptr fiber job).1.stack =
      fiber.stack_bottom + 65448 := by
    simp only [le_fiber_setup, stack_push, STACK_SIZE, NUM_REGISTERS, List.range, List.range.loop,
      List.foldl]
    omega
  have hst : (le_fiber_setup asm_call_fiber_exit main_fiber fiber_ptr fiber job).2 =
      [(fiber.stack_bottom + 65528, 0), (fiber.stack_bottom + 65520, fiber_ptr),
       (fiber.stack_bottom + 65512, main_fiber), (fiber.stack_bottom + 65504, asm_call_fiber_exit),
       (fiber.stack_bottom + 65496, job.fun_ptr), (fiber.stack_bottom + 65488, 0),
       (fiber.stack_bottom + 65480, 0), (fiber.stack_bottom + 65472, 0),
       (fiber.stack_bottom + 65464, 0), (fiber.stack_bottom + 65456, 0),
       (fiber.stack_bottom + 65448, 0)] := by
    simp only [le_fiber_setup, stack_push, STACK_SIZE, NUM_REGISTERS, List.range, List.range.loop,
      List.foldl, List.nil_append, List.cons_append, List.cons.injEq, Prod.mk.injEq, and_true]
    omega
  rw [hsp, hst]
  refine ⟨by omega, ?_, rfl, rfl, rfl, rfl, rfl, rfl⟩
  simp only [List.reverse_cons, List.reverse_nil, List.nil_append, List.cons_append,
    List.cons.injEq, Prod.mk.injEq, and_true, true_and]

theorem C34_fiber_setup_stack_layout_witness :
    (le_fiber_setup 900 1 101 { stack_bottom := 1000 } ⟨7, 8, 500⟩).1.stack + 11 * 8 =
      1000 + 65536 ∧
    (le_fiber_setup 900 1 101 { stack_bottom := 1000 } ⟨7, 8, 500⟩).1.job_param = 8 :=
  ⟨(C34_fiber_setup_stack_layout 900 1 101 { stack_bottom := 1000 } ⟨7, 8, 500⟩).1,
   (C34_fiber_setup_stack_layout 900 1 101 { stack_bottom := 1000 } ⟨7, 8, 500⟩).2.2.1⟩

theorem Visits.le_depth {deps : List (List Nat)} {cur depth i v : Nat}
    (h : Visits deps cur depth i v) : v ≤ LE_rendergraph_RECURSION_DEPTH := by
  obtain ⟨_, _, _, _, h4⟩ := h.path
  exact h4

/-- Two lists of sort orders that a relation `Joins` ties to the same start
are equal. -/
theorem Joins.unique {V : Nat → Nat → Prop} {so so1 so2 : List Nat}
    (h1 : Joins V so so1) (h2 : Joins V so so2) : so1 = so2 := by
  apply List.ext_getElem?
  intro i
  have hlen : so1.length = so2.length := by rw [h1.1, h2.1]
  obtain ⟨a1, b1, c1⟩ := h1.2 i
  obtain ⟨a2, b2, c2⟩ := h2.2 i
  have hle1 : so1.getD i 0 ≤ so2.getD i 0 := by
    rcases c1 with e | v
    · rw [e]
      exact a2
    · exact b2 _ v
  have hle2 : so2.getD i 0 ≤ so1.getD i 0 := by
    rcases c2 with e | v
    · rw [e]
      exact a1
    · exact b1 _ v
  have he : so1.getD i 0 = so2.getD i 0 := by omega
  by_cases hi : i < so1.length
  · have hi2 : i < so2.length := by omega
    rw [List.getD_eq_getElem _ _ hi, List.getD_eq_getElem _ _ hi2] at he
    rw [List.getElem?_eq_getElem hi, List.getElem?_eq_getElem hi2, he]
  · rw [List.getElem?_eq_none (by omega), List.getElem?_eq_none (by omega)]

/-- C32: for every dependency table whose entries are pass indices, cycles
and self-references included, rendergraph_traverse_passes started at recursion
depth 1 returns: 21 nested calls are enough, and a larger bound on the nesting
gives the same result, so no call is nested deeper than 21; the result has an
entry per pass, no entry is lowered, and an entry that is raised is raised to
a recursion depth of at most 20, so sort orders that start at most 20 end at
most 20. -/
theorem C32_traversal_terminates_within_depth (deps : List (List Nat))
    (hdeps : ∀ b a, a ∈ deps.getD b [] → a < deps.length)
    (cur : Nat) (so : List Nat) (hso : so.length = deps.length) (hcur : cur < deps.length) :
    ∃ so1 : List Nat,
      rendergraph_traverse_passes (LE_rendergraph_RECURSION_DEPTH + 1) deps cur 1 so = some so1 ∧
      (∀ fuel : Nat, LE_rendergraph_RECURSION_DEPTH + 1 ≤ fuel →
        rendergraph_traverse_passes fuel deps cur 1 so = some so1) ∧
      so1.length = so.length ∧
      (∀ i : Nat, so.getD i 0 ≤ so1.getD i 0 ∧
        (so1.getD i 0 = so.getD i 0 ∨ so1.getD i 0 ≤ LE_rendergraph_RECURSION_DEPTH)) ∧
      ((∀ i : Nat, so.getD i 0 ≤ LE_rendergraph_RECURSION_DEPTH) →
        ∀ i : Nat, so1.getD i 0 ≤ LE_rendergraph_RECURSION_DEPTH) := by
  obtain ⟨so1, h1, hj⟩ := traverse_joins deps hdeps (LE_rendergraph_RECURSION_DEPTH + 1) cur 1 so
    hso hcur (by omega) (by omega)
  have hall : ∀ i : Nat, so.getD i 0 ≤ so1.getD i 0 ∧
      (so1.getD i 0 = so.getD i 0 ∨ so1.getD i 0 ≤ LE_rendergraph_RECURSION_DEPTH) := by
    intro i
    obtain ⟨a, _, c⟩ := hj.2 i
    refine ⟨a, ?_⟩
    rcases c with e | v
    · exact Or.inl e
    · exact Or.inr v.le_depth
  refine ⟨so1, h1, ?_, hj.1, hall, ?_⟩
  · intro fuel hf
    obtain ⟨so2, h2, hj2⟩ := traverse_joins deps hdeps fuel cur 1 so hso hcur (by omega)
      (by omega)
    rw [h2, hj.unique hj2]
  · intro hle i
    rcases (hall i).2 with e | e
    · rw [e]
      exact hle i
    · exact e

theorem depsCyclic_in_range (b a : Nat) (h : a ∈ depsCyclic.getD b []) :
    a < depsCyclic.length := by
  match b, h with
  | 0, h =>
    simp [depsCyclic] at h
    subst h
    decide
  | 1, h =>
    simp [depsCyclic] at h
    subst h
    decide
  | 2, h =>
    simp [depsCyclic] at h
    subst h
    decide
  | n + 3, h => simp [depsCyclic] at h

theorem C32_traversal_terminates_within_depth_witness :
    ∃ so1 : List Nat,
      rendergraph_traverse_passes (LE_rendergraph_RECURSION_DEPTH + 1) depsCyclic 0 1 [0, 0, 0]
        = some so1 ∧
      so1 = [19, 20, 0] ∧
      ∀ i : Nat, so1.getD i 0 ≤ LE_rendergraph_RECURSION_DEPTH := by
  obtain ⟨so1, h1, -, -, -, h5⟩ := C32_traversal_terminates_within_depth depsCyclic
    depsCyclic_in_range 0 [0, 0, 0] (by decide) (by decide)
  refine ⟨so1, h1, ?_, h5 ?_⟩
  · have : rendergraph_traverse_passes (LE_rendergraph_RECURSION_DEPTH + 1) depsCyclic 0 1
        [0, 0, 0] = some [19, 20, 0] := by decide
    rw [this] at h1
    exact (Option.some.inj h1).symm
  · intro i
    match i with
    | 0 => decide
    | 1 => decide
    | 2 => decide
    | n + 3 => simp [LE_rendergraph_RECURSION_DEPTH]

/-- A dependency path of the resolver's table descends at least one index per
step, from its first pass to its last. -/
theorem depPath_descends (passes : List le_renderpass_o) (p : List Nat) :
    ∀ cur i : Nat, isDepPath (rendergraph_resolve_resource_ids passes) (cur :: p) = true →
      (cur :: p).getLast? = some i → p.length + i ≤ cur ∧ cur < passes.length := by
  induction p with
  | nil =>
    intro cur i h hl
    simp only [isDepPath, decide_eq_true_eq, resolve_length] at h
    simp only [List.getLast?_singleton, Option.some.injEq] at hl
    subst hl
    exact ⟨by simp, h⟩
  | cons s p ih =>
    intro cur i h hl
    simp only [isDepPath, Bool.and_eq_true, decide_eq_true_eq] at h
    rw [List.getLast?_cons_cons] at hl
    have h1 := resolve_dep_lt passes cur s h.1
    have h2 := ih s i h.2 hl
    rw [List.length_cons]
    exact ⟨by omega, h1.2⟩

/-- The sort order that the traversal of the roots computes for the pass at
index `i` is at most 20 and at most the number of passes from `i` on. -/
theorem sort_order_le (passes : List le_renderpass_o) (so : List Nat)
    (hso : compute_sort_orders passes = some so) (i : Nat) :
    so.getD i 0 ≤ LE_rendergraph_RECURSION_DEPTH ∧ so.getD i 0 ≤ passes.length - i := by
  obtain ⟨so1, hso1, _, hspec⟩ := sort_orders_spec passes
  rw [hso] at hso1
  simp only [Option.some.injEq] at hso1
  subst hso1
  rcases (hspec i).2 with h0 | ⟨path, hp, hl, h20⟩
  · rw [h0]
    exact ⟨Nat.zero_le _, Nat.zero_le _⟩
  · rw [← hl]
    refine ⟨h20, ?_⟩
    obtain ⟨h1, _, h3⟩ := hp
    obtain ⟨cur, p, rfl⟩ := isDepPath_cons_ne_nil h1
    have := depPath_descends passes p cur i h1 h3
    rw [List.length_cons]
    omega

/-- C36: rendergraph_build of a graph of n distinct passes returns, and the
sort key it stores for the pass at submission index i, the sort order that the
traversal of the roots computed for it, is at most 20 and at most n - i, so at
most min(20, n - i); every sort key is at most n, and the sort key of the last
submitted pass is 0 or 1. -/
theorem C36_sort_key_at_most_passes_left (heap : Heap) (g : le_rendergraph_o)
    (hnd : g.passes.Nodup) :
    ∃ res so, rendergraph_build heap g = some res ∧
      compute_sort_orders (g.passes.map heap) = some so ∧
      (∀ i : Nat, so.getD i 0 ≤ min LE_rendergraph_RECURSION_DEPTH (g.passes.length - i)) ∧
      (∀ (i p : Nat), g.passes[i]? = some p →
        (res.heap p).sort_key = so.getD i 0 ∧
        (res.heap p).sort_key ≤ min LE_rendergraph_RECURSION_DEPTH (g.passes.length - i) ∧
        (res.heap p).sort_key ≤ g.passes.length) ∧
      (∀ p : Nat, g.passes.getLast? = some p →
        (res.heap p).sort_key = 0 ∨ (res.heap p).sort_key = 1) := by
  obtain ⟨res, so, hres, hso, hlen, hkey, _, _, _⟩ := build_spec heap g hnd
  have hle : ∀ i : Nat,
      so.getD i 0 ≤ min LE_rendergraph_RECURSION_DEPTH (g.passes.length - i) := by
    intro i
    have := sort_order_le (g.passes.map heap) so hso i
    rw [List.length_map] at this
    exact Nat.le_min.2 this
  refine ⟨res, so, hres, hso, hle, ?_, ?_⟩
  · intro i p hp
    have hk : (res.heap p).sort_key = so.getD i 0 := by rw [hkey i p hp]
    have := hle i
    rw [hk]
    refine ⟨rfl, this, ?_⟩
    have h2 := Nat.le_min.1 this
    omega
  · intro p hp
    have hne : g.passes ≠ [] := by
      intro e
      rw [e] at hp
      simp at hp
    have hidx : g.passes[g.passes.length - 1]? = some p := by
      rw [List.getLast?_eq_getElem?] at hp
      exact hp
    have hk : (res.heap p).sort_key = so.getD (g.passes.length - 1) 0 := by
      rw [hkey _ p hidx]
    have := Nat.le_min.1 (hle (g.passes.length - 1))
    have hpos : 0 < g.passes.length := List.length_pos.2 hne
    rw [hk]
    omega

theorem C36_sort_key_at_most_passes_left_witness :
    ∃ res so, rendergraph_build (heapOf sceneDiamond) { passes := [0, 1, 2, 3] } = some res ∧
      compute_sort_orders ([0, 1, 2, 3].map (heapOf sceneDiamond)) = some so ∧
      (∀ i : Nat, so.getD i 0 ≤ min LE_rendergraph_RECURSION_DEPTH (4 - i)) ∧
      ((res.heap 3).sort_key = 0 ∨ (res.heap 3).sort_key = 1) := by
  obtain ⟨res, so, h1, h2, h3, -, h5⟩ :=
    C36_sort_key_at_most_passes_left (heapOf sceneDiamond) { passes := [0, 1, 2, 3] } (by decide)
  exact ⟨res, so, h1, h2, h3, h5 3 (by decide)⟩

/-- C37: for every list of passes, the dependency table of the resolver has
one entry per pass, every root index and every index in a dependency list is
smaller than the number of passes, the traversal started at a root on sort
orders of that length never meets an index outside the table or the sort
orders, and the traversal of all roots that rendergraph_build makes returns
sort orders, one per pass. -/
theorem C37_traversal_indices_in_range (passes : List le_renderpass_o) :
    (rendergraph_resolve_resource_ids passes).length = passes.length ∧
    (∀ r ∈ rendergraph_find_root_passes passes, r < passes.length) ∧
    (∀ l ∈ rendergraph_resolve_resource_ids passes, ∀ a ∈ l, a < passes.length) ∧
    (∀ b a : Nat, a ∈ (rendergraph_resolve_resource_ids passes).getD b [] →
      a < b ∧ b < passes.length) ∧
    (∀ r ∈ rendergraph_find_root_passes passes, ∀ so : List Nat, so.length = passes.length →
      ∃ so1 : List Nat, rendergraph_traverse_passes traverse_fuel
        (rendergraph_resolve_resource_ids passes) r 1 so = some so1 ∧
        so1.length = passes.length) ∧
    (∃ so : List Nat, compute_sort_orders passes = some so ∧ so.length = passes.length) := by
  have hroot : ∀ r ∈ rendergraph_find_root_passes passes, r < passes.length := by
    intro r hr
    obtain ⟨pass, hp, _⟩ := (mem_find_root_passes passes r).mp hr
    exact getElem?_lt hp
  refine ⟨resolve_length passes, hroot, ?_, resolve_dep_lt passes, ?_, ?_⟩
  · intro l hl a ha
    obtain ⟨b, hb⟩ := List.mem_iff_getElem?.mp hl
    have hmem : a ∈ (rendergraph_resolve_resource_ids passes).getD b [] := by
      rw [List.getD_eq_getElem?_getD, hb]
      exact ha
    have := resolve_dep_lt passes b a hmem
    omega
  · intro r hr so hso
    obtain ⟨so1, h1, hj⟩ := traverse_joins _ (resolve_dep_in_range passes) traverse_fuel r 1 so
      (by rw [resolve_length]; exact hso) (by rw [resolve_length]; exact hroot r hr)
      (by decide) (by decide)
    exact ⟨so1, h1, by rw [hj.1, hso]⟩
  · obtain ⟨so, hso, hlen, _⟩ := sort_orders_spec passes
    exact ⟨so, hso, hlen⟩

theorem C37_traversal_indices_in_range_witness :
    (∀ r ∈ rendergraph_find_root_passes sceneDiamond, r < 4) ∧
    (∃ so : List Nat, compute_sort_orders sceneDiamond = some so ∧ so.length = 4) :=
  ⟨(C37_traversal_indices_in_range sceneDiamond).2.1,
   (C37_traversal_indices_in_range sceneDiamond).2.2.2.2.2⟩

theorem sublist_pair_of_getElem? {α : Type} (l : List α) (i j : Nat) (x y : α)
    (hi : l[i]? = some x) (hj : l[j]? = some y) (hij : i < j) : List.Sublist [x, y] l := by
  induction l generalizing i j with
  | nil => simp at hi
  | cons a l ih =>
    cases j with
    | zero => omega
    | succ j =>
      rw [List.getElem?_cons_succ] at hj
      cases i with
      | zero =>
        rw [List.getElem?_cons_zero, Option.some.injEq] at hi
        subst hi
        exact List.Sublist.cons₂ _ (List.singleton_sublist.2 (List.getElem?_mem hj))
      | succ i =>
        rw [List.getElem?_cons_succ] at hi
        exact List.Sublist.cons _ (ih i j hi hj (by omega))

theorem indexOf_lt_of_sublist_pair {α : Type} [DecidableEq α] (l : List α) (hnd : l.Nodup)
    (x y : α) (h : List.Sublist [x, y] l) : l.indexOf x < l.indexOf y := by
  induction l with
  | nil => simp at h
  | cons a l ih =>
    rw [List.nodup_cons] at hnd
    cases h with
    | cons _ h1 =>
      have hx : x ∈ l := h1.subset (by simp)
      have hy : y ∈ l := h1.subset (by simp)
      have hax : a ≠ x := fun e => hnd.1 (e ▸ hx)
      have hay : a ≠ y := fun e => hnd.1 (e ▸ hy)
      rw [List.indexOf_cons_ne _ hax, List.indexOf_cons_ne _ hay]
      exact Nat.succ_lt_succ (ih hnd.2 h1)
    | cons₂ _ h1 =>
      have hy : y ∈ l := h1.subset (by simp)
      have hay : x ≠ y := fun e => hnd.1 (e ▸ hy)
      rw [List.indexOf_cons_self, List.indexOf_cons_ne _ hay]
      exact Nat.succ_pos _

/-- The stable sort keeps two elements of equal key in their order. -/
theorem stable_sort_pair {T : Type} (key : T → Nat) (l : List T) (a b : T)
    (h : List.Sublist [a, b] l) (hk : key a = key b) :
    List.Sublist [a, b] (stable_sort (byDescendingKey key) l) := by
  unfold stable_sort
  refine List.pair_sublist_insertionSort ?_ h
  simp only [byDescendingKey, decide_eq_false_iff_not]
  omega

/-- C35 (counterexample): in a graph of four passes whose longest dependency
path has three passes, pass 2 reads X and the resolver records pass 1 as its
producer of X, yet rendergraph_build places pass 0, which survives and has X
in its writeResources, between pass 1 and pass 2. -/
theorem C35_counterexample_writer_between :
    (∀ path i, IsRootPath ([0, 1, 2, 3].map (heapOf sceneOvertaken)) path i →
      path.length ≤ LE_rendergraph_RECURSION_DEPTH) ∧
    (rendergraph_build (heapOf sceneOvertaken) { passes := [0, 1, 2, 3] }).map
      (fun res => res.graph.passes) = some [1, 0, 2, 3] ∧
    mkHandle "X" ∈ (heapOf sceneOvertaken 2).readResources ∧
    lastWriterBefore ([0, 1, 2, 3].map (heapOf sceneOvertaken)) 2 (mkHandle "X") = some 1 ∧
    (rendergraph_resolve_resource_ids ([0, 1, 2, 3].map (heapOf sceneOvertaken))).getD 2 []
      = [1] ∧
    mkHandle "X" ∈ (heapOf sceneOvertaken 0).writeResources ∧
    List.indexOf 1 [1, 0, 2, 3] < List.indexOf 0 [1, 0, 2, 3] ∧
    List.indexOf 0 [1, 0, 2, 3] < List.indexOf 2 [1, 0, 2, 3] :=
  ⟨short_of_length_le _ (by decide), by decide, by decide, by decide, by decide, by decide,
    by decide, by decide⟩

/-- C35 (amended): provided no dependency path from a root has more than 20
passes, for every surviving pass b, every resource r in its readResources and
the pass a that is the resolver's producer of r for b (the last pass submitted
before b with r in its writeResources), rendergraph_build places a before b,
and no pass submitted between a and b has r in its writeResources; a surviving
pass w, other than a and b, with r in its writeResources that is placed
between a and b in the built order was submitted before a with a sort key
of at least b's and below a's, or after b with a sort key above b's and of at
most a's. -/
theorem C35_producer_placed_before_reader (heap : Heap) (g : le_rendergraph_o)
    (hnd : g.passes.Nodup)
    (hshort : ∀ path i, IsRootPath (g.passes.map heap) path i →
      path.length ≤ LE_rendergraph_RECURSION_DEPTH)
    (a b w pa pb pw : Nat) (r : le_resource_handle_t)
    (hpa : g.passes[a]? = some pa) (hpb : g.passes[b]? = some pb)
    (hpw : g.passes[w]? = some pw)
    (hr : r ∈ (heap pb).readResources)
    (hprod : lastWriterBefore (g.passes.map heap) b r = some a)
    (hw : r ∈ (heap pw).writeResources) (hwa : w ≠ a) (hwb : w ≠ b) :
    ∃ res, rendergraph_build heap g = some res ∧
      a ∈ (rendergraph_resolve_resource_ids (g.passes.map heap)).getD b [] ∧
      (w < a ∨ b < w) ∧
      (pb ∈ res.graph.passes →
        pa ∈ res.graph.passes ∧
        res.graph.passes.indexOf pa < res.graph.passes.indexOf pb ∧
        (pw ∈ res.graph.passes →
          res.graph.passes.indexOf pa < res.graph.passes.indexOf pw →
          res.graph.passes.indexOf pw < res.graph.passes.indexOf pb →
          (w < a ∧ (res.heap pb).sort_key ≤ (res.heap pw).sort_key ∧
            (res.heap pw).sort_key < (res.heap pa).sort_key) ∨
          (b < w ∧ (res.heap pb).sort_key < (res.heap pw).sort_key ∧
            (res.heap pw).sort_key ≤ (res.heap pa).sort_key))) := by
  obtain ⟨res, so, hres, hso, _, hkey, _, hpasses, _⟩ := build_spec heap g hnd
  have hmem := build_mem_passes g res hpasses
  have hlw := (lastWriterBefore_eq_some_iff _ _ _ _).1 hprod
  have hb_lt : b < (g.passes.map heap).length := by
    rw [List.length_map]
    exact getElem?_lt hpb
  have hdep : a ∈ (rendergraph_resolve_resource_ids (g.passes.map heap)).getD b [] := by
    rw [List.getD_eq_getElem?_getD, resolve_getElem? _ b hb_lt]
    simp only [Option.getD_some, List.mem_filterMap]
    refine ⟨r, ?_, hprod⟩
    simp only [readsOf, List.getElem?_map, hpb, Option.map_some']
    exact hr
  have hww : r ∈ writesOf (g.passes.map heap) w := by
    simp only [writesOf, List.getElem?_map, hpw, Option.map_some']
    exact hw
  have hside : w < a ∨ b < w := by
    by_contra hcon
    have h1 : a < w := by omega
    have h2 : w < b := by omega
    exact hlw.2.2 w h1 h2 hww
  refine ⟨res, hres, hdep, hside, fun hsurv => ?_⟩
  have hb0 := ((hmem pb).mp hsurv).2
  have hkb : (res.heap pb).sort_key = so.getD b 0 := by rw [hkey b pb hpb]
  have hka : (res.heap pa).sort_key = so.getD a 0 := by rw [hkey a pa hpa]
  rw [hkb] at hb0
  obtain ⟨so1, hso1, _, hspec⟩ := sort_orders_spec (g.passes.map heap)
  rw [hso] at hso1
  simp only [Option.some.injEq] at hso1
  subst hso1
  have hlt : so.getD b 0 < LE_rendergraph_RECURSION_DEPTH := by
    rcases (hspec b).2 with h0 | ⟨path, hp, hl, _⟩
    · exact absurd h0 hb0
    · have := hshort (path ++ [a]) a (hp.extend hdep)
      rw [List.length_append, List.length_singleton] at this
      omega
  have hgt := sort_order_dep_gt _ so hso a b hdep (Nat.pos_of_ne_zero hb0) hlt
  have hsa : pa ∈ res.graph.passes := by
    rw [hmem pa, hka]
    exact ⟨List.getElem?_mem hpa, by omega⟩
  have hsorted : res.graph.passes.Pairwise
      (fun x y => (res.heap y).sort_key ≤ (res.heap x).sort_key) := by
    rw [hpasses]
    exact stable_sort_sorted (fun p => (res.heap p).sort_key) _
  have hbuilt_nd : res.graph.passes.Nodup := by
    rw [hpasses]
    exact (stable_sort_perm _ _).nodup_iff.2 (hnd.filter _)
  refine ⟨hsa, ?_, ?_⟩
  · exact indexOf_lt_of_sorted (fun p => (res.heap p).sort_key) _ hsorted pa pb hsa hsurv
      (by simp only; rw [hka, hkb]; exact hgt)
  · intro hsw h1 h2
    have hle1 : (res.heap pw).sort_key ≤ (res.heap pa).sort_key := by
      by_contra hcon
      have := indexOf_lt_of_sorted (fun p => (res.heap p).sort_key) _ hsorted pw pa hsw hsa
        (by simp only; omega)
      omega
    have hle2 : (res.heap pb).sort_key ≤ (res.heap pw).sort_key := by
      by_contra hcon
      have := indexOf_lt_of_sorted (fun p => (res.heap p).sort_key) _ hsorted pb pw hsurv hsw
        (by simp only; omega)
      omega
    have hstable : ∀ (x y i j : Nat), g.passes[i]? = some x → g.passes[j]? = some y → i < j →
        x ∈ res.graph.passes → y ∈ res.graph.passes →
        (res.heap x).sort_key = (res.heap y).sort_key →
        res.graph.passes.indexOf x < res.graph.passes.indexOf y := by
      intro x y i j hx hy hij hxs hys hk
      have hsub := sublist_pair_of_getElem? g.passes i j x y hx hy hij
      have hf := hsub.filter (fun p => (res.heap p).sort_key != 0)
      have hx0 := ((hmem x).mp hxs).2
      have hy0 := ((hmem y).mp hys).2
      have e : List.filter (fun p => (res.heap p).sort_key != 0) [x, y] = [x, y] := by
        simp [List.filter_cons, hx0, hy0]
      rw [e] at hf
      have hs := stable_sort_pair (fun p => (res.heap p).sort_key) _ x y hf hk
      rw [← hpasses] at hs
      exact indexOf_lt_of_sublist_pair _ hbuilt_nd x y hs
    rcases hside with hs | hs
    · refine Or.inl ⟨hs, hle2, ?_⟩
      by_contra hcon
      have heq : (res.heap pw).sort_key = (res.heap pa).sort_key := by omega
      have := hstable pw pa w a hpw hpa hs hsw hsa heq
      omega
    · refine Or.inr ⟨hs, ?_, hle1⟩
      by_contra hcon
      have heq : (res.heap pb).sort_key = (res.heap pw).sort_key := by omega
      have := hstable pb pw b w hpb hpw hs hsurv hsw heq
      omega

theorem C35_producer_placed_before_reader_witness :
    ∃ res, rendergraph_build (heapOf sceneOvertaken) { passes := [0, 1, 2, 3] } = some res ∧
      (2 ∈ res.graph.passes →
        1 ∈ res.graph.passes ∧ res.graph.passes.indexOf 1 < res.graph.passes.indexOf 2) := by
  obtain ⟨res, h1, -, -, h4⟩ := C35_producer_placed_before_reader (heapOf sceneOvertaken)
    { passes := [0, 1, 2, 3] } (by decide) (short_of_length_le _ (by decide)) 1 2 0 1 2 0
    (mkHandle "X") (by decide) (by decide) (by decide) (by decide) (by decide) (by decide)
    (by decide) (by decide)
  exact ⟨res, h1, fun h => ⟨(h4 h).1, (h4 h).2.1⟩⟩

/-- C31: on a table of 16 null entries, le_job_manager_create with at most
16 workers returns with the workers in the first entries of the table, in
order, and the other entries null; once the worker threads have stored their
ids, the scan of le_fiber_yield on the thread of a registered worker finds
that worker without reading outside the table; with fewer than 16 workers both
scans of le_job_manager_destroy visit exactly the registered workers, in
order, stop_thread is set on every one of them and all 16 entries are null
afterwards; with 16 workers the table has no null entry and the first scan of
le_job_manager_destroy runs past its last entry. -/
theorem C31_worker_table_scans (self : Nat) (fibers workers : List Nat) (stack_of : Nat → Nat)
    (h0 : 0 ∉ workers) (hlen : workers.length ≤ MAX_WORKER_THREAD_COUNT) :
    ∃ s : JobSystem,
      le_job_manager_create (List.replicate MAX_WORKER_THREAD_COUNT 0) self fibers workers
        stack_of = some s ∧
      s.static_worker_thread =
        workers ++ List.replicate (MAX_WORKER_THREAD_COUNT - workers.length) 0 ∧
      s.static_worker_thread.length = MAX_WORKER_THREAD_COUNT ∧
      s.static_worker_thread = (job_system_start fibers workers stack_of).static_worker_thread ∧
      (∀ w ∈ workers,
        find_yielding_thread (worker_threads_started s workers).worker_heap
          ((worker_threads_started s workers).worker_heap w).thread_id
          (worker_threads_started s workers).static_worker_thread = some w) ∧
      (workers.length < MAX_WORKER_THREAD_COUNT →
        ∃ r : DestroyResult, le_job_manager_destroy s = some r ∧
          r.stopped = workers ∧ r.joined = workers ∧
          (∀ w ∈ workers, (r.worker_heap w).stop_thread = 1) ∧
          r.static_worker_thread = List.replicate MAX_WORKER_THREAD_COUNT 0) ∧
      (workers.length = MAX_WORKER_THREAD_COUNT → le_job_manager_destroy s = none) := by
  have hreg := register_workers_spec workers [] MAX_WORKER_THREAD_COUNT hlen
  simp only [List.nil_append, List.length_nil] at hreg
  obtain ⟨s, hs⟩ : ∃ s : JobSystem, s =
      { manager := { fibers := fibers }
        static_worker_thread :=
          workers ++ List.replicate (MAX_WORKER_THREAD_COUNT - workers.length) 0
        counter_heap := fun _ => 0
        fiber_heap := fun f => { stack_bottom := stack_of f }
        worker_heap := fun w => if w ∈ workers then { job_manager := self } else {}
        in_dispatch := fun _ => false
        log := [] } := ⟨_, rfl⟩
  have htable : s.static_worker_thread =
      workers ++ List.replicate (MAX_WORKER_THREAD_COUNT - workers.length) 0 := by rw [hs]
  refine ⟨s, ?_, htable, ?_, ?_, ?_, ?_, ?_⟩
  · unfold le_job_manager_create
    rw [if_pos hlen, hreg, hs]
  · rw [htable, List.length_append, List.length_replicate]
    omega
  · rw [htable]
    rfl
  · intro w hw
    obtain ⟨i1, i2, -⟩ := worker_threads_started_spec workers s
    rw [i1, htable, i2 w hw]
    exact find_yielding_thread_spec _ workers _ h0 i2 w hw
  · intro hlt
    obtain ⟨wh1, h1⟩ := (stop_threads_spec workers h0
      (MAX_WORKER_THREAD_COUNT - workers.length) s.worker_heap).1 (by omega)
    have h2 := (join_threads_spec workers h0 (MAX_WORKER_THREAD_COUNT - workers.length)).1
      (by omega)
    obtain ⟨r, hr⟩ : ∃ r : DestroyResult, r =
        { static_worker_thread :=
            List.replicate (workers.length + (MAX_WORKER_THREAD_COUNT - workers.length)) 0
          worker_heap := wh1
          stopped := workers
          joined := workers
          destroyed_fibers := s.manager.fibers
          deleted_counters := s.manager.counters } := ⟨_, rfl⟩
    refine ⟨r, ?_, ?_⟩
    · unfold le_job_manager_destroy
      rw [htable, h1, h2, hr]
    · rw [hr]
      refine ⟨rfl, rfl, (stop_threads_keeps _ _ _ _ h1).2, ?_⟩
      have : workers.length + (MAX_WORKER_THREAD_COUNT - workers.length) =
          MAX_WORKER_THREAD_COUNT := by omega
      simp only [this]
  · intro heq
    have h1 := (stop_threads_spec workers h0
      (MAX_WORKER_THREAD_COUNT - workers.length) s.worker_heap).2 (by omega)
    unfold le_job_manager_destroy
    rw [htable, h1]

theorem C31_worker_table_scans_witness :
    (∃ s : JobSystem,
      le_job_manager_create (List.replicate MAX_WORKER_THREAD_COUNT 0) 50 job_scene_pool [1, 2]
        (fun f => f * 65536) = some s ∧
      ∃ r : DestroyResult, le_job_manager_destroy s = some r ∧ r.stopped = [1, 2] ∧
        r.static_worker_thread = List.replicate MAX_WORKER_THREAD_COUNT 0) ∧
    (∃ s : JobSystem,
      le_job_manager_create (List.replicate MAX_WORKER_THREAD_COUNT 0) 50 job_scene_pool
        job_scene_sixteen (fun f => f * 65536) = some s ∧
      s.static_worker_thread = job_scene_sixteen ∧
      le_job_manager_destroy s = none) := by
  constructor
  · obtain ⟨s, h1, -, -, -, -, h6, -⟩ := C31_worker_table_scans 50 job_scene_pool [1, 2]
      (fun f => f * 65536) (by decide) (by decide)
    obtain ⟨r, h7, h8, -, -, h11⟩ := h6 (by decide)
    exact ⟨s, h1, r, h7, h8, h11⟩
  · obtain ⟨s, h1, h2, -, -, -, -, h7⟩ := C31_worker_table_scans 50 job_scene_pool
      job_scene_sixteen (fun f => f * 65536) (by decide) (by decide)
    exact ⟨s, h1, by rw [h2]; decide, h7 (by decide)⟩

end Island
